import Mathlib

/-!
The proxy `nexus_proxy`: a shallow embedding of the request pipeline, the atomic
temp file, the prefetcher and the garbage collector.

The development follows the Go sources `proxy_handler.go`, `tempfile.go`,
`prefetch.go`, `gc.go` and `flags.go`.  A Go `string` (and a `[]byte`) is the list of its
bytes; each byte is written as a `Char`.  The operating system, the upstream
server and the client socket are an explicit environment: a file-system state
with inodes and directory entries, and oracles for the outcomes a run cannot
decide by itself (I/O faults, the upstream reply, the client accepting bytes).
-/

namespace NexusProxy

/-- A Go string or byte slice: the list of its bytes. -/
abbrev GoString := List Char

/-! ## The `strings` functions the sources call -/

namespace strings

/-- Go `strings.HasPrefix`: `len(s) >= len(prefix) && s[0:len(prefix)] == prefix`. -/
def HasPrefix (s pre : GoString) : Bool :=
  decide (pre.length ≤ s.length) && (s.take pre.length == pre)

/-- Go `strings.HasSuffix`: `len(s) >= len(suffix) && s[len(s)-len(suffix):] == suffix`. -/
def HasSuffix (s suf : GoString) : Bool :=
  decide (suf.length ≤ s.length) && (s.drop (s.length - suf.length) == suf)

/-- First position at or after offset `i` where `sub` occurs; the list argument is
the text that starts at offset `i`. -/
def indexFrom (sub : GoString) : GoString → Nat → Option Nat
  | [], i => if sub.isEmpty then some i else none
  | c :: cs, i => if HasPrefix (c :: cs) sub then some i else indexFrom sub cs (i + 1)

/-- Go `strings.Index`: the index of the first instance of `sub` in `s`;
`none` stands for the result `-1`. -/
def Index (s sub : GoString) : Option Nat := indexFrom sub s 0

/-- Last position at or after offset `i` where `sub` occurs. -/
def lastIndexFrom (sub : GoString) : GoString → Nat → Option Nat
  | [], i => if sub.isEmpty then some i else none
  | c :: cs, i =>
    match lastIndexFrom sub cs (i + 1) with
    | some j => some j
    | none => if HasPrefix (c :: cs) sub then some i else none

/-- Go `strings.LastIndex`: the index of the last instance of `sub` in `s`;
`none` stands for the result `-1`. -/
def LastIndex (s sub : GoString) : Option Nat := lastIndexFrom sub s 0

/-- Go `strings.Contains`: `Index(s, substr) >= 0`. -/
def Contains (s sub : GoString) : Bool := (Index s sub).isSome

/-- Go `strings.Cut`: slices `s` around the first instance of `sep`. -/
def Cut (s sep : GoString) : GoString × GoString × Bool :=
  match Index s sep with
  | some i => (s.take i, s.drop (i + sep.length), true)
  | none => (s, [], false)

/-- Go `strings.TrimPrefix`. -/
def TrimPrefix (s pre : GoString) : GoString :=
  if HasPrefix s pre then s.drop pre.length else s

end strings

/-- The backslash byte. -/
def backslash : Char := Char.ofNat 92

/-- The predicate `isUnsafeFilename` of `proxy_handler.go`. -/
def isUnsafeFilename (filename : GoString) : Bool :=
  strings.HasPrefix filename "../".toList || strings.HasPrefix filename "/".toList ||
  strings.HasSuffix filename "/..".toList || strings.HasSuffix filename "/".toList ||
  strings.Contains filename "//".toList || strings.Contains filename "/../".toList ||
  strings.Contains filename "/./".toList || strings.Contains filename [backslash]

/-- Go `strconv.Itoa` on a non-negative integer: its decimal digits. -/
def Itoa (n : Nat) : GoString := Nat.toDigits 10 n

/-- The pattern `^[a-zA-Z0-9_\.\-]+$` of `repoRegexp` in `flags.go`, as a predicate on
the bytes of the name: the name is not empty and every byte is a letter, a digit,
`_`, `.` or `-`. -/
def repoRegexpMatch (name : GoString) : Bool :=
  !name.isEmpty && name.all (fun c =>
    (decide ('a' ≤ c) && decide (c ≤ 'z')) || (decide ('A' ≤ c) && decide (c ≤ 'Z')) ||
    (decide ('0' ≤ c) && decide (c ≤ '9')) || c == '_' || c == '.' || c == '-')

/-- The function `splitFlag` of `flags.go`: the repo name and the value of a
`name=value` flag, or `none` where the source returns an error. -/
def splitFlag (value : GoString) : Option (GoString × GoString) :=
  match strings.Cut value "=".toList with
  | (reponame, v, good) =>
    if !good then none
    else if reponame.length = 0 then none
    else if !repoRegexpMatch reponame then none
    else some (reponame, v)

/-! ## Paths

The kernel resolves a path segment by segment, and fails where a place on the way
is missing or is not a directory (`FS.walkErr`).  Where it gets through, the
place it reaches is the lexical resolution of the path, as Go `path.Clean`
computes it for a relative path: empty segments and `.` are dropped, `..` removes
the segment before it, and a `..` with nothing before it is kept.  A resolved
path is the key under which the file system stores an entry. -/

/-- A resolved path: its segments, outermost first.  The empty key is the working
directory of the process. -/
abbrev Key := List GoString

/-- The segments of a path between its `/` bytes (an empty path has one empty
segment). -/
def splitSlash : GoString → List GoString
  | [] => [[]]
  | c :: cs =>
    if c = '/' then [] :: splitSlash cs
    else
      match splitSlash cs with
      | [] => [[c]]
      | seg :: rest => (c :: seg) :: rest

/-- One step of the lexical resolution; the stack holds the segments resolved so
far, innermost first. -/
def resolveStep (stack : List GoString) (seg : GoString) : List GoString :=
  if seg = [] ∨ seg = ".".toList then stack
  else if seg = "..".toList then
    match stack with
    | [] => ["..".toList]
    | top :: rest => if top = "..".toList then seg :: top :: rest else rest
  else seg :: stack

/-- Lexical resolution of the `.` and `..` segments of a relative path. -/
def resolve (p : GoString) : Key := ((splitSlash p).foldl resolveStep []).reverse

/-- The resolved path `p` lies under the resolved directory `base` (or is that
directory). -/
def liesUnder (base p : GoString) : Bool := (resolve base).isPrefixOf (resolve p)

/-! ## The file system -/

/-- A directory entry: a directory, or a hard link to an inode. -/
inductive Node where
  | dir
  | file (ino : Nat)
deriving DecidableEq, Repr

/-- The error of a path walk: a component of the path is missing, or is not a
directory. -/
inductive WalkErr where
  | enoent
  | enotdir
deriving DecidableEq, Repr

/-- The file-system state: the directory entries by resolved path, the contents of
the inodes, and the number of the next inode to allocate. -/
structure FS where
  names : Key → Option Node
  inodes : Nat → GoString
  next : Nat

namespace FS

/-- The entry a resolved path names; the working directory always exists. -/
def node (fs : FS) (k : Key) : Option Node :=
  if k = [] then some Node.dir else fs.names k

/-- The key is a directory. -/
def isDir (fs : FS) (k : Key) : Bool := fs.node k == some Node.dir

/-- The bytes a reader sees at a path: the content of the inode the path links
to, `none` when the path does not name a regular file. -/
def content (fs : FS) (p : GoString) : Option GoString :=
  match fs.node (resolve p) with
  | some (Node.file i) => some (fs.inodes i)
  | _ => none

/-- A path names an entry (regular file or directory). -/
def present (fs : FS) (p : GoString) : Bool := (fs.node (resolve p)).isSome

/-- The kernel's walk along the segments of a path, from the place the stack names
(innermost segment first): before it reads a segment, `.` and `..` included, the
place reached must be a directory.  The result is the error of the walk,
`ENOENT` at a missing place and `ENOTDIR` at a regular file, and `none` when the
walk gets through. -/
def walkFrom (fs : FS) : List GoString → List GoString → Option WalkErr
  | [], _ => none
  | seg :: rest, stack =>
    match fs.node stack.reverse with
    | some Node.dir => walkFrom fs rest (resolveStep stack seg)
    | some (Node.file _) => some WalkErr.enotdir
    | none => some WalkErr.enoent

/-- The error of the kernel's walk along a path from the working directory. -/
def walkErr (fs : FS) (p : GoString) : Option WalkErr := fs.walkFrom (splitSlash p) []

/-- The kernel reaches the place a path names: every directory on the way is there.
The place is then the lexical resolution of the path. -/
def walkable (fs : FS) (p : GoString) : Bool := (fs.walkErr p).isNone

/-- Allocation of a fresh, empty inode with no name (an `O_TMPFILE` open). -/
def allocInode (fs : FS) : Nat × FS :=
  (fs.next, { fs with inodes := fun i => if i = fs.next then [] else fs.inodes i,
                      next := fs.next + 1 })

/-- Creation of a new regular file at `k` (`O_CREATE|O_EXCL`): the parent must be a
directory and the name must be free. -/
def createExcl (fs : FS) (k : Key) : Option (Nat × FS) :=
  if k ≠ [] ∧ fs.isDir k.dropLast = true ∧ fs.node k = none then
    some (fs.next, { names := fun q => if q = k then some (Node.file fs.next) else fs.names q,
                     inodes := fun i => if i = fs.next then [] else fs.inodes i,
                     next := fs.next + 1 })
  else none

/-- Appends bytes to an inode. -/
def append (fs : FS) (ino : Nat) (data : GoString) : FS :=
  { fs with inodes := fun i => if i = ino then fs.inodes ino ++ data else fs.inodes i }

/-- Go `os.MkdirAll`: makes `k` and every missing parent a directory; fails when `k`
or a parent is a regular file. -/
def mkdirAll (fs : FS) (k : Key) : Option FS :=
  if k.inits.any (fun pre => match fs.node pre with
      | some (Node.file _) => true
      | _ => false) then none
  else some { fs with names := fun q => if q ≠ [] ∧ q.isPrefixOf k = true then some Node.dir
                                         else fs.names q }

/-- The system call `linkat` of an open inode to a new name: the name must be
free and its parent must be a directory. -/
def link (fs : FS) (ino : Nat) (dst : Key) : Option FS :=
  if dst ≠ [] ∧ fs.isDir dst.dropLast = true ∧ fs.node dst = none then
    some { fs with names := fun q => if q = dst then some (Node.file ino) else fs.names q }
  else none

/-- The system call `rename` of a regular file: the parent of the new name must be
a directory and the new name must not be one; an existing regular file at the new
name is replaced. -/
def rename (fs : FS) (src dst : Key) : Option FS :=
  match fs.node src with
  | some (Node.file i) =>
    if dst = [] ∨ fs.isDir dst.dropLast = false ∨ fs.node dst = some Node.dir then none
    else if src = dst then some fs
    else some { fs with names := fun q => if q = dst then some (Node.file i)
                                          else if q = src then none else fs.names q }
  | _ => none

/-- Go `os.Remove` of a regular file. -/
def remove (fs : FS) (k : Key) : Option FS :=
  match fs.node k with
  | some (Node.file _) => some { fs with names := fun q => if q = k then none else fs.names q }
  | _ => none

/-- Every directory entry links to an allocated inode. -/
def WellFormed (fs : FS) : Prop := ∀ k i, fs.names k = some (Node.file i) → i < fs.next

end FS

/-! ## The atomic temp file (`tempfile.go`) -/

/-- An open `*os.File`: its name, the inode it refers to, and whether `Close` has
run on it. -/
structure File where
  name : GoString
  ino : Nat
  closed : Bool
deriving DecidableEq, Repr

/-- The struct `TempFile`.  The field `temp` is `none` where the Go pointer is `nil`. -/
structure TempFile where
  fd : Int
  temp : Option File
  finalPath : GoString
  o_tmpfile : Bool
deriving DecidableEq, Repr

/-- What `unix.Open(dir, O_RDWR|O_TMPFILE|O_CLOEXEC)` can answer on a directory that
exists: success, `EISDIR` (the kernel has no `O_TMPFILE`), `EOPNOTSUPP` (the file
system has none), or another error. -/
inductive TmpfileSupport where
  | supported
  | eisdir
  | eopnotsupp
  | otherError
deriving DecidableEq, Repr

/-- The outcome of a Go call that returns an `error`, or panics on a nil pointer. -/
inductive GoResult where
  | ok
  | err
  | nilPanic
deriving DecidableEq, Repr

/-- What the run cannot decide about the creation of a temp file: whether
`O_TMPFILE` is there, the descriptor number, the time stamp and the random number
of a named temp file, and an I/O fault of `os.CreateTemp`. -/
structure TempEnv where
  tmpfile : TmpfileSupport
  fdNumber : Nat
  timePrefix : GoString
  random : Nat
  createFault : Bool

/-- Go `joinPath` of `os/tempfile.go`: `dir + name` when `dir` ends in a separator,
`dir + "/" + name` otherwise. -/
def joinPath (dir name : GoString) : GoString :=
  if strings.HasSuffix dir "/".toList then dir ++ name else dir ++ "/".toList ++ name

/-- Go `os.CreateTemp(dir, pattern)` for a pattern `pre*`, with the random number
chosen by the environment: the pattern must hold no path separator, the name is
`joinPath(dir, pre)` followed by the decimal digits of the random number, and the
file is created with `O_CREATE|O_EXCL`, which fails where the kernel does not
reach the name. -/
def CreateTemp (fault : Bool) (random : Nat) (fs : FS) (dir pre : GoString) :
    Option (File × FS) :=
  if pre.contains '/' then none
  else if fault = true ∨ fs.walkable (joinPath dir pre ++ Itoa random) = false then none
  else
    match fs.createExcl (resolve (joinPath dir pre ++ Itoa random)) with
    | some (ino, fs1) =>
      some ({ name := joinPath dir pre ++ Itoa random, ino := ino, closed := false }, fs1)
    | none => none

/-- The function `NewTempFile`.  The `open` of the directory with `O_TMPFILE` fails
where the kernel does not reach it or it is not a directory. -/
def NewTempFile (te : TempEnv) (fs : FS) (dir filename finalPath : GoString) :
    Option (TempFile × FS) :=
  let fallback : Option (TempFile × FS) :=
    match CreateTemp te.createFault te.random fs dir
        (te.timePrefix ++ "_".toList ++ filename ++ ".".toList) with
    | none => none
    | some (temp, fs1) =>
      some ({ fd := 0, temp := some temp, finalPath := finalPath, o_tmpfile := false }, fs1)
  if fs.walkable dir = false ∨ fs.isDir (resolve dir) = false then none
  else
    match te.tmpfile with
    | TmpfileSupport.supported =>
      match fs.allocInode with
      | (ino, fs1) =>
        some ({ fd := te.fdNumber,
                temp := some { name := "/proc/self/fd/".toList ++ Itoa te.fdNumber,
                               ino := ino, closed := false },
                finalPath := finalPath, o_tmpfile := true }, fs1)
    | TmpfileSupport.eisdir => fallback
    | TmpfileSupport.eopnotsupp => fallback
    | TmpfileSupport.otherError => none

/-- The outcome of one `Write` on a file: the number of bytes written and whether
an error came with it. -/
structure WriteOutcome where
  written : Nat
  err : Bool
deriving DecidableEq, Repr

/-- Go `(*os.File).Write`: the bytes the outcome grants are appended to the inode; a
write on a closed file writes nothing and fails. -/
def File.Write (o : WriteOutcome) (fs : FS) (f : File) (data : GoString) : FS × Nat × Bool :=
  if f.closed then (fs, 0, true)
  else (fs.append f.ino (data.take o.written), min o.written data.length, o.err)

/-- Go `(*os.File).Close`: a second close fails with `ErrClosed`; a first close
releases the descriptor even when it reports a fault. -/
def File.Close (fault : Bool) (f : File) : File × Bool :=
  if f.closed then (f, true) else ({ f with closed := true }, fault)

/-- The faults the environment may inject into `Cleanup`. -/
structure CleanupFaults where
  close : Bool
  remove : Bool

/-- The method `Cleanup`: the handle after the call, the file system after the call
and whether an error is returned.  `os.Remove` fails where the kernel does not
reach the name. -/
def TempFile.Cleanup (cf : CleanupFaults) (fs : FS) (t : TempFile) : TempFile × FS × Bool :=
  if t.fd < 0 then (t, fs, false)
  else
    match t.temp with
    | none => (t, fs, false)
    | some f =>
      match File.Close cf.close f with
      | (_, err1) =>
        if !t.o_tmpfile then
          match (if cf.remove = true ∨ fs.walkable f.name = false then none
                 else fs.remove (resolve f.name)) with
          | some fs1 => ({ t with fd := -1, temp := none }, fs1, err1)
          | none => ({ t with fd := -1, temp := none }, fs, true)
        else ({ t with fd := -1, temp := none }, fs, err1)

/-- The faults the environment may inject into `Finalize`. -/
structure FinalizeFaults where
  close : Bool
  link : Bool
  rename : Bool

/-- The method `Finalize`: the handle after the call, the file system after the
call and the result.  `(*os.File).Close` on a nil file returns an error;
`(*os.File).Name` on a nil file dereferences it.  `os.Rename` and `unix.Linkat`
fail where the kernel does not reach a name they are given. -/
def TempFile.Finalize (ff : FinalizeFaults) (fs : FS) (t : TempFile) :
    TempFile × FS × GoResult :=
  if !t.o_tmpfile then
    match t.temp with
    | none => (t, fs, GoResult.err)
    | some f =>
      match File.Close ff.close f with
      | (f1, closeErr) =>
        if closeErr then ({ t with temp := some f1 }, fs, GoResult.err)
        else
          match (if ff.rename = true ∨ fs.walkable f1.name = false ∨
                    fs.walkable t.finalPath = false then none
                 else fs.rename (resolve f1.name) (resolve t.finalPath)) with
          | some fs1 => ({ t with temp := none }, fs1, GoResult.ok)
          | none => ({ t with temp := some f1 }, fs, GoResult.err)
  else
    match t.temp with
    | none => (t, fs, GoResult.nilPanic)
    | some f =>
      match (if ff.link = true ∨ f.closed = true ∨ fs.walkable t.finalPath = false then none
             else fs.link f.ino (resolve t.finalPath)) with
      | some fs1 =>
        match File.Close ff.close f with
        | (_, err2) => ({ t with temp := none }, fs1, if err2 then GoResult.err else GoResult.ok)
      | none => ({ t with temp := none }, fs, GoResult.err)

/-! ## The environment of a request -/

/-- The counters and gauges of `metrics.go` that the request path and the prefetch
action touch.  A byte counter adds whole numbers, so it is a natural number. -/
structure Metrics where
  requests_in_progress : Int
  hit_requests_in_progress : Int
  miss_requests_in_progress : Int
  hit_count : Nat
  hit_bytes : Nat
  miss_count : Nat
  miss_bytes : Nat
  error_count : Nat
  upstream_error_count : Nat
  prefetch_ignore_count : Nat
  prefetch_skip_count : Nat
  prefetch_download_count : Nat
  prefetch_download_bytes : Nat
deriving DecidableEq, Repr

/-- The error of a `Read` on the upstream body: none, `io.EOF`, or another error. -/
inductive ReadErr where
  | none
  | eof
  | other
deriving DecidableEq, Repr

/-- One `Read` on the upstream body: the bytes it delivered and its error. -/
structure ReadResult where
  data : GoString
  err : ReadErr
deriving DecidableEq, Repr

/-- The answer of `http.Get`: a transport error, or a response with its status, its
`Content-Length` header (empty when absent) and the results of the successive
reads of its body.  Once the list is used up a read returns no bytes and `io.EOF`. -/
inductive UpstreamReply where
  | transportError
  | response (status : Nat) (contentLength : GoString) (reads : List ReadResult)

/-- The struct `Repo` of `nexus_proxy.go`.  A compiled regular expression is the
predicate its `Match` computes; `gcMaxAge` is in nanoseconds. -/
structure Repo where
  upstreamURLBase : GoString
  gcMaxAge : Int
  prefetchType : GoString
  prefetchBase : GoString
  prefetchIncludeRegexps : List (GoString → Bool)
  prefetchExcludeRegexps : List (GoString → Bool)
deriving Inhabited

/-- The fields of `http.Request` the handler reads. -/
structure Request where
  method : GoString
  path : GoString

/-- An `http.ResponseWriter`, as the handler drives it: the headers set, the status
written, the bytes the client accepted, the number of `Write` calls so far,
whether `Flush` ran, and whether the handler ended in a panic, upon which the
server drops the connection: `panic(http.ErrAbortHandler)`, or the panic of
`WriteHeader` on an invalid status code. -/
structure Response where
  header : List (GoString × GoString)
  status : Option Nat
  body : GoString
  writes : Nat
  flushed : Bool
  aborted : Bool
deriving DecidableEq, Repr

/-- A call the run makes on its environment, with its outcome. -/
inductive Event where
  | osOpen (path : GoString) (ok : Bool)
  | osStat (path : GoString) (notExist : Bool)
  | fileStat (ok : Bool)
  | fileRead (ok : Bool)
  | httpGet (url : GoString)
  | newTempFile (dir filename finalPath : GoString) (ok : Bool)
  | tempWrite (data : GoString) (ok : Bool)
  | clientWrite (data : GoString) (ok : Bool)
  | mkdirAll (path : GoString) (ok : Bool)
  | finalize (finalPath : GoString) (res : GoResult)
  | cleanup (ok : Bool)
  | statfs
deriving DecidableEq, Repr

/-- The event is a client write, a temp-file operation, a directory creation or a
finalisation that failed. -/
def Event.failed : Event → Bool
  | Event.newTempFile _ _ _ ok => !ok
  | Event.tempWrite _ ok => !ok
  | Event.clientWrite _ ok => !ok
  | Event.mkdirAll _ ok => !ok
  | Event.finalize _ res => res != GoResult.ok
  | Event.cleanup ok => !ok
  | _ => false

/-- The event is an `os.Open` of a cache file. -/
def Event.isOsOpen : Event → Bool
  | Event.osOpen _ _ => true
  | _ => false

/-- The event is an upstream `http.Get`. -/
def Event.isHttpGet : Event → Bool
  | Event.httpGet _ => true
  | _ => false

/-- What a run cannot decide by itself. -/
structure Env where
  /-- the answer of `http.Get` for a URL -/
  upstream : GoString → UpstreamReply
  /-- the outcome of the n-th `Write` on the response writer: `none` when the
  client takes all bytes, `some k` when the write fails after `k` bytes -/
  clientWrite : Nat → Option Nat
  /-- `os.Open` of the final path fails although the resolved path names an entry (a
  permission, a component on the way that is not a directory) -/
  openFault : Bool
  /-- `Stat` on the open cache file fails -/
  statFault : Bool
  /-- reading the open cache file fails after so many bytes -/
  readFault : Option Nat
  /-- the size `Stat` reports for a directory -/
  dirSize : Nat
  /-- `os.Stat` of the path in the prefetch action fails with an error that the file
  system state does not decide (a permission, a name that is too long, an I/O
  error) -/
  prefetchStatFault : GoString → Bool
  temp : TempEnv
  /-- the outcome of the n-th `Write` on the temp file -/
  tempWrite : Nat → WriteOutcome
  mkdirFault : Bool
  finalizeFaults : FinalizeFaults
  cleanupFaults : CleanupFaults

/-- The state a run threads: the file system, every file-system state the run has
been through (oldest first), the metrics, the response under construction, the
number of writes made on the temp file, and the calls made on the environment. -/
structure World where
  fs : FS
  hist : List FS
  m : Metrics
  resp : Response
  tempWrites : Nat
  trace : List Event

namespace World

/-- Installs a new file-system state and records it. -/
def setFS (w : World) (fs : FS) : World := { w with fs := fs, hist := w.hist ++ [fs] }

/-- Records a call on the environment. -/
def log (w : World) (e : Event) : World := { w with trace := w.trace ++ [e] }

/-- Applies a change to the metrics. -/
def metric (w : World) (f : Metrics → Metrics) : World := { w with m := f w.m }

/-- The call `error_count.Inc()`. -/
def incError (w : World) : World := w.metric fun m => { m with error_count := m.error_count + 1 }

/-- The call `upstream_error_count.Inc()`. -/
def incUpstreamError (w : World) : World :=
  w.metric fun m => { m with upstream_error_count := m.upstream_error_count + 1 }

/-- The call `w.Header().Set(key, value)`. -/
def setHeader (w : World) (key value : GoString) : World :=
  { w with resp := { w.resp with
      header := (key, value) :: w.resp.header.filter (fun kv => kv.1 != key) } }

/-- The call `w.WriteHeader(code)` of `net/http`.  Once the status is written the
call is ignored.  A code below 100 or above 999 makes `checkWriteHeaderCode`
panic.  An informational code (1xx other than 101) is sent at once as an
informational header and is not the status of the response.  Any other code is
the status of the response. -/
def writeHeader (w : World) (code : Nat) : World :=
  match w.resp.status with
  | some _ => w
  | none =>
    if code < 100 ∨ 999 < code then { w with resp := { w.resp with aborted := true } }
    else if code ≤ 199 ∧ code ≠ 101 then w
    else { w with resp := { w.resp with status := some code } }

/-- The call `w.Write(data)` on the response writer: the status defaults to 200, the
client takes all bytes or the write fails after some of them.  Returns the new
state, the number of bytes written and whether the write succeeded. -/
def write (env : Env) (w : World) (data : GoString) : World × Nat × Bool :=
  let w1 := w.writeHeader 200
  match env.clientWrite w1.resp.writes with
  | none =>
    (({ w1 with resp := { w1.resp with body := w1.resp.body ++ data,
                                        writes := w1.resp.writes + 1 } } : World).log
        (Event.clientWrite data true), data.length, true)
  | some k =>
    (({ w1 with resp := { w1.resp with body := w1.resp.body ++ data.take k,
                                        writes := w1.resp.writes + 1 } } : World).log
        (Event.clientWrite data false), min k data.length, false)

/-- The statement `panic(http.ErrAbortHandler)`. -/
def abort (w : World) : World := { w with resp := { w.resp with aborted := true } }

/-- The function `update_free_disk_space` of `disk_space.go`: a `statfs` probe that
sets three gauges outside this model. -/
def update_free_disk_space (w : World) : World := w.log Event.statfs

end World

/-! ## The request handler (`proxy_handler.go`) -/

/-- What `os.Open` returns on success: a regular file (its inode) or a directory. -/
inductive OpenedFile where
  | regular (ino : Nat)
  | directory
deriving DecidableEq, Repr

/-- Go `os.Open`: succeeds on every entry that is there, directories included. -/
def osOpen (env : Env) (fs : FS) (path : GoString) : Option OpenedFile :=
  if env.openFault then none
  else
    match fs.node (resolve path) with
    | some (Node.file i) => some (OpenedFile.regular i)
    | some Node.dir => some OpenedFile.directory
    | none => none

/-- The call `io.Copy(w, cache)` of `handleHit`: the bytes read from the cache file go
to the client in one write.  Reading a directory fails at once.  Returns the new
state, the number of bytes copied and whether the copy succeeded. -/
def copyFileToClient (env : Env) (w : World) (cache : OpenedFile) : World × Nat × Bool :=
  match cache with
  | OpenedFile.directory => (w.log (Event.fileRead false), 0, false)
  | OpenedFile.regular i =>
    let readable := match env.readFault with
      | none => w.fs.inodes i
      | some k => (w.fs.inodes i).take k
    let w1 := w.log (Event.fileRead env.readFault.isNone)
    if readable.isEmpty then (w1, 0, env.readFault.isNone)
    else ((w1.write env readable).1, (w1.write env readable).2.1,
          (w1.write env readable).2.2 && env.readFault.isNone)

/-- The size `cache.Stat()` reports. -/
def statSize (env : Env) (fs : FS) (cache : OpenedFile) : Nat :=
  match cache with
  | OpenedFile.regular i => (fs.inodes i).length
  | OpenedFile.directory => env.dirSize

/-- The body of `handleHit` between the two changes of the gauge. -/
def hitBody (env : Env) (w : World) (cache : OpenedFile) : World :=
  if env.statFault then
    (((w.log (Event.fileStat false)).incError.writeHeader 500).write env
      "500 Internal Server Error\n\nCould not call f.Stat() on cached file\n".toList).1
  else
    let w1 := ((w.log (Event.fileStat true)).setHeader "Content-Length".toList
      (Itoa (statSize env w.fs cache))).writeHeader 200
    let c := copyFileToClient env w1 cache
    if !c.2.2 then c.1.incError.abort
    else
      ({ c.1 with resp := { c.1.resp with flushed := true } } : World).metric fun m =>
        { m with hit_count := m.hit_count + 1, hit_bytes := m.hit_bytes + c.2.1 }

/-- The function `handleHit`. -/
def handleHit (env : Env) (w : World) (cache : OpenedFile) : World :=
  (hitBody env
      (w.metric fun m => { m with hit_requests_in_progress := m.hit_requests_in_progress + 1 })
      cache).metric
    fun m => { m with hit_requests_in_progress := m.hit_requests_in_progress - 1 }

/-- The constant `BUFFERSIZE`. -/
def BUFFERSIZE : Nat := 16 * 1024

/-- A write of `data` on the temp file `cacheTemp.File()`: the new state, the number
of bytes written and whether the write was complete and without error.  A nil
file makes `Write` return an error. -/
def tempWrite (env : Env) (f : Option File) (w : World) (data : GoString) : World × Nat × Bool :=
  match f with
  | none => (w.log (Event.tempWrite data false), 0, false)
  | some file =>
    let r := File.Write (env.tempWrite w.tempWrites) w.fs file data
    let ok := !(r.2.2 || r.2.1 != data.length)
    ((({ w with tempWrites := w.tempWrites + 1 } : World).setFS r.1).log
      (Event.tempWrite data ok), r.2.1, ok)

/-- Go `io.Copy` from the upstream body to a writer: every non-empty read is written,
a failed or short write ends the copy with an error, `io.EOF` ends it without,
another read error ends it with an error.  Returns the new state, the number of
bytes written and whether the copy succeeded. -/
def ioCopy (write : World → GoString → World × Nat × Bool) :
    List ReadResult → World → Nat → World × Nat × Bool
  | [], w, n => (w, n, true)
  | r :: rs, w, n =>
    let x := if r.data.isEmpty then (w, 0, true) else write w r.data
    if !x.2.2 then (x.1, n + x.2.1, false)
    else
      match r.err with
      | ReadErr.none => ioCopy write rs x.1 (n + x.2.1)
      | ReadErr.eof => (x.1, n + x.2.1, true)
      | ReadErr.other => (x.1, n + x.2.1, false)

/-- The variables of the tee loop of `handleMiss`. -/
structure TeeState where
  w : World
  abandonCacheFile : Bool
  bytesCopiedCount : Nat

/-- The tee loop of `handleMiss`, one iteration for each read of the upstream body.
The second component is `false` when the loop ends in `panic(http.ErrAbortHandler)`
and `true` when it ends at `break`. -/
def teeLoop (env : Env) (f : Option File) : List ReadResult → TeeState → TeeState × Bool
  | [], s => (s, true)
  | r :: rs, s =>
    if r.err = ReadErr.other then ({ s with w := s.w.incUpstreamError }, false)
    else if r.data.length = 0 then (s, true)
    else if !(s.w.write env r.data).2.2 then
      ({ s with w := (s.w.write env r.data).1.incError }, false)
    else if s.abandonCacheFile then
      teeLoop env f rs { w := (s.w.write env r.data).1, abandonCacheFile := true,
                         bytesCopiedCount := s.bytesCopiedCount + r.data.length }
    else if (tempWrite env f (s.w.write env r.data).1 r.data).2.2 then
      teeLoop env f rs { w := (tempWrite env f (s.w.write env r.data).1 r.data).1,
                         abandonCacheFile := false,
                         bytesCopiedCount := s.bytesCopiedCount + r.data.length }
    else
      teeLoop env f rs { w := (tempWrite env f (s.w.write env r.data).1 r.data).1.incError,
                         abandonCacheFile := true,
                         bytesCopiedCount := s.bytesCopiedCount + r.data.length }

/-- The call `cacheTemp.Finalize()` of `handleMiss` and the handling of its error. -/
def missFinalize (env : Env) (w : World) (t : TempFile) : World × TempFile :=
  let r := t.Finalize env.finalizeFaults w.fs
  let w1 := (w.setFS r.2.1).log (Event.finalize t.finalPath r.2.2)
  match r.2.2 with
  | GoResult.ok => (w1, r.1)
  | GoResult.err => (w1.incError, r.1)
  | GoResult.nilPanic => (w1.abort, r.1)

/-- The creation of the final subdirectory in `handleMiss`: the new state, or `none`
where `os.MkdirAll` fails. -/
def missMkdir (env : Env) (w : World) (dir : GoString) : Option FS :=
  if env.mkdirFault then none else w.fs.mkdirAll (resolve dir)

/-- The end of `handleMiss` after the loop left at `break`: the byte counter, and,
unless the cache file was abandoned, the creation of the final subdirectory and
the finalisation. -/
def missFinish (env : Env) (s : TeeState) (reponame filename : GoString) (t : TempFile) :
    World × TempFile :=
  let w := s.w.metric fun m => { m with miss_bytes := m.miss_bytes + s.bytesCopiedCount }
  if s.abandonCacheFile then (w, t)
  else
    match strings.LastIndex filename "/".toList with
    | none => missFinalize env w t
    | some lastSlash =>
      let dir := "cache/".toList ++ reponame ++ "/final/".toList ++ filename.take lastSlash
      match missMkdir env w dir with
      | none => ((w.log (Event.mkdirAll dir false)).incError, t)
      | some fs1 => missFinalize env ((w.setFS fs1).log (Event.mkdirAll dir true)) t

/-- The deferred function of `handleMiss`: `Cleanup`, the error counter, the disk
probe. -/
def missDeferred (env : Env) (w : World) (t : TempFile) : World :=
  let r := t.Cleanup env.cleanupFaults w.fs
  let w1 := (w.setFS r.2.1).log (Event.cleanup (!r.2.2))
  (if r.2.2 then w1.incError else w1).update_free_disk_space

/-- The start of a `200` response in `handleMiss`: the upstream `Content-Length`, when
there is one, and the status. -/
def missHeader (w : World) (contentLength : GoString) : World :=
  (if contentLength.isEmpty then w
   else w.setHeader "Content-Length".toList contentLength).writeHeader 200

/-- The part of `handleMiss` that streams to the client only, after the creation of
the temp file failed. -/
def missStreamOnly (env : Env) (w : World) (contentLength : GoString)
    (reads : List ReadResult) : World :=
  let c := ioCopy (fun w d => w.write env d) reads (missHeader w contentLength) 0
  if !c.2.2 then c.1.incUpstreamError.incError.abort
  else c.1.metric fun m => { m with miss_bytes := m.miss_bytes + c.2.1 }

/-- The part of `handleMiss` that tees the body to the client and to the temp file. -/
def missCached (env : Env) (w : World) (reponame filename contentLength : GoString)
    (reads : List ReadResult) (cacheTemp : TempFile) : World :=
  let l := teeLoop env cacheTemp.temp reads
      { w := missHeader w contentLength, abandonCacheFile := false, bytesCopiedCount := 0 }
  if !l.2 then missDeferred env l.1.w.abort cacheTemp
  else
    missDeferred env (missFinish env l.1 reponame filename cacheTemp).1
      (missFinish env l.1 reponame filename cacheTemp).2

/-- The body of `handleMiss` after the upstream request is logged and before the
gauge goes down. -/
def missBody (env : Env) (w : World) (reponame : GoString) (repo : Repo)
    (filename cacheFilename : GoString) : World :=
  match env.upstream (repo.upstreamURLBase ++ filename) with
  | UpstreamReply.transportError =>
    ((w.incUpstreamError.writeHeader 500).write env
      ("500 Internal Server Error\n\nProxy request ".toList ++ filename ++
        " failed\n".toList)).1
  | UpstreamReply.response status contentLength reads =>
    if status ≠ 200 then w.incUpstreamError.writeHeader status
    else
      match NewTempFile env.temp w.fs ("cache/".toList ++ reponame ++ "/temp".toList)
          filename cacheFilename with
      | none =>
        missStreamOnly env
          ((w.log (Event.newTempFile ("cache/".toList ++ reponame ++ "/temp".toList)
            filename cacheFilename false)).incError) contentLength reads
      | some (cacheTemp, fs1) =>
        missCached env
          ((w.setFS fs1).log (Event.newTempFile ("cache/".toList ++ reponame ++ "/temp".toList)
            filename cacheFilename true)) reponame filename contentLength reads cacheTemp

/-- The function `handleMiss`. -/
def handleMiss (env : Env) (w : World) (reponame : GoString) (repo : Repo)
    (filename cacheFilename : GoString) : World :=
  (missBody env
      ((w.metric fun m =>
        { m with miss_requests_in_progress := m.miss_requests_in_progress + 1,
                 miss_count := m.miss_count + 1 }).log
        (Event.httpGet (repo.upstreamURLBase ++ filename)))
      reponame repo filename cacheFilename).metric
    fun m => { m with miss_requests_in_progress := m.miss_requests_in_progress - 1 }

/-- The cache lookup of the handler, reached when the validation passes: the open
of the final path, then `handleHit` or `handleMiss`. -/
def lookup (env : Env) (w : World) (reponame : GoString) (repo : Repo) (filename : GoString) :
    World :=
  let cacheFilename := "cache/".toList ++ reponame ++ "/final/".toList ++ filename
  match osOpen env w.fs cacheFilename with
  | some cache => handleHit env (w.log (Event.osOpen cacheFilename true)) cache
  | none =>
    handleMiss env (w.log (Event.osOpen cacheFilename false)) reponame repo filename
      cacheFilename

/-- The body of the handler between the two changes of the gauge
`requests_in_progress`. -/
def handlerBody (repos : List (GoString × Repo)) (env : Env) (w : World) (r : Request) :
    World :=
  if r.method ≠ "GET".toList then
    (w.incError.setHeader "Allow".toList "GET".toList).writeHeader 405
  else
    let path := strings.TrimPrefix r.path "/proxy/".toList
    let reponame := (strings.Cut path "/".toList).1
    let filename := (strings.Cut path "/".toList).2.1
    if !(strings.Cut path "/".toList).2.2 then
      ((w.incError.writeHeader 404).write env
        "404 Not Found\n\nNeed to provide repo name i.e. /proxy/myrepo/...\n".toList).1
    else
      match repos.lookup reponame with
      | none =>
        ((w.incError.writeHeader 404).write env
          ("404 Not Found\n\nRepo ".toList ++ reponame ++ " not configured\n".toList)).1
      | some repo =>
        if isUnsafeFilename filename then
          ((w.incError.writeHeader 400).write env
            "400 Bad Request\n\nProhobited byte sequence in filename\n".toList).1
        else lookup env w reponame repo filename

/-- The handler that `proxyHandler(repos)` returns; the map `repos` is a list of
pairs. -/
def proxyHandler (repos : List (GoString × Repo)) (env : Env) (w : World) (r : Request) :
    World :=
  (handlerBody repos env
      (w.metric fun m => { m with requests_in_progress := m.requests_in_progress + 1 })
      r).metric
    fun m => { m with requests_in_progress := m.requests_in_progress - 1 }

/-! ## The prefetch action (`prefetch.go`) -/

/-- The struct `NexusItem`. -/
structure NexusItem where
  DownloadUrl : GoString
  Path : GoString
  Id : GoString
  Repository : GoString
  Format : GoString
  Checksums : List (GoString × GoString)

/-- The closure `matcher`.  A slice that `main2` builds by `append` is `nil` exactly
when it is empty. -/
def matcher (repo : Repo) (w : World) (filename : GoString) : World × Bool :=
  if !repo.prefetchIncludeRegexps.isEmpty &&
      !repo.prefetchIncludeRegexps.any (fun re => re filename) then
    (w.metric fun m => { m with prefetch_ignore_count := m.prefetch_ignore_count + 1 }, false)
  else if repo.prefetchExcludeRegexps.any (fun re => re filename) then
    (w.metric fun m => { m with prefetch_ignore_count := m.prefetch_ignore_count + 1 }, false)
  else (w, true)

/-- The end of `process` once the temp file is there: the copy of the body, then
`Cleanup` on a copy error and `Finalize` otherwise. -/
def processDownload (env : Env) (w : World) (cacheFilename : GoString)
    (reads : List ReadResult) (cacheTemp : TempFile) : World × Bool :=
  let c := ioCopy (tempWrite env cacheTemp.temp) reads w 0
  let w1 := c.1.metric fun m =>
    { m with prefetch_download_bytes := m.prefetch_download_bytes + c.2.1 }
  if !c.2.2 then
    let r := cacheTemp.Cleanup env.cleanupFaults w1.fs
    ((w1.setFS r.2.1).log (Event.cleanup (!r.2.2)), true)
  else
    let r := cacheTemp.Finalize env.finalizeFaults w1.fs
    let w2 := (w1.setFS r.2.1).log (Event.finalize cacheFilename r.2.2)
    match r.2.2 with
    | GoResult.nilPanic => (w2, true)
    | GoResult.err =>
      ((w2.metric fun m =>
          { m with prefetch_download_count := m.prefetch_download_count + 1 }
        ).update_free_disk_space, true)
    | GoResult.ok =>
      ((w2.metric fun m =>
          { m with prefetch_download_count := m.prefetch_download_count + 1 }
        ).update_free_disk_space, false)

/-- Whether the error of `os.Stat(path)` is `os.ErrNotExist`: the kernel's walk ends
at a missing place, or gets through and finds no entry.  A walk that ends at a
regular file is another error (`ENOTDIR`), and so are the faults of the
environment. -/
def statNotExist (env : Env) (fs : FS) (path : GoString) : Bool :=
  !env.prefetchStatFault path &&
    (fs.walkErr path == some WalkErr.enoent ||
      (fs.walkErr path == none && (fs.node (resolve path)).isNone))

/-- The part of `process` after the filter: the check of the final path, the
upstream request, the temp file and the download. -/
def processFetch (env : Env) (w : World) (reponame : GoString) (repo : Repo)
    (filename : GoString) : World × Bool :=
  let cacheFilename := "cache/".toList ++ reponame ++ "/final/".toList ++ filename
  let notExist := statNotExist env w.fs cacheFilename
  let w1 := w.log (Event.osStat cacheFilename notExist)
  if !notExist then
    (w1.metric fun m => { m with prefetch_skip_count := m.prefetch_skip_count + 1 }, false)
  else
    let w2 := w1.log (Event.httpGet (repo.upstreamURLBase ++ filename))
    match env.upstream (repo.upstreamURLBase ++ filename) with
    | UpstreamReply.transportError => (w2, true)
    | UpstreamReply.response _ _ reads =>
      match NewTempFile env.temp w2.fs ("cache/".toList ++ reponame ++ "/temp/".toList)
          filename cacheFilename with
      | none =>
        (w2.log (Event.newTempFile ("cache/".toList ++ reponame ++ "/temp/".toList)
          filename cacheFilename false), true)
      | some (cacheTemp, fs1) =>
        processDownload env
          ((w2.setFS fs1).log
            (Event.newTempFile ("cache/".toList ++ reponame ++ "/temp/".toList)
              filename cacheFilename true))
          cacheFilename reads cacheTemp

/-- The closure `process`: the new state and whether an error is returned. -/
def process (env : Env) (w : World) (reponame : GoString) (repo : Repo) (item : NexusItem) :
    World × Bool :=
  if (matcher repo w item.Path).2 then
    processFetch env (matcher repo w item.Path).1 reponame repo item.Path
  else ((matcher repo w item.Path).1, false)

/-! ## Relations between the states of a run -/

/-- The bytes of a sequence of reads. -/
def bodyOf (reads : List ReadResult) : GoString := (reads.map (fun r => r.data)).flatten

/-- The trace of `w2` is the trace of `w1` followed by events that are neither an
`os.Open` nor an `http.Get`. -/
def TraceExt (w1 w2 : World) : Prop :=
  ∃ ext, w2.trace = w1.trace ++ ext ∧ ∀ e ∈ ext, e.isOsOpen = false ∧ e.isHttpGet = false

/-- Every read but the last delivers bytes and no error. -/
def ProperReads (reads : List ReadResult) : Prop :=
  ∀ r ∈ reads.dropLast, r.data ≠ [] ∧ r.err = ReadErr.none

/-- The state `b` has the directory entries of `a`, and the inodes of `a` but for the
inode `ino`. -/
def SameButInode (ino : Nat) (a b : FS) : Prop :=
  b.names = a.names ∧ b.next = a.next ∧ ∀ j, j ≠ ino → b.inodes j = a.inodes j

/-- The history of `b` is the history of `a` followed by states that satisfy `P`. -/
def HistExt (P : FS → Prop) (a b : World) : Prop :=
  ∃ ext, b.hist = a.hist ++ ext ∧ ∀ s ∈ ext, P s

/-- From `a` to `b` the run has written to the inode `ino` and changed nothing else in
the file system. -/
def TempPhase (ino : Nat) (a b : World) : Prop :=
  HistExt (SameButInode ino a.fs) a b ∧ SameButInode ino a.fs b.fs

/-! ## Concrete environments -/

/-- Metrics at zero. -/
def Metrics.zero : Metrics :=
  { requests_in_progress := 0, hit_requests_in_progress := 0, miss_requests_in_progress := 0,
    hit_count := 0, hit_bytes := 0, miss_count := 0, miss_bytes := 0, error_count := 0,
    upstream_error_count := 0, prefetch_ignore_count := 0, prefetch_skip_count := 0,
    prefetch_download_count := 0, prefetch_download_bytes := 0 }

/-- A response writer nothing has been written to. -/
def Response.empty : Response :=
  { header := [], status := none, body := [], writes := 0, flushed := false, aborted := false }

/-- The state at the start of a run on the file system `fs` with the metrics `m`:
a fresh response writer, no call made yet. -/
def World.init (fs : FS) (m : Metrics) : World :=
  { fs := fs, hist := [fs], m := m, resp := Response.empty, tempWrites := 0, trace := [] }

/-- The state at the start of a run on the file system `fs`, all metrics at zero. -/
def World.start (fs : FS) : World := World.init fs Metrics.zero

/-- The file system after the start of `main2` with the repo `mynex`: the
directories `cache`, `cache/mynex`, `cache/mynex/temp` and `cache/mynex/final`. -/
def fsMynex : FS :=
  { names := fun k =>
      if k = ["cache".toList] ∨ k = ["cache".toList, "mynex".toList] ∨
         k = ["cache".toList, "mynex".toList, "temp".toList] ∨
         k = ["cache".toList, "mynex".toList, "final".toList] then some Node.dir else none,
    inodes := fun _ => [],
    next := 0 }

/-- The repo `mynex` with upstream `http://up/`. -/
def repoMynex : Repo :=
  { upstreamURLBase := "http://up/".toList, gcMaxAge := 0, prefetchType := [],
    prefetchBase := [], prefetchIncludeRegexps := [], prefetchExcludeRegexps := [] }

/-- The repo map with `mynex` alone. -/
def reposMynex : List (GoString × Repo) := [("mynex".toList, repoMynex)]

/-- An environment without faults: the upstream answers every URL by `reply`, and
`O_TMPFILE` is there when `tmp` says so. -/
def envOf (reply : UpstreamReply) (tmp : TmpfileSupport) : Env :=
  { upstream := fun _ => reply,
    clientWrite := fun _ => none,
    openFault := false, statFault := false, readFault := none, dirSize := 4096,
    prefetchStatFault := fun _ => false,
    temp := { tmpfile := tmp, fdNumber := 7, timePrefix := "20260102030405".toList,
              random := 123456, createFault := false },
    tempWrite := fun _ => { written := BUFFERSIZE, err := false },
    mkdirFault := false,
    finalizeFaults := { close := false, link := false, rename := false },
    cleanupFaults := { close := false, remove := false } }

/-- The upstream reply `200` with the body `hello`, read in two chunks. -/
def replyHello : UpstreamReply :=
  UpstreamReply.response 200 "5".toList
    [{ data := "hel".toList, err := ReadErr.none }, { data := "lo".toList, err := ReadErr.none }]

/-- The file system `fsMynex` with the regular file `cache/mynex/final/b.txt` holding
`old` (inode 0). -/
def fsCached : FS :=
  { names := fun k =>
      if k = ["cache".toList, "mynex".toList, "final".toList, "b.txt".toList]
      then some (Node.file 0) else fsMynex.names k,
    inodes := fun i => if i = 0 then "old".toList else [],
    next := 1 }

/-- The file system `fsMynex` with one more directory, `etc`, next to `cache`. -/
def fsEtc : FS :=
  { names := fun k => if k = ["etc".toList] then some Node.dir else fsMynex.names k,
    inodes := fun _ => [],
    next := 0 }

/-- A Nexus listing item whose path climbs out of the cache. -/
def itemEscape : NexusItem :=
  { DownloadUrl := [], Path := "../../../etc/passwd".toList, Id := [], Repository := [],
    Format := [], Checksums := [] }

/-- An unnamed-inode handle on inode 1 that targets `cache/mynex/final/b.txt`. -/
def handleUnnamed : TempFile :=
  { fd := 7, temp := some { name := "/proc/self/fd/7".toList, ino := 1, closed := false },
    finalPath := "cache/mynex/final/b.txt".toList, o_tmpfile := true }

/-- A named-temp handle on `cache/mynex/temp/20260102030405_b.txt.123456` (inode 1)
that targets `cache/mynex/final/b.txt`. -/
def handleNamed : TempFile :=
  { fd := 0,
    temp := some { name := "cache/mynex/temp/20260102030405_b.txt.123456".toList, ino := 1,
                   closed := false },
    finalPath := "cache/mynex/final/b.txt".toList, o_tmpfile := false }

/-- The file system `fsCached` with the temp file of `handleNamed`, holding `new`. -/
def fsNamed : FS :=
  { names := fun k =>
      if k = ["cache".toList, "mynex".toList, "temp".toList,
              "20260102030405_b.txt.123456".toList]
      then some (Node.file 1) else fsCached.names k,
    inodes := fun i => if i = 1 then "new".toList else fsCached.inodes i,
    next := 2 }

/-- The environment `envOf replyHello supported` in which the read of the cache file fails
after one byte. -/
def envReadFault : Env :=
  { envOf replyHello TmpfileSupport.supported with readFault := some 1 }

/-- The upstream reply `404` with the body `not found`. -/
def reply404 : UpstreamReply :=
  UpstreamReply.response 404 "9".toList [{ data := "not found".toList, err := ReadErr.none }]

/-- A Nexus listing item with the path `a.jar`. -/
def itemJar : NexusItem :=
  { DownloadUrl := [], Path := "a.jar".toList, Id := [], Repository := [], Format := [],
    Checksums := [] }

/-- A call on a temp-file handle, with the faults the environment injects into it. -/
inductive HandleCall where
  | finalize (ff : FinalizeFaults)
  | cleanup (cf : CleanupFaults)

/-- One call on a handle: the handle and the file system after the call, `none` when
the call panics. -/
def HandleCall.run (c : HandleCall) (t : TempFile) (fs : FS) : Option (TempFile × FS) :=
  match c with
  | HandleCall.finalize ff =>
    if (t.Finalize ff fs).2.2 = GoResult.nilPanic then none
    else some ((t.Finalize ff fs).1, (t.Finalize ff fs).2.1)
  | HandleCall.cleanup cf => some ((t.Cleanup cf fs).1, (t.Cleanup cf fs).2.1)

/-- The number of calls, in a sequence of calls on one handle, that put a regular
file at the path `p` or replace the one there: the entry at `p` after the call is
a regular file and differs from the entry before it.  The sequence ends at a
call that panics. -/
def creations (p : GoString) : List HandleCall → TempFile → FS → Nat
  | [], _, _ => 0
  | c :: cs, t, fs =>
    match c.run t fs with
    | none => 0
    | some (t1, fs1) =>
      (if fs1.node (resolve p) ≠ fs.node (resolve p) ∧
          (fs1.node (resolve p) ≠ none ∧ fs1.node (resolve p) ≠ some Node.dir) then 1 else 0)
        + creations p cs t1 fs1

/-- The environment `envOf replyHello eisdir` (named temp files) in which `os.Rename`
fails. -/
def envRenameFault : Env :=
  { envOf replyHello TmpfileSupport.eisdir with
    finalizeFaults := { close := false, link := false, rename := true } }

/-- The directories `cache`, `cache/mynex` and `cache/mynex/temp`, without
`cache/mynex/final`. -/
def fsNoFinal : FS :=
  { names := fun k =>
      if k = ["cache".toList] ∨ k = ["cache".toList, "mynex".toList] ∨
         k = ["cache".toList, "mynex".toList, "temp".toList] then some Node.dir else none,
    inodes := fun _ => [],
    next := 0 }

/-! ## The garbage collector (`gc.go`)

A `time.Time` is its number of nanoseconds since the Unix epoch, a
`time.Duration` a number of nanoseconds. -/

/-- The largest `time.Duration`. -/
def maxDuration : Int := 2 ^ 63 - 1

/-- The smallest `time.Duration`. -/
def minDuration : Int := -(2 ^ 63)

/-- Go `t.Sub(u)` on two wall-clock times: the difference, or the largest or smallest
duration when the difference is out of range. -/
def timeSub (t u : Int) : Int :=
  if t - u > maxDuration then maxDuration
  else if t - u < minDuration then minDuration
  else t - u

/-- Go `time.Since(t)` on a time without monotonic reading, when the clock reads `now`. -/
def timeSince (now t : Int) : Int := timeSub now t

/-- Go `time.Unix(sec, nsec)`. -/
def timeUnix (sec nsec : Int) : Int := sec * 1000000000 + nsec

/-- The struct `syscall.Timespec`. -/
structure Timespec where
  Sec : Int
  Nsec : Int
deriving DecidableEq, Repr

/-- The fields of `syscall.Stat_t` the walker reads. -/
structure Stat_t where
  Atim : Timespec
  Ctim : Timespec
deriving DecidableEq, Repr

/-- An `fs.FileInfo` as the walker reads it: `Size()`, `ModTime()`, and
`Sys().(*syscall.Stat_t)`, which is `none` where the pointer is nil. -/
structure FileInfo where
  size : Int
  modTime : Int
  sys : Option Stat_t
deriving DecidableEq, Repr

/-- The result of `d.Info()`: an error that is `os.ErrNotExist`, another error, or the
file information. -/
inductive InfoResult where
  | notExist
  | error
  | ok (fi : FileInfo)
deriving DecidableEq, Repr

/-- An `fs.DirEntry` as the walker reads it. -/
structure DirEntry where
  isDir : Bool
  info : InfoResult
deriving DecidableEq, Repr

/-- One call of the walker by `filepath.WalkDir`, with what the environment answers
during the call: the path, the entry (`none` where `WalkDir` passes a nil entry,
as it does when the `Lstat` of the root fails), the reading of the clock at each
of the three `time.Since` of the decision, and whether `os.Remove` fails. -/
structure Visit where
  path : GoString
  d : Option DirEntry
  nowMtime : Int
  nowAtime : Int
  nowCtime : Int
  removeFails : Bool
deriving DecidableEq, Repr

/-- The variables of `startGCLoop` that the walker updates, the counter
`gc_error_count`, and the paths handed to `os.Remove` so far. -/
structure GcState where
  fileCount : Int
  dirCount : Int
  removedCount : Int
  bytesSum : Int
  removedBytesSum : Int
  gc_error_count : Nat
  removeCalls : List GoString
deriving DecidableEq, Repr

/-- The value of the variable `delete` of the walker when it reaches `if delete`. -/
def gcDelete (repo : Repo) (v : Visit) (fi : FileInfo) : Bool :=
  let delete1 := if !(decide (timeSince v.nowMtime fi.modTime > repo.gcMaxAge)) then false else true
  match fi.sys with
  | none => delete1
  | some stat =>
    let delete2 :=
      if !(decide (timeSince v.nowAtime (timeUnix stat.Atim.Sec stat.Atim.Nsec) > repo.gcMaxAge))
      then false else delete1
    if !(decide (timeSince v.nowCtime (timeUnix stat.Ctim.Sec stat.Ctim.Nsec) > repo.gcMaxAge))
    then false else delete2

/-- The value of a Go `int64` expression whose exact value is `x`: an overflow wraps
around.  The type `int` of the counters has 64 bits as well (`GOARCH` `amd64`,
`arm64`). -/
def wrapInt64 (x : Int) : Int := (x + 2 ^ 63) % 2 ^ 64 - 2 ^ 63

/-- The function that `walkerFactory(repo)` returns: the new state and the result
(`err` ends the walk, `nilPanic` is the call of `IsDir` on a nil entry). -/
def walker (repo : Repo) (v : Visit) (s : GcState) : GcState × GoResult :=
  match v.d with
  | none => (s, GoResult.nilPanic)
  | some d =>
    if d.isDir then ({ s with dirCount := wrapInt64 (s.dirCount + 1) }, GoResult.ok)
    else
      match d.info with
      | InfoResult.notExist => (s, GoResult.ok)
      | InfoResult.error => (s, GoResult.err)
      | InfoResult.ok fi =>
        let s1 := { s with fileCount := wrapInt64 (s.fileCount + 1) }
        if gcDelete repo v fi then
          if v.removeFails then
            ({ s1 with removeCalls := s1.removeCalls ++ [v.path],
                       gc_error_count := s1.gc_error_count + 1,
                       bytesSum := wrapInt64 (s1.bytesSum + fi.size) }, GoResult.ok)
          else
            ({ s1 with removeCalls := s1.removeCalls ++ [v.path],
                       removedBytesSum := wrapInt64 (s1.removedBytesSum + fi.size),
                       removedCount := wrapInt64 (s1.removedCount + 1) }, GoResult.ok)
        else ({ s1 with bytesSum := wrapInt64 (s1.bytesSum + fi.size) }, GoResult.ok)

/-- Go `filepath.WalkDir` as the walker sees it: the calls it makes, in order, until
the walker returns an error. -/
def walkDir (repo : Repo) : List Visit → GcState → GcState × GoResult
  | [], s => (s, GoResult.ok)
  | v :: vs, s =>
    match (walker repo v s).2 with
    | GoResult.ok => walkDir repo vs (walker repo v s).1
    | r => ((walker repo v s).1, r)

/-- The gauges the GC pass publishes.  A gauge is set to `float64(x)`; the model keeps
the integer `x`. -/
structure GcGauges where
  gc_final_size : Int
  gc_final_count : Int
deriving DecidableEq, Repr

/-- The closure `updater` of `startGCLoop` for one repo: the state of the variables,
the gauges, and whether the pass panicked. -/
def gcUpdater (repo : Repo) (visits : List Visit) (s : GcState) (g : GcGauges) :
    GcState × GcGauges × Bool :=
  if repo.gcMaxAge = 0 then (s, g, false)
  else
    let r := walkDir repo visits
      { s with fileCount := 0, removedCount := 0, dirCount := 0, bytesSum := 0,
               removedBytesSum := 0 }
    match r.2 with
    | GoResult.nilPanic => (r.1, g, true)
    | _ =>
      (r.1, { gc_final_size := r.1.bytesSum,
              gc_final_count := wrapInt64 (r.1.fileCount - r.1.removedCount) }, false)

/-- One hour, in nanoseconds. -/
def hour : Int := 3600000000000

/-- The repo `mynex` with `gc_max_age` of one hour. -/
def repoGc : Repo := { repoMynex with gcMaxAge := hour }

/-- A clock reading for the examples. -/
def nowGc : Int := 1783000000000000000

/-- The visit of a regular file of 5 bytes whose `mtime`, `atime` and `ctime` are so
many nanoseconds before `nowGc`. -/
def visitFile (path : String) (mAgo aAgo cAgo : Int) : Visit :=
  { path := path.toList,
    d := some { isDir := false,
                info := InfoResult.ok
                  { size := 5, modTime := nowGc - mAgo,
                    sys := some { Atim := { Sec := (nowGc - aAgo) / 1000000000,
                                            Nsec := (nowGc - aAgo) % 1000000000 },
                                  Ctim := { Sec := (nowGc - cAgo) / 1000000000,
                                            Nsec := (nowGc - cAgo) % 1000000000 } } } },
    nowMtime := nowGc, nowAtime := nowGc, nowCtime := nowGc, removeFails := false }

/-- The visit of a directory. -/
def visitDir (path : String) : Visit :=
  { path := path.toList, d := some { isDir := true, info := InfoResult.error },
    nowMtime := nowGc, nowAtime := nowGc, nowCtime := nowGc, removeFails := false }

/-- The variables of `startGCLoop` at the start of the program. -/
def GcState.zero : GcState :=
  { fileCount := 0, dirCount := 0, removedCount := 0, bytesSum := 0, removedBytesSum := 0,
    gc_error_count := 0, removeCalls := [] }

/-- The event is a write to the temp file or a finalisation. -/
def Event.isCacheOp : Event → Bool
  | Event.tempWrite _ _ => true
  | Event.finalize _ _ => true
  | _ => false

/-- The event is a write to the temp file that failed or was short. -/
def Event.isTempWriteFailure : Event → Bool
  | Event.tempWrite _ ok => !ok
  | _ => false

/-- No write to the temp file and no finalisation follows the first failed or short
write to the temp file. -/
def quietAfterFailure : List Event → Bool
  | [] => true
  | e :: es =>
    if e.isTempWriteFailure then es.all (fun x => !x.isCacheOp) else quietAfterFailure es

/-- The environment `envOf replyHello supported` in which the first write to the temp
file is short by one byte. -/
def envShortWrite : Env :=
  { envOf replyHello TmpfileSupport.supported with
    tempWrite := fun n => if n = 0 then { written := 2, err := false }
                          else { written := BUFFERSIZE, err := false } }

/-! ## The prefetch pass (`prefetch.go`, closure `updater`) -/

/-- The struct `NexusAssetsResponse`. -/
structure NexusAssetsResponse where
  Items : List NexusItem
  ContinuationToken : GoString

/-- The answer to one listing request of the nexus branch: `http.NewRequest` fails,
`nexusClient.Do` fails, or there is a response, with its status and the result of
decoding its body as JSON (`none` where the decoder returns an error). -/
inductive ListReply where
  | requestError
  | transportError
  | response (status : Nat) (decoded : Option NexusAssetsResponse)

/-- The answer to one listing request of the generic branch: `http.NewRequest` fails,
`nexusClient.Do` fails, or there is a response, with its status, the lines the
scanner yields and whether `scanner.Err()` is an error at the end. -/
inductive PageReply where
  | requestError
  | transportError
  | response (status : Nat) (lines : List GoString) (scanErr : Bool)

/-- The state of a prefetch pass: the state of the process, the counters of
`metrics.go` that only the pass touches, the local variables of `updater`, and the
URLs handed to `nexusClient.Do` so far. -/
structure PassState where
  w : World
  prefetch_list_request_count : Nat
  prefetch_list_error_count : Nat
  prefetch_download_error_count : Nat
  totalFetches : Nat
  discoveredLinksCount : Nat
  skippedFiles : Nat
  skippedDirs : Nat
  requests : List GoString

/-- The loop over `response.Items` of the nexus branch: `process` on every item; an
error is counted and the loop goes on. -/
def processItems (env : Env) (reponame : GoString) (repo : Repo) :
    List NexusItem → PassState → PassState
  | [], s => s
  | item :: rest, s =>
    processItems env reponame repo rest
      (if (process env s.w reponame repo item).2 then
        { s with w := (process env s.w reponame repo item).1,
                 prefetch_download_error_count := s.prefetch_download_error_count + 1 }
       else { s with w := (process env s.w reponame repo item).1 })

/-- The URL of a listing request of the nexus branch. -/
def urlWithContinuation (url continuationToken : GoString) : GoString :=
  if continuationToken.length > 0 then url ++ "&continuationToken=".toList ++ continuationToken
  else url

/-- The loop of the nexus branch.  The list holds the answers to the successive
listing requests; once it is used up a request fails in `nexusClient.Do`.  The
second component tells whether the loop is left by `break`, after which `updater`
goes on, and not by `return`. -/
def nexusLoop (env : Env) (reponame : GoString) (repo : Repo) (url : GoString) :
    List ListReply → GoString → PassState → PassState × Bool
  | [], continuationToken, s =>
    ({ s with prefetch_list_request_count := s.prefetch_list_request_count + 1,
              requests := s.requests ++ [urlWithContinuation url continuationToken],
              prefetch_list_error_count := s.prefetch_list_error_count + 1 }, false)
  | reply :: rest, continuationToken, s =>
    let s1 := { s with prefetch_list_request_count := s.prefetch_list_request_count + 1 }
    match reply with
    | ListReply.requestError =>
      ({ s1 with prefetch_list_error_count := s1.prefetch_list_error_count + 1 }, true)
    | ListReply.transportError =>
      ({ s1 with requests := s1.requests ++ [urlWithContinuation url continuationToken],
                 prefetch_list_error_count := s1.prefetch_list_error_count + 1 }, false)
    | ListReply.response status decoded =>
      let s2 := { s1 with requests := s1.requests ++ [urlWithContinuation url continuationToken] }
      if status ≠ 200 then
        ({ s2 with prefetch_list_error_count := s2.prefetch_list_error_count + 1 }, false)
      else
        match decoded with
        | none => ({ s2 with prefetch_list_error_count := s2.prefetch_list_error_count + 1 }, false)
        | some response =>
          if response.ContinuationToken.length > 0 then
            nexusLoop env reponame repo url rest response.ContinuationToken
              (processItems env reponame repo response.Items s2)
          else (processItems env reponame repo response.Items s2, true)

/-- The constant `recursionLimit` of `updater`. -/
def recursionLimit : Nat := 10000

/-- A match of the pattern `<[Aa] +(?:href|HREF)="([^"]+)"( |>)` that starts at the
first byte of the text: the bytes of the first group. -/
def matchHrefAt (text : GoString) : Option GoString :=
  match text with
  | '<' :: a :: rest =>
    if a = 'A' ∨ a = 'a' then
      if (rest.takeWhile (fun c => c == ' ')).isEmpty then none
      else
        let afterSpaces := rest.dropWhile (fun c => c == ' ')
        if strings.HasPrefix afterSpaces "href".toList ∨
            strings.HasPrefix afterSpaces "HREF".toList then
          match afterSpaces.drop 4 with
          | '=' :: '"' :: value =>
            if (value.takeWhile (fun c => c != '"')).isEmpty then none
            else
              match value.dropWhile (fun c => c != '"') with
              | '"' :: c :: _ =>
                if c = ' ' ∨ c = '>' then some (value.takeWhile (fun c => c != '"')) else none
              | _ => none
          | _ => none
        else none
    else none
  | _ => none

/-- The call `re.FindSubmatch` on a line: the first group of the leftmost match. -/
def hrefOf : GoString → Option GoString
  | [] => none
  | c :: cs =>
    match matchHrefAt (c :: cs) with
    | some v => some v
    | none => hrefOf cs

/-- The pattern `^[a-zA-Z]+://` of `reSchema`. -/
def reSchemaMatch (href : GoString) : Bool :=
  !(href.takeWhile Char.isAlpha).isEmpty &&
    strings.HasPrefix (href.dropWhile Char.isAlpha) "://".toList

/-- The body of the scan loop of `recursor` for one line; `recurse` is the recursive
call of `recursor`, which returns `none` when the model runs out of fuel. -/
def scanLine (recurse : GoString → PassState → Option (PassState × Bool)) (repo : Repo)
    (url line : GoString) (s : PassState) : Option PassState :=
  match hrefOf line with
  | none => some s
  | some href =>
    if reSchemaMatch href then some s
    else if strings.HasPrefix href "../".toList || strings.HasPrefix href "/".toList ||
        strings.HasPrefix href "?".toList then some s
    else if strings.Contains href "&".toList then some s
    else if !(matcher repo s.w href).2 then
      if strings.HasSuffix href "/".toList then
        some { s with w := (matcher repo s.w href).1, skippedDirs := s.skippedDirs + 1 }
      else
        some { s with w := (matcher repo s.w href).1, skippedFiles := s.skippedFiles + 1 }
    else if strings.HasSuffix href "/".toList && decide (s.totalFetches < recursionLimit) then
      match recurse (url ++ href)
          { s with discoveredLinksCount := s.discoveredLinksCount + 1,
                   w := (matcher repo s.w href).1 } with
      | none => none
      | some r => some r.1
    else
      some { s with discoveredLinksCount := s.discoveredLinksCount + 1,
                    w := (matcher repo s.w href).1 }

/-- The scan loop of `recursor` over the lines of a page. -/
def scanLines (recurse : GoString → PassState → Option (PassState × Bool)) (repo : Repo)
    (url : GoString) : List GoString → PassState → Option PassState
  | [], s => some s
  | line :: rest, s =>
    match scanLine recurse repo url line s with
    | none => none
    | some s1 => scanLines recurse repo url rest s1

/-- The closure `recursor` of the generic branch, with fuel for its recursion.  The
environment answers a listing request by its number and its URL.  The second
component tells whether an error is returned. -/
def recursor (pages : Nat → GoString → PageReply) (repo : Repo) :
    Nat → GoString → Nat → PassState → Option (PassState × Bool)
  | 0, _, _, _ => none
  | fuel + 1, url, depth, s =>
    if s.totalFetches + 1 > recursionLimit then
      some ({ s with totalFetches := s.totalFetches + 1 }, true)
    else
      match pages s.requests.length url with
      | PageReply.requestError =>
        some ({ s with totalFetches := s.totalFetches + 1,
                       prefetch_list_error_count := s.prefetch_list_error_count + 1 }, true)
      | PageReply.transportError =>
        some ({ s with totalFetches := s.totalFetches + 1,
                       requests := s.requests ++ [url],
                       prefetch_list_error_count := s.prefetch_list_error_count + 1 }, true)
      | PageReply.response status lines scanErr =>
        if status ≠ 200 then
          some ({ s with totalFetches := s.totalFetches + 1,
                         requests := s.requests ++ [url],
                         prefetch_list_error_count := s.prefetch_list_error_count + 1 }, false)
        else
          match scanLines (fun u st => recursor pages repo fuel u (depth + 1) st) repo url lines
              { s with totalFetches := s.totalFetches + 1, requests := s.requests ++ [url] } with
          | none => none
          | some s3 => some (s3, scanErr)

/-- What the prefetch pass cannot decide by itself: the environment of `process`, the
answers to the listing requests of the nexus branch, and the answers to those of
the generic branch. -/
structure PassEnv where
  env : Env
  listReplies : List ListReply
  pages : Nat → GoString → PageReply

/-- The closure `updater` of `startPrefetchLoop` for one repo; `none` when the model
runs out of fuel. -/
def updater (pe : PassEnv) (fuel : Nat) (reponame : GoString) (repo : Repo) (s : PassState) :
    Option PassState :=
  if repo.prefetchBase.length = 0 then some s
  else if repo.prefetchType.length = 0 then some s
  else
    let s1 := { s with w := s.w.update_free_disk_space, totalFetches := 0,
                       discoveredLinksCount := 0, skippedFiles := 0, skippedDirs := 0 }
    if repo.prefetchType = "generic".toList then
      match recursor pe.pages repo fuel repo.prefetchBase 0 s1 with
      | none => none
      | some r => some { r.1 with w := r.1.w.update_free_disk_space }
    else if repo.prefetchType = "nexus".toList then
      if (nexusLoop pe.env reponame repo repo.prefetchBase pe.listReplies [] s1).2 then
        some { (nexusLoop pe.env reponame repo repo.prefetchBase pe.listReplies [] s1).1 with
          w := (nexusLoop pe.env reponame repo repo.prefetchBase pe.listReplies [] s1).1.w.update_free_disk_space }
      else some (nexusLoop pe.env reponame repo repo.prefetchBase pe.listReplies [] s1).1
    else some { s1 with w := s1.w.update_free_disk_space }

/-- The filter of the spec: the include list is empty or some include pattern
matches, and no exclude pattern matches. -/
def passesFilter (repo : Repo) (filename : GoString) : Bool :=
  (repo.prefetchIncludeRegexps.isEmpty || repo.prefetchIncludeRegexps.any (fun p => p filename))
    && !repo.prefetchExcludeRegexps.any (fun q => q filename)

/-- What the spec expects of a pass over the items of a listing, from the state `w`:
the upstream `GET`s, in listing order, for the items that pass the filter and
whose final path is absent when the item is reached; the number of items that do
not pass the filter; the number of items that pass it and whose final path is
present when the item is reached. -/
def specPass (env : Env) (reponame : GoString) (repo : Repo) :
    List NexusItem → World → List Event × Nat × Nat
  | [], _ => ([], 0, 0)
  | item :: rest, w =>
    let r := specPass env reponame repo rest (process env w reponame repo item).1
    if !passesFilter repo item.Path then (r.1, r.2.1 + 1, r.2.2)
    else if w.fs.present ("cache/".toList ++ reponame ++ "/final/".toList ++ item.Path) then
      (r.1, r.2.1, r.2.2 + 1)
    else (Event.httpGet (repo.upstreamURLBase ++ item.Path) :: r.1, r.2.1, r.2.2)

/-- What the code makes of a pass over the items of a listing, from the state `w`:
as `specPass`, with the answer of `os.Stat` in the place of the presence of the
final path: the upstream `GET`s are for the passing items for which `os.Stat`
reports that the final path does not exist, and the last number counts the
passing items for which it succeeds or fails with another error. -/
def statPass (env : Env) (reponame : GoString) (repo : Repo) :
    List NexusItem → World → List Event × Nat × Nat
  | [], _ => ([], 0, 0)
  | item :: rest, w =>
    let r := statPass env reponame repo rest (process env w reponame repo item).1
    if !passesFilter repo item.Path then (r.1, r.2.1 + 1, r.2.2)
    else if !statNotExist env w.fs
        ("cache/".toList ++ reponame ++ "/final/".toList ++ item.Path) then
      (r.1, r.2.1, r.2.2 + 1)
    else (Event.httpGet (repo.upstreamURLBase ++ item.Path) :: r.1, r.2.1, r.2.2)

/-- A Nexus listing item with the given path. -/
def itemOf (path : String) : NexusItem :=
  { DownloadUrl := [], Path := path.toList, Id := [], Repository := [], Format := [],
    Checksums := [] }

/-- The repo `mynex` with a nexus prefetch, the include pattern `\.jar$` and the
exclude pattern `^old_`. -/
def repoPrefetch : Repo :=
  { repoMynex with
    prefetchType := "nexus".toList,
    prefetchBase := "http://up/service/rest/v1/assets?repository=mynex".toList,
    prefetchIncludeRegexps := [fun f => strings.HasSuffix f ".jar".toList],
    prefetchExcludeRegexps := [fun f => strings.HasPrefix f "old_".toList] }

/-- The state at the start of a pass on the file system `fs`. -/
def PassState.start (fs : FS) : PassState :=
  { w := World.start fs, prefetch_list_request_count := 0, prefetch_list_error_count := 0,
    prefetch_download_error_count := 0, totalFetches := 0, discoveredLinksCount := 0,
    skippedFiles := 0, skippedDirs := 0, requests := [] }

/-- An environment in which the upstream fails the request for `a.jar` in transport
and answers every other one by `hello`. -/
def envFailFirst : Env :=
  { envOf replyHello TmpfileSupport.supported with
    upstream := fun u => if u = "http://up/a.jar".toList then UpstreamReply.transportError
                         else replyHello }

/-- A page with the items `a.jar`, `b.jar`, `old_c.jar` and `d.txt` and no continuation
token. -/
def pageFour : NexusAssetsResponse :=
  { Items := [itemOf "a.jar", itemOf "b.jar", itemOf "old_c.jar", itemOf "d.txt"],
    ContinuationToken := [] }

/-- A listing of the one page `pageFour`. -/
def listingFour : List ListReply := [ListReply.response 200 (some pageFour)]

/-- From `a` to `b` the pass has made listing requests, at most as many as the counter
`totalFetches` has grown below `recursionLimit`. -/
def Grows (a b : PassState) : Prop :=
  a.totalFetches ≤ b.totalFetches ∧
    ∃ ext, b.requests = a.requests ++ ext ∧
      ext.length + min a.totalFetches recursionLimit ≤ min b.totalFetches recursionLimit

/-- The repo `mynex` with a generic prefetch of `http://up/`. -/
def repoGeneric : Repo :=
  { repoMynex with prefetchType := "generic".toList, prefetchBase := "http://up/".toList }

/-- Listing pages for the examples: `http://up/` links to `sub/`, `bad/` and `f.jar`,
`http://up/sub/` links to its parent and to `x.jar`, and every other request
fails. -/
def pagesExample : Nat → GoString → PageReply := fun _ u =>
  if u = "http://up/".toList then
    PageReply.response 200
      ["<a href=\"sub/\">sub/</a>".toList, "<a href=\"bad/\">bad/</a>".toList,
       "<a href=\"f.jar\">f.jar</a>".toList] false
  else if u = "http://up/sub/".toList then
    PageReply.response 200
      ["<a href=\"../\">Parent directory/</a>".toList, "<a href=\"x.jar\">x.jar</a>".toList] false
  else PageReply.transportError

/-- The visit of a regular file whose `d.Info()` fails with an error that is not
`os.ErrNotExist`. -/
def visitInfoError (path : String) : Visit :=
  { path := path.toList, d := some { isDir := false, info := InfoResult.error },
    nowMtime := nowGc, nowAtime := nowGc, nowCtime := nowGc, removeFails := false }

/-- The visit of a regular file that is gone when `d.Info()` looks it up. -/
def visitVanished (path : String) : Visit :=
  { path := path.toList, d := some { isDir := false, info := InfoResult.notExist },
    nowMtime := nowGc, nowAtime := nowGc, nowCtime := nowGc, removeFails := false }

/-- The calls of the walker that `filepath.WalkDir` makes from the state `s`: the
visits in order, up to and including the first at which the walker does not
return nil. -/
def visited (repo : Repo) : List Visit → GcState → List Visit
  | [], _ => []
  | v :: vs, s =>
    match (walker repo v s).2 with
    | GoResult.ok => v :: visited repo vs (walker repo v s).1
    | _ => [v]

/-- The file information of a visit that the walker counts as a file: the entry is
not a directory and its `d.Info()` succeeds. -/
def Visit.file (v : Visit) : Option FileInfo :=
  match v.d with
  | none => none
  | some d =>
    if d.isDir then none
    else
      match d.info with
      | InfoResult.ok fi => some fi
      | _ => none

/-- The size of the file of a visit that is counted as a file, 0 for another visit. -/
def Visit.size (v : Visit) : Int :=
  match v.file with
  | some fi => fi.size
  | none => 0

/-- The visit is a counted file that the walker decides to delete and that
`os.Remove` unlinks. -/
def Visit.unlinked (repo : Repo) (v : Visit) : Bool :=
  match v.file with
  | some fi => gcDelete repo v fi && !v.removeFails
  | none => false

/-- The visit is a counted file that the walker decides to delete and whose
`os.Remove` fails. -/
def Visit.unlinkFails (repo : Repo) (v : Visit) : Bool :=
  match v.file with
  | some fi => gcDelete repo v fi && v.removeFails
  | none => false

/-- The visits that are counted as files. -/
def countedFiles (vs : List Visit) : List Visit := vs.filter (fun v => v.file.isSome)

/-- The counted files that were not successfully unlinked. -/
def retainedFiles (repo : Repo) (vs : List Visit) : List Visit :=
  (countedFiles vs).filter (fun v => !v.unlinked repo)

/-- The sum of the sizes of the counted files among the visits. -/
def totalSize (vs : List Visit) : Int := (vs.map Visit.size).sum

/-- The visit of `visitFile` in which `os.Remove` fails. -/
def visitStuck (path : String) (mAgo aAgo cAgo : Int) : Visit :=
  { visitFile path mAgo aAgo cAgo with removeFails := true }

/-- The upstream reply `200` with the body `hello` whose second read delivers no byte
and no error before the third read delivers `lo` with `io.EOF`. -/
def replyStalled : UpstreamReply :=
  UpstreamReply.response 200 "5".toList
    [{ data := "hel".toList, err := ReadErr.none }, { data := [], err := ReadErr.none },
     { data := "lo".toList, err := ReadErr.eof }]

/-- Every directory of `b` is a directory of `a`. -/
def NoNewDir (a b : FS) : Prop := ∀ k, b.node k = some Node.dir → a.node k = some Node.dir

/-- The environment `envOf replyStalled supported` in which the first write to the
temp file fails and writes nothing. -/
def envStalledWriteFault : Env :=
  { envOf replyStalled TmpfileSupport.supported with
    tempWrite := fun n => if n = 0 then { written := 0, err := true }
                          else { written := BUFFERSIZE, err := false } }

/-- A page with the one item `b.txt/c.jar` and no continuation token. -/
def pageBelowFile : NexusAssetsResponse :=
  { Items := [itemOf "b.txt/c.jar"], ContinuationToken := [] }

/-- A `GET` request. -/
def getReq (path : String) : Request := { method := "GET".toList, path := path.toList }

/-! ## Facts about the `strings` functions -/

theorem hasPrefix_iff (s pre : GoString) : strings.HasPrefix s pre = true ↔ pre <+: s := by
  unfold strings.HasPrefix
  rw [List.prefix_iff_eq_take]
  constructor
  · intro h
    simp only [Bool.and_eq_true, decide_eq_true_eq, beq_iff_eq] at h
    exact h.2.symm
  · intro h
    have hl : pre.length ≤ s.length := by
      have := congrArg List.length h
      simp only [List.length_take] at this
      omega
    simp only [Bool.and_eq_true, decide_eq_true_eq, beq_iff_eq]
    exact ⟨hl, h.symm⟩

theorem hasSuffix_iff (s suf : GoString) : strings.HasSuffix s suf = true ↔ suf <:+ s := by
  unfold strings.HasSuffix
  rw [List.suffix_iff_eq_drop]
  constructor
  · intro h
    simp only [Bool.and_eq_true, decide_eq_true_eq, beq_iff_eq] at h
    exact h.2.symm
  · intro h
    have hl : suf.length ≤ s.length := by
      have := congrArg List.length h
      simp only [List.length_drop] at this
      omega
    simp only [Bool.and_eq_true, decide_eq_true_eq, beq_iff_eq]
    exact ⟨hl, h.symm⟩

theorem indexFrom_isSome_iff (sub s : GoString) (i : Nat) :
    (strings.indexFrom sub s i).isSome = true ↔ sub <:+: s := by
  induction s generalizing i with
  | nil =>
    cases sub with
    | nil => simp [strings.indexFrom]
    | cons a t => simp [strings.indexFrom]
  | cons c cs ih =>
    rw [List.infix_cons_iff, strings.indexFrom]
    by_cases hp : strings.HasPrefix (c :: cs) sub = true
    · simp only [hp, if_true, Option.isSome_some, true_iff]
      exact Or.inl ((hasPrefix_iff _ _).1 hp)
    · have hnp : ¬ sub <+: c :: cs := fun h => hp ((hasPrefix_iff _ _).2 h)
      simp only [hp, if_false, Bool.false_eq_true]
      rw [ih (i + 1)]
      constructor
      · exact Or.inr
      · rintro (h | h)
        · exact absurd h hnp
        · exact h

theorem contains_iff (s sub : GoString) : strings.Contains s sub = true ↔ sub <:+: s := by
  unfold strings.Contains strings.Index
  exact indexFrom_isSome_iff sub s 0

theorem singleton_infix_iff_mem (a : Char) (l : GoString) : [a] <:+: l ↔ a ∈ l := by
  constructor
  · rintro ⟨s, t, h⟩
    rw [← h]
    simp
  · intro h
    obtain ⟨s, t, h⟩ := List.append_of_mem h
    exact ⟨s, t, by simp [h]⟩

/-! ## Facts about the state helpers -/

@[simp] theorem World.metric_fs (w : World) (f : Metrics → Metrics) : (w.metric f).fs = w.fs := rfl
@[simp] theorem World.metric_hist (w : World) (f : Metrics → Metrics) : (w.metric f).hist = w.hist := rfl
@[simp] theorem World.metric_resp (w : World) (f : Metrics → Metrics) : (w.metric f).resp = w.resp := rfl
@[simp] theorem World.metric_trace (w : World) (f : Metrics → Metrics) : (w.metric f).trace = w.trace := rfl
@[simp] theorem World.metric_tempWrites (w : World) (f : Metrics → Metrics) :
    (w.metric f).tempWrites = w.tempWrites := rfl
@[simp] theorem World.metric_m (w : World) (f : Metrics → Metrics) : (w.metric f).m = f w.m := rfl

@[simp] theorem World.incError_fs (w : World) : w.incError.fs = w.fs := rfl
@[simp] theorem World.incError_hist (w : World) : w.incError.hist = w.hist := rfl
@[simp] theorem World.incError_resp (w : World) : w.incError.resp = w.resp := rfl
@[simp] theorem World.incError_trace (w : World) : w.incError.trace = w.trace := rfl
@[simp] theorem World.incError_tempWrites (w : World) : w.incError.tempWrites = w.tempWrites := rfl

@[simp] theorem World.incUpstreamError_fs (w : World) : w.incUpstreamError.fs = w.fs := rfl
@[simp] theorem World.incUpstreamError_hist (w : World) : w.incUpstreamError.hist = w.hist := rfl
@[simp] theorem World.incUpstreamError_resp (w : World) : w.incUpstreamError.resp = w.resp := rfl
@[simp] theorem World.incUpstreamError_trace (w : World) :
    w.incUpstreamError.trace = w.trace := rfl
@[simp] theorem World.incUpstreamError_tempWrites (w : World) :
    w.incUpstreamError.tempWrites = w.tempWrites := rfl

@[simp] theorem World.log_fs (w : World) (e : Event) : (w.log e).fs = w.fs := rfl
@[simp] theorem World.log_hist (w : World) (e : Event) : (w.log e).hist = w.hist := rfl
@[simp] theorem World.log_resp (w : World) (e : Event) : (w.log e).resp = w.resp := rfl
@[simp] theorem World.log_m (w : World) (e : Event) : (w.log e).m = w.m := rfl
@[simp] theorem World.log_trace (w : World) (e : Event) : (w.log e).trace = w.trace ++ [e] := rfl
@[simp] theorem World.log_tempWrites (w : World) (e : Event) :
    (w.log e).tempWrites = w.tempWrites := rfl

@[simp] theorem World.setFS_fs (w : World) (fs : FS) : (w.setFS fs).fs = fs := rfl
@[simp] theorem World.setFS_hist (w : World) (fs : FS) : (w.setFS fs).hist = w.hist ++ [fs] := rfl
@[simp] theorem World.setFS_resp (w : World) (fs : FS) : (w.setFS fs).resp = w.resp := rfl
@[simp] theorem World.setFS_m (w : World) (fs : FS) : (w.setFS fs).m = w.m := rfl
@[simp] theorem World.setFS_trace (w : World) (fs : FS) : (w.setFS fs).trace = w.trace := rfl
@[simp] theorem World.setFS_tempWrites (w : World) (fs : FS) :
    (w.setFS fs).tempWrites = w.tempWrites := rfl

@[simp] theorem World.setHeader_fs (w : World) (k v : GoString) : (w.setHeader k v).fs = w.fs := rfl
@[simp] theorem World.setHeader_hist (w : World) (k v : GoString) :
    (w.setHeader k v).hist = w.hist := rfl
@[simp] theorem World.setHeader_m (w : World) (k v : GoString) : (w.setHeader k v).m = w.m := rfl
@[simp] theorem World.setHeader_trace (w : World) (k v : GoString) :
    (w.setHeader k v).trace = w.trace := rfl
@[simp] theorem World.setHeader_tempWrites (w : World) (k v : GoString) :
    (w.setHeader k v).tempWrites = w.tempWrites := rfl
@[simp] theorem World.setHeader_status (w : World) (k v : GoString) :
    (w.setHeader k v).resp.status = w.resp.status := rfl
@[simp] theorem World.setHeader_body (w : World) (k v : GoString) :
    (w.setHeader k v).resp.body = w.resp.body := rfl
@[simp] theorem World.setHeader_writes (w : World) (k v : GoString) :
    (w.setHeader k v).resp.writes = w.resp.writes := rfl
@[simp] theorem World.setHeader_aborted (w : World) (k v : GoString) :
    (w.setHeader k v).resp.aborted = w.resp.aborted := rfl
@[simp] theorem World.setHeader_header (w : World) (k v : GoString) :
    (w.setHeader k v).resp.header = (k, v) :: w.resp.header.filter (fun kv => kv.1 != k) := rfl

@[simp] theorem World.writeHeader_fs (w : World) (c : Nat) : (w.writeHeader c).fs = w.fs := by
  unfold World.writeHeader; split <;> [rfl; (split <;> [rfl; (split <;> rfl)])]
@[simp] theorem World.writeHeader_hist (w : World) (c : Nat) : (w.writeHeader c).hist = w.hist := by
  unfold World.writeHeader; split <;> [rfl; (split <;> [rfl; (split <;> rfl)])]
@[simp] theorem World.writeHeader_m (w : World) (c : Nat) : (w.writeHeader c).m = w.m := by
  unfold World.writeHeader; split <;> [rfl; (split <;> [rfl; (split <;> rfl)])]
@[simp] theorem World.writeHeader_trace (w : World) (c : Nat) :
    (w.writeHeader c).trace = w.trace := by
  unfold World.writeHeader; split <;> [rfl; (split <;> [rfl; (split <;> rfl)])]
@[simp] theorem World.writeHeader_tempWrites (w : World) (c : Nat) :
    (w.writeHeader c).tempWrites = w.tempWrites := by
  unfold World.writeHeader; split <;> [rfl; (split <;> [rfl; (split <;> rfl)])]
@[simp] theorem World.writeHeader_body (w : World) (c : Nat) :
    (w.writeHeader c).resp.body = w.resp.body := by
  unfold World.writeHeader; split <;> [rfl; (split <;> [rfl; (split <;> rfl)])]
@[simp] theorem World.writeHeader_writes (w : World) (c : Nat) :
    (w.writeHeader c).resp.writes = w.resp.writes := by
  unfold World.writeHeader; split <;> [rfl; (split <;> [rfl; (split <;> rfl)])]
@[simp] theorem World.writeHeader_header (w : World) (c : Nat) :
    (w.writeHeader c).resp.header = w.resp.header := by
  unfold World.writeHeader; split <;> [rfl; (split <;> [rfl; (split <;> rfl)])]
@[simp] theorem World.writeHeader_aborted (w : World) (c : Nat) (h1 : 100 ≤ c) (h2 : c ≤ 999) :
    (w.writeHeader c).resp.aborted = w.resp.aborted := by
  unfold World.writeHeader
  split
  · rfl
  · rw [if_neg (by omega)]
    split <;> rfl
@[simp] theorem World.writeHeader_flushed (w : World) (c : Nat) :
    (w.writeHeader c).resp.flushed = w.resp.flushed := by
  unfold World.writeHeader; split <;> [rfl; (split <;> [rfl; (split <;> rfl)])]
theorem World.writeHeader_status (w : World) (c : Nat) (h1 : c = 101 ∨ 200 ≤ c)
    (h2 : c ≤ 999) :
    (w.writeHeader c).resp.status = some (w.resp.status.getD c) := by
  unfold World.writeHeader
  split
  · simp_all
  · rw [if_neg (by omega), if_neg (by omega)]
    simp_all

@[simp] theorem World.abort_fs (w : World) : w.abort.fs = w.fs := rfl
@[simp] theorem World.abort_hist (w : World) : w.abort.hist = w.hist := rfl
@[simp] theorem World.abort_m (w : World) : w.abort.m = w.m := rfl
@[simp] theorem World.abort_trace (w : World) : w.abort.trace = w.trace := rfl
@[simp] theorem World.abort_tempWrites (w : World) : w.abort.tempWrites = w.tempWrites := rfl
@[simp] theorem World.abort_status (w : World) : w.abort.resp.status = w.resp.status := rfl
@[simp] theorem World.abort_body (w : World) : w.abort.resp.body = w.resp.body := rfl
@[simp] theorem World.abort_aborted (w : World) : w.abort.resp.aborted = true := rfl

@[simp] theorem World.probe_fs (w : World) : w.update_free_disk_space.fs = w.fs := rfl
@[simp] theorem World.probe_hist (w : World) : w.update_free_disk_space.hist = w.hist := rfl
@[simp] theorem World.probe_m (w : World) : w.update_free_disk_space.m = w.m := rfl
@[simp] theorem World.probe_resp (w : World) : w.update_free_disk_space.resp = w.resp := rfl
@[simp] theorem World.probe_trace (w : World) :
    w.update_free_disk_space.trace = w.trace ++ [Event.statfs] := rfl

@[simp] theorem World.write_fs (env : Env) (w : World) (d : GoString) :
    (w.write env d).1.fs = w.fs := by
  unfold World.write; dsimp only; split <;> simp
@[simp] theorem World.write_hist (env : Env) (w : World) (d : GoString) :
    (w.write env d).1.hist = w.hist := by
  unfold World.write; dsimp only; split <;> simp
@[simp] theorem World.write_m (env : Env) (w : World) (d : GoString) :
    (w.write env d).1.m = w.m := by
  unfold World.write; dsimp only; split <;> simp
@[simp] theorem World.write_tempWrites (env : Env) (w : World) (d : GoString) :
    (w.write env d).1.tempWrites = w.tempWrites := by
  unfold World.write; dsimp only; split <;> simp
@[simp] theorem World.write_aborted (env : Env) (w : World) (d : GoString) :
    (w.write env d).1.resp.aborted = w.resp.aborted := by
  unfold World.write; dsimp only; split <;> simp
@[simp] theorem World.write_header (env : Env) (w : World) (d : GoString) :
    (w.write env d).1.resp.header = w.resp.header := by
  unfold World.write; dsimp only; split <;> simp
@[simp] theorem World.write_flushed (env : Env) (w : World) (d : GoString) :
    (w.write env d).1.resp.flushed = w.resp.flushed := by
  unfold World.write; dsimp only; split <;> simp
@[simp] theorem World.write_writes (env : Env) (w : World) (d : GoString) :
    (w.write env d).1.resp.writes = w.resp.writes + 1 := by
  unfold World.write; dsimp only; split <;> simp
theorem World.write_status (env : Env) (w : World) (d : GoString) :
    (w.write env d).1.resp.status = some (w.resp.status.getD 200) := by
  unfold World.write; dsimp only; split <;> simp [World.writeHeader_status]
@[simp] theorem World.write_trace (env : Env) (w : World) (d : GoString) :
    (w.write env d).1.trace = w.trace ++ [Event.clientWrite d (w.write env d).2.2] := by
  unfold World.write; dsimp only; split <;> simp
theorem World.write_ok_iff (env : Env) (w : World) (d : GoString) :
    (w.write env d).2.2 = true ↔ env.clientWrite w.resp.writes = none := by
  unfold World.write; dsimp only; split <;> simp_all
theorem World.write_body_ok (env : Env) (w : World) (d : GoString)
    (h : (w.write env d).2.2 = true) :
    (w.write env d).1.resp.body = w.resp.body ++ d ∧ (w.write env d).2.1 = d.length := by
  unfold World.write at h ⊢; dsimp only at h ⊢; split <;> simp_all

/-! ## The trace of a run only grows -/

theorem TraceExt.of_eq {a b : World} (h : b.trace = a.trace) : TraceExt a b :=
  ⟨[], by simp [h], by simp⟩

theorem TraceExt.refl (w : World) : TraceExt w w := TraceExt.of_eq rfl

theorem TraceExt.trans {a b c : World} (h12 : TraceExt a b) (h23 : TraceExt b c) :
    TraceExt a c := by
  obtain ⟨e1, h1, q1⟩ := h12
  obtain ⟨e2, h2, q2⟩ := h23
  refine ⟨e1 ++ e2, by rw [h2, h1, List.append_assoc], ?_⟩
  intro e he
  rcases List.mem_append.1 he with h | h
  · exact q1 e h
  · exact q2 e h

theorem TraceExt.step {a b : World} (e : Event) (h : b.trace = a.trace ++ [e])
    (hq : e.isOsOpen = false ∧ e.isHttpGet = false) : TraceExt a b :=
  ⟨[e], h, by simpa using hq⟩

theorem TraceExt.mem {a b : World} (h : TraceExt a b) {e : Event} (he : e ∈ a.trace) :
    e ∈ b.trace := by
  obtain ⟨ext, h1, _⟩ := h
  rw [h1]
  exact List.mem_append_left _ he

theorem traceExt_write (env : Env) (w : World) (d : GoString) : TraceExt w (w.write env d).1 :=
  TraceExt.step _ (World.write_trace env w d) ⟨rfl, rfl⟩

theorem traceExt_copyFileToClient (env : Env) (w : World) (cache : OpenedFile) :
    TraceExt w (copyFileToClient env w cache).1 := by
  unfold copyFileToClient
  cases cache with
  | directory => exact TraceExt.step _ rfl ⟨rfl, rfl⟩
  | regular i =>
    dsimp only
    split
    · exact TraceExt.step _ rfl ⟨rfl, rfl⟩
    · exact (TraceExt.step (b := w.log (Event.fileRead env.readFault.isNone)) _ rfl ⟨rfl, rfl⟩).trans
        (traceExt_write env _ _)

theorem traceExt_hitBody (env : Env) (w : World) (cache : OpenedFile) :
    TraceExt w (hitBody env w cache) := by
  unfold hitBody
  dsimp only
  split
  · refine TraceExt.trans ?_ (traceExt_write env _ _)
    exact TraceExt.step (Event.fileStat false) (by simp) ⟨rfl, rfl⟩
  · split
    · refine TraceExt.trans ?_ (TraceExt.of_eq (a := (copyFileToClient env _ cache).1) rfl)
      refine TraceExt.trans ?_ (traceExt_copyFileToClient env _ cache)
      exact TraceExt.step (Event.fileStat true) (by simp) ⟨rfl, rfl⟩
    · refine TraceExt.trans ?_ (TraceExt.of_eq (a := (copyFileToClient env _ cache).1) rfl)
      refine TraceExt.trans ?_ (traceExt_copyFileToClient env _ cache)
      exact TraceExt.step (Event.fileStat true) (by simp) ⟨rfl, rfl⟩

theorem traceExt_handleHit (env : Env) (w : World) (cache : OpenedFile) :
    TraceExt w (handleHit env w cache) := by
  unfold handleHit
  refine TraceExt.trans ?_ (TraceExt.of_eq (World.metric_trace _ _))
  exact TraceExt.trans (TraceExt.of_eq (World.metric_trace _ _)) (traceExt_hitBody env _ cache)

theorem traceExt_tempWrite (env : Env) (f : Option File) (w : World) (d : GoString) :
    TraceExt w (tempWrite env f w d).1 := by
  unfold tempWrite
  cases f with
  | none => exact TraceExt.step _ rfl ⟨rfl, rfl⟩
  | some file => exact TraceExt.step _ rfl ⟨rfl, rfl⟩

theorem traceExt_ioCopy (write : World → GoString → World × Nat × Bool)
    (hw : ∀ w d, TraceExt w (write w d).1) (reads : List ReadResult) (w : World) (n : Nat) :
    TraceExt w (ioCopy write reads w n).1 := by
  induction reads generalizing w n with
  | nil => exact TraceExt.refl w
  | cons r rs ih =>
    have hx : TraceExt w (if r.data.isEmpty = true then (w, 0, true) else write w r.data).1 := by
      split
      · exact TraceExt.refl w
      · exact hw w r.data
    unfold ioCopy
    dsimp only
    generalize (if r.data.isEmpty = true then (w, 0, true) else write w r.data) = x at hx ⊢
    split
    · exact hx
    · split
      · exact hx.trans (ih _ _)
      · exact hx
      · exact hx

theorem traceExt_teeLoop (env : Env) (f : Option File) (reads : List ReadResult) (s : TeeState) :
    TraceExt s.w (teeLoop env f reads s).1.w := by
  induction reads generalizing s with
  | nil => exact TraceExt.refl _
  | cons r rs ih =>
    unfold teeLoop
    split
    · exact TraceExt.of_eq rfl
    · split
      · exact TraceExt.refl _
      · split
        · exact (traceExt_write env _ _).trans (TraceExt.of_eq rfl)
        · split
          · exact (traceExt_write env _ _).trans (ih _)
          · split
            · exact ((traceExt_write env _ _).trans (traceExt_tempWrite env f _ _)).trans (ih _)
            · exact (((traceExt_write env _ _).trans (traceExt_tempWrite env f _ _)).trans
                (TraceExt.of_eq (World.incError_trace _))).trans (ih _)

theorem traceExt_missFinalize (env : Env) (w : World) (t : TempFile) :
    TraceExt w (missFinalize env w t).1 := by
  unfold missFinalize
  dsimp only
  split
  · exact TraceExt.step _ rfl ⟨rfl, rfl⟩
  · exact TraceExt.step _ rfl ⟨rfl, rfl⟩
  · exact TraceExt.step _ rfl ⟨rfl, rfl⟩

theorem traceExt_missFinish (env : Env) (s : TeeState) (reponame filename : GoString)
    (t : TempFile) : TraceExt s.w (missFinish env s reponame filename t).1 := by
  unfold missFinish
  dsimp only
  split
  · exact TraceExt.of_eq rfl
  · split
    · exact (TraceExt.of_eq (World.metric_trace _ _)).trans (traceExt_missFinalize env _ t)
    · split
      · exact TraceExt.step _ rfl ⟨rfl, rfl⟩
      · refine TraceExt.trans ?_ (traceExt_missFinalize env _ t)
        exact TraceExt.step _ rfl ⟨rfl, rfl⟩

theorem traceExt_missDeferred (env : Env) (w : World) (t : TempFile) :
    TraceExt w (missDeferred env w t) := by
  unfold missDeferred
  dsimp only
  refine TraceExt.trans ?_ (TraceExt.step (a := (if (t.Cleanup env.cleanupFaults w.fs).2.2 = true
    then ((w.setFS (t.Cleanup env.cleanupFaults w.fs).2.1).log
      (Event.cleanup (!(t.Cleanup env.cleanupFaults w.fs).2.2))).incError
    else ((w.setFS (t.Cleanup env.cleanupFaults w.fs).2.1).log
      (Event.cleanup (!(t.Cleanup env.cleanupFaults w.fs).2.2))))) Event.statfs rfl ⟨rfl, rfl⟩)
  split
  · exact TraceExt.step _ rfl ⟨rfl, rfl⟩
  · exact TraceExt.step _ rfl ⟨rfl, rfl⟩

theorem traceExt_missHeader (w : World) (cl : GoString) : TraceExt w (missHeader w cl) := by
  unfold missHeader
  split <;> exact TraceExt.of_eq (by simp)

theorem traceExt_missStreamOnly (env : Env) (w : World) (cl : GoString)
    (reads : List ReadResult) : TraceExt w (missStreamOnly env w cl reads) := by
  unfold missStreamOnly
  dsimp only
  have h := (traceExt_missHeader w cl).trans
    (traceExt_ioCopy (fun w d => w.write env d) (fun w d => traceExt_write env w d) reads
      (missHeader w cl) 0)
  split
  · exact h.trans (TraceExt.of_eq rfl)
  · exact h.trans (TraceExt.of_eq rfl)

theorem traceExt_missCached (env : Env) (w : World) (reponame filename cl : GoString)
    (reads : List ReadResult) (t : TempFile) :
    TraceExt w (missCached env w reponame filename cl reads t) := by
  unfold missCached
  dsimp only
  have h := (traceExt_missHeader w cl).trans
    (traceExt_teeLoop env t.temp reads
      { w := missHeader w cl, abandonCacheFile := false, bytesCopiedCount := 0 })
  split
  · exact (h.trans (TraceExt.of_eq (World.abort_trace _))).trans (traceExt_missDeferred env _ _)
  · exact (h.trans (traceExt_missFinish env _ reponame filename t)).trans
      (traceExt_missDeferred env _ _)

theorem traceExt_missBody (env : Env) (w : World) (reponame : GoString) (repo : Repo)
    (filename cacheFilename : GoString) :
    TraceExt w (missBody env w reponame repo filename cacheFilename) := by
  unfold missBody
  split
  · exact TraceExt.trans (TraceExt.of_eq (by simp)) (traceExt_write env _ _)
  · split
    · exact TraceExt.of_eq (by simp)
    · split
      · refine TraceExt.trans ?_ (traceExt_missStreamOnly env _ _ _)
        exact TraceExt.step _ rfl ⟨rfl, rfl⟩
      · refine TraceExt.trans ?_ (traceExt_missCached env _ _ _ _ _ _)
        exact TraceExt.step _ rfl ⟨rfl, rfl⟩

theorem handleMiss_trace (env : Env) (w : World) (reponame : GoString) (repo : Repo)
    (filename cacheFilename : GoString) :
    ∃ ext, (handleMiss env w reponame repo filename cacheFilename).trace
        = w.trace ++ Event.httpGet (repo.upstreamURLBase ++ filename) :: ext ∧
      ∀ e ∈ ext, e.isOsOpen = false ∧ e.isHttpGet = false := by
  unfold handleMiss
  obtain ⟨ext, h, q⟩ := traceExt_missBody env
    ((w.metric fun m =>
        { m with miss_requests_in_progress := m.miss_requests_in_progress + 1,
                 miss_count := m.miss_count + 1 }).log
        (Event.httpGet (repo.upstreamURLBase ++ filename))) reponame repo filename cacheFilename
  refine ⟨ext, ?_, q⟩
  rw [World.metric_trace, h]
  simp

theorem lookup_trace (env : Env) (w : World) (reponame : GoString) (repo : Repo)
    (filename : GoString) :
    ∃ ext, (lookup env w reponame repo filename).trace
        = w.trace ++ Event.osOpen ("cache/".toList ++ reponame ++ "/final/".toList ++ filename)
            (osOpen env w.fs ("cache/".toList ++ reponame ++ "/final/".toList ++ filename)).isSome
          :: ext ∧
      (∀ e ∈ ext, e.isOsOpen = false) ∧
      ext.filter Event.isHttpGet =
        if (osOpen env w.fs ("cache/".toList ++ reponame ++ "/final/".toList ++ filename)).isSome
        then [] else [Event.httpGet (repo.upstreamURLBase ++ filename)] := by
  unfold lookup
  dsimp only
  cases ho : osOpen env w.fs ("cache/".toList ++ reponame ++ "/final/".toList ++ filename) with
  | some cache =>
    obtain ⟨ext, h, q⟩ := traceExt_handleHit env
      (w.log (Event.osOpen ("cache/".toList ++ reponame ++ "/final/".toList ++ filename) true)) cache
    refine ⟨ext, ?_, fun e he => (q e he).1, ?_⟩
    · rw [h]; simp
    · simp only [Option.isSome_some, if_true, List.filter_eq_nil_iff]
      intro e he
      simp [(q e he).2]
  | none =>
    obtain ⟨ext, h, q⟩ := handleMiss_trace env
      (w.log (Event.osOpen ("cache/".toList ++ reponame ++ "/final/".toList ++ filename) false))
      reponame repo filename ("cache/".toList ++ reponame ++ "/final/".toList ++ filename)
    refine ⟨Event.httpGet (repo.upstreamURLBase ++ filename) :: ext, ?_, ?_, ?_⟩
    · rw [h]; simp
    · intro e he
      rcases List.mem_cons.1 he with h1 | h1
      · rw [h1]; rfl
      · exact (q e h1).1
    · have : ext.filter Event.isHttpGet = [] := by
        rw [List.filter_eq_nil_iff]
        intro e he
        simp [(q e he).2]
      simp [List.filter_cons, Event.isHttpGet, this]

/-! ## Facts about `strings.Cut` at a slash -/

theorem indexFrom_slash (s : GoString) (i : Nat) :
    strings.indexFrom ['/'] s i =
      if '/' ∈ s then some (i + (s.takeWhile (fun c => c != '/')).length) else none := by
  induction s generalizing i with
  | nil => simp [strings.indexFrom]
  | cons c cs ih =>
    unfold strings.indexFrom
    by_cases hc : c = '/'
    · subst hc
      simp [strings.HasPrefix]
    · have hp : strings.HasPrefix (c :: cs) ['/'] = false := by
        simp [strings.HasPrefix, hc]
      rw [hp, ih (i + 1)]
      have hc' : ¬ '/' = c := fun h => hc h.symm
      by_cases hm : '/' ∈ cs
      · simp [hm, hc, List.takeWhile_cons]
        omega
      · simp [hm, hc']

theorem take_takeWhile_length (p : Char → Bool) (s : GoString) :
    s.take (s.takeWhile p).length = s.takeWhile p := by
  induction s with
  | nil => simp
  | cons c cs ih =>
    by_cases h : p c = true
    · simp [List.takeWhile_cons, h, ih]
    · simp [List.takeWhile_cons, h]

theorem drop_takeWhile_length (p : Char → Bool) (s : GoString) :
    s.drop (s.takeWhile p).length = s.dropWhile p := by
  induction s with
  | nil => simp
  | cons c cs ih =>
    by_cases h : p c = true
    · simp [List.takeWhile_cons, List.dropWhile_cons, h, ih]
    · simp [List.takeWhile_cons, List.dropWhile_cons, h]

/-- The function `strings.Cut` at `/`: the text before the first `/` and the text after it. -/
theorem cut_slash (s : GoString) :
    strings.Cut s "/".toList =
      if '/' ∈ s then
        (s.takeWhile (fun c => c != '/'), (s.dropWhile (fun c => c != '/')).drop 1, true)
      else (s, [], false) := by
  unfold strings.Cut strings.Index
  have h : "/".toList = ['/'] := rfl
  rw [h, indexFrom_slash]
  by_cases hm : '/' ∈ s
  · simp only [hm, if_true, Nat.zero_add, List.length_singleton]
    rw [take_takeWhile_length, ← List.drop_drop, drop_takeWhile_length]
  · simp [hm]

/-! ## The counter `miss_count` changes in `handleMiss` alone -/

theorem copyFileToClient_m (env : Env) (w : World) (cache : OpenedFile) :
    (copyFileToClient env w cache).1.m = w.m := by
  unfold copyFileToClient
  cases cache with
  | directory => rfl
  | regular i =>
    dsimp only
    split <;> simp

theorem tempWrite_m (env : Env) (f : Option File) (w : World) (d : GoString) :
    (tempWrite env f w d).1.m = w.m := by
  unfold tempWrite
  cases f <;> rfl

theorem ioCopy_miss_count (write : World → GoString → World × Nat × Bool)
    (hw : ∀ w d, (write w d).1.m = w.m) (reads : List ReadResult) (w : World) (n : Nat) :
    (ioCopy write reads w n).1.m = w.m := by
  induction reads generalizing w n with
  | nil => rfl
  | cons r rs ih =>
    have hx : (if r.data.isEmpty = true then (w, 0, true) else write w r.data).1.m = w.m := by
      split
      · rfl
      · exact hw w r.data
    unfold ioCopy
    dsimp only
    generalize (if r.data.isEmpty = true then (w, 0, true) else write w r.data) = x at hx ⊢
    split
    · exact hx
    · split
      · rw [ih, hx]
      · exact hx
      · exact hx

theorem teeLoop_miss_count (env : Env) (f : Option File) (reads : List ReadResult)
    (s : TeeState) : (teeLoop env f reads s).1.w.m.miss_count = s.w.m.miss_count := by
  induction reads generalizing s with
  | nil => rfl
  | cons r rs ih =>
    unfold teeLoop
    split
    · rfl
    · split
      · rfl
      · split
        · simp [World.incError]
        · split
          · rw [ih]; simp
          · split
            · rw [ih]; simp [tempWrite_m]
            · rw [ih]; simp [tempWrite_m, World.incError]

theorem missFinalize_miss_count (env : Env) (w : World) (t : TempFile) :
    (missFinalize env w t).1.m.miss_count = w.m.miss_count := by
  unfold missFinalize
  dsimp only
  split <;> simp [World.incError]

theorem missFinish_miss_count (env : Env) (s : TeeState) (reponame filename : GoString)
    (t : TempFile) :
    (missFinish env s reponame filename t).1.m.miss_count = s.w.m.miss_count := by
  unfold missFinish
  dsimp only
  split
  · rfl
  · split
    · rw [missFinalize_miss_count]; rfl
    · split
      · rfl
      · rw [missFinalize_miss_count]; rfl

theorem missDeferred_miss_count (env : Env) (w : World) (t : TempFile) :
    (missDeferred env w t).m.miss_count = w.m.miss_count := by
  unfold missDeferred
  dsimp only
  split <;> simp [World.incError]

theorem missHeader_m (w : World) (cl : GoString) : (missHeader w cl).m = w.m := by
  unfold missHeader
  split <;> simp

theorem missStreamOnly_miss_count (env : Env) (w : World) (cl : GoString)
    (reads : List ReadResult) :
    (missStreamOnly env w cl reads).m.miss_count = w.m.miss_count := by
  unfold missStreamOnly
  dsimp only
  have h := ioCopy_miss_count (fun w d => w.write env d) (fun w d => World.write_m env w d) reads
    (missHeader w cl) 0
  split
  · simp [World.incError, World.incUpstreamError, h, missHeader_m]
  · simp [h, missHeader_m]

theorem missCached_miss_count (env : Env) (w : World) (reponame filename cl : GoString)
    (reads : List ReadResult) (t : TempFile) :
    (missCached env w reponame filename cl reads t).m.miss_count = w.m.miss_count := by
  unfold missCached
  dsimp only
  split
  · rw [missDeferred_miss_count]
    simp [teeLoop_miss_count, missHeader_m]
  · rw [missDeferred_miss_count, missFinish_miss_count, teeLoop_miss_count]
    simp [missHeader_m]

theorem missBody_miss_count (env : Env) (w : World) (reponame : GoString) (repo : Repo)
    (filename cacheFilename : GoString) :
    (missBody env w reponame repo filename cacheFilename).m.miss_count = w.m.miss_count := by
  unfold missBody
  split
  · simp [World.incUpstreamError]
  · split
    · simp [World.incUpstreamError]
    · split
      · rw [missStreamOnly_miss_count]; rfl
      · rw [missCached_miss_count]; rfl

theorem World.write_ok (env : Env) (w : World) (d : GoString) :
    (w.write env d).2.2 = (env.clientWrite w.resp.writes).isNone := by
  unfold World.write; dsimp only; split <;> simp_all

theorem World.write_body (env : Env) (w : World) (d : GoString) :
    (w.write env d).1.resp.body = w.resp.body ++
      (match env.clientWrite w.resp.writes with
       | none => d
       | some k => d.take k) := by
  unfold World.write; dsimp only; split <;> simp_all

theorem World.write_count (env : Env) (w : World) (d : GoString) :
    (w.write env d).2.1 =
      (match env.clientWrite w.resp.writes with
       | none => d.length
       | some k => min k d.length) := by
  unfold World.write; dsimp only; split <;> simp_all

/-! ## Facts about the file system -/

theorem FS.node_of_ne_nil (fs : FS) {k : Key} (h : k ≠ []) : fs.node k = fs.names k := by
  unfold FS.node
  simp [h]

theorem dropLast_ne_self {α : Type} (k : List α) (h : k ≠ []) : k.dropLast ≠ k := by
  intro he
  have := congrArg List.length he
  simp only [List.length_dropLast] at this
  have : 0 < k.length := List.length_pos.2 h
  omega

/-- A successful `linkat` gives the new name the inode, changes no other entry and
no inode, and the parent of the new name is a directory. -/
theorem FS.link_some {fs fs1 : FS} {ino : Nat} {dst : Key} (h : fs.link ino dst = some fs1) :
    dst ≠ [] ∧ fs.node dst = none ∧ fs1.node dst = some (Node.file ino) ∧
      fs1.inodes = fs.inodes ∧ fs1.next = fs.next ∧
      (∀ q, q ≠ dst → fs1.node q = fs.node q) ∧ fs1.isDir dst.dropLast = true := by
  unfold FS.link at h
  split at h
  · rename_i hc
    obtain ⟨h1, h2, h3⟩ := hc
    simp only [Option.some.injEq] at h
    subst h
    refine ⟨h1, h3, ?_, rfl, rfl, ?_, ?_⟩
    · simp [FS.node, h1]
    · intro q hq
      simp [FS.node, hq]
    · have hne : dst.dropLast ≠ dst := dropLast_ne_self dst h1
      unfold FS.isDir FS.node at h2 ⊢
      simpa [hne] using h2
  · simp at h

/-- A successful `rename` gives the new name the inode of the old name, changes no
inode, and the parent of the new name is a directory. -/
theorem FS.rename_some {fs fs1 : FS} {src dst : Key} (h : fs.rename src dst = some fs1) :
    ∃ i, fs.node src = some (Node.file i) ∧ fs1.node dst = some (Node.file i) ∧
      fs1.inodes = fs.inodes ∧ fs1.next = fs.next ∧
      (∀ q, q ≠ dst → q ≠ src → fs1.node q = fs.node q) ∧
      fs1.isDir dst.dropLast = true := by
  unfold FS.rename at h
  split at h
  · rename_i i hi
    refine ⟨i, hi, ?_⟩
    split at h
    · simp at h
    · rename_i hc
      simp only [not_or] at hc
      obtain ⟨h1, h2, h3⟩ := hc
      have h2' : fs.isDir dst.dropLast = true := by simpa using h2
      split at h
      · rename_i hsd
        simp only [Option.some.injEq] at h
        subst h
        subst hsd
        exact ⟨hi, rfl, rfl, fun q _ _ => rfl, h2'⟩
      · rename_i hsd
        simp only [Option.some.injEq] at h
        subst h
        refine ⟨?_, rfl, rfl, ?_, ?_⟩
        · simp [FS.node, h1]
        · intro q hq1 hq2
          simp [FS.node, hq1, hq2]
        · have hne : dst.dropLast ≠ dst := dropLast_ne_self dst h1
          have hns : dst.dropLast ≠ src := by
            intro he
            rw [he] at h2'
            unfold FS.isDir at h2'
            rw [hi] at h2'
            simp at h2'
          unfold FS.isDir FS.node at h2' ⊢
          simpa [hne, hns] using h2'
  · simp at h

/-- A successful `os.MkdirAll` changes no inode, keeps every regular file and makes
none. -/
theorem FS.mkdirAll_some {fs fs1 : FS} {k : Key} (h : fs.mkdirAll k = some fs1) :
    fs1.inodes = fs.inodes ∧ fs1.next = fs.next ∧
      ∀ q i, fs1.node q = some (Node.file i) ↔ fs.node q = some (Node.file i) := by
  unfold FS.mkdirAll at h
  split at h
  · simp at h
  · rename_i hc
    simp only [Option.some.injEq] at h
    subst h
    refine ⟨rfl, rfl, ?_⟩
    intro q i
    by_cases hq : q ≠ [] ∧ q.isPrefixOf k = true
    · have hpre : q <+: k := List.isPrefixOf_iff_prefix.1 hq.2
      have hmem : q ∈ k.inits := (List.mem_inits q k).2 hpre
      have hnf : fs.node q ≠ some (Node.file i) := by
        intro hf
        apply hc
        rw [List.any_eq_true]
        exact ⟨q, hmem, by rw [hf]⟩
      simp [FS.node, hq.1, hq.2] at hnf ⊢
      exact hnf
    · simp only [FS.node]
      by_cases hq0 : q = []
      · simp [hq0]
      · have : ¬ q.isPrefixOf k = true := fun hp => hq ⟨hq0, hp⟩
        simp [hq0, this]

theorem FS.content_congr {fs fs1 : FS} {p : GoString} (hi : fs1.inodes = fs.inodes)
    (hn : ∀ i, fs1.node (resolve p) = some (Node.file i) ↔
      fs.node (resolve p) = some (Node.file i)) :
    fs1.content p = fs.content p := by
  unfold FS.content
  cases h : fs.node (resolve p) with
  | none =>
    cases h1 : fs1.node (resolve p) with
    | none => rfl
    | some n =>
      cases n with
      | dir => rfl
      | file i => rw [(hn i).1 h1] at h; simp at h
  | some n =>
    cases n with
    | dir =>
      cases h1 : fs1.node (resolve p) with
      | none => rfl
      | some n1 =>
        cases n1 with
        | dir => rfl
        | file i => rw [(hn i).1 h1] at h; simp at h
    | file i =>
      rw [(hn i).2 h, hi]

theorem FS.mkdirAll_content {fs fs1 : FS} {k : Key} (h : fs.mkdirAll k = some fs1)
    (p : GoString) : fs1.content p = fs.content p :=
  FS.content_congr (FS.mkdirAll_some h).1 (fun i => (FS.mkdirAll_some h).2.2 _ i)

/-! ## Facts about the temp file -/

theorem FS.createExcl_some {fs fs1 : FS} {k : Key} {ino : Nat}
    (h : fs.createExcl k = some (ino, fs1)) :
    ino = fs.next ∧ k ≠ [] ∧ fs.node k = none ∧ fs1.node k = some (Node.file ino) ∧
      (∀ q, q ≠ k → fs1.node q = fs.node q) ∧ fs1.inodes ino = [] ∧
      (∀ j, j ≠ ino → fs1.inodes j = fs.inodes j) ∧ fs1.next = fs.next + 1 := by
  unfold FS.createExcl at h
  by_cases hc : k ≠ [] ∧ fs.isDir k.dropLast = true ∧ fs.node k = none
  · rw [if_pos hc] at h
    simp only [Option.some.injEq, Prod.mk.injEq] at h
    obtain ⟨hino, hfs⟩ := h
    subst hino
    subst hfs
    refine ⟨rfl, hc.1, hc.2.2, ?_, ?_, ?_, ?_, rfl⟩
    · simp [FS.node, hc.1]
    · intro q hq
      simp [FS.node, hq]
    · simp
    · intro j hj
      simp [hj]
  · rw [if_neg hc] at h
    simp at h

theorem CreateTemp_some {fault : Bool} {random : Nat} {fs fs1 : FS} {dir pre : GoString}
    {file : File} (h : CreateTemp fault random fs dir pre = some (file, fs1)) :
    '/' ∉ pre ∧ file.name = joinPath dir pre ++ Itoa random ∧ file.closed = false ∧
      fs.createExcl (resolve (joinPath dir pre ++ Itoa random)) = some (file.ino, fs1) := by
  unfold CreateTemp at h
  by_cases hsep : pre.contains '/' = true
  · rw [if_pos hsep] at h
    simp at h
  · rw [if_neg hsep] at h
    by_cases hf : fault = true ∨ fs.walkable (joinPath dir pre ++ Itoa random) = false
    · rw [if_pos hf] at h
      simp at h
    · rw [if_neg hf] at h
      cases hce : fs.createExcl (resolve (joinPath dir pre ++ Itoa random)) with
      | none => rw [hce] at h; simp at h
      | some p =>
        obtain ⟨ino, fs2⟩ := p
        rw [hce] at h
        simp only [Option.some.injEq, Prod.mk.injEq] at h
        obtain ⟨hfile, hfs⟩ := h
        subst hfile
        subst hfs
        refine ⟨?_, rfl, rfl, rfl⟩
        intro hmem
        apply hsep
        simp [hmem]

/-- What a successful `NewTempFile` returns: an open file on a fresh, empty inode.
With `O_TMPFILE` no directory entry changes; a named temp file is a new entry,
and no other entry changes. -/
theorem NewTempFile_some {te : TempEnv} {fs fs1 : FS} {dir filename finalPath : GoString}
    {t : TempFile} (h : NewTempFile te fs dir filename finalPath = some (t, fs1)) :
    t.finalPath = finalPath ∧ 0 ≤ t.fd ∧
    ∃ f, t.temp = some f ∧ f.closed = false ∧ f.ino = fs.next ∧ fs1.inodes f.ino = [] ∧
      (∀ j, j ≠ f.ino → fs1.inodes j = fs.inodes j) ∧ fs1.next = fs.next + 1 ∧
      ((t.o_tmpfile = true ∧ fs1.names = fs.names) ∨
       (t.o_tmpfile = false ∧ resolve f.name ≠ [] ∧ fs.node (resolve f.name) = none ∧
        fs1.node (resolve f.name) = some (Node.file f.ino) ∧
        (∀ q, q ≠ resolve f.name → fs1.node q = fs.node q) ∧
        '/' ∉ te.timePrefix ∧ '/' ∉ filename ∧
        f.name = joinPath dir (te.timePrefix ++ "_".toList ++ filename ++ ".".toList) ++
          Itoa te.random)) := by
  have hfallback :
      (match CreateTemp te.createFault te.random fs dir
          (te.timePrefix ++ "_".toList ++ filename ++ ".".toList) with
        | none => none
        | some (temp, fs1) =>
          some ({ fd := 0, temp := some temp, finalPath := finalPath, o_tmpfile := false },
            fs1)) = some (t, fs1) →
      t.finalPath = finalPath ∧ 0 ≤ t.fd ∧
      ∃ f, t.temp = some f ∧ f.closed = false ∧ f.ino = fs.next ∧ fs1.inodes f.ino = [] ∧
        (∀ j, j ≠ f.ino → fs1.inodes j = fs.inodes j) ∧ fs1.next = fs.next + 1 ∧
        ((t.o_tmpfile = true ∧ fs1.names = fs.names) ∨
         (t.o_tmpfile = false ∧ resolve f.name ≠ [] ∧ fs.node (resolve f.name) = none ∧
          fs1.node (resolve f.name) = some (Node.file f.ino) ∧
          (∀ q, q ≠ resolve f.name → fs1.node q = fs.node q) ∧
          '/' ∉ te.timePrefix ∧ '/' ∉ filename ∧
          f.name = joinPath dir (te.timePrefix ++ "_".toList ++ filename ++ ".".toList) ++
            Itoa te.random)) := by
    intro hr
    cases hct : CreateTemp te.createFault te.random fs dir
        (te.timePrefix ++ "_".toList ++ filename ++ ".".toList) with
    | none => rw [hct] at hr; simp at hr
    | some p =>
      obtain ⟨temp, fs2⟩ := p
      rw [hct] at hr
      simp only [Option.some.injEq, Prod.mk.injEq] at hr
      obtain ⟨ht, hfs⟩ := hr
      subst ht
      subst hfs
      obtain ⟨h1, h2, h3, h4⟩ := CreateTemp_some hct
      rw [← h2] at h4
      obtain ⟨g1, g2, g3, g4, g5, g6, g7, g8⟩ := FS.createExcl_some h4
      refine ⟨rfl, by simp, temp, rfl, h3, g1, g6, g7, g8,
        Or.inr ⟨rfl, g2, g3, g4, g5, ?_, ?_, h2⟩⟩
      · intro hmem
        apply h1
        simp [hmem]
      · intro hmem
        apply h1
        simp [hmem]
  unfold NewTempFile at h
  dsimp only at h
  by_cases hd : fs.walkable dir = false ∨ fs.isDir (resolve dir) = false
  · rw [if_pos hd] at h
    simp at h
  · rw [if_neg hd] at h
    cases hs : te.tmpfile with
    | supported =>
      rw [hs] at h
      unfold FS.allocInode at h
      simp only [Option.some.injEq, Prod.mk.injEq] at h
      obtain ⟨ht, hfs⟩ := h
      subst ht
      subst hfs
      refine ⟨rfl, by simp, _, rfl, rfl, rfl, by simp, ?_, rfl, Or.inl ⟨rfl, rfl⟩⟩
      intro j hj
      simp only at hj
      simp [hj]
    | eisdir => rw [hs] at h; exact hfallback h
    | eopnotsupp => rw [hs] at h; exact hfallback h
    | otherError => rw [hs] at h; simp at h

/-- On a handle whose file is gone, `Cleanup` does nothing and returns no error. -/
theorem Cleanup_of_temp_none (cf : CleanupFaults) (fs : FS) (t : TempFile)
    (h : t.temp = none) : t.Cleanup cf fs = (t, fs, false) := by
  unfold TempFile.Cleanup
  split
  · rfl
  · rw [h]

/-- A successful `Finalize` of a handle whose file is open, and whose name, when it has
one, links to the inode of the file: the final path holds the content of that
inode, no inode has changed, the parent of the final path is a directory, and
the file of the handle is gone. -/
theorem Finalize_ok {ff : FinalizeFaults} {fs : FS} {t : TempFile} {f : File}
    (ht : t.temp = some f)
    (hsrc : t.o_tmpfile = false → fs.node (resolve f.name) = some (Node.file f.ino))
    (hok : (t.Finalize ff fs).2.2 = GoResult.ok) :
    (t.Finalize ff fs).2.1.content t.finalPath = some (fs.inodes f.ino) ∧
      (t.Finalize ff fs).2.1.isDir (resolve t.finalPath).dropLast = true ∧
      (t.Finalize ff fs).1.temp = none := by
  unfold TempFile.Finalize at hok ⊢
  rw [ht] at hok ⊢
  cases ho : t.o_tmpfile with
  | false =>
    have hs := hsrc ho
    simp only [ho, Bool.not_false, if_true] at hok ⊢
    unfold File.Close at hok ⊢
    by_cases hcl : f.closed = true
    · simp [hcl] at hok
    · simp only [hcl, if_false] at hok ⊢
      by_cases hcf : ff.close = true
      · simp [hcf] at hok
      · simp only [hcf, Bool.false_eq_true, if_false] at hok ⊢
        cases hr : (if ff.rename = true ∨ fs.walkable f.name = false ∨
            fs.walkable t.finalPath = false then none
            else fs.rename (resolve f.name) (resolve t.finalPath)) with
        | none => rw [hr] at hok; simp at hok
        | some fs1 =>
          have hr' : fs.rename (resolve f.name) (resolve t.finalPath) = some fs1 := by
            split at hr
            · simp at hr
            · exact hr
          obtain ⟨i, h1, h2, h3, _, _, h6⟩ := FS.rename_some hr'
          rw [hs] at h1
          simp only [Option.some.injEq, Node.file.injEq] at h1
          subst h1
          refine ⟨?_, h6, rfl⟩
          simp only [FS.content, h2, h3]
  | true =>
    simp only [ho, Bool.not_true, Bool.false_eq_true, if_false] at hok ⊢
    cases hr : (if ff.link = true ∨ f.closed = true ∨ fs.walkable t.finalPath = false then none
        else fs.link f.ino (resolve t.finalPath)) with
    | none => rw [hr] at hok; simp at hok
    | some fs1 =>
      have hr' : fs.link f.ino (resolve t.finalPath) = some fs1 := by
        split at hr
        · simp at hr
        · exact hr
      obtain ⟨_, _, h2, h3, _, _, h6⟩ := FS.link_some hr'
      refine ⟨?_, h6, rfl⟩
      simp only [FS.content, h2, h3]

/-! ## The tee loop when nothing fails -/

theorem tempWrite_resp (env : Env) (f : Option File) (w : World) (d : GoString) :
    (tempWrite env f w d).1.resp = w.resp := by
  unfold tempWrite
  cases f <;> rfl

theorem tempWrite_trace (env : Env) (f : Option File) (w : World) (d : GoString) :
    (tempWrite env f w d).1.trace = w.trace ++ [Event.tempWrite d (tempWrite env f w d).2.2] := by
  unfold tempWrite
  cases f <;> rfl

/-- A complete write on the open temp file appends the bytes to its inode. -/
theorem tempWrite_ok {env : Env} {file : File} {w : World} {d : GoString}
    (hopen : file.closed = false) (h : (tempWrite env (some file) w d).2.2 = true) :
    (tempWrite env (some file) w d).1.fs = w.fs.append file.ino d := by
  unfold tempWrite File.Write at h ⊢
  simp only [hopen, Bool.false_eq_true, if_false, World.log_fs, World.setFS_fs] at h ⊢
  simp only [Bool.not_eq_true', Bool.or_eq_false_iff, bne_eq_false_iff_eq] at h
  have hlen : d.length ≤ (env.tempWrite w.tempWrites).written := by
    have := h.2
    omega
  rw [List.take_of_length_le hlen]

theorem FS.append_names (fs : FS) (ino : Nat) (d : GoString) :
    (fs.append ino d).names = fs.names := rfl

theorem FS.append_inodes_self (fs : FS) (ino : Nat) (d : GoString) :
    (fs.append ino d).inodes ino = fs.inodes ino ++ d := by
  simp [FS.append]

theorem FS.append_inodes_ne (fs : FS) (ino : Nat) (d : GoString) {j : Nat} (h : j ≠ ino) :
    (fs.append ino d).inodes j = fs.inodes j := by
  simp [FS.append, h]

theorem teeLoop_ok (env : Env) (file : File) (hopen : file.closed = false)
    (reads : List ReadResult)
    (hreads : ∀ r ∈ reads, r.data ≠ [] ∧ r.err ≠ ReadErr.other) (s : TeeState)
    (hs : s.abandonCacheFile = false)
    (hok : ∀ e ∈ (teeLoop env (some file) reads s).1.w.trace, e.failed = false) :
    (teeLoop env (some file) reads s).2 = true ∧
    (teeLoop env (some file) reads s).1.abandonCacheFile = false ∧
    (teeLoop env (some file) reads s).1.w.resp.body = s.w.resp.body ++ bodyOf reads ∧
    (teeLoop env (some file) reads s).1.w.resp.aborted = s.w.resp.aborted ∧
    (∀ c, s.w.resp.status = some c → (teeLoop env (some file) reads s).1.w.resp.status = some c) ∧
    (teeLoop env (some file) reads s).1.w.fs.names = s.w.fs.names ∧
    (teeLoop env (some file) reads s).1.w.fs.inodes file.ino
      = s.w.fs.inodes file.ino ++ bodyOf reads := by
  induction reads generalizing s with
  | nil =>
    unfold teeLoop
    simp [bodyOf, hs]
  | cons r rs ih =>
    have hr := hreads r (List.mem_cons_self _ _)
    have hrs : ∀ x ∈ rs, x.data ≠ [] ∧ x.err ≠ ReadErr.other :=
      fun x hx => hreads x (List.mem_cons_of_mem _ hx)
    have hlen : r.data.length ≠ 0 := fun h => hr.1 (List.length_eq_zero.1 h)
    unfold teeLoop at hok ⊢
    simp only [hr.2, if_false, hlen, hs, Bool.false_eq_true] at hok ⊢
    by_cases hw : (s.w.write env r.data).2.2 = true
    · simp only [hw, Bool.not_true, Bool.false_eq_true, if_false] at hok ⊢
      by_cases ht : (tempWrite env (some file) (s.w.write env r.data).1 r.data).2.2 = true
      · simp only [ht, if_true] at hok ⊢
        have h := ih hrs
          { w := (tempWrite env (some file) (s.w.write env r.data).1 r.data).1,
            abandonCacheFile := false,
            bytesCopiedCount := s.bytesCopiedCount + r.data.length } rfl hok
        obtain ⟨h1, h2, h3, h4, h5, h6, h7⟩ := h
        refine ⟨h1, h2, ?_, ?_, ?_, ?_, ?_⟩
        · rw [h3]
          simp [tempWrite_resp, (World.write_body_ok env s.w r.data hw).1, bodyOf]
        · rw [h4]
          simp [tempWrite_resp]
        · intro c hc
          apply h5
          simp [tempWrite_resp, World.write_status, hc]
        · rw [h6, tempWrite_ok hopen ht]
          simp [FS.append_names]
        · rw [h7, tempWrite_ok hopen ht, FS.append_inodes_self]
          simp [bodyOf]
      · exfalso
        simp only [ht, if_false, Bool.false_eq_true] at hok
        have hmem : Event.tempWrite r.data false ∈
            (tempWrite env (some file) (s.w.write env r.data).1 r.data).1.incError.trace := by
          rw [World.incError_trace, tempWrite_trace]
          simp at ht
          simp [ht]
        have := hok _ ((traceExt_teeLoop env (some file) rs
          { w := (tempWrite env (some file) (s.w.write env r.data).1 r.data).1.incError,
            abandonCacheFile := true,
            bytesCopiedCount := s.bytesCopiedCount + r.data.length }).mem hmem)
        simp [Event.failed] at this
    · exfalso
      simp only [hw, Bool.not_false, if_true] at hok
      have := hok (Event.clientWrite r.data false) (by
        simp at hw
        simp [hw])
      simp [Event.failed] at this

/-! ## The miss path when nothing fails -/

theorem missDeferred_of_temp_none (env : Env) (w : World) (t : TempFile) (h : t.temp = none) :
    missDeferred env w t
      = ((w.setFS w.fs).log (Event.cleanup true)).update_free_disk_space := by
  unfold missDeferred
  rw [Cleanup_of_temp_none env.cleanupFaults w.fs t h]
  rfl

theorem missFinalize_ok {env : Env} {w : World} {t : TempFile} {f : File}
    (ht : t.temp = some f)
    (hsrc : t.o_tmpfile = false → w.fs.node (resolve f.name) = some (Node.file f.ino))
    (hok : ∀ e ∈ (missFinalize env w t).1.trace, e.failed = false) :
    (missFinalize env w t).1.fs.content t.finalPath = some (w.fs.inodes f.ino) ∧
      (missFinalize env w t).1.fs.isDir (resolve t.finalPath).dropLast = true ∧
      (missFinalize env w t).2.temp = none ∧
      (missFinalize env w t).1.resp = w.resp := by
  have hres : (t.Finalize env.finalizeFaults w.fs).2.2 = GoResult.ok := by
    by_contra hne
    have hmem : Event.finalize t.finalPath (t.Finalize env.finalizeFaults w.fs).2.2
        ∈ (missFinalize env w t).1.trace := by
      unfold missFinalize
      dsimp only
      split <;> simp
    have := hok _ hmem
    simp [Event.failed, hne] at this
  obtain ⟨h1, h2, h3⟩ := Finalize_ok ht hsrc hres
  unfold missFinalize
  dsimp only
  rw [hres]
  exact ⟨h1, h2, h3, rfl⟩

theorem missFinish_ok {env : Env} {s : TeeState} {reponame filename : GoString}
    {t : TempFile} {f : File} (hs : s.abandonCacheFile = false)
    (ht : t.temp = some f)
    (hsrc : t.o_tmpfile = false → s.w.fs.node (resolve f.name) = some (Node.file f.ino))
    (hok : ∀ e ∈ (missFinish env s reponame filename t).1.trace, e.failed = false) :
    (missFinish env s reponame filename t).1.fs.content t.finalPath
        = some (s.w.fs.inodes f.ino) ∧
      (missFinish env s reponame filename t).1.fs.isDir (resolve t.finalPath).dropLast = true ∧
      (missFinish env s reponame filename t).2.temp = none ∧
      (missFinish env s reponame filename t).1.resp = s.w.resp := by
  unfold missFinish at hok ⊢
  simp only [hs, Bool.false_eq_true, if_false] at hok ⊢
  cases hli : strings.LastIndex filename "/".toList with
  | none =>
    rw [hli] at hok
    dsimp only at hok ⊢
    exact missFinalize_ok (w := s.w.metric fun m =>
      { m with miss_bytes := m.miss_bytes + s.bytesCopiedCount }) ht hsrc hok
  | some lastSlash =>
    rw [hli] at hok
    dsimp only at hok ⊢
    cases hmk : missMkdir env (s.w.metric fun m =>
        { m with miss_bytes := m.miss_bytes + s.bytesCopiedCount })
        ("cache/".toList ++ reponame ++ "/final/".toList ++ filename.take lastSlash) with
    | none =>
      exfalso
      rw [hmk] at hok
      have := hok (Event.mkdirAll
        ("cache/".toList ++ reponame ++ "/final/".toList ++ filename.take lastSlash) false)
        (by simp)
      simp [Event.failed] at this
    | some fs1 =>
      rw [hmk] at hok
      dsimp only at hok ⊢
      have hmk' : s.w.fs.mkdirAll (resolve ("cache/".toList ++ reponame ++ "/final/".toList ++
          filename.take lastSlash)) = some fs1 := by
        unfold missMkdir at hmk
        split at hmk
        · simp at hmk
        · exact hmk
      obtain ⟨g1, _, g3⟩ := FS.mkdirAll_some hmk'
      have hsrc' : t.o_tmpfile = false →
          (((s.w.metric fun m => { m with miss_bytes := m.miss_bytes + s.bytesCopiedCount }).setFS
            fs1).log (Event.mkdirAll ("cache/".toList ++ reponame ++ "/final/".toList ++
              filename.take lastSlash) true)).fs.node (resolve f.name)
            = some (Node.file f.ino) := by
        intro h
        exact (g3 _ _).2 (hsrc h)
      obtain ⟨h1, h2, h3, h4⟩ := missFinalize_ok ht hsrc' hok
      refine ⟨?_, h2, h3, ?_⟩
      · rw [h1]
        simp [g1]
      · rw [h4]
        rfl

theorem missHeader_resp (w : World) (cl : GoString) (h : w.resp.status = none) :
    (missHeader w cl).resp.status = some 200 ∧ (missHeader w cl).resp.body = w.resp.body ∧
      (missHeader w cl).resp.aborted = w.resp.aborted ∧ (missHeader w cl).fs = w.fs := by
  unfold missHeader
  split <;> simp [World.writeHeader_status, h]

theorem missCached_ok {env : Env} {w : World} {reponame filename cl : GoString}
    {reads : List ReadResult} {t : TempFile} {f : File}
    (ht : t.temp = some f) (hopen : f.closed = false)
    (hsrc : t.o_tmpfile = false → w.fs.node (resolve f.name) = some (Node.file f.ino))
    (hempty : w.fs.inodes f.ino = [])
    (hstatus : w.resp.status = none)
    (hreads : ∀ r ∈ reads, r.data ≠ [] ∧ r.err ≠ ReadErr.other)
    (hok : ∀ e ∈ (missCached env w reponame filename cl reads t).trace, e.failed = false) :
    (missCached env w reponame filename cl reads t).resp.status = some 200 ∧
      (missCached env w reponame filename cl reads t).resp.body = w.resp.body ++ bodyOf reads ∧
      (missCached env w reponame filename cl reads t).resp.aborted = w.resp.aborted ∧
      (missCached env w reponame filename cl reads t).fs.content t.finalPath
        = some (bodyOf reads) ∧
      (missCached env w reponame filename cl reads t).fs.isDir
        (resolve t.finalPath).dropLast = true := by
  have hext : TraceExt (teeLoop env t.temp reads
      { w := missHeader w cl, abandonCacheFile := false, bytesCopiedCount := 0 }).1.w
      (missCached env w reponame filename cl reads t) := by
    unfold missCached
    dsimp only
    split
    · exact (TraceExt.of_eq (World.abort_trace _)).trans (traceExt_missDeferred env _ _)
    · exact (traceExt_missFinish env _ reponame filename t).trans
        (traceExt_missDeferred env _ _)
  obtain ⟨k1, k2, k3, k4⟩ := missHeader_resp w cl hstatus
  have hloop := teeLoop_ok env f hopen reads hreads
    { w := missHeader w cl, abandonCacheFile := false, bytesCopiedCount := 0 } rfl
    (by
      intro e he
      rw [← ht] at he
      exact hok e (hext.mem he))
  rw [← ht] at hloop
  obtain ⟨l1, l2, l3, l4, l5, l6, l7⟩ := hloop
  have hfin_ext : TraceExt (missFinish env (teeLoop env t.temp reads
      { w := missHeader w cl, abandonCacheFile := false, bytesCopiedCount := 0 }).1
      reponame filename t).1 (missCached env w reponame filename cl reads t) := by
    unfold missCached
    dsimp only
    rw [l1]
    exact traceExt_missDeferred env _ _
  have hsrc' : t.o_tmpfile = false → (teeLoop env t.temp reads
      { w := missHeader w cl, abandonCacheFile := false, bytesCopiedCount := 0 }).1.w.fs.node
        (resolve f.name) = some (Node.file f.ino) := by
    intro h
    have := hsrc h
    unfold FS.node at this ⊢
    rw [l6]
    simpa [k4] using this
  obtain ⟨f1, f2, f3, f4⟩ := @missFinish_ok env _ reponame filename t f l2 ht hsrc'
    (fun e he => hok e (hfin_ext.mem he))
  unfold missCached
  dsimp only
  rw [l1]
  simp only [Bool.not_true, Bool.false_eq_true, if_false]
  rw [missDeferred_of_temp_none env _ _ f3]
  simp only [World.probe_resp, World.log_resp, World.setFS_resp, World.probe_fs, World.log_fs,
    World.setFS_fs]
  rw [f4, f1, l3, l4, l5 200 k1, l7]
  simp [k2, k3, k4, hempty, f2]

/-! ## Facts about paths -/

theorem splitSlash_of_not_mem (s : GoString) (h : '/' ∉ s) : splitSlash s = [s] := by
  induction s with
  | nil => rfl
  | cons c cs ih =>
    have hc : c ≠ '/' := fun he => h (by simp [he])
    have hcs : '/' ∉ cs := fun he => h (List.mem_cons_of_mem _ he)
    unfold splitSlash
    rw [if_neg hc, ih hcs]

/-- The segments of `a/b` are the segments of `a` followed by the segments of `b`. -/
theorem splitSlash_append (a b : GoString) :
    splitSlash (a ++ '/' :: b) = splitSlash a ++ splitSlash b := by
  induction a with
  | nil => simp [splitSlash]
  | cons c cs ih =>
    by_cases hc : c = '/'
    · subst hc
      simp [splitSlash, ih]
    · have h1 : splitSlash (c :: cs ++ '/' :: b)
          = (match splitSlash (cs ++ '/' :: b) with
            | [] => [[c]]
            | seg :: rest => (c :: seg) :: rest) := by
        rw [List.cons_append, splitSlash, if_neg hc]
        try rfl
      have h2 : splitSlash (c :: cs)
          = (match splitSlash cs with
            | [] => [[c]]
            | seg :: rest => (c :: seg) :: rest) := by
        rw [splitSlash, if_neg hc]
        try rfl
      rw [h1, h2, ih]
      cases hs : splitSlash cs with
      | nil =>
        exfalso
        cases cs with
        | nil => simp [splitSlash] at hs
        | cons d ds =>
          unfold splitSlash at hs
          split at hs
          · simp at hs
          · split at hs <;> simp at hs
      | cons seg rest => simp

theorem resolve_eq_iff (p q : GoString) :
    resolve p = resolve q ↔
      (splitSlash p).foldl resolveStep [] = (splitSlash q).foldl resolveStep [] := by
  unfold resolve
  exact List.reverse_inj

/-- A digit of a decimal number is not a slash. -/
theorem digitChar_ne_slash (d : Nat) (h : d < 10) : Nat.digitChar d ≠ '/' := by
  interval_cases d <;> decide

theorem toDigitsCore_no_slash (fuel n : Nat) (ds : List Char) (h : '/' ∉ ds) :
    '/' ∉ Nat.toDigitsCore 10 fuel n ds := by
  induction fuel generalizing n ds with
  | zero => simpa [Nat.toDigitsCore] using h
  | succ k ih =>
    unfold Nat.toDigitsCore
    have hd : '/' ∉ Nat.digitChar (n % 10) :: ds := by
      intro hm
      rcases List.mem_cons.1 hm with h1 | h1
      · exact digitChar_ne_slash (n % 10) (Nat.mod_lt _ (by decide)) h1.symm
      · exact h h1
    dsimp only
    split
    · exact hd
    · exact ih _ _ hd

theorem Itoa_no_slash (n : Nat) : '/' ∉ Itoa n := by
  unfold Itoa Nat.toDigits
  exact toDigitsCore_no_slash _ _ _ (by simp)

theorem joinPath_temp (X pre : GoString) :
    joinPath (X ++ "/temp".toList) pre = (X ++ '/' :: "temp".toList) ++ '/' :: pre ∧
    joinPath (X ++ "/temp/".toList) pre = (X ++ '/' :: "temp".toList) ++ '/' :: pre := by
  constructor
  · have h : strings.HasSuffix (X ++ "/temp".toList) "/".toList = false := by
      rw [Bool.eq_false_iff]
      intro hs
      rw [hasSuffix_iff] at hs
      obtain ⟨t, ht⟩ := hs
      have := congrArg List.getLast? ht
      simp at this
    unfold joinPath
    rw [h]
    simp
  · have h : strings.HasSuffix (X ++ "/temp/".toList) "/".toList = true := by
      rw [hasSuffix_iff]
      exact ⟨X ++ "/temp".toList, by simp⟩
    unfold joinPath
    rw [h]
    simp

/-- The name of a named temp file never resolves to the final path. -/
theorem temp_key_ne_final_key (reponame filename T : GoString) (rnd : Nat) (dir : GoString)
    (hdir : dir = "cache/".toList ++ reponame ++ "/temp".toList ∨
      dir = "cache/".toList ++ reponame ++ "/temp/".toList)
    (hT : '/' ∉ T) (hf : '/' ∉ filename) :
    resolve (joinPath dir (T ++ "_".toList ++ filename ++ ".".toList) ++ Itoa rnd) ≠
      resolve ("cache/".toList ++ reponame ++ "/final/".toList ++ filename) := by
  have hname : joinPath dir (T ++ "_".toList ++ filename ++ ".".toList) ++ Itoa rnd
      = (("cache/".toList ++ reponame) ++ '/' :: "temp".toList) ++
          '/' :: (T ++ '_' :: (filename ++ '.' :: Itoa rnd)) := by
    rcases hdir with h | h
    · rw [h, (joinPath_temp ("cache/".toList ++ reponame) _).1]
      simp
    · rw [h, (joinPath_temp ("cache/".toList ++ reponame) _).2]
      simp
  have hfinal : "cache/".toList ++ reponame ++ "/final/".toList ++ filename
      = (("cache/".toList ++ reponame) ++ '/' :: "final".toList) ++ '/' :: filename := by
    simp
  have hN : '/' ∉ T ++ '_' :: (filename ++ '.' :: Itoa rnd) := by
    have := Itoa_no_slash rnd
    simp only [List.mem_append, List.mem_cons, not_or]
    exact ⟨hT, by decide, hf, by decide, this⟩
  have hU : '_' ∈ T ++ '_' :: (filename ++ '.' :: Itoa rnd) := by simp
  rw [hname, hfinal, Ne, resolve_eq_iff, splitSlash_append, splitSlash_append,
    splitSlash_append, splitSlash_append, splitSlash_of_not_mem _ hN,
    splitSlash_of_not_mem _ hf, splitSlash_of_not_mem "temp".toList (by decide),
    splitSlash_of_not_mem "final".toList (by decide)]
  simp only [List.foldl_append, List.foldl_cons, List.foldl_nil]
  generalize List.foldl resolveStep [] (splitSlash ("cache/".toList ++ reponame)) = A
  generalize T ++ '_' :: (filename ++ '.' :: Itoa rnd) = N at hU
  have h1 : resolveStep A "temp".toList = "temp".toList :: A := by
    unfold resolveStep
    rw [if_neg (by decide), if_neg (by decide)]
  have h2 : resolveStep ("temp".toList :: A) N = N :: "temp".toList :: A := by
    unfold resolveStep
    have n1 : ¬ (N = [] ∨ N = ".".toList) := by
      rintro (h | h) <;> rw [h] at hU <;> simp at hU
    have n2 : ¬ N = "..".toList := by
      intro h; rw [h] at hU; simp at hU
    rw [if_neg n1, if_neg n2]
  have h3 : resolveStep A "final".toList = "final".toList :: A := by
    unfold resolveStep
    rw [if_neg (by decide), if_neg (by decide)]
  have h4 : resolveStep ("final".toList :: A) filename = "final".toList :: A ∨
      resolveStep ("final".toList :: A) filename = A ∨
      resolveStep ("final".toList :: A) filename = filename :: "final".toList :: A := by
    unfold resolveStep
    by_cases c1 : filename = [] ∨ filename = ".".toList
    · left
      rw [if_pos c1]
    · rw [if_neg c1]
      by_cases c2 : filename = "..".toList
      · right
        left
        rw [if_pos c2]
        dsimp only
        rw [if_neg (by decide)]
      · right
        right
        rw [if_neg c2]
  rw [h1, h2, h3]
  intro he
  rcases h4 with h | h | h
  · rw [h] at he
    have := congrArg List.length he
    simp at this
  · rw [h] at he
    have := congrArg List.length he
    simp only [List.length_cons] at this
    omega
  · rw [h] at he
    have := (List.cons.inj (List.cons.inj he).2).1
    revert this
    decide

/-! ## The file system while the body is written -/

theorem SameButInode.same_refl (ino : Nat) (a : FS) : SameButInode ino a a :=
  ⟨rfl, rfl, fun _ _ => rfl⟩

theorem SameButInode.same_trans {ino : Nat} {a b c : FS} (h1 : SameButInode ino a b)
    (h2 : SameButInode ino b c) : SameButInode ino a c :=
  ⟨h2.1.trans h1.1, h2.2.1.trans h1.2.1, fun j hj => (h2.2.2 j hj).trans (h1.2.2 j hj)⟩

theorem SameButInode.append (ino : Nat) (a : FS) (d : GoString) :
    SameButInode ino a (a.append ino d) :=
  ⟨rfl, rfl, fun j hj => by simp [FS.append, hj]⟩

theorem HistExt.hist_of_eq {P : FS → Prop} {a b : World} (h : b.hist = a.hist) : HistExt P a b :=
  ⟨[], by simp [h], by simp⟩

theorem HistExt.hist_step {P : FS → Prop} {a b : World} (s : FS) (h : b.hist = a.hist ++ [s])
    (hs : P s) : HistExt P a b :=
  ⟨[s], h, by simpa using hs⟩

theorem HistExt.hist_trans {P : FS → Prop} {a b c : World} (h1 : HistExt P a b)
    (h2 : HistExt P b c) : HistExt P a c := by
  obtain ⟨e1, g1, q1⟩ := h1
  obtain ⟨e2, g2, q2⟩ := h2
  refine ⟨e1 ++ e2, by rw [g2, g1, List.append_assoc], ?_⟩
  intro s hs
  rcases List.mem_append.1 hs with h | h
  · exact q1 s h
  · exact q2 s h

theorem HistExt.mono {P Q : FS → Prop} {a b : World} (h : HistExt P a b)
    (hpq : ∀ s, P s → Q s) : HistExt Q a b := by
  obtain ⟨e, g, q⟩ := h
  exact ⟨e, g, fun s hs => hpq s (q s hs)⟩

theorem HistExt.hist_mem {P : FS → Prop} {a b : World} (h : HistExt P a b) {s : FS}
    (hs : s ∈ b.hist) : s ∈ a.hist ∨ P s := by
  obtain ⟨e, g, q⟩ := h
  rw [g] at hs
  rcases List.mem_append.1 hs with h1 | h1
  · exact Or.inl h1
  · exact Or.inr (q s h1)

theorem TempPhase.phase_of_eq {ino : Nat} {a b : World} (hh : b.hist = a.hist) (hf : b.fs = a.fs) :
    TempPhase ino a b :=
  ⟨HistExt.hist_of_eq hh, by rw [hf]; exact SameButInode.same_refl ino a.fs⟩

theorem TempPhase.phase_refl (ino : Nat) (a : World) : TempPhase ino a a := TempPhase.phase_of_eq rfl rfl

theorem TempPhase.phase_trans {ino : Nat} {a b c : World} (h1 : TempPhase ino a b)
    (h2 : TempPhase ino b c) : TempPhase ino a c :=
  ⟨h1.1.hist_trans (h2.1.mono fun _ hs => h1.2.same_trans hs), h1.2.same_trans h2.2⟩

theorem tempPhase_write (env : Env) (ino : Nat) (w : World) (d : GoString) :
    TempPhase ino w (w.write env d).1 :=
  TempPhase.phase_of_eq (World.write_hist env w d) (World.write_fs env w d)

theorem tempPhase_tempWrite (env : Env) (f : Option File) (ino : Nat)
    (hf : ∀ file, f = some file → file.ino = ino) (w : World) (d : GoString) :
    TempPhase ino w (tempWrite env f w d).1 := by
  unfold tempWrite
  cases f with
  | none => exact TempPhase.phase_of_eq rfl rfl
  | some file =>
    have hino := hf file rfl
    have hs : SameButInode ino w.fs
        (File.Write (env.tempWrite w.tempWrites) w.fs file d).1 := by
      unfold File.Write
      split
      · exact SameButInode.same_refl ino w.fs
      · rw [hino]
        exact SameButInode.append ino w.fs _
    exact ⟨HistExt.hist_step _ rfl hs, hs⟩

theorem tempPhase_ioCopy (env : Env) (f : Option File) (ino : Nat)
    (hf : ∀ file, f = some file → file.ino = ino) (reads : List ReadResult) (w : World)
    (n : Nat) : TempPhase ino w (ioCopy (tempWrite env f) reads w n).1 := by
  induction reads generalizing w n with
  | nil => exact TempPhase.phase_refl ino w
  | cons r rs ih =>
    have hx : TempPhase ino w
        (if r.data.isEmpty = true then (w, 0, true) else tempWrite env f w r.data).1 := by
      split
      · exact TempPhase.phase_refl ino w
      · exact tempPhase_tempWrite env f ino hf w r.data
    unfold ioCopy
    dsimp only
    generalize (if r.data.isEmpty = true then (w, 0, true) else tempWrite env f w r.data) = x
      at hx ⊢
    split
    · exact hx
    · split
      · exact hx.phase_trans (ih _ _)
      · exact hx
      · exact hx

theorem tempPhase_teeLoop (env : Env) (f : Option File) (ino : Nat)
    (hf : ∀ file, f = some file → file.ino = ino) (reads : List ReadResult) (s : TeeState) :
    TempPhase ino s.w (teeLoop env f reads s).1.w := by
  induction reads generalizing s with
  | nil => exact TempPhase.phase_refl ino _
  | cons r rs ih =>
    unfold teeLoop
    split
    · exact TempPhase.phase_of_eq rfl rfl
    · split
      · exact TempPhase.phase_refl ino _
      · split
        · exact (tempPhase_write env ino _ _).phase_trans (TempPhase.phase_of_eq rfl rfl)
        · split
          · exact (tempPhase_write env ino _ _).phase_trans (ih _)
          · split
            · exact ((tempPhase_write env ino _ _).phase_trans
                (tempPhase_tempWrite env f ino hf _ _)).phase_trans (ih _)
            · exact (((tempPhase_write env ino _ _).phase_trans
                (tempPhase_tempWrite env f ino hf _ _)).phase_trans
                (TempPhase.phase_of_eq rfl rfl)).phase_trans (ih _)

theorem teeLoop_sticky (env : Env) (f : Option File) (reads : List ReadResult) (s : TeeState)
    (hs : s.abandonCacheFile = true) : (teeLoop env f reads s).1.abandonCacheFile = true := by
  induction reads generalizing s with
  | nil => exact hs
  | cons r rs ih =>
    unfold teeLoop
    split
    · exact hs
    · split
      · exact hs
      · split
        · exact hs
        · exact ih _ rfl

theorem properReads_tail {r : ReadResult} {rs : List ReadResult} (h : ProperReads (r :: rs)) :
    ProperReads rs := by
  intro x hx
  apply h x
  cases rs with
  | nil => simp at hx
  | cons a l =>
    rw [List.dropLast_cons₂]
    exact List.mem_cons_of_mem _ hx

theorem properReads_head {r : ReadResult} {rs : List ReadResult} (h : ProperReads (r :: rs))
    (hne : rs ≠ []) : r.data ≠ [] ∧ r.err = ReadErr.none := by
  apply h r
  cases rs with
  | nil => exact absurd rfl hne
  | cons a l =>
    rw [List.dropLast_cons₂]
    exact List.mem_cons_self _ _

theorem bodyOf_cons (r : ReadResult) (rs : List ReadResult) :
    bodyOf (r :: rs) = r.data ++ bodyOf rs := by
  simp [bodyOf]

/-- When the tee loop ends at `break` without having abandoned the cache file, the
inode of the temp file has received the whole body. -/
theorem teeLoop_complete (env : Env) (file : File) (hopen : file.closed = false)
    (reads : List ReadResult) (hp : ProperReads reads) (s : TeeState)
    (hn : (teeLoop env (some file) reads s).2 = true)
    (ha : (teeLoop env (some file) reads s).1.abandonCacheFile = false) :
    (teeLoop env (some file) reads s).1.w.fs.inodes file.ino
      = s.w.fs.inodes file.ino ++ bodyOf reads := by
  induction reads generalizing s with
  | nil => simp [teeLoop, bodyOf]
  | cons r rs ih =>
    have hs : s.abandonCacheFile = false := by
      by_contra hc
      have := teeLoop_sticky env (some file) (r :: rs) s (by simpa using hc)
      rw [this] at ha
      simp at ha
    unfold teeLoop at hn ha ⊢
    by_cases he : r.err = ReadErr.other
    · simp [he] at hn
    · simp only [he, if_false] at hn ha ⊢
      by_cases hl : r.data.length = 0
      · simp only [hl, if_true]
        have hd : r.data = [] := List.length_eq_zero.1 hl
        have hrs : rs = [] := by
          by_contra hne
          exact (properReads_head hp hne).1 hd
        rw [hrs, bodyOf_cons, hd]
        simp [bodyOf]
      · simp only [hl, if_false] at hn ha ⊢
        by_cases hw : (s.w.write env r.data).2.2 = true
        · simp only [hw, Bool.not_true, Bool.false_eq_true, if_false, hs] at hn ha ⊢
          by_cases ht : (tempWrite env (some file) (s.w.write env r.data).1 r.data).2.2 = true
          · simp only [ht, if_true] at hn ha ⊢
            rw [ih (properReads_tail hp) _ hn ha]
            simp only
            rw [tempWrite_ok hopen ht, FS.append_inodes_self, World.write_fs, bodyOf_cons,
              List.append_assoc]
          · exfalso
            simp only [ht, if_false, Bool.false_eq_true] at ha
            have := teeLoop_sticky env (some file) rs
              { w := (tempWrite env (some file) (s.w.write env r.data).1 r.data).1.incError,
                abandonCacheFile := true,
                bytesCopiedCount := s.bytesCopiedCount + r.data.length } rfl
            rw [this] at ha
            simp at ha
        · simp [hw] at hn

/-- When `io.Copy` to the temp file returns no error, the inode of the temp file has
received the whole body. -/
theorem ioCopy_complete (env : Env) (file : File) (hopen : file.closed = false)
    (reads : List ReadResult) (hp : ProperReads reads) (w : World) (n : Nat)
    (hn : (ioCopy (tempWrite env (some file)) reads w n).2.2 = true) :
    (ioCopy (tempWrite env (some file)) reads w n).1.fs.inodes file.ino
      = w.fs.inodes file.ino ++ bodyOf reads := by
  induction reads generalizing w n with
  | nil => simp [ioCopy, bodyOf]
  | cons r rs ih =>
    unfold ioCopy at hn ⊢
    dsimp only at hn ⊢
    by_cases hd : r.data.isEmpty = true
    · have hd' : r.data = [] := List.isEmpty_iff.1 hd
      have hrs : rs = [] := by
        by_contra hne
        exact (properReads_head hp hne).1 hd'
      subst hrs
      simp only [hd, if_true, Bool.not_true, Bool.false_eq_true, if_false] at hn ⊢
      cases hr : r.err <;> simp [hr, ioCopy, bodyOf, hd']
    · simp only [hd, if_false, Bool.false_eq_true] at hn ⊢
      by_cases ht : (tempWrite env (some file) w r.data).2.2 = true
      · simp only [ht, Bool.not_true, Bool.false_eq_true, if_false] at hn ⊢
        have hfs : (tempWrite env (some file) w r.data).1.fs.inodes file.ino
            = w.fs.inodes file.ino ++ r.data := by
          rw [tempWrite_ok hopen ht, FS.append_inodes_self]
        cases hr : r.err with
        | none =>
          rw [hr] at hn
          dsimp only at hn ⊢
          rw [ih (properReads_tail hp) _ _ hn, hfs, bodyOf_cons, List.append_assoc]
        | eof =>
          dsimp only
          have hrs : rs = [] := by
            by_contra hne
            have := (properReads_head hp hne).2
            rw [hr] at this
            simp at this
          rw [hfs, hrs, bodyOf_cons]
          simp [bodyOf]
        | other =>
          rw [hr] at hn
          simp at hn
      · simp [ht] at hn

/-! ## What a reader sees at the final path -/

theorem FS.node_file_lt {fs : FS} (hwf : fs.WellFormed) {k : Key} {i : Nat}
    (h : fs.node k = some (Node.file i)) : i < fs.next := by
  unfold FS.node at h
  split at h
  · simp at h
  · exact hwf k i h

theorem FS.node_congr {a b : FS} (h : b.names = a.names) (k : Key) : b.node k = a.node k := by
  unfold FS.node
  rw [h]

/-- Writes to the inode `ino` are not seen at a path that does not link to `ino`. -/
theorem content_of_same {ino : Nat} {a b : FS} {p : GoString} (h : SameButInode ino a b)
    (hne : ∀ i, a.node (resolve p) = some (Node.file i) → i ≠ ino) :
    b.content p = a.content p := by
  unfold FS.content
  rw [FS.node_congr h.1]
  cases hn : a.node (resolve p) with
  | none => rfl
  | some n =>
    cases n with
    | dir => rfl
    | file i => simp only; rw [h.2.2 i (hne i hn)]

theorem FS.remove_some {fs fs1 : FS} {k : Key} (h : fs.remove k = some fs1) :
    fs1.inodes = fs.inodes ∧ ∀ q, q ≠ k → fs1.node q = fs.node q := by
  unfold FS.remove at h
  split at h
  · simp only [Option.some.injEq] at h
    subst h
    refine ⟨rfl, ?_⟩
    intro q hq
    simp [FS.node, hq]
  · simp at h

theorem FS.content_of_node_eq {a b : FS} {p : GoString} (hi : b.inodes = a.inodes)
    (hn : b.node (resolve p) = a.node (resolve p)) : b.content p = a.content p := by
  unfold FS.content
  rw [hn, hi]

/-- The method `Cleanup` does not change what a reader sees at a path other than the
name of the temp file. -/
theorem Cleanup_content (cf : CleanupFaults) (fs : FS) (t : TempFile) (p : GoString)
    (hne : ∀ f, t.temp = some f → t.o_tmpfile = false → resolve f.name ≠ resolve p) :
    (t.Cleanup cf fs).2.1.content p = fs.content p := by
  unfold TempFile.Cleanup
  split
  · rfl
  · cases ht : t.temp with
    | none => rfl
    | some f =>
      dsimp only
      cases ho : t.o_tmpfile with
      | true => simp
      | false =>
        simp only [Bool.not_false, if_true]
        cases hr : (if cf.remove = true ∨ fs.walkable f.name = false then none else fs.remove (resolve f.name)) with
        | none => rfl
        | some fs1 =>
          have hr' : fs.remove (resolve f.name) = some fs1 := by
            split at hr
            · simp at hr
            · exact hr
          obtain ⟨h1, h2⟩ := FS.remove_some hr'
          exact FS.content_of_node_eq h1 (h2 _ (fun h => hne f ht ho h.symm))

/-- The method `Finalize` either gives the final path the inode of the temp file, so
that the final path holds the content of that inode, or leaves the file system as
it is; in the second case the file of the handle, if it is still there, has kept
its name. -/
theorem Finalize_cases (ff : FinalizeFaults) (fs : FS) (t : TempFile) (f : File)
    (ht : t.temp = some f)
    (hsrc : t.o_tmpfile = false → fs.node (resolve f.name) = some (Node.file f.ino)) :
    ((t.Finalize ff fs).2.1.content t.finalPath = some (fs.inodes f.ino) ∧
      (t.Finalize ff fs).1.temp = none) ∨
    ((t.Finalize ff fs).2.2 ≠ GoResult.ok ∧ (t.Finalize ff fs).2.1 = fs ∧
      (t.Finalize ff fs).1.o_tmpfile = t.o_tmpfile ∧
      ∀ g, (t.Finalize ff fs).1.temp = some g → g.name = f.name) := by
  unfold TempFile.Finalize
  rw [ht]
  cases ho : t.o_tmpfile with
  | false =>
    have hs := hsrc ho
    simp only [Bool.not_false, if_true]
    have hname : (File.Close ff.close f).1.name = f.name := by
      unfold File.Close
      split <;> rfl
    by_cases hc : (File.Close ff.close f).2 = true
    · right
      simp only [hc, if_true]
      refine ⟨by simp, trivial, trivial, ?_⟩
      intro g hg
      simp only [Option.some.injEq] at hg
      rw [← hg, hname]
    · simp only [hc, Bool.false_eq_true, if_false, hname]
      cases hr : (if ff.rename = true ∨ fs.walkable f.name = false ∨
            fs.walkable t.finalPath = false then none
          else fs.rename (resolve f.name) (resolve t.finalPath)) with
      | none =>
        right
        refine ⟨by simp, rfl, rfl, ?_⟩
        intro g hg
        simp only [Option.some.injEq] at hg
        rw [← hg, hname]
      | some fs1 =>
        left
        have hr' : fs.rename (resolve f.name) (resolve t.finalPath) = some fs1 := by
          split at hr
          · simp at hr
          · exact hr
        obtain ⟨i, h1, h2, h3, _⟩ := FS.rename_some hr'
        rw [hs] at h1
        simp only [Option.some.injEq, Node.file.injEq] at h1
        subst h1
        refine ⟨?_, rfl⟩
        simp only [FS.content, h2, h3]
  | true =>
    simp only [Bool.not_true, Bool.false_eq_true, if_false]
    cases hr : (if ff.link = true ∨ f.closed = true ∨ fs.walkable t.finalPath = false then none
        else fs.link f.ino (resolve t.finalPath)) with
    | none =>
      right
      exact ⟨by simp, rfl, rfl, fun g hg => by simp at hg⟩
    | some fs1 =>
      left
      have hr' : fs.link f.ino (resolve t.finalPath) = some fs1 := by
        split at hr
        · simp at hr
        · exact hr
      obtain ⟨_, _, h2, h3, _⟩ := FS.link_some hr'
      refine ⟨?_, rfl⟩
      simp only [FS.content, h2, h3]

/-- The method `Finalize` does not fault on a handle whose file is there. -/
theorem Finalize_no_panic (ff : FinalizeFaults) (fs : FS) (t : TempFile) (f : File)
    (ht : t.temp = some f) : (t.Finalize ff fs).2.2 ≠ GoResult.nilPanic := by
  unfold TempFile.Finalize
  rw [ht]
  cases t.o_tmpfile with
  | false =>
    simp only [Bool.not_false, if_true]
    split
    · simp
    · split <;> simp
  | true =>
    simp only [Bool.not_true, Bool.false_eq_true, if_false]
    split
    · split <;> simp
    · simp

/-! ## The final path during a download -/

/-- After `NewTempFile` a reader sees at `p` what it saw before, and `p` does not link
to the inode of the temp file, when `p` is not the name of the temp file. -/
theorem NewTempFile_frame {te : TempEnv} {fs fsT : FS} {dir filename finalPath : GoString}
    {t : TempFile} (hwf : fs.WellFormed)
    (h : NewTempFile te fs dir filename finalPath = some (t, fsT)) (p : GoString)
    (hne : ∀ f, t.temp = some f → t.o_tmpfile = false → resolve f.name ≠ resolve p) :
    fsT.content p = fs.content p ∧
      ∀ f, t.temp = some f → ∀ i, fsT.node (resolve p) = some (Node.file i) → i ≠ f.ino := by
  obtain ⟨_, _, f, n3, _, n5, _, n7, _, n9⟩ := NewTempFile_some h
  have hnode : fsT.node (resolve p) = fs.node (resolve p) := by
    rcases n9 with ⟨_, h2⟩ | ⟨h1, _, _, _, h5, _⟩
    · exact FS.node_congr h2 _
    · exact h5 _ (fun he => hne f n3 h1 he.symm)
  have hlt : ∀ i, fs.node (resolve p) = some (Node.file i) → i ≠ f.ino := by
    intro i hi
    have := FS.node_file_lt hwf hi
    omega
  constructor
  · unfold FS.content
    rw [hnode]
    cases hn : fs.node (resolve p) with
    | none => rfl
    | some n =>
      cases n with
      | dir => rfl
      | file i => simp only; rw [n7 i (hlt i hn)]
  · intro g hg i hi
    rw [n3] at hg
    simp only [Option.some.injEq] at hg
    subst hg
    rw [hnode] at hi
    exact hlt i hi

/-- The name of the temp file that `NewTempFile` makes in `cache/<repo>/temp` does not
resolve to `cache/<repo>/final/<filename>`. -/
theorem tempfile_not_final {te : TempEnv} {fs fsT : FS} {dir reponame filename : GoString}
    {t : TempFile}
    (hdir : dir = "cache/".toList ++ reponame ++ "/temp".toList ∨
      dir = "cache/".toList ++ reponame ++ "/temp/".toList)
    (h : NewTempFile te fs dir filename
      ("cache/".toList ++ reponame ++ "/final/".toList ++ filename) = some (t, fsT)) :
    ∀ f, t.temp = some f → t.o_tmpfile = false →
      resolve f.name ≠ resolve ("cache/".toList ++ reponame ++ "/final/".toList ++ filename) := by
  intro g hg ho
  obtain ⟨_, _, f, n3, _, _, _, _, _, n9⟩ := NewTempFile_some h
  rw [n3] at hg
  simp only [Option.some.injEq] at hg
  subst hg
  rcases n9 with ⟨h1, _⟩ | ⟨_, _, _, _, _, h6, h7, h8⟩
  · rw [ho] at h1
    simp at h1
  · rw [h8]
    exact temp_key_ne_final_key reponame filename te.timePrefix te.random dir hdir h6 h7

theorem teeLoop_clean (env : Env) (f : Option File) (reads : List ReadResult) (s : TeeState)
    (hn : (teeLoop env f reads s).2 = true)
    (ha : (teeLoop env f reads s).1.abandonCacheFile = false) :
    (teeLoop env f reads s).1.w.resp.aborted = s.w.resp.aborted ∧
      ∀ d, Event.tempWrite d false ∈ (teeLoop env f reads s).1.w.trace →
        Event.tempWrite d false ∈ s.w.trace := by
  induction reads generalizing s with
  | nil => exact ⟨rfl, fun _ h => h⟩
  | cons r rs ih =>
    have hs : s.abandonCacheFile = false := by
      by_contra hc
      have := teeLoop_sticky env f (r :: rs) s (by simpa using hc)
      rw [this] at ha
      simp at ha
    unfold teeLoop at hn ha ⊢
    by_cases he : r.err = ReadErr.other
    · simp [he] at hn
    · simp only [he, if_false] at hn ha ⊢
      by_cases hl : r.data.length = 0
      · rw [if_pos hl]
        exact ⟨rfl, fun _ h => h⟩
      · simp only [hl, if_false] at hn ha ⊢
        by_cases hw : (s.w.write env r.data).2.2 = true
        · simp only [hw, Bool.not_true, Bool.false_eq_true, if_false, hs] at hn ha ⊢
          by_cases ht : (tempWrite env f (s.w.write env r.data).1 r.data).2.2 = true
          · simp only [ht, if_true] at hn ha ⊢
            obtain ⟨h1, h2⟩ := ih _ hn ha
            refine ⟨?_, ?_⟩
            · rw [h1]
              simp [tempWrite_resp]
            · intro d hd
              have := h2 d hd
              simp only [tempWrite_trace, ht, World.write_trace, List.mem_append,
                List.mem_singleton] at this
              rcases this with (h | h) | h
              · exact h
              · simp at h
              · simp at h
          · exfalso
            simp only [ht, if_false, Bool.false_eq_true] at ha
            have := teeLoop_sticky env f rs
              { w := (tempWrite env f (s.w.write env r.data).1 r.data).1.incError,
                abandonCacheFile := true,
                bytesCopiedCount := s.bytesCopiedCount + r.data.length } rfl
            rw [this] at ha
            simp at ha
        · simp [hw] at hn

theorem missDeferred_trace (env : Env) (w : World) (t : TempFile) :
    (missDeferred env w t).trace
      = w.trace ++ [Event.cleanup (!(t.Cleanup env.cleanupFaults w.fs).2.2), Event.statfs] := by
  unfold missDeferred
  dsimp only
  split <;> simp

theorem missDeferred_resp (env : Env) (w : World) (t : TempFile) :
    (missDeferred env w t).resp = w.resp := by
  unfold missDeferred
  dsimp only
  split <;> simp

theorem missDeferred_hist (env : Env) (w : World) (t : TempFile) :
    (missDeferred env w t).hist = w.hist ++ [(t.Cleanup env.cleanupFaults w.fs).2.1] := by
  unfold missDeferred
  dsimp only
  split <;> simp

/-- The deferred `Cleanup` of `handleMiss` leaves what a reader sees at the final path,
aborts nothing and writes nothing to the temp file. -/
theorem missDeferred_inv (env : Env) (w : World) (t : TempFile) (p : GoString)
    (hne : ∀ f, t.temp = some f → t.o_tmpfile = false → resolve f.name ≠ resolve p) :
    HistExt (fun s => s.content p = w.fs.content p) w (missDeferred env w t) ∧
      (missDeferred env w t).resp = w.resp ∧
      ∀ d ok, Event.tempWrite d ok ∈ (missDeferred env w t).trace →
        Event.tempWrite d ok ∈ w.trace := by
  refine ⟨HistExt.hist_step _ (missDeferred_hist env w t)
    (Cleanup_content env.cleanupFaults w.fs t p hne), missDeferred_resp env w t, ?_⟩
  intro d ok h
  rw [missDeferred_trace] at h
  simpa using h

theorem missFinalize_trace (env : Env) (w : World) (t : TempFile) :
    (missFinalize env w t).1.trace
      = w.trace ++ [Event.finalize t.finalPath (t.Finalize env.finalizeFaults w.fs).2.2] := by
  unfold missFinalize
  dsimp only
  split <;> simp

theorem missFinalize_hist (env : Env) (w : World) (t : TempFile) :
    (missFinalize env w t).1.hist = w.hist ++ [(t.Finalize env.finalizeFaults w.fs).2.1] := by
  unfold missFinalize
  dsimp only
  split <;> simp

theorem missFinalize_fs (env : Env) (w : World) (t : TempFile) :
    (missFinalize env w t).1.fs = (t.Finalize env.finalizeFaults w.fs).2.1 := by
  unfold missFinalize
  dsimp only
  split <;> simp

theorem missFinalize_snd (env : Env) (w : World) (t : TempFile) :
    (missFinalize env w t).2 = (t.Finalize env.finalizeFaults w.fs).1 := by
  unfold missFinalize
  dsimp only
  split <;> rfl

theorem missFinalize_aborted (env : Env) (w : World) (t : TempFile)
    (h : (t.Finalize env.finalizeFaults w.fs).2.2 ≠ GoResult.nilPanic) :
    (missFinalize env w t).1.resp.aborted = w.resp.aborted := by
  unfold missFinalize
  dsimp only
  split
  · simp
  · simp
  · rename_i hr
    exact absurd hr h

/-- The finalisation of `handleMiss` followed by the deferred `Cleanup`: a reader sees at
the final path what it saw before, or the whole content of the temp file. -/
theorem missFinalizeDeferred_inv (env : Env) (w : World) (t : TempFile) (f : File)
    (ht : t.temp = some f)
    (hsrc : t.o_tmpfile = false → w.fs.node (resolve f.name) = some (Node.file f.ino))
    (hne : t.o_tmpfile = false → resolve f.name ≠ resolve t.finalPath) :
    HistExt (fun s => s.content t.finalPath = w.fs.content t.finalPath ∨
        s.content t.finalPath = some (w.fs.inodes f.ino)) w
      (missDeferred env (missFinalize env w t).1 (missFinalize env w t).2) ∧
    (missDeferred env (missFinalize env w t).1 (missFinalize env w t).2).resp.aborted
      = w.resp.aborted ∧
    ∀ d ok, Event.tempWrite d ok ∈
        (missDeferred env (missFinalize env w t).1 (missFinalize env w t).2).trace →
      Event.tempWrite d ok ∈ w.trace := by
  have hnp := Finalize_no_panic env.finalizeFaults w.fs t f ht
  have hne' : ∀ g, (missFinalize env w t).2.temp = some g →
      (missFinalize env w t).2.o_tmpfile = false → resolve g.name ≠ resolve t.finalPath := by
    intro g hg ho
    rw [missFinalize_snd] at hg ho
    rcases Finalize_cases env.finalizeFaults w.fs t f ht hsrc with ⟨_, h2⟩ | ⟨_, _, h3, h4⟩
    · rw [h2] at hg
      simp at hg
    · rw [h4 g hg]
      exact hne (h3 ▸ ho)
  obtain ⟨d1, d2, d3⟩ := missDeferred_inv env (missFinalize env w t).1 (missFinalize env w t).2
    t.finalPath hne'
  have hstate : (t.Finalize env.finalizeFaults w.fs).2.1.content t.finalPath
        = w.fs.content t.finalPath ∨
      (t.Finalize env.finalizeFaults w.fs).2.1.content t.finalPath
        = some (w.fs.inodes f.ino) := by
    rcases Finalize_cases env.finalizeFaults w.fs t f ht hsrc with ⟨h1, _⟩ | ⟨_, h2, _⟩
    · exact Or.inr h1
    · rw [h2]
      exact Or.inl rfl
  refine ⟨?_, ?_, ?_⟩
  · refine HistExt.hist_trans (HistExt.hist_step _ (missFinalize_hist env w t) hstate) ?_
    refine d1.mono ?_
    intro s hs
    rw [missFinalize_fs] at hs
    rw [hs]
    exact hstate
  · rw [d2, missFinalize_aborted env w t hnp]
  · intro d ok h
    have := d3 d ok h
    rw [missFinalize_trace] at this
    simpa using this

theorem missHeader_fs (w : World) (cl : GoString) : (missHeader w cl).fs = w.fs := by
  unfold missHeader
  split <;> simp

theorem missHeader_hist (w : World) (cl : GoString) : (missHeader w cl).hist = w.hist := by
  unfold missHeader
  split <;> simp

theorem missHeader_trace (w : World) (cl : GoString) : (missHeader w cl).trace = w.trace := by
  unfold missHeader
  split <;> simp

theorem missHeader_aborted (w : World) (cl : GoString) :
    (missHeader w cl).resp.aborted = w.resp.aborted := by
  unfold missHeader
  split <;> simp

/-- The deferred `Cleanup` after a phase in which the final path was not touched. -/
theorem untouched_then_deferred (env : Env) {w : World} (a : World) (t : TempFile)
    {p : GoString}
    (hQ : HistExt (fun s => s.content p = w.fs.content p) w a)
    (hfs : a.fs.content p = w.fs.content p)
    (hne : ∀ f, t.temp = some f → t.o_tmpfile = false → resolve f.name ≠ resolve p) :
    HistExt (fun s => s.content p = w.fs.content p) w (missDeferred env a t) := by
  refine hQ.hist_trans ((missDeferred_inv env a t p hne).1.mono ?_)
  intro s hs
  rw [hs, hfs]

/-- The tee part of `handleMiss`: in every state a reader sees at the final path what it
saw before the download or the whole body; and either the final path is never
touched, or the response was not aborted and no write to the temp file failed. -/
theorem missCached_inv (env : Env) (w : World) (reponame filename cl : GoString)
    (reads : List ReadResult) (t : TempFile) (f : File)
    (ht : t.temp = some f) (hopen : f.closed = false)
    (hsrc : t.o_tmpfile = false → w.fs.node (resolve f.name) = some (Node.file f.ino))
    (hempty : w.fs.inodes f.ino = [])
    (hfin : ∀ i, w.fs.node (resolve t.finalPath) = some (Node.file i) → i ≠ f.ino)
    (hne : t.o_tmpfile = false → resolve f.name ≠ resolve t.finalPath)
    (hp : ProperReads reads) :
    HistExt (fun s => s.content t.finalPath = w.fs.content t.finalPath ∨
        s.content t.finalPath = some (bodyOf reads)) w
      (missCached env w reponame filename cl reads t) ∧
    (HistExt (fun s => s.content t.finalPath = w.fs.content t.finalPath) w
        (missCached env w reponame filename cl reads t) ∨
      ((missCached env w reponame filename cl reads t).resp.aborted = w.resp.aborted ∧
        ∀ d, Event.tempWrite d false ∈ (missCached env w reponame filename cl reads t).trace →
          Event.tempWrite d false ∈ w.trace)) := by
  have hneT : ∀ g, t.temp = some g → t.o_tmpfile = false →
      resolve g.name ≠ resolve t.finalPath := by
    intro g hg ho
    rw [ht] at hg
    simp only [Option.some.injEq] at hg
    rw [← hg]
    exact hne ho
  have TP := tempPhase_teeLoop env (some f) f.ino (fun file h => by
    simp only [Option.some.injEq] at h
    rw [h]) reads
    { w := missHeader w cl, abandonCacheFile := false, bytesCopiedCount := 0 }
  generalize hL : teeLoop env (some f) reads
    { w := missHeader w cl, abandonCacheFile := false, bytesCopiedCount := 0 } = L at TP
  have hsame : SameButInode f.ino w.fs L.1.w.fs := by
    have := TP.2
    simpa [missHeader_fs] using this
  have hfsL : L.1.w.fs.content t.finalPath = w.fs.content t.finalPath :=
    content_of_same hsame hfin
  have hQL : HistExt (fun s => s.content t.finalPath = w.fs.content t.finalPath) w L.1.w := by
    obtain ⟨ext, h1, h2⟩ := TP.1
    refine ⟨ext, by simpa [missHeader_hist] using h1, ?_⟩
    intro s hs
    have := h2 s hs
    simp only [missHeader_fs] at this
    exact content_of_same this hfin
  have hsrcL : t.o_tmpfile = false →
      L.1.w.fs.node (resolve f.name) = some (Node.file f.ino) := by
    intro ho
    rw [FS.node_congr hsame.1]
    exact hsrc ho
  have hweak : ∀ {b : World},
      HistExt (fun s => s.content t.finalPath = w.fs.content t.finalPath) w b →
      HistExt (fun s => s.content t.finalPath = w.fs.content t.finalPath ∨
        s.content t.finalPath = some (bodyOf reads)) w b :=
    fun h => h.mono fun _ hs => Or.inl hs
  unfold missCached
  dsimp only
  rw [ht, hL]
  by_cases hL2 : L.2 = true
  swap
  · -- the loop ended in a panic
    simp only [hL2, Bool.not_false, if_true]
    have h := untouched_then_deferred env L.1.w.abort t
      (hQL.hist_trans (HistExt.hist_of_eq rfl)) hfsL hneT
    exact ⟨hweak h, Or.inl h⟩
  simp only [hL2, Bool.not_true, Bool.false_eq_true, if_false]
  by_cases hab : L.1.abandonCacheFile = true
  · -- the cache file was abandoned
    have hfin' : missFinish env L.1 reponame filename t
        = (L.1.w.metric fun m => { m with miss_bytes := m.miss_bytes + L.1.bytesCopiedCount },
            t) := by
      unfold missFinish
      simp [hab]
    rw [hfin']
    have h := untouched_then_deferred env
      (L.1.w.metric fun m => { m with miss_bytes := m.miss_bytes + L.1.bytesCopiedCount })
      t (hQL.hist_trans (HistExt.hist_of_eq rfl)) hfsL hneT
    exact ⟨hweak h, Or.inl h⟩
  -- the loop ended at `break` with the cache file complete
  have hab' : L.1.abandonCacheFile = false := by simpa using hab
  have hcomplete : L.1.w.fs.inodes f.ino = bodyOf reads := by
    have := teeLoop_complete env f hopen reads hp
      { w := missHeader w cl, abandonCacheFile := false, bytesCopiedCount := 0 }
      (by rw [hL]; exact hL2) (by rw [hL]; exact hab')
    rw [hL] at this
    rw [this]
    simp [missHeader_fs, hempty]
  have hclean := teeLoop_clean env (some f) reads
    { w := missHeader w cl, abandonCacheFile := false, bytesCopiedCount := 0 }
    (by rw [hL]; exact hL2) (by rw [hL]; exact hab')
  rw [hL] at hclean
  simp only [missHeader_aborted, missHeader_trace] at hclean
  -- the finalisation on a state `b` reached without touching the final path
  have hfinal : ∀ b : World,
      HistExt (fun s => s.content t.finalPath = w.fs.content t.finalPath) w b →
      b.fs.content t.finalPath = w.fs.content t.finalPath →
      b.fs.inodes f.ino = bodyOf reads →
      (t.o_tmpfile = false → b.fs.node (resolve f.name) = some (Node.file f.ino)) →
      b.resp.aborted = w.resp.aborted →
      (∀ d, Event.tempWrite d false ∈ b.trace → Event.tempWrite d false ∈ w.trace) →
      HistExt (fun s => s.content t.finalPath = w.fs.content t.finalPath ∨
          s.content t.finalPath = some (bodyOf reads)) w
        (missDeferred env (missFinalize env b t).1 (missFinalize env b t).2) ∧
      (HistExt (fun s => s.content t.finalPath = w.fs.content t.finalPath) w
          (missDeferred env (missFinalize env b t).1 (missFinalize env b t).2) ∨
        ((missDeferred env (missFinalize env b t).1 (missFinalize env b t).2).resp.aborted
            = w.resp.aborted ∧
          ∀ d, Event.tempWrite d false ∈
              (missDeferred env (missFinalize env b t).1 (missFinalize env b t).2).trace →
            Event.tempWrite d false ∈ w.trace)) := by
    intro b hb1 hb2 hb3 hb4 hb5 hb6
    obtain ⟨g1, g2, g3⟩ := missFinalizeDeferred_inv env b t f ht hb4 hne
    refine ⟨(hweak hb1).hist_trans (g1.mono ?_), Or.inr ⟨by rw [g2, hb5], ?_⟩⟩
    · intro s hs
      rw [hb2, hb3] at hs
      exact hs
    · intro d hd
      exact hb6 d (g3 d false hd)
  unfold missFinish
  simp only [hab', Bool.false_eq_true, if_false]
  cases hli : strings.LastIndex filename "/".toList with
  | none =>
    dsimp only
    exact hfinal _ (hQL.hist_trans (HistExt.hist_of_eq rfl)) hfsL hcomplete hsrcL hclean.1 hclean.2
  | some lastSlash =>
    dsimp only
    cases hmk : missMkdir env (L.1.w.metric fun m =>
        { m with miss_bytes := m.miss_bytes + L.1.bytesCopiedCount })
        ("cache/".toList ++ reponame ++ "/final/".toList ++ filename.take lastSlash) with
    | none =>
      dsimp only
      have h := untouched_then_deferred env
        (((L.1.w.metric fun m =>
          { m with miss_bytes := m.miss_bytes + L.1.bytesCopiedCount }).log
          (Event.mkdirAll ("cache/".toList ++ reponame ++ "/final/".toList ++
            filename.take lastSlash) false)).incError)
        t (hQL.hist_trans (HistExt.hist_of_eq rfl)) hfsL hneT
      exact ⟨hweak h, Or.inl h⟩
    | some fsM =>
      dsimp only
      have hmk' : L.1.w.fs.mkdirAll (resolve ("cache/".toList ++ reponame ++
          "/final/".toList ++ filename.take lastSlash)) = some fsM := by
        unfold missMkdir at hmk
        split at hmk
        · simp at hmk
        · exact hmk
      obtain ⟨m1, _, m3⟩ := FS.mkdirAll_some hmk'
      have hcM : fsM.content t.finalPath = w.fs.content t.finalPath := by
        rw [FS.mkdirAll_content hmk', hfsL]
      refine hfinal _ ?_ hcM (by simp [m1, hcomplete]) ?_ hclean.1 ?_
      · exact hQL.hist_trans (HistExt.hist_step fsM rfl hcM)
      · intro ho
        exact (m3 _ _).2 (hsrcL ho)
      · intro d hd
        apply hclean.2 d
        simpa using hd

theorem ioCopy_client_hist (env : Env) (reads : List ReadResult) (w : World) (n : Nat) :
    (ioCopy (fun w d => w.write env d) reads w n).1.hist = w.hist := by
  induction reads generalizing w n with
  | nil => rfl
  | cons r rs ih =>
    have hx : (if r.data.isEmpty = true then (w, 0, true) else w.write env r.data).1.hist
        = w.hist := by
      split
      · rfl
      · exact World.write_hist env w r.data
    unfold ioCopy
    dsimp only
    generalize (if r.data.isEmpty = true then (w, 0, true) else w.write env r.data) = x
      at hx ⊢
    split
    · exact hx
    · split
      · rw [ih, hx]
      · exact hx
      · exact hx

theorem missStreamOnly_hist (env : Env) (w : World) (cl : GoString)
    (reads : List ReadResult) : (missStreamOnly env w cl reads).hist = w.hist := by
  unfold missStreamOnly
  dsimp only
  split <;> simp [ioCopy_client_hist, missHeader_hist]

/-- The miss path of the handler: in every state a reader sees at the final path what it
saw before the download or the whole upstream body; and either the final path
is never touched, or the response was not aborted and no write to the temp file
failed. -/
theorem handleMiss_inv (env : Env) (w : World) (reponame : GoString) (repo : Repo)
    (filename : GoString) (hwf : w.fs.WellFormed)
    (hp : ∀ st cl reads, env.upstream (repo.upstreamURLBase ++ filename)
      = UpstreamReply.response st cl reads → ProperReads reads) :
    HistExt (fun s =>
        s.content ("cache/".toList ++ reponame ++ "/final/".toList ++ filename)
          = w.fs.content ("cache/".toList ++ reponame ++ "/final/".toList ++ filename) ∨
        ∃ st cl reads, env.upstream (repo.upstreamURLBase ++ filename)
            = UpstreamReply.response st cl reads ∧
          s.content ("cache/".toList ++ reponame ++ "/final/".toList ++ filename)
            = some (bodyOf reads)) w
      (handleMiss env w reponame repo filename
        ("cache/".toList ++ reponame ++ "/final/".toList ++ filename)) ∧
    (HistExt (fun s =>
        s.content ("cache/".toList ++ reponame ++ "/final/".toList ++ filename)
          = w.fs.content ("cache/".toList ++ reponame ++ "/final/".toList ++ filename)) w
      (handleMiss env w reponame repo filename
        ("cache/".toList ++ reponame ++ "/final/".toList ++ filename)) ∨
      ((handleMiss env w reponame repo filename
          ("cache/".toList ++ reponame ++ "/final/".toList ++ filename)).resp.aborted
          = w.resp.aborted ∧
        ∀ d, Event.tempWrite d false ∈ (handleMiss env w reponame repo filename
            ("cache/".toList ++ reponame ++ "/final/".toList ++ filename)).trace →
          Event.tempWrite d false ∈ w.trace)) := by
  have hP1 : ∀ s : FS,
      s.content ("cache/".toList ++ reponame ++ "/final/".toList ++ filename)
          = w.fs.content ("cache/".toList ++ reponame ++ "/final/".toList ++ filename) →
      (fun s : FS =>
        s.content ("cache/".toList ++ reponame ++ "/final/".toList ++ filename)
          = w.fs.content ("cache/".toList ++ reponame ++ "/final/".toList ++ filename) ∨
        ∃ st cl reads, env.upstream (repo.upstreamURLBase ++ filename)
            = UpstreamReply.response st cl reads ∧
          s.content ("cache/".toList ++ reponame ++ "/final/".toList ++ filename)
            = some (bodyOf reads)) s := fun _ h => Or.inl h
  have hP2 : ∀ st cl reads, env.upstream (repo.upstreamURLBase ++ filename)
      = UpstreamReply.response st cl reads → ∀ s : FS,
      s.content ("cache/".toList ++ reponame ++ "/final/".toList ++ filename)
          = some (bodyOf reads) →
      (fun s : FS =>
        s.content ("cache/".toList ++ reponame ++ "/final/".toList ++ filename)
          = w.fs.content ("cache/".toList ++ reponame ++ "/final/".toList ++ filename) ∨
        ∃ st cl reads, env.upstream (repo.upstreamURLBase ++ filename)
            = UpstreamReply.response st cl reads ∧
          s.content ("cache/".toList ++ reponame ++ "/final/".toList ++ filename)
            = some (bodyOf reads)) s := fun st cl reads hu _ h => Or.inr ⟨st, cl, reads, hu, h⟩
  generalize (fun s : FS =>
        s.content ("cache/".toList ++ reponame ++ "/final/".toList ++ filename)
          = w.fs.content ("cache/".toList ++ reponame ++ "/final/".toList ++ filename) ∨
        ∃ st cl reads, env.upstream (repo.upstreamURLBase ++ filename)
            = UpstreamReply.response st cl reads ∧
          s.content ("cache/".toList ++ reponame ++ "/final/".toList ++ filename)
            = some (bodyOf reads)) = P at hP1 hP2 ⊢
  have hsame : ∀ b : World, b.hist = w.hist →
      HistExt P w b ∧
      (HistExt (fun s =>
        s.content ("cache/".toList ++ reponame ++ "/final/".toList ++ filename)
          = w.fs.content ("cache/".toList ++ reponame ++ "/final/".toList ++ filename)) w b ∨
        (b.resp.aborted = w.resp.aborted ∧
          ∀ d, Event.tempWrite d false ∈ b.trace → Event.tempWrite d false ∈ w.trace)) :=
    fun b hb => ⟨HistExt.hist_of_eq hb, Or.inl (HistExt.hist_of_eq hb)⟩
  unfold handleMiss missBody
  cases hu : env.upstream (repo.upstreamURLBase ++ filename) with
  | transportError =>
    apply hsame
    simp
  | response st cl reads =>
    dsimp only
    by_cases hst : st = 200
    swap
    · rw [if_pos hst]
      apply hsame
      simp
    rw [if_neg (by simpa using hst)]
    simp only [World.log_fs, World.metric_fs]
    cases hnt : NewTempFile env.temp w.fs ("cache/".toList ++ reponame ++ "/temp".toList)
        filename ("cache/".toList ++ reponame ++ "/final/".toList ++ filename) with
    | none =>
      apply hsame
      simp [missStreamOnly_hist]
    | some pr =>
      obtain ⟨t, fsT⟩ := pr
      dsimp only
      obtain ⟨n1, _, f, n3, n4, _, n6, _, _, n9⟩ := NewTempFile_some hnt
      have hneq := tempfile_not_final (Or.inl rfl) hnt
      obtain ⟨fr1, fr2⟩ := NewTempFile_frame hwf hnt
        ("cache/".toList ++ reponame ++ "/final/".toList ++ filename) hneq
      have hsrc : t.o_tmpfile = false → fsT.node (resolve f.name) = some (Node.file f.ino) := by
        intro h
        rcases n9 with ⟨h1, _⟩ | ⟨_, _, _, h4, _⟩
        · rw [h] at h1; simp at h1
        · exact h4
      have inv := missCached_inv env
        (((w.metric fun m =>
            { m with miss_requests_in_progress := m.miss_requests_in_progress + 1,
                     miss_count := m.miss_count + 1 }).log
            (Event.httpGet (repo.upstreamURLBase ++ filename))).setFS fsT |>.log
          (Event.newTempFile ("cache/".toList ++ reponame ++ "/temp".toList) filename
            ("cache/".toList ++ reponame ++ "/final/".toList ++ filename) true))
        reponame filename cl reads t f n3 n4 hsrc n6
        (by rw [n1]; exact fr2 f n3) (by rw [n1]; exact hneq f n3) (hp st cl reads hu)
      rw [n1] at inv
      simp only [World.log_fs, World.setFS_fs, fr1, World.log_resp, World.setFS_resp,
        World.metric_resp, World.log_trace, World.setFS_trace, World.metric_trace] at inv
      obtain ⟨i1, i2⟩ := inv
      have hstart : HistExt (fun s =>
          s.content ("cache/".toList ++ reponame ++ "/final/".toList ++ filename)
            = w.fs.content ("cache/".toList ++ reponame ++ "/final/".toList ++ filename)) w
          ((((w.metric fun m =>
            { m with miss_requests_in_progress := m.miss_requests_in_progress + 1,
                     miss_count := m.miss_count + 1 }).log
            (Event.httpGet (repo.upstreamURLBase ++ filename))).setFS fsT).log
          (Event.newTempFile ("cache/".toList ++ reponame ++ "/temp".toList) filename
            ("cache/".toList ++ reponame ++ "/final/".toList ++ filename) true)) :=
        HistExt.hist_step fsT rfl fr1
      refine ⟨?_, ?_⟩
      · refine HistExt.hist_trans ((hstart.mono hP1).hist_trans (i1.mono ?_)) (HistExt.hist_of_eq rfl)
        intro s hs
        rcases hs with h | h
        · exact hP1 s h
        · exact hP2 st cl reads hu s h
      · rcases i2 with h | ⟨h1, h2⟩
        · exact Or.inl ((hstart.hist_trans h).hist_trans (HistExt.hist_of_eq rfl))
        · refine Or.inr ⟨by simpa using h1, ?_⟩
          intro d hd
          have := h2 d (by simpa using hd)
          simpa using this

theorem ioCopy_temp_trace (env : Env) (f : Option File) (reads : List ReadResult) (w : World)
    (n : Nat) :
    ∀ e ∈ (ioCopy (tempWrite env f) reads w n).1.trace,
      e ∈ w.trace ∨ ∃ d ok, e = Event.tempWrite d ok := by
  induction reads generalizing w n with
  | nil => exact fun e he => Or.inl he
  | cons r rs ih =>
    have hx : ∀ e ∈ (if r.data.isEmpty = true then (w, 0, true)
        else tempWrite env f w r.data).1.trace,
        e ∈ w.trace ∨ ∃ d ok, e = Event.tempWrite d ok := by
      split
      · exact fun e he => Or.inl he
      · intro e he
        rw [tempWrite_trace] at he
        rcases List.mem_append.1 he with h | h
        · exact Or.inl h
        · exact Or.inr ⟨_, _, List.mem_singleton.1 h⟩
    unfold ioCopy
    dsimp only
    generalize (if r.data.isEmpty = true then (w, 0, true) else tempWrite env f w r.data) = x
      at hx ⊢
    split
    · exact hx
    · split
      · intro e he
        rcases ih _ _ e he with h | h
        · exact hx e h
        · exact Or.inr h
      · exact hx
      · exact hx

/-- The download of `process`: in every state a reader sees at the final path what it saw
before the download or the whole body; and either the final path is never
touched, or the copy did not fail (`Cleanup` was not called). -/
theorem processDownload_inv (env : Env) (w : World) (cacheFilename : GoString)
    (reads : List ReadResult) (t : TempFile) (f : File)
    (ht : t.temp = some f) (hopen : f.closed = false) (hfp : t.finalPath = cacheFilename)
    (hsrc : t.o_tmpfile = false → w.fs.node (resolve f.name) = some (Node.file f.ino))
    (hempty : w.fs.inodes f.ino = [])
    (hfin : ∀ i, w.fs.node (resolve cacheFilename) = some (Node.file i) → i ≠ f.ino)
    (hne : t.o_tmpfile = false → resolve f.name ≠ resolve cacheFilename)
    (hp : ProperReads reads) :
    HistExt (fun s => s.content cacheFilename = w.fs.content cacheFilename ∨
        s.content cacheFilename = some (bodyOf reads)) w
      (processDownload env w cacheFilename reads t).1 ∧
    (HistExt (fun s => s.content cacheFilename = w.fs.content cacheFilename) w
        (processDownload env w cacheFilename reads t).1 ∨
      ∀ ok, Event.cleanup ok ∈ (processDownload env w cacheFilename reads t).1.trace →
        Event.cleanup ok ∈ w.trace) := by
  subst hfp
  have hneT : ∀ g, t.temp = some g → t.o_tmpfile = false →
      resolve g.name ≠ resolve t.finalPath := by
    intro g hg ho
    rw [ht] at hg
    simp only [Option.some.injEq] at hg
    rw [← hg]
    exact hne ho
  have TP := tempPhase_ioCopy env (some f) f.ino (fun file h => by
    simp only [Option.some.injEq] at h
    rw [h]) reads w 0
  have htr := ioCopy_temp_trace env (some f) reads w 0
  have hcomp := ioCopy_complete env f hopen reads hp w 0
  unfold processDownload
  dsimp only
  rw [ht]
  generalize ioCopy (tempWrite env (some f)) reads w 0 = c at TP htr hcomp ⊢
  have hsame : SameButInode f.ino w.fs c.1.fs := TP.2
  have hfsC : c.1.fs.content t.finalPath = w.fs.content t.finalPath :=
    content_of_same hsame hfin
  have hQC : HistExt (fun s => s.content t.finalPath = w.fs.content t.finalPath) w c.1 := by
    obtain ⟨ext, h1, h2⟩ := TP.1
    exact ⟨ext, h1, fun s hs => content_of_same (h2 s hs) hfin⟩
  have hsrcC : t.o_tmpfile = false →
      c.1.fs.node (resolve f.name) = some (Node.file f.ino) := by
    intro ho
    rw [FS.node_congr hsame.1]
    exact hsrc ho
  by_cases hc : c.2.2 = true
  swap
  · -- the copy failed
    simp only [hc, Bool.not_false, if_true]
    have h : HistExt (fun s => s.content t.finalPath = w.fs.content t.finalPath) w
        (((c.1.metric fun m =>
          { m with prefetch_download_bytes := m.prefetch_download_bytes + c.2.1 }).setFS
          (t.Cleanup env.cleanupFaults c.1.fs).2.1).log
          (Event.cleanup (!(t.Cleanup env.cleanupFaults c.1.fs).2.2))) := by
      refine hQC.hist_trans (HistExt.hist_step _ rfl ?_)
      rw [Cleanup_content env.cleanupFaults c.1.fs t t.finalPath hneT, hfsC]
    exact ⟨h.mono fun _ hs => Or.inl hs, Or.inl h⟩
  -- the copy succeeded
  simp only [hc, Bool.not_true, Bool.false_eq_true, if_false, World.metric_fs]
  have hbody : c.1.fs.inodes f.ino = bodyOf reads := by
    rw [hcomp hc, hempty]
    simp
  have hstate : (t.Finalize env.finalizeFaults c.1.fs).2.1.content t.finalPath
        = w.fs.content t.finalPath ∨
      (t.Finalize env.finalizeFaults c.1.fs).2.1.content t.finalPath
        = some (bodyOf reads) := by
    rcases Finalize_cases env.finalizeFaults c.1.fs t f ht hsrcC with ⟨h1, _⟩ | ⟨_, h2, _⟩
    · rw [h1, hbody]
      exact Or.inr rfl
    · rw [h2, hfsC]
      exact Or.inl rfl
  have hnocleanup : ∀ ok, Event.cleanup ok ∈ c.1.trace → Event.cleanup ok ∈ w.trace := by
    intro ok h
    rcases htr _ h with h1 | ⟨d, o, h1⟩
    · exact h1
    · simp at h1
  constructor
  · refine (hQC.mono fun _ hs => Or.inl hs).hist_trans ?_
    split
    · exact HistExt.hist_step _ rfl hstate
    · exact HistExt.hist_step _ rfl hstate
    · exact HistExt.hist_step _ rfl hstate
  · right
    intro ok h
    apply hnocleanup ok
    split at h <;> simpa using h

theorem matcher_fs (repo : Repo) (w : World) (filename : GoString) :
    (matcher repo w filename).1.fs = w.fs ∧ (matcher repo w filename).1.hist = w.hist ∧
      (matcher repo w filename).1.trace = w.trace := by
  unfold matcher
  split
  · exact ⟨rfl, rfl, rfl⟩
  · split
    · exact ⟨rfl, rfl, rfl⟩
    · exact ⟨rfl, rfl, rfl⟩

/-- The prefetch action: in every state a reader sees at the final path what it saw before
the download or the whole upstream body; and either the final path is never
touched, or the copy did not fail (`Cleanup` was not called). -/
theorem process_inv (env : Env) (w : World) (reponame : GoString) (repo : Repo)
    (item : NexusItem) (hwf : w.fs.WellFormed)
    (hp : ∀ st cl reads, env.upstream (repo.upstreamURLBase ++ item.Path)
      = UpstreamReply.response st cl reads → ProperReads reads) :
    HistExt (fun s =>
        s.content ("cache/".toList ++ reponame ++ "/final/".toList ++ item.Path)
          = w.fs.content ("cache/".toList ++ reponame ++ "/final/".toList ++ item.Path) ∨
        ∃ st cl reads, env.upstream (repo.upstreamURLBase ++ item.Path)
            = UpstreamReply.response st cl reads ∧
          s.content ("cache/".toList ++ reponame ++ "/final/".toList ++ item.Path)
            = some (bodyOf reads)) w
      (process env w reponame repo item).1 ∧
    (HistExt (fun s =>
        s.content ("cache/".toList ++ reponame ++ "/final/".toList ++ item.Path)
          = w.fs.content ("cache/".toList ++ reponame ++ "/final/".toList ++ item.Path)) w
      (process env w reponame repo item).1 ∨
      ∀ ok, Event.cleanup ok ∈ (process env w reponame repo item).1.trace →
        Event.cleanup ok ∈ w.trace) := by
  have hP1 : ∀ s : FS,
      s.content ("cache/".toList ++ reponame ++ "/final/".toList ++ item.Path)
          = w.fs.content ("cache/".toList ++ reponame ++ "/final/".toList ++ item.Path) →
      (fun s : FS =>
        s.content ("cache/".toList ++ reponame ++ "/final/".toList ++ item.Path)
          = w.fs.content ("cache/".toList ++ reponame ++ "/final/".toList ++ item.Path) ∨
        ∃ st cl reads, env.upstream (repo.upstreamURLBase ++ item.Path)
            = UpstreamReply.response st cl reads ∧
          s.content ("cache/".toList ++ reponame ++ "/final/".toList ++ item.Path)
            = some (bodyOf reads)) s := fun _ h => Or.inl h
  have hP2 : ∀ st cl reads, env.upstream (repo.upstreamURLBase ++ item.Path)
      = UpstreamReply.response st cl reads → ∀ s : FS,
      s.content ("cache/".toList ++ reponame ++ "/final/".toList ++ item.Path)
          = some (bodyOf reads) →
      (fun s : FS =>
        s.content ("cache/".toList ++ reponame ++ "/final/".toList ++ item.Path)
          = w.fs.content ("cache/".toList ++ reponame ++ "/final/".toList ++ item.Path) ∨
        ∃ st cl reads, env.upstream (repo.upstreamURLBase ++ item.Path)
            = UpstreamReply.response st cl reads ∧
          s.content ("cache/".toList ++ reponame ++ "/final/".toList ++ item.Path)
            = some (bodyOf reads)) s := fun st cl reads hu _ h => Or.inr ⟨st, cl, reads, hu, h⟩
  generalize (fun s : FS =>
        s.content ("cache/".toList ++ reponame ++ "/final/".toList ++ item.Path)
          = w.fs.content ("cache/".toList ++ reponame ++ "/final/".toList ++ item.Path) ∨
        ∃ st cl reads, env.upstream (repo.upstreamURLBase ++ item.Path)
            = UpstreamReply.response st cl reads ∧
          s.content ("cache/".toList ++ reponame ++ "/final/".toList ++ item.Path)
            = some (bodyOf reads)) = P at hP1 hP2 ⊢
  have hsame : ∀ b : World, b.hist = w.hist →
      HistExt P w b ∧
      (HistExt (fun s =>
        s.content ("cache/".toList ++ reponame ++ "/final/".toList ++ item.Path)
          = w.fs.content ("cache/".toList ++ reponame ++ "/final/".toList ++ item.Path)) w b ∨
        ∀ ok, Event.cleanup ok ∈ b.trace → Event.cleanup ok ∈ w.trace) :=
    fun b hb => ⟨HistExt.hist_of_eq hb, Or.inl (HistExt.hist_of_eq hb)⟩
  obtain ⟨mf, mh, mt⟩ := matcher_fs repo w item.Path
  unfold process
  split
  swap
  · exact hsame _ mh
  unfold processFetch
  dsimp only
  split
  · exact hsame _ (by simp [mh])
  cases hu : env.upstream (repo.upstreamURLBase ++ item.Path) with
  | transportError => exact hsame _ (by simp [mh])
  | response st cl reads =>
    dsimp only
    simp only [World.log_fs, mf]
    cases hnt : NewTempFile env.temp w.fs ("cache/".toList ++ reponame ++ "/temp/".toList)
        item.Path ("cache/".toList ++ reponame ++ "/final/".toList ++ item.Path) with
    | none => exact hsame _ (by simp [mh])
    | some pr =>
      obtain ⟨t, fsT⟩ := pr
      dsimp only
      obtain ⟨n1, _, f, n3, n4, _, n6, _, _, n9⟩ := NewTempFile_some hnt
      have hneq := tempfile_not_final (Or.inr rfl) hnt
      obtain ⟨fr1, fr2⟩ := NewTempFile_frame hwf hnt
        ("cache/".toList ++ reponame ++ "/final/".toList ++ item.Path) hneq
      have hsrc : t.o_tmpfile = false → fsT.node (resolve f.name) = some (Node.file f.ino) := by
        intro h
        rcases n9 with ⟨h1, _⟩ | ⟨_, _, _, h4, _⟩
        · rw [h] at h1; simp at h1
        · exact h4
      have inv := processDownload_inv env
        (((((matcher repo w item.Path).1.log
            (Event.osStat ("cache/".toList ++ reponame ++ "/final/".toList ++ item.Path)
              (statNotExist env w.fs
                ("cache/".toList ++ reponame ++ "/final/".toList ++ item.Path)))).log
            (Event.httpGet (repo.upstreamURLBase ++ item.Path))).setFS fsT).log
          (Event.newTempFile ("cache/".toList ++ reponame ++ "/temp/".toList) item.Path
            ("cache/".toList ++ reponame ++ "/final/".toList ++ item.Path) true))
        ("cache/".toList ++ reponame ++ "/final/".toList ++ item.Path) reads t f n3 n4 n1 hsrc
        n6 (fr2 f n3) (hneq f n3) (hp st cl reads hu)
      simp only [World.log_fs, World.setFS_fs, fr1, World.log_trace, World.setFS_trace, mt]
        at inv
      obtain ⟨i1, i2⟩ := inv
      have hstart : HistExt (fun s =>
          s.content ("cache/".toList ++ reponame ++ "/final/".toList ++ item.Path)
            = w.fs.content ("cache/".toList ++ reponame ++ "/final/".toList ++ item.Path)) w
          (((((matcher repo w item.Path).1.log
            (Event.osStat ("cache/".toList ++ reponame ++ "/final/".toList ++ item.Path)
              (statNotExist env w.fs
                ("cache/".toList ++ reponame ++ "/final/".toList ++ item.Path)))).log
            (Event.httpGet (repo.upstreamURLBase ++ item.Path))).setFS fsT).log
          (Event.newTempFile ("cache/".toList ++ reponame ++ "/temp/".toList) item.Path
            ("cache/".toList ++ reponame ++ "/final/".toList ++ item.Path) true)) :=
        HistExt.hist_step fsT (by simp [mh]) fr1
      refine ⟨?_, ?_⟩
      · refine (hstart.mono hP1).hist_trans (i1.mono ?_)
        intro s hs
        rcases hs with h | h
        · exact hP1 s h
        · exact hP2 st cl reads hu s h
      · rcases i2 with h | h
        · exact Or.inl (hstart.hist_trans h)
        · refine Or.inr ?_
          intro ok hd
          have := h ok hd
          simpa using this

theorem fsMynex_wellFormed : fsMynex.WellFormed := by
  intro k i h
  unfold fsMynex at h
  simp only at h
  split at h <;> simp at h

theorem replyHello_proper (u : GoString) (st : Nat) (cl : GoString) (reads : List ReadResult)
    (h : (envOf replyHello TmpfileSupport.supported).upstream u
      = UpstreamReply.response st cl reads) : ProperReads reads := by
  have h1 : replyHello = UpstreamReply.response st cl reads := h
  unfold replyHello at h1
  injection h1 with _ _ h3
  subst h3
  unfold ProperReads
  decide

/-! ## Sequences of calls on one handle -/

theorem Finalize_finalPath (ff : FinalizeFaults) (fs : FS) (t : TempFile) :
    (t.Finalize ff fs).1.finalPath = t.finalPath ∧
      (t.Finalize ff fs).1.o_tmpfile = t.o_tmpfile := by
  unfold TempFile.Finalize
  split
  · split
    · exact ⟨rfl, rfl⟩
    · dsimp only
      split
      · exact ⟨rfl, rfl⟩
      · split <;> exact ⟨rfl, rfl⟩
  · split
    · exact ⟨rfl, rfl⟩
    · split <;> exact ⟨rfl, rfl⟩

theorem Finalize_of_temp_none (ff : FinalizeFaults) (fs : FS) (t : TempFile)
    (h : t.temp = none) :
    (t.Finalize ff fs).1 = t ∧ (t.Finalize ff fs).2.1 = fs ∧
      (t.Finalize ff fs).2.2 = (if t.o_tmpfile then GoResult.nilPanic else GoResult.err) := by
  unfold TempFile.Finalize
  cases ho : t.o_tmpfile <;> simp [h]

theorem Finalize_changes (ff : FinalizeFaults) (fs : FS) (t : TempFile) :
    (t.Finalize ff fs).2.1 = fs ∨ (t.Finalize ff fs).1.temp = none := by
  unfold TempFile.Finalize
  split
  · split
    · exact Or.inl rfl
    · dsimp only
      split
      · exact Or.inl rfl
      · split
        · exact Or.inr rfl
        · exact Or.inl rfl
  · split
    · exact Or.inl rfl
    · split
      · exact Or.inr rfl
      · exact Or.inr rfl

theorem Cleanup_changes (cf : CleanupFaults) (fs : FS) (t : TempFile) :
    ((t.Cleanup cf fs).2.1 = fs ∨ (t.Cleanup cf fs).1.temp = none) ∧
      (t.Cleanup cf fs).1.finalPath = t.finalPath := by
  unfold TempFile.Cleanup
  split
  · exact ⟨Or.inl rfl, rfl⟩
  · split
    · exact ⟨Or.inl rfl, rfl⟩
    · dsimp only
      split
      · split <;> exact ⟨Or.inr rfl, rfl⟩
      · exact ⟨Or.inr rfl, rfl⟩

theorem Cleanup_idem (cf1 cf2 : CleanupFaults) (fs : FS) (t : TempFile) :
    (t.Cleanup cf1 fs).1.Cleanup cf2 (t.Cleanup cf1 fs).2.1
      = ((t.Cleanup cf1 fs).1, (t.Cleanup cf1 fs).2.1, false) := by
  by_cases hfd : t.fd < 0
  · have h : t.Cleanup cf1 fs = (t, fs, false) := by
      unfold TempFile.Cleanup
      rw [if_pos hfd]
    rw [h]
    dsimp only
    unfold TempFile.Cleanup
    rw [if_pos hfd]
  · cases ht : t.temp with
    | none =>
      rw [Cleanup_of_temp_none cf1 fs t ht]
      exact Cleanup_of_temp_none cf2 fs t ht
    | some f =>
      apply Cleanup_of_temp_none
      unfold TempFile.Cleanup
      rw [if_neg hfd, ht]
      dsimp only
      split
      · split <;> rfl
      · rfl

theorem run_changes {c : HandleCall} {t t1 : TempFile} {fs fs1 : FS}
    (h : c.run t fs = some (t1, fs1)) :
    (fs1 = fs ∨ t1.temp = none) ∧ t1.finalPath = t.finalPath := by
  cases c with
  | finalize ff =>
    unfold HandleCall.run at h
    dsimp only at h
    split at h
    · simp at h
    · simp only [Option.some.injEq, Prod.mk.injEq] at h
      obtain ⟨h1, h2⟩ := h
      subst h1 h2
      exact ⟨Finalize_changes ff fs t, (Finalize_finalPath ff fs t).1⟩
  | cleanup cf =>
    unfold HandleCall.run at h
    simp only [Option.some.injEq, Prod.mk.injEq] at h
    obtain ⟨h1, h2⟩ := h
    subst h1 h2
    exact Cleanup_changes cf fs t

theorem run_of_temp_none {c : HandleCall} {t t1 : TempFile} {fs fs1 : FS}
    (ht : t.temp = none) (h : c.run t fs = some (t1, fs1)) : fs1 = fs ∧ t1.temp = none := by
  cases c with
  | finalize ff =>
    unfold HandleCall.run at h
    dsimp only at h
    split at h
    · simp at h
    · simp only [Option.some.injEq, Prod.mk.injEq] at h
      obtain ⟨h1, h2⟩ := h
      subst h1 h2
      obtain ⟨g1, g2, _⟩ := Finalize_of_temp_none ff fs t ht
      exact ⟨g2, by rw [g1]; exact ht⟩
  | cleanup cf =>
    unfold HandleCall.run at h
    simp only [Option.some.injEq, Prod.mk.injEq] at h
    obtain ⟨h1, h2⟩ := h
    subst h1 h2
    rw [Cleanup_of_temp_none cf fs t ht]
    exact ⟨rfl, ht⟩

theorem creations_of_temp_none (p : GoString) (cs : List HandleCall) (t : TempFile) (fs : FS)
    (ht : t.temp = none) : creations p cs t fs = 0 := by
  induction cs generalizing t fs with
  | nil => rfl
  | cons c cs ih =>
    unfold creations
    cases hr : c.run t fs with
    | none => rfl
    | some r =>
      obtain ⟨t1, fs1⟩ := r
      obtain ⟨h1, h2⟩ := run_of_temp_none ht hr
      subst h1
      simp [ih t1 fs1 h2]

theorem creations_le_one (p : GoString) (cs : List HandleCall) (t : TempFile) (fs : FS) :
    creations p cs t fs ≤ 1 := by
  induction cs generalizing t fs with
  | nil => simp [creations]
  | cons c cs ih =>
    unfold creations
    cases hr : c.run t fs with
    | none => simp
    | some r =>
      obtain ⟨t1, fs1⟩ := r
      dsimp only
      rcases (run_changes hr).1 with h | h
      · subst h
        simpa using ih t1 fs1
      · rw [creations_of_temp_none p cs t1 fs1 h]
        split <;> simp

theorem Finalize_ok_temp {ff : FinalizeFaults} {fs : FS} {t : TempFile}
    (h : (t.Finalize ff fs).2.2 = GoResult.ok) : (t.Finalize ff fs).1.temp = none := by
  unfold TempFile.Finalize at h ⊢
  split
  · rename_i ho
    rw [if_pos ho] at h
    split
    · rename_i hn
      rw [hn] at h
      simp at h
    · rename_i f hf
      rw [hf] at h
      dsimp only at h ⊢
      split
      · rename_i hc
        rw [if_pos hc] at h
        simp at h
      · rename_i hc
        rw [if_neg hc] at h
        split
        · rfl
        · rename_i hr
          rw [hr] at h
          simp at h
  · split
    · rename_i ho x hn
      rw [if_neg ho, hn] at h
      simp at h
    · split <;> rfl

theorem Finalize_named_again (ff1 ff2 : FinalizeFaults) (fs : FS) (t : TempFile)
    (ht : t.o_tmpfile = false) :
    ((t.Finalize ff1 fs).1.Finalize ff2 (t.Finalize ff1 fs).2.1).2.2 = GoResult.err ∧
      ((t.Finalize ff1 fs).1.Finalize ff2 (t.Finalize ff1 fs).2.1).2.1
        = (t.Finalize ff1 fs).2.1 := by
  have key : ∀ (u : TempFile) (gs : FS), u.o_tmpfile = false →
      (∀ g, u.temp = some g → g.closed = true) →
      (u.Finalize ff2 gs).2.2 = GoResult.err ∧ (u.Finalize ff2 gs).2.1 = gs := by
    intro u gs ho hc
    unfold TempFile.Finalize
    simp only [ho, Bool.not_false, if_true]
    cases hu : u.temp with
    | none => exact ⟨rfl, rfl⟩
    | some g =>
      have : g.closed = true := hc g hu
      simp [File.Close, this]
  apply key
  · rw [(Finalize_finalPath ff1 fs t).2, ht]
  · intro g hg
    unfold TempFile.Finalize at hg
    simp only [ht, Bool.not_false, if_true] at hg
    cases hu : t.temp with
    | none => simp [hu] at hg
    | some f =>
      rw [hu] at hg
      dsimp only at hg
      have hcl : (File.Close ff1.close f).1.closed = true := by
        unfold File.Close
        split
        · assumption
        · rfl
      split at hg
      · simp only [Option.some.injEq] at hg
        rw [← hg]; exact hcl
      · split at hg
        · simp at hg
        · simp only [Option.some.injEq] at hg
          rw [← hg]; exact hcl

/-! ## A second prefetch of the same path -/

theorem FS.walkFrom_mono {fs fs1 : FS}
    (h : ∀ q, fs.node q = some Node.dir → fs1.node q = some Node.dir) :
    ∀ (segs stack : List GoString),
      fs.walkFrom segs stack = none → fs1.walkFrom segs stack = none := by
  intro segs
  induction segs with
  | nil => intro stack _; rfl
  | cons seg rest ih =>
    intro stack hw
    rw [FS.walkFrom] at hw ⊢
    cases hn : fs.node stack.reverse with
    | none => rw [hn] at hw; simp at hw
    | some n =>
      cases n with
      | file i => rw [hn] at hw; simp at hw
      | dir =>
        rw [hn] at hw
        rw [h _ hn]
        exact ih _ hw

/-- A path that the kernel reaches stays reached while no directory goes away. -/
theorem FS.walkable_mono {fs fs1 : FS}
    (h : ∀ q, fs.node q = some Node.dir → fs1.node q = some Node.dir) {p : GoString}
    (hw : fs.walkable p = true) : fs1.walkable p = true := by
  unfold FS.walkable FS.walkErr at hw ⊢
  rw [Option.isNone_iff_eq_none] at hw ⊢
  exact FS.walkFrom_mono h _ _ hw

theorem FS.link_dirs {fs fs1 : FS} {ino : Nat} {dst : Key} (h : fs.link ino dst = some fs1)
    (q : Key) (hq : fs.node q = some Node.dir) : fs1.node q = some Node.dir := by
  obtain ⟨_, h2, _, _, _, h6, _⟩ := FS.link_some h
  have hne : q ≠ dst := by
    intro e
    rw [e, h2] at hq
    simp at hq
  rw [h6 q hne]
  exact hq

theorem FS.rename_dirs {fs fs1 : FS} {src dst : Key} (h : fs.rename src dst = some fs1)
    (q : Key) (hq : fs.node q = some Node.dir) : fs1.node q = some Node.dir := by
  have hsrc : ∀ fs2, fs.rename src dst = some fs2 → q ≠ src := by
    intro fs2 h2 e
    obtain ⟨i, hi, _⟩ := FS.rename_some h2
    rw [← e, hq] at hi
    simp at hi
  have h0 := h
  unfold FS.rename at h
  split at h
  · split at h
    · simp at h
    · rename_i hc
      simp only [not_or] at hc
      have hd : q ≠ dst := by
        intro e
        rw [e] at hq
        exact hc.2.2 hq
      obtain ⟨_, _, _, _, _, h5, _⟩ := FS.rename_some h0
      rw [h5 q hd (hsrc _ h0)]
      exact hq
  · simp at h

/-- After a successful `Finalize` the kernel reaches the final path and finds a regular
file there. -/
theorem Finalize_ok_present {ff : FinalizeFaults} {fs : FS} {t : TempFile}
    (h : (t.Finalize ff fs).2.2 = GoResult.ok) :
    (∃ i, (t.Finalize ff fs).2.1.node (resolve t.finalPath) = some (Node.file i)) ∧
      (t.Finalize ff fs).2.1.walkable t.finalPath = true := by
  unfold TempFile.Finalize at h ⊢
  cases ho : t.o_tmpfile
  · simp only [ho, Bool.not_false, if_true] at h ⊢
    cases hu : t.temp with
    | none => rw [hu] at h; simp at h
    | some f =>
      rw [hu] at h
      dsimp only at h ⊢
      by_cases hc : (File.Close ff.close f).2 = true
      · rw [if_pos hc] at h; simp at h
      · rw [if_neg hc] at h ⊢
        by_cases hg : ff.rename = true ∨ fs.walkable (File.Close ff.close f).1.name = false ∨
            fs.walkable t.finalPath = false
        · rw [if_pos hg] at h; simp at h
        · rw [if_neg hg] at h ⊢
          simp only [not_or, Bool.not_eq_false] at hg
          cases hr : fs.rename (resolve (File.Close ff.close f).1.name) (resolve t.finalPath) with
          | none => rw [hr] at h; simp at h
          | some fs1 =>
            obtain ⟨i, _, h2, _⟩ := FS.rename_some hr
            exact ⟨⟨i, h2⟩, FS.walkable_mono (FS.rename_dirs hr) hg.2.2⟩
  · simp only [ho, Bool.not_true, Bool.false_eq_true, if_false] at h ⊢
    cases hu : t.temp with
    | none => rw [hu] at h; simp at h
    | some f =>
      rw [hu] at h
      dsimp only at h ⊢
      by_cases hg : ff.link = true ∨ f.closed = true ∨ fs.walkable t.finalPath = false
      · rw [if_pos hg] at h; simp at h
      · rw [if_neg hg] at h ⊢
        simp only [not_or, Bool.not_eq_false] at hg
        cases hr : fs.link f.ino (resolve t.finalPath) with
        | none => rw [hr] at h; simp at h
        | some fs1 =>
          obtain ⟨_, _, h3, _⟩ := FS.link_some hr
          exact ⟨⟨f.ino, h3⟩, FS.walkable_mono (FS.link_dirs hr) hg.2.2⟩

theorem matcher_snd (repo : Repo) (w w2 : World) (filename : GoString) :
    (matcher repo w2 filename).2 = (matcher repo w filename).2 := by
  unfold matcher
  split
  · rfl
  · split <;> rfl

theorem matcher_true {repo : Repo} {w : World} {filename : GoString}
    (h : (matcher repo w filename).2 = true) : (matcher repo w filename).1 = w := by
  unfold matcher at h ⊢
  split
  · rename_i hc; rw [if_pos hc] at h; simp at h
  · rename_i hc
    rw [if_neg hc] at h
    split
    · rename_i hd; rw [if_pos hd] at h; simp at h
    · rfl

theorem processDownload_ok {env : Env} {w : World} {cacheFilename : GoString}
    {reads : List ReadResult} {t : TempFile} (hfp : t.finalPath = cacheFilename)
    (h : (processDownload env w cacheFilename reads t).2 = false) :
    (∃ i, (processDownload env w cacheFilename reads t).1.fs.node (resolve cacheFilename)
      = some (Node.file i)) ∧
      (processDownload env w cacheFilename reads t).1.fs.walkable cacheFilename = true := by
  unfold processDownload at h ⊢
  dsimp only at h ⊢
  split
  · rename_i hc
    rw [if_pos hc] at h
    simp at h
  · rename_i hc
    rw [if_neg hc] at h
    cases hr : (t.Finalize env.finalizeFaults
        ((ioCopy (tempWrite env t.temp) reads w 0).1.metric fun m =>
          { m with prefetch_download_bytes := m.prefetch_download_bytes +
              (ioCopy (tempWrite env t.temp) reads w 0).2.1 }).fs).2.2 with
    | nilPanic => rw [hr] at h; simp at h
    | err => rw [hr] at h; simp at h
    | ok =>
      obtain ⟨⟨i, hi⟩, hwk⟩ := Finalize_ok_present hr
      rw [hfp] at hi hwk
      exact ⟨⟨i, by simpa [World.update_free_disk_space] using hi⟩,
        by simpa [World.update_free_disk_space] using hwk⟩

theorem processFetch_skip (env : Env) (w : World) (reponame : GoString) (repo : Repo)
    (filename : GoString)
    (h : statNotExist env w.fs ("cache/".toList ++ reponame ++ "/final/".toList ++ filename)
        = false) :
    processFetch env w reponame repo filename
      = ((w.log (Event.osStat ("cache/".toList ++ reponame ++ "/final/".toList ++ filename)
            false)).metric fun m => { m with prefetch_skip_count := m.prefetch_skip_count + 1 },
         false) := by
  unfold processFetch
  dsimp only
  rw [h]
  simp only [Bool.not_false, if_true]

theorem processFetch_present (env : Env) (w : World) (reponame : GoString) (repo : Repo)
    (filename : GoString) {i : Nat}
    (h : w.fs.node (resolve ("cache/".toList ++ reponame ++ "/final/".toList ++ filename))
      = some (Node.file i))
    (hwk : w.fs.walkable ("cache/".toList ++ reponame ++ "/final/".toList ++ filename) = true) :
    processFetch env w reponame repo filename
      = ((w.log (Event.osStat ("cache/".toList ++ reponame ++ "/final/".toList ++ filename)
            false)).metric fun m => { m with prefetch_skip_count := m.prefetch_skip_count + 1 },
         false) := by
  apply processFetch_skip
  unfold statNotExist
  unfold FS.walkable at hwk
  rw [Option.isNone_iff_eq_none] at hwk
  rw [h, hwk]
  simp

theorem process_downloaded {env : Env} {w : World} {reponame : GoString} {repo : Repo}
    {item : NexusItem}
    (hret : (process env w reponame repo item).2 = false)
    (hget : (process env w reponame repo item).1.trace.filter Event.isHttpGet
      ≠ w.trace.filter Event.isHttpGet) :
    (matcher repo w item.Path).2 = true ∧
    (∃ i, (process env w reponame repo item).1.fs.node
        (resolve ("cache/".toList ++ reponame ++ "/final/".toList ++ item.Path))
      = some (Node.file i)) ∧
    (process env w reponame repo item).1.fs.walkable
      ("cache/".toList ++ reponame ++ "/final/".toList ++ item.Path) = true := by
  by_cases hm : (matcher repo w item.Path).2 = true
  · refine ⟨hm, ?_⟩
    unfold process at hret hget ⊢
    rw [if_pos hm] at hret hget ⊢
    rw [matcher_true hm] at hret hget ⊢
    unfold processFetch at hret hget ⊢
    dsimp only at hret hget ⊢
    by_cases hn : (!(statNotExist env w.fs
                ("cache/".toList ++ reponame ++ "/final/".toList ++ item.Path))) = true
    · rw [if_pos hn] at hget
      exfalso
      apply hget
      simp [World.metric, World.log, Event.isHttpGet]
    · rw [if_neg hn] at hret ⊢
      clear hget
      cases hu : env.upstream (repo.upstreamURLBase ++ item.Path) with
      | transportError => rw [hu] at hret; simp at hret
      | response st cl reads =>
        rw [hu] at hret
        dsimp only at hret ⊢
        cases hnt : NewTempFile env.temp
            ((w.log (Event.osStat ("cache/".toList ++ reponame ++ "/final/".toList ++ item.Path)
              (statNotExist env w.fs
                ("cache/".toList ++ reponame ++ "/final/".toList ++ item.Path)))).log
              (Event.httpGet (repo.upstreamURLBase ++ item.Path))).fs
            ("cache/".toList ++ reponame ++ "/temp/".toList) item.Path
            ("cache/".toList ++ reponame ++ "/final/".toList ++ item.Path) with
        | none => rw [hnt] at hret; simp at hret
        | some p =>
          obtain ⟨t, fs1⟩ := p
          rw [hnt] at hret
          dsimp only at hret ⊢
          exact processDownload_ok (NewTempFile_some hnt).1 hret
  · exfalso
    apply hget
    unfold process
    rw [if_neg hm]
    rw [(matcher_fs repo w item.Path).2.2]

/-! ## The decision of the GC walker -/

theorem timeSub_gt_iff (t u M : Int) (h1 : minDuration ≤ M) (h2 : M < maxDuration) :
    timeSub t u > M ↔ t - u > M := by
  unfold timeSub
  split
  · constructor
    · intro _; omega
    · intro _; omega
  · split
    · constructor
      · intro h; omega
      · intro h; omega
    · rfl

theorem timeSub_gt (t u M : Int) (h1 : minDuration ≤ M) (h : timeSub t u > M) : t - u > M := by
  unfold timeSub at h
  split at h
  · unfold maxDuration at *; omega
  · split at h
    · omega
    · exact h

theorem gcDelete_iff (repo : Repo) (v : Visit) (fi : FileInfo) (st : Stat_t)
    (hs : fi.sys = some st) :
    gcDelete repo v fi = true ↔
      timeSince v.nowMtime fi.modTime > repo.gcMaxAge ∧
      timeSince v.nowAtime (timeUnix st.Atim.Sec st.Atim.Nsec) > repo.gcMaxAge ∧
      timeSince v.nowCtime (timeUnix st.Ctim.Sec st.Ctim.Nsec) > repo.gcMaxAge := by
  unfold gcDelete
  rw [hs]
  dsimp only
  by_cases h1 : timeSince v.nowMtime fi.modTime > repo.gcMaxAge <;>
  by_cases h2 : timeSince v.nowAtime (timeUnix st.Atim.Sec st.Atim.Nsec) > repo.gcMaxAge <;>
  by_cases h3 : timeSince v.nowCtime (timeUnix st.Ctim.Sec st.Ctim.Nsec) > repo.gcMaxAge <;>
  simp [h1, h2, h3]

theorem walker_file (repo : Repo) (v : Visit) (d : DirEntry) (fi : FileInfo) (s : GcState)
    (hd : v.d = some d) (hfile : d.isDir = false) (hinfo : d.info = InfoResult.ok fi) :
    (walker repo v s).1.removeCalls
      = (if gcDelete repo v fi then s.removeCalls ++ [v.path] else s.removeCalls) := by
  unfold walker
  rw [hd]
  dsimp only
  rw [hfile, hinfo]
  simp only [Bool.false_eq_true, if_false]
  split
  · split <;> rfl
  · rfl

/-! ## The client side of a miss when the cache side fails -/

theorem quiet_of_clean (a : List Event) (h : ∀ e ∈ a, e.isTempWriteFailure = false) :
    quietAfterFailure a = true := by
  induction a with
  | nil => rfl
  | cons e es ih =>
    unfold quietAfterFailure
    rw [h e (List.mem_cons_self _ _)]
    simp only [Bool.false_eq_true, if_false]
    exact ih fun x hx => h x (List.mem_cons_of_mem _ hx)

theorem quiet_append_of_clean (a b : List Event) (h : ∀ e ∈ a, e.isTempWriteFailure = false) :
    quietAfterFailure (a ++ b) = quietAfterFailure b := by
  induction a with
  | nil => rfl
  | cons e es ih =>
    rw [List.cons_append]
    rw [quietAfterFailure, h e (List.mem_cons_self _ _)]
    simp only [Bool.false_eq_true, if_false]
    exact ih fun x hx => h x (List.mem_cons_of_mem _ hx)

theorem quiet_append_noncache (a b : List Event) (ha : quietAfterFailure a = true)
    (hb : ∀ e ∈ b, e.isCacheOp = false) : quietAfterFailure (a ++ b) = true := by
  induction a with
  | nil =>
    apply quiet_of_clean
    intro e he
    have := hb e he
    cases e <;> simp_all [Event.isCacheOp, Event.isTempWriteFailure]
  | cons e es ih =>
    rw [List.cons_append]
    unfold quietAfterFailure at ha ⊢
    by_cases hf : e.isTempWriteFailure = true
    · rw [if_pos hf] at ha ⊢
      rw [List.all_append, ha, Bool.true_and, List.all_eq_true]
      intro x hx
      simp [hb x hx]
    · rw [if_neg hf] at ha ⊢
      exact ih ha

theorem quiet_spec (tr : List Event) (h : quietAfterFailure tr = true) :
    ∀ pre d post, tr = pre ++ Event.tempWrite d false :: post →
      ∀ e ∈ post, e.isCacheOp = false := by
  induction tr with
  | nil =>
    intro pre d post hp
    simp at hp
  | cons x xs ih =>
    intro pre d post hp e he
    unfold quietAfterFailure at h
    cases pre with
    | nil =>
      simp only [List.nil_append, List.cons.injEq] at hp
      obtain ⟨hx, hxs⟩ := hp
      subst hx hxs
      simp only [Event.isTempWriteFailure, Bool.not_false, if_true, List.all_eq_true,
        Bool.not_eq_true'] at h
      exact h e he
    | cons p ps =>
      simp only [List.cons_append, List.cons.injEq] at hp
      obtain ⟨hx, hxs⟩ := hp
      by_cases hf : x.isTempWriteFailure = true
      · rw [if_pos hf] at h
        simp only [List.all_eq_true, Bool.not_eq_true'] at h
        apply h
        rw [hxs]
        simp [he]
      · rw [if_neg hf] at h
        exact ih h ps d post hxs e he

theorem teeLoop_quiet (env : Env) (f : Option File) (reads : List ReadResult) (s : TeeState) :
    ∃ ext, (teeLoop env f reads s).1.w.trace = s.w.trace ++ ext ∧
      (s.abandonCacheFile = true → ∀ e ∈ ext, e.isCacheOp = false) ∧
      (s.abandonCacheFile = false → quietAfterFailure ext = true ∧
        ((teeLoop env f reads s).1.abandonCacheFile = false →
          ∀ e ∈ ext, e.isTempWriteFailure = false)) := by
  induction reads generalizing s with
  | nil =>
    refine ⟨[], by simp [teeLoop], by simp, fun _ => ⟨rfl, by simp⟩⟩
  | cons r rs ih =>
    unfold teeLoop
    by_cases he : r.err = ReadErr.other
    · rw [if_pos he]
      exact ⟨[], by simp, by simp, fun _ => ⟨rfl, by simp⟩⟩
    · rw [if_neg he]
      by_cases hl : r.data.length = 0
      · rw [if_pos hl]
        exact ⟨[], by simp, by simp, fun _ => ⟨rfl, by simp⟩⟩
      · rw [if_neg hl]
        by_cases hw : (s.w.write env r.data).2.2 = true
        · simp only [hw, Bool.not_true, Bool.false_eq_true, if_false]
          by_cases hs : s.abandonCacheFile = true
          · rw [if_pos hs]
            obtain ⟨ext, h1, h2, _⟩ := ih
              { w := (s.w.write env r.data).1, abandonCacheFile := true,
                bytesCopiedCount := s.bytesCopiedCount + r.data.length }
            refine ⟨Event.clientWrite r.data true :: ext, ?_, ?_, ?_⟩
            · rw [h1]; simp [hw]
            · intro _ e he2
              rcases List.mem_cons.1 he2 with h | h
              · subst h; rfl
              · exact h2 rfl e h
            · intro hc; rw [hs] at hc; simp at hc
          · rw [if_neg hs]
            have hs2 : s.abandonCacheFile = false := by simpa using hs
            by_cases ht : (tempWrite env f (s.w.write env r.data).1 r.data).2.2 = true
            · rw [if_pos ht]
              obtain ⟨ext, h1, _, h3⟩ := ih
                { w := (tempWrite env f (s.w.write env r.data).1 r.data).1,
                  abandonCacheFile := false,
                  bytesCopiedCount := s.bytesCopiedCount + r.data.length }
              obtain ⟨q1, q2⟩ := h3 rfl
              refine ⟨Event.clientWrite r.data true :: Event.tempWrite r.data true :: ext,
                ?_, ?_, ?_⟩
              · rw [h1]; simp [tempWrite_trace, ht, hw]
              · intro hc; rw [hs2] at hc; simp at hc
              · intro _
                refine ⟨?_, ?_⟩
                · simpa [quietAfterFailure, Event.isTempWriteFailure] using q1
                · intro ha e he2
                  rcases List.mem_cons.1 he2 with h | h
                  · subst h; rfl
                  · rcases List.mem_cons.1 h with h | h
                    · subst h; rfl
                    · exact q2 ha e h
            · rw [if_neg ht]
              have ht2 : (tempWrite env f (s.w.write env r.data).1 r.data).2.2 = false := by
                simpa using ht
              obtain ⟨ext, h1, h2, _⟩ := ih
                { w := (tempWrite env f (s.w.write env r.data).1 r.data).1.incError,
                  abandonCacheFile := true,
                  bytesCopiedCount := s.bytesCopiedCount + r.data.length }
              refine ⟨Event.clientWrite r.data true :: Event.tempWrite r.data false :: ext,
                ?_, ?_, ?_⟩
              · rw [h1]; simp [tempWrite_trace, ht2, hw]
              · intro hc; rw [hs2] at hc; simp at hc
              · intro _
                refine ⟨?_, ?_⟩
                · simp only [quietAfterFailure, Event.isTempWriteFailure, Bool.false_eq_true,
                    if_false, Bool.not_false, if_true, List.all_eq_true, Bool.not_eq_true']
                  exact h2 rfl
                · intro ha
                  exfalso
                  have := teeLoop_sticky env f rs
                    { w := (tempWrite env f (s.w.write env r.data).1 r.data).1.incError,
                      abandonCacheFile := true,
                      bytesCopiedCount := s.bytesCopiedCount + r.data.length } rfl
                  rw [this] at ha
                  simp at ha
        · have hw2 : (s.w.write env r.data).2.2 = false := by simpa using hw
          simp only [hw2, Bool.not_false, if_true]
          refine ⟨[Event.clientWrite r.data false], by simp [hw2], ?_, ?_⟩
          · intro _ e he2
            simp only [List.mem_singleton] at he2
            subst he2; rfl
          · intro _
            exact ⟨rfl, fun _ e he2 => by
              simp only [List.mem_singleton] at he2
              subst he2; rfl⟩

theorem teeLoop_client (env : Env) (f : Option File) (hcw : ∀ n, env.clientWrite n = none)
    (reads : List ReadResult)
    (hreads : ∀ r ∈ reads, r.data ≠ [] ∧ r.err ≠ ReadErr.other) (s : TeeState) :
    (teeLoop env f reads s).2 = true ∧
    (teeLoop env f reads s).1.w.resp.body = s.w.resp.body ++ bodyOf reads ∧
    (teeLoop env f reads s).1.w.resp.aborted = s.w.resp.aborted ∧
    (∀ c, s.w.resp.status = some c → (teeLoop env f reads s).1.w.resp.status = some c) := by
  induction reads generalizing s with
  | nil =>
    unfold teeLoop
    simp [bodyOf]
  | cons r rs ih =>
    have hr := hreads r (List.mem_cons_self _ _)
    have hrs : ∀ x ∈ rs, x.data ≠ [] ∧ x.err ≠ ReadErr.other :=
      fun x hx => hreads x (List.mem_cons_of_mem _ hx)
    have hlen : r.data.length ≠ 0 := fun h => hr.1 (List.length_eq_zero.1 h)
    have hw : (s.w.write env r.data).2.2 = true := (World.write_ok_iff env s.w r.data).2 (hcw _)
    have hb := (World.write_body_ok env s.w r.data hw).1
    unfold teeLoop
    simp only [hr.2, if_false, hlen, hw, Bool.not_true, Bool.false_eq_true]
    by_cases hs : s.abandonCacheFile = true
    · rw [if_pos hs]
      obtain ⟨h1, h2, h3, h4⟩ := ih hrs
        { w := (s.w.write env r.data).1, abandonCacheFile := true,
          bytesCopiedCount := s.bytesCopiedCount + r.data.length }
      refine ⟨h1, ?_, ?_, ?_⟩
      · rw [h2]; simp [hb, bodyOf]
      · rw [h3]; simp
      · intro c hc
        apply h4
        simp [World.write_status, hc]
    · rw [if_neg hs]
      by_cases ht : (tempWrite env f (s.w.write env r.data).1 r.data).2.2 = true
      · rw [if_pos ht]
        obtain ⟨h1, h2, h3, h4⟩ := ih hrs
          { w := (tempWrite env f (s.w.write env r.data).1 r.data).1,
            abandonCacheFile := false,
            bytesCopiedCount := s.bytesCopiedCount + r.data.length }
        refine ⟨h1, ?_, ?_, ?_⟩
        · rw [h2]; simp [tempWrite_resp, hb, bodyOf]
        · rw [h3]; simp [tempWrite_resp]
        · intro c hc
          apply h4
          simp [tempWrite_resp, World.write_status, hc]
      · rw [if_neg ht]
        obtain ⟨h1, h2, h3, h4⟩ := ih hrs
          { w := (tempWrite env f (s.w.write env r.data).1 r.data).1.incError,
            abandonCacheFile := true,
            bytesCopiedCount := s.bytesCopiedCount + r.data.length }
        refine ⟨h1, ?_, ?_, ?_⟩
        · rw [h2]; simp [tempWrite_resp, hb, bodyOf]
        · rw [h3]; simp [tempWrite_resp]
        · intro c hc
          apply h4
          simp [tempWrite_resp, World.write_status, hc]

theorem ioCopy_client (env : Env) (hcw : ∀ n, env.clientWrite n = none)
    (reads : List ReadResult) (hp : ProperReads reads)
    (hreads : ∀ r ∈ reads, r.err ≠ ReadErr.other) (w : World) (n : Nat) :
    (ioCopy (fun w d => w.write env d) reads w n).2.2 = true ∧
    (ioCopy (fun w d => w.write env d) reads w n).1.resp.body = w.resp.body ++ bodyOf reads ∧
    (ioCopy (fun w d => w.write env d) reads w n).1.resp.aborted = w.resp.aborted ∧
    (∀ c, w.resp.status = some c →
      (ioCopy (fun w d => w.write env d) reads w n).1.resp.status = some c) ∧
    (∀ e ∈ (ioCopy (fun w d => w.write env d) reads w n).1.trace,
      e ∈ w.trace ∨ ∃ d ok, e = Event.clientWrite d ok) := by
  induction reads generalizing w n with
  | nil =>
    unfold ioCopy
    exact ⟨rfl, by simp [bodyOf], rfl, fun c hc => hc, fun e he => Or.inl he⟩
  | cons r rs ih =>
    have hr := hreads r (List.mem_cons_self _ _)
    have hrs : ∀ x ∈ rs, x.err ≠ ReadErr.other :=
      fun x hx => hreads x (List.mem_cons_of_mem _ hx)
    have hx : ((if r.data.isEmpty then (w, 0, true) else w.write env r.data).2.2 = true) ∧
        (if r.data.isEmpty then (w, 0, true) else w.write env r.data).1.resp.body
          = w.resp.body ++ r.data ∧
        (if r.data.isEmpty then (w, 0, true) else w.write env r.data).1.resp.aborted
          = w.resp.aborted ∧
        (∀ c, w.resp.status = some c →
          (if r.data.isEmpty then (w, 0, true) else w.write env r.data).1.resp.status
            = some c) ∧
        (∀ e ∈ (if r.data.isEmpty then (w, 0, true) else w.write env r.data).1.trace,
          e ∈ w.trace ∨ ∃ d ok, e = Event.clientWrite d ok) := by
      by_cases hd : r.data.isEmpty = true
      · rw [if_pos hd]
        have : r.data = [] := by simpa using hd
        exact ⟨rfl, by simp [this], rfl, fun c hc => hc, fun e he => Or.inl he⟩
      · rw [if_neg hd]
        have hw : (w.write env r.data).2.2 = true := (World.write_ok_iff env w r.data).2 (hcw _)
        refine ⟨hw, (World.write_body_ok env w r.data hw).1, by simp, ?_, ?_⟩
        · intro c hc; simp [World.write_status, hc]
        · intro e he
          simp only [World.write_trace, List.mem_append, List.mem_singleton] at he
          rcases he with h | h
          · exact Or.inl h
          · exact Or.inr ⟨_, _, h⟩
    obtain ⟨x1, x2, x3, x4, x5⟩ := hx
    unfold ioCopy
    dsimp only
    simp only [x1, Bool.not_true, Bool.false_eq_true, if_false]
    cases hre : r.err with
    | other => exact absurd hre hr
    | eof =>
      dsimp only
      have : rs = [] := by
        by_contra hne
        have := (properReads_head hp hne).2
        rw [hre] at this
        simp at this
      subst this
      refine ⟨rfl, ?_, x3, x4, x5⟩
      rw [x2]; simp [bodyOf]
    | none =>
      dsimp only
      obtain ⟨h1, h2, h3, h4, h5⟩ := ih (properReads_tail hp) hrs
        (if r.data.isEmpty then (w, 0, true) else w.write env r.data).1
        (n + (if r.data.isEmpty then (w, 0, true) else w.write env r.data).2.1)
      refine ⟨h1, ?_, ?_, ?_, ?_⟩
      · rw [h2, x2]; simp [bodyOf]
      · rw [h3, x3]
      · intro c hc; exact h4 c (x4 c hc)
      · intro e he
        rcases h5 e he with h | h
        · exact x5 e h
        · exact Or.inr h

theorem missFinalize_resp (env : Env) (w : World) (t : TempFile)
    (h : (t.Finalize env.finalizeFaults w.fs).2.2 ≠ GoResult.nilPanic) :
    (missFinalize env w t).1.resp = w.resp := by
  unfold missFinalize
  dsimp only
  cases hr : (t.Finalize env.finalizeFaults w.fs).2.2 with
  | ok => rfl
  | err => rfl
  | nilPanic => exact absurd hr h

theorem missFinish_resp (env : Env) (s : TeeState) (reponame filename : GoString)
    (t : TempFile) (f : File) (ht : t.temp = some f) :
    (missFinish env s reponame filename t).1.resp = s.w.resp := by
  unfold missFinish
  dsimp only
  split
  · rfl
  · split
    · rw [missFinalize_resp env _ t (Finalize_no_panic _ _ t f ht)]
      rfl
    · split
      · rfl
      · rw [missFinalize_resp env _ t (Finalize_no_panic _ _ t f ht)]
        rfl

theorem missFinish_events (env : Env) (s : TeeState) (reponame filename : GoString)
    (t : TempFile) :
    ∃ ext, (missFinish env s reponame filename t).1.trace = s.w.trace ++ ext ∧
      (s.abandonCacheFile = true → ext = []) ∧ ∀ e ∈ ext, e.isTempWriteFailure = false := by
  unfold missFinish
  dsimp only
  by_cases hs : s.abandonCacheFile = true
  · rw [if_pos hs]
    exact ⟨[], by simp, fun _ => rfl, by simp⟩
  · rw [if_neg hs]
    split
    · refine ⟨[Event.finalize t.finalPath (t.Finalize env.finalizeFaults s.w.fs).2.2], ?_,
        fun h => absurd h hs, ?_⟩
      · rw [missFinalize_trace]; rfl
      · intro e he
        simp only [List.mem_singleton] at he
        subst he; rfl
    · split
      · rename_i k _ _ _
        refine ⟨[Event.mkdirAll ("cache/".toList ++ reponame ++ "/final/".toList ++
          filename.take k) false], rfl, fun h => absurd h hs, ?_⟩
        intro e he
        simp only [List.mem_singleton] at he
        subst he; rfl
      · rename_i k _ _ fs1 _
        refine ⟨[Event.mkdirAll ("cache/".toList ++ reponame ++ "/final/".toList ++
            filename.take k) true,
          Event.finalize t.finalPath (t.Finalize env.finalizeFaults fs1).2.2], ?_,
          fun h => absurd h hs, ?_⟩
        · rw [missFinalize_trace]
          simp only [World.log_trace, World.setFS_trace, World.metric_trace, World.log_fs,
            World.setFS_fs, List.append_assoc, List.singleton_append]
        · intro e he
          simp only [List.mem_cons, List.mem_singleton, List.not_mem_nil, or_false] at he
          rcases he with h | h <;> subst h <;> rfl

theorem missDeferred_events (env : Env) (w : World) (t : TempFile) :
    ∃ b, (missDeferred env w t).trace = w.trace ++ [Event.cleanup b, Event.statfs] :=
  ⟨_, missDeferred_trace env w t⟩

theorem missCached_quiet (env : Env) (w : World) (reponame filename cl : GoString)
    (reads : List ReadResult) (t : TempFile) :
    ∃ ext, (missCached env w reponame filename cl reads t).trace = w.trace ++ ext ∧
      quietAfterFailure ext = true := by
  obtain ⟨ext1, h1, _, h3⟩ := teeLoop_quiet env t.temp reads
    { w := missHeader w cl, abandonCacheFile := false, bytesCopiedCount := 0 }
  obtain ⟨q1, q2⟩ := h3 rfl
  rw [missHeader_trace] at h1
  have htail : ∀ b, ∀ e ∈ [Event.cleanup b, Event.statfs], e.isCacheOp = false := by
    intro b e he
    simp only [List.mem_cons, List.mem_singleton, List.not_mem_nil, or_false] at he
    rcases he with h | h <;> subst h <;> rfl
  have htail2 : ∀ b, ∀ e ∈ [Event.cleanup b, Event.statfs], e.isTempWriteFailure = false := by
    intro b e he
    simp only [List.mem_cons, List.mem_singleton, List.not_mem_nil, or_false] at he
    rcases he with h | h <;> subst h <;> rfl
  unfold missCached
  dsimp only
  generalize teeLoop env t.temp reads
    { w := missHeader w cl, abandonCacheFile := false, bytesCopiedCount := 0 } = L at h1 q2 ⊢
  split
  · obtain ⟨b, hb⟩ := missDeferred_events env L.1.w.abort t
    refine ⟨ext1 ++ [Event.cleanup b, Event.statfs], ?_, ?_⟩
    · rw [hb, World.abort_trace, h1, List.append_assoc]
    · exact quiet_append_noncache _ _ q1 (htail b)
  · obtain ⟨ext2, g1, g2, g3⟩ := missFinish_events env L.1 reponame filename t
    obtain ⟨b, hb⟩ := missDeferred_events env (missFinish env L.1 reponame filename t).1
      (missFinish env L.1 reponame filename t).2
    refine ⟨ext1 ++ (ext2 ++ [Event.cleanup b, Event.statfs]), ?_, ?_⟩
    · rw [hb, g1, h1]
      simp only [List.append_assoc]
    · by_cases ha : L.1.abandonCacheFile = true
      · rw [g2 ha, List.nil_append]
        exact quiet_append_noncache _ _ q1 (htail b)
      · rw [quiet_append_of_clean _ _ (q2 (by simpa using ha))]
        apply quiet_of_clean
        intro e he
        rcases List.mem_append.1 he with h | h
        · exact g3 e h
        · exact htail2 b e h

theorem missCached_client (env : Env) (w : World) (reponame filename cl : GoString)
    (reads : List ReadResult) (t : TempFile) (f : File) (ht : t.temp = some f)
    (hstatus : w.resp.status = none)
    (hcw : ∀ n, env.clientWrite n = none)
    (hreads : ∀ r ∈ reads, r.data ≠ [] ∧ r.err ≠ ReadErr.other) :
    (missCached env w reponame filename cl reads t).resp.status = some 200 ∧
      (missCached env w reponame filename cl reads t).resp.body = w.resp.body ++ bodyOf reads ∧
      (missCached env w reponame filename cl reads t).resp.aborted = w.resp.aborted := by
  obtain ⟨h1, h2, h3, h4⟩ := teeLoop_client env t.temp hcw reads hreads
    { w := missHeader w cl, abandonCacheFile := false, bytesCopiedCount := 0 }
  obtain ⟨m1, m2, m3, _⟩ := missHeader_resp w cl hstatus
  unfold missCached
  dsimp only
  rw [h1]
  simp only [Bool.not_true, Bool.false_eq_true, if_false]
  rw [missDeferred_resp, missFinish_resp env _ reponame filename t f ht]
  exact ⟨h4 200 m1, by rw [h2]; simp [m2], by rw [h3]; simp [m3]⟩

theorem missStreamOnly_client (env : Env) (w : World) (cl : GoString)
    (reads : List ReadResult) (hstatus : w.resp.status = none)
    (hcw : ∀ n, env.clientWrite n = none) (hp : ProperReads reads)
    (hreads : ∀ r ∈ reads, r.err ≠ ReadErr.other) :
    (missStreamOnly env w cl reads).resp.status = some 200 ∧
      (missStreamOnly env w cl reads).resp.body = w.resp.body ++ bodyOf reads ∧
      (missStreamOnly env w cl reads).resp.aborted = w.resp.aborted := by
  obtain ⟨h1, h2, h3, h4, _⟩ := ioCopy_client env hcw reads hp hreads (missHeader w cl) 0
  obtain ⟨m1, m2, m3, _⟩ := missHeader_resp w cl hstatus
  unfold missStreamOnly
  dsimp only
  rw [h1]
  simp only [Bool.not_true, Bool.false_eq_true, if_false, World.metric_resp]
  exact ⟨h4 200 m1, by rw [h2, m2], by rw [h3, m3]⟩

theorem missStreamOnly_events (env : Env) (w : World) (cl : GoString)
    (reads : List ReadResult) :
    ∃ ext, (missStreamOnly env w cl reads).trace = w.trace ++ ext ∧
      ∀ e ∈ ext, e.isTempWriteFailure = false := by
  have key : ∀ (rs : List ReadResult) (a : World) (n : Nat),
      ∃ ext, (ioCopy (fun w d => w.write env d) rs a n).1.trace = a.trace ++ ext ∧
        ∀ e ∈ ext, e.isTempWriteFailure = false := by
    intro rs
    induction rs with
    | nil => intro a n; exact ⟨[], by simp [ioCopy], by simp⟩
    | cons r rs ih =>
      intro a n
      unfold ioCopy
      dsimp only
      have hx : ∃ ext, (if r.data.isEmpty then (a, 0, true) else a.write env r.data).1.trace
          = a.trace ++ ext ∧ ∀ e ∈ ext, e.isTempWriteFailure = false := by
        split
        · exact ⟨[], by simp, by simp⟩
        · refine ⟨[Event.clientWrite r.data (a.write env r.data).2.2], by simp, ?_⟩
          intro e he
          simp only [List.mem_singleton] at he
          subst he; rfl
      generalize (if r.data.isEmpty then (a, 0, true) else a.write env r.data) = x at hx ⊢
      obtain ⟨ext, x1, x2⟩ := hx
      split
      · exact ⟨ext, x1, x2⟩
      · split
        · obtain ⟨ext2, y1, y2⟩ := ih x.1 (n + x.2.1)
          refine ⟨ext ++ ext2, by rw [y1, x1, List.append_assoc], ?_⟩
          intro e he
          rcases List.mem_append.1 he with h | h
          · exact x2 e h
          · exact y2 e h
        · exact ⟨ext, x1, x2⟩
        · exact ⟨ext, x1, x2⟩
  obtain ⟨ext, h1, h2⟩ := key reads (missHeader w cl) 0
  rw [missHeader_trace] at h1
  unfold missStreamOnly
  dsimp only
  split
  · exact ⟨ext, by simpa using h1, h2⟩
  · exact ⟨ext, by simpa using h1, h2⟩

/-! ## The nexus pass -/

theorem TraceExt.filter_get {a b : World} (h : TraceExt a b) :
    b.trace.filter Event.isHttpGet = a.trace.filter Event.isHttpGet := by
  obtain ⟨ext, h1, h2⟩ := h
  rw [h1, List.filter_append]
  have : ext.filter Event.isHttpGet = [] := by
    rw [List.filter_eq_nil_iff]
    intro e he
    simp [(h2 e he).2]
  rw [this, List.append_nil]

theorem matcher_eq_passesFilter (repo : Repo) (w : World) (filename : GoString) :
    (matcher repo w filename).2 = passesFilter repo filename := by
  unfold matcher passesFilter
  cases h1 : repo.prefetchIncludeRegexps.isEmpty <;>
  cases h2 : repo.prefetchIncludeRegexps.any (fun re => re filename) <;>
  cases h3 : repo.prefetchExcludeRegexps.any (fun re => re filename) <;> simp

theorem matcher_false {repo : Repo} {w : World} {filename : GoString}
    (h : (matcher repo w filename).2 = false) :
    (matcher repo w filename).1
      = w.metric fun m => { m with prefetch_ignore_count := m.prefetch_ignore_count + 1 } := by
  unfold matcher at h ⊢
  split
  · rfl
  · rename_i hc
    rw [if_neg hc] at h
    split
    · rfl
    · rename_i hd
      rw [if_neg hd] at h
      simp at h

theorem processDownload_frame (env : Env) (w : World) (cacheFilename : GoString)
    (reads : List ReadResult) (t : TempFile) :
    TraceExt w (processDownload env w cacheFilename reads t).1 ∧
      (processDownload env w cacheFilename reads t).1.m.prefetch_ignore_count
        = w.m.prefetch_ignore_count ∧
      (processDownload env w cacheFilename reads t).1.m.prefetch_skip_count
        = w.m.prefetch_skip_count := by
  have h1 := traceExt_ioCopy (tempWrite env t.temp) (fun a d => traceExt_tempWrite env t.temp a d)
    reads w 0
  have h2 := ioCopy_miss_count (tempWrite env t.temp) (fun a d => tempWrite_m env t.temp a d)
    reads w 0
  unfold processDownload
  dsimp only
  generalize ioCopy (tempWrite env t.temp) reads w 0 = c at h1 h2 ⊢
  split
  · refine ⟨h1.trans (TraceExt.step _ rfl ⟨rfl, rfl⟩), ?_, ?_⟩
    · simp [h2]
    · simp [h2]
  · split
    · refine ⟨h1.trans (TraceExt.step _ rfl ⟨rfl, rfl⟩), ?_, ?_⟩
      · simp [h2]
      · simp [h2]
    · refine ⟨h1.trans ((TraceExt.step (Event.finalize cacheFilename _) rfl ⟨rfl, rfl⟩).trans
        (TraceExt.step Event.statfs rfl ⟨rfl, rfl⟩)), ?_, ?_⟩
      · simp [h2, World.update_free_disk_space]
      · simp [h2, World.update_free_disk_space]
    · refine ⟨h1.trans ((TraceExt.step (Event.finalize cacheFilename _) rfl ⟨rfl, rfl⟩).trans
        (TraceExt.step Event.statfs rfl ⟨rfl, rfl⟩)), ?_, ?_⟩
      · simp [h2, World.update_free_disk_space]
      · simp [h2, World.update_free_disk_space]

theorem processFetch_absent (env : Env) (w : World) (reponame : GoString) (repo : Repo)
    (filename : GoString)
    (h : statNotExist env w.fs ("cache/".toList ++ reponame ++ "/final/".toList ++ filename)
        = true) :
    (processFetch env w reponame repo filename).1.trace.filter Event.isHttpGet
        = w.trace.filter Event.isHttpGet ++ [Event.httpGet (repo.upstreamURLBase ++ filename)] ∧
      (processFetch env w reponame repo filename).1.m.prefetch_ignore_count
        = w.m.prefetch_ignore_count ∧
      (processFetch env w reponame repo filename).1.m.prefetch_skip_count
        = w.m.prefetch_skip_count := by
  unfold processFetch
  dsimp only
  rw [h]
  simp only [Bool.not_true, Bool.false_eq_true, if_false]
  cases hu : env.upstream (repo.upstreamURLBase ++ filename) with
  | transportError =>
    dsimp only
    simp [List.filter_append, Event.isHttpGet]
  | response st cl reads =>
    dsimp only
    cases hnt : NewTempFile env.temp
        ((w.log (Event.osStat ("cache/".toList ++ reponame ++ "/final/".toList ++ filename)
          true)).log (Event.httpGet (repo.upstreamURLBase ++ filename))).fs
        ("cache/".toList ++ reponame ++ "/temp/".toList) filename
        ("cache/".toList ++ reponame ++ "/final/".toList ++ filename) with
    | none =>
      dsimp only
      simp [List.filter_append, Event.isHttpGet]
    | some p =>
      obtain ⟨t, fs1⟩ := p
      dsimp only
      obtain ⟨g1, g2, g3⟩ := processDownload_frame env
        (((w.log (Event.osStat ("cache/".toList ++ reponame ++ "/final/".toList ++ filename)
          true)).log (Event.httpGet (repo.upstreamURLBase ++ filename))).setFS fs1 |>.log
          (Event.newTempFile ("cache/".toList ++ reponame ++ "/temp/".toList) filename
            ("cache/".toList ++ reponame ++ "/final/".toList ++ filename) true))
        ("cache/".toList ++ reponame ++ "/final/".toList ++ filename) reads t
      refine ⟨?_, ?_, ?_⟩
      · rw [g1.filter_get]
        simp [List.filter_append, Event.isHttpGet]
      · rw [g2]; rfl
      · rw [g3]; rfl

theorem process_spec (env : Env) (w : World)
    (reponame : GoString) (repo : Repo) (item : NexusItem) :
    (process env w reponame repo item).1.trace.filter Event.isHttpGet
        = w.trace.filter Event.isHttpGet ++ (statPass env reponame repo [item] w).1 ∧
      (process env w reponame repo item).1.m.prefetch_ignore_count
        = w.m.prefetch_ignore_count + (statPass env reponame repo [item] w).2.1 ∧
      (process env w reponame repo item).1.m.prefetch_skip_count
        = w.m.prefetch_skip_count + (statPass env reponame repo [item] w).2.2 := by
  unfold statPass
  simp only [statPass]
  unfold process
  by_cases hm : (matcher repo w item.Path).2 = true
  · have hp : passesFilter repo item.Path = true := by rw [← matcher_eq_passesFilter repo w]; exact hm
    rw [if_pos hm, matcher_true hm, hp]
    simp only [Bool.not_true, Bool.false_eq_true, if_false]
    cases hst : statNotExist env w.fs
        ("cache/".toList ++ reponame ++ "/final/".toList ++ item.Path) with
    | false =>
      rw [processFetch_skip env w reponame repo item.Path hst]
      simp [List.filter_append, Event.isHttpGet]
    | true =>
      obtain ⟨a1, a2, a3⟩ := processFetch_absent env w reponame repo item.Path hst
      simp only [Bool.not_true, Bool.false_eq_true, if_false]
      exact ⟨a1, by rw [a2]; rfl, by rw [a3]; rfl⟩
  · have hm2 : (matcher repo w item.Path).2 = false := by simpa using hm
    have hp : passesFilter repo item.Path = false := by
      rw [← matcher_eq_passesFilter repo w]; exact hm2
    rw [if_neg hm, matcher_false hm2, hp]
    simp

theorem processItems_cons (env : Env) (reponame : GoString) (repo : Repo) (item : NexusItem)
    (rest : List NexusItem) (s : PassState) :
    ∃ s1 : PassState, processItems env reponame repo (item :: rest) s
        = processItems env reponame repo rest s1 ∧
      s1.w = (process env s.w reponame repo item).1 ∧ s1.requests = s.requests ∧
      s1.prefetch_list_request_count = s.prefetch_list_request_count ∧
      s1.prefetch_list_error_count = s.prefetch_list_error_count := by
  refine ⟨_, rfl, ?_, ?_, ?_, ?_⟩ <;> split <;> rfl

theorem statPass_cons (env : Env) (reponame : GoString) (repo : Repo) (item : NexusItem)
    (rest : List NexusItem) (w : World) :
    statPass env reponame repo (item :: rest) w
      = ((statPass env reponame repo [item] w).1 ++
          (statPass env reponame repo rest (process env w reponame repo item).1).1,
         (statPass env reponame repo [item] w).2.1 +
          (statPass env reponame repo rest (process env w reponame repo item).1).2.1,
         (statPass env reponame repo [item] w).2.2 +
          (statPass env reponame repo rest (process env w reponame repo item).1).2.2) := by
  simp only [statPass]
  split
  · simp [Nat.add_comm]
  · split
    · simp [Nat.add_comm]
    · simp

theorem processItems_spec (env : Env)
    (reponame : GoString) (repo : Repo) (items : List NexusItem) (s : PassState) :
    (processItems env reponame repo items s).w.trace.filter Event.isHttpGet
        = s.w.trace.filter Event.isHttpGet ++ (statPass env reponame repo items s.w).1 ∧
      (processItems env reponame repo items s).w.m.prefetch_ignore_count
        = s.w.m.prefetch_ignore_count + (statPass env reponame repo items s.w).2.1 ∧
      (processItems env reponame repo items s).w.m.prefetch_skip_count
        = s.w.m.prefetch_skip_count + (statPass env reponame repo items s.w).2.2 ∧
      (processItems env reponame repo items s).requests = s.requests ∧
      (processItems env reponame repo items s).prefetch_list_request_count
        = s.prefetch_list_request_count ∧
      (processItems env reponame repo items s).prefetch_list_error_count
        = s.prefetch_list_error_count := by
  induction items generalizing s with
  | nil => simp [processItems, statPass]
  | cons item rest ih =>
    obtain ⟨s1, e, hw, hr, hc1, hc2⟩ := processItems_cons env reponame repo item rest s
    obtain ⟨p1, p2, p3⟩ := process_spec env s.w reponame repo item
    obtain ⟨i1, i2, i3, i4, i5, i6⟩ := ih s1
    rw [e, statPass_cons]
    rw [hw] at i1 i2 i3
    refine ⟨?_, ?_, ?_, ?_, ?_, ?_⟩
    · rw [i1, p1, List.append_assoc]
    · rw [i2, p2, Nat.add_assoc]
    · rw [i3, p3, Nat.add_assoc]
    · rw [i4, hr]
    · rw [i5, hc1]
    · rw [i6, hc2]

theorem statPass_append (env : Env) (reponame : GoString) (repo : Repo)
    (a b : List NexusItem) (s : PassState) :
    statPass env reponame repo (a ++ b) s.w
      = ((statPass env reponame repo a s.w).1 ++
          (statPass env reponame repo b (processItems env reponame repo a s).w).1,
         (statPass env reponame repo a s.w).2.1 +
          (statPass env reponame repo b (processItems env reponame repo a s).w).2.1,
         (statPass env reponame repo a s.w).2.2 +
          (statPass env reponame repo b (processItems env reponame repo a s).w).2.2) := by
  induction a generalizing s with
  | nil => simp [statPass, processItems]
  | cons item rest ih =>
    obtain ⟨s1, e, hw, _⟩ := processItems_cons env reponame repo item rest s
    rw [List.cons_append, statPass_cons, statPass_cons env reponame repo item rest, e, ← hw,
      ih s1]
    simp only [List.append_assoc, Nat.add_assoc]

theorem nexusLoop_spec (env : Env)
    (reponame : GoString) (repo : Repo) (url : GoString) (pages : List NexusAssetsResponse)
    (last : NexusAssetsResponse) (more : List ListReply)
    (htok : ∀ p ∈ pages, p.ContinuationToken ≠ []) (hlast : last.ContinuationToken = [])
    (token : GoString) (s : PassState) :
    (nexusLoop env reponame repo url
        ((pages ++ [last]).map (fun p => ListReply.response 200 (some p)) ++ more) token s).2
        = true ∧
    (nexusLoop env reponame repo url
        ((pages ++ [last]).map (fun p => ListReply.response 200 (some p)) ++ more) token
        s).1.requests
      = s.requests ++ urlWithContinuation url token ::
          pages.map (fun p => urlWithContinuation url p.ContinuationToken) ∧
    (nexusLoop env reponame repo url
        ((pages ++ [last]).map (fun p => ListReply.response 200 (some p)) ++ more) token
        s).1.prefetch_list_request_count = s.prefetch_list_request_count + pages.length + 1 ∧
    (nexusLoop env reponame repo url
        ((pages ++ [last]).map (fun p => ListReply.response 200 (some p)) ++ more) token
        s).1.prefetch_list_error_count = s.prefetch_list_error_count ∧
    (nexusLoop env reponame repo url
        ((pages ++ [last]).map (fun p => ListReply.response 200 (some p)) ++ more) token
        s).1.w.trace.filter Event.isHttpGet
      = s.w.trace.filter Event.isHttpGet ++
        (statPass env reponame repo ((pages ++ [last]).map (fun p => p.Items)).flatten s.w).1 ∧
    (nexusLoop env reponame repo url
        ((pages ++ [last]).map (fun p => ListReply.response 200 (some p)) ++ more) token
        s).1.w.m.prefetch_ignore_count
      = s.w.m.prefetch_ignore_count +
        (statPass env reponame repo ((pages ++ [last]).map (fun p => p.Items)).flatten s.w).2.1 ∧
    (nexusLoop env reponame repo url
        ((pages ++ [last]).map (fun p => ListReply.response 200 (some p)) ++ more) token
        s).1.w.m.prefetch_skip_count
      = s.w.m.prefetch_skip_count +
        (statPass env reponame repo ((pages ++ [last]).map (fun p => p.Items)).flatten s.w).2.2 := by
  induction pages generalizing token s with
  | nil =>
    simp only [List.nil_append, List.map_cons, List.map_nil, List.cons_append, List.flatten_cons,
      List.flatten_nil, List.append_nil, List.length_nil, Nat.add_zero]
    unfold nexusLoop
    simp only [ne_eq, not_true_eq_false, if_false, hlast, List.length_nil, gt_iff_lt,
      Nat.lt_irrefl]
    obtain ⟨i1, i2, i3, i4, i5, i6⟩ := processItems_spec env reponame repo last.Items
      { s with prefetch_list_request_count := s.prefetch_list_request_count + 1,
               requests := s.requests ++ [urlWithContinuation url token] }
    exact ⟨trivial, i4, i5, i6, i1, i2, i3⟩
  | cons p ps ih =>
    have hp : p.ContinuationToken.length > 0 := by
      have := htok p (List.mem_cons_self _ _)
      exact List.length_pos.2 this
    have hps : ∀ q ∈ ps, q.ContinuationToken ≠ [] := fun q hq => htok q (List.mem_cons_of_mem _ hq)
    simp only [List.cons_append, List.map_cons, List.flatten_cons, List.length_cons]
    unfold nexusLoop
    simp only [ne_eq, not_true_eq_false, if_false, hp, if_true]
    obtain ⟨i1, i2, i3, i4, i5, i6⟩ := processItems_spec env reponame repo p.Items
      { s with prefetch_list_request_count := s.prefetch_list_request_count + 1,
               requests := s.requests ++ [urlWithContinuation url token] }
    obtain ⟨j1, j2, j3, j4, j5, j6, j7⟩ := ih hps p.ContinuationToken
      (processItems env reponame repo p.Items
        { s with prefetch_list_request_count := s.prefetch_list_request_count + 1,
                 requests := s.requests ++ [urlWithContinuation url token] })
    have ha := statPass_append env reponame repo p.Items
      ((ps ++ [last]).map (fun p => p.Items)).flatten
      { s with prefetch_list_request_count := s.prefetch_list_request_count + 1,
               requests := s.requests ++ [urlWithContinuation url token] }
    dsimp only at ha i1 i2 i3 i4 i5 i6
    refine ⟨j1, ?_, ?_, ?_, ?_, ?_, ?_⟩
    · rw [j2, i4]; simp
    · rw [j3, i5]; omega
    · rw [j4, i6]
    · rw [j5, i1, ha, List.append_assoc]
    · rw [j6, i2, ha, Nat.add_assoc]
    · rw [j7, i3, ha, Nat.add_assoc]

theorem statPass_ignores (env : Env) (reponame : GoString) (repo : Repo)
    (items : List NexusItem) (w : World) :
    (statPass env reponame repo items w).2.1
      = (items.filter (fun it => !passesFilter repo it.Path)).length := by
  induction items generalizing w with
  | nil => rfl
  | cons item rest ih =>
    simp only [statPass, List.filter_cons]
    by_cases hp : passesFilter repo item.Path = true
    · simp only [hp, Bool.not_true, Bool.false_eq_true, if_false]
      split <;> exact ih _
    · have hp2 : passesFilter repo item.Path = false := by simpa using hp
      simp only [hp2, Bool.not_false, if_true, List.length_cons]
      rw [ih]

/-! ## The generic pass -/

theorem Grows.of_same {a b : PassState} (h1 : b.totalFetches = a.totalFetches)
    (h2 : b.requests = a.requests) : Grows a b :=
  ⟨by rw [h1], [], by rw [h2, List.append_nil], by rw [h1]; simp⟩

theorem Grows.chain {a b c : PassState} (h1 : Grows a b) (h2 : Grows b c) : Grows a c := by
  obtain ⟨a1, e1, a2, a3⟩ := h1
  obtain ⟨b1, e2, b2, b3⟩ := h2
  refine ⟨Nat.le_trans a1 b1, e1 ++ e2, by rw [b2, a2, List.append_assoc], ?_⟩
  rw [List.length_append]
  omega

theorem scanLine_cases (recurse : GoString → PassState → Option (PassState × Bool))
    (repo : Repo) (url line : GoString) (s : PassState) :
    (∃ r, scanLine recurse repo url line s = some r ∧ r.totalFetches = s.totalFetches ∧
      r.requests = s.requests) ∨
    (∃ u st, st.totalFetches = s.totalFetches ∧ st.requests = s.requests ∧
      s.totalFetches < recursionLimit ∧
      scanLine recurse repo url line s = (recurse u st).map (fun r => r.1)) := by
  unfold scanLine
  cases hrefOf line with
  | none => exact Or.inl ⟨_, rfl, rfl, rfl⟩
  | some href =>
    dsimp only
    by_cases h1 : reSchemaMatch href = true
    · rw [if_pos h1]; exact Or.inl ⟨_, rfl, rfl, rfl⟩
    · rw [if_neg h1]
      by_cases h2 : (strings.HasPrefix href "../".toList || strings.HasPrefix href "/".toList ||
          strings.HasPrefix href "?".toList) = true
      · rw [if_pos h2]; exact Or.inl ⟨_, rfl, rfl, rfl⟩
      · rw [if_neg h2]
        by_cases h3 : strings.Contains href "&".toList = true
        · rw [if_pos h3]; exact Or.inl ⟨_, rfl, rfl, rfl⟩
        · rw [if_neg h3]
          by_cases h4 : (!(matcher repo s.w href).2) = true
          · rw [if_pos h4]
            by_cases h5 : strings.HasSuffix href "/".toList = true
            · rw [if_pos h5]; exact Or.inl ⟨_, rfl, rfl, rfl⟩
            · rw [if_neg h5]; exact Or.inl ⟨_, rfl, rfl, rfl⟩
          · rw [if_neg h4]
            by_cases h6 : (strings.HasSuffix href "/".toList &&
                decide (s.totalFetches < recursionLimit)) = true
            · rw [if_pos h6]
              simp only [Bool.and_eq_true, decide_eq_true_eq] at h6
              refine Or.inr ⟨url ++ href,
                { s with discoveredLinksCount := s.discoveredLinksCount + 1,
                         w := (matcher repo s.w href).1 }, rfl, rfl, h6.2, ?_⟩
              cases recurse (url ++ href)
                { s with discoveredLinksCount := s.discoveredLinksCount + 1,
                         w := (matcher repo s.w href).1 } <;> rfl
            · rw [if_neg h6]; exact Or.inl ⟨_, rfl, rfl, rfl⟩

theorem scanLines_grows (recurse : GoString → PassState → Option (PassState × Bool))
    (repo : Repo) (url : GoString)
    (hrec : ∀ u st r, recurse u st = some r → Grows st r.1)
    (lines : List GoString) (s r : PassState)
    (h : scanLines recurse repo url lines s = some r) : Grows s r := by
  induction lines generalizing s with
  | nil =>
    unfold scanLines at h
    simp only [Option.some.injEq] at h
    subst h
    exact Grows.of_same rfl rfl
  | cons line rest ih =>
    unfold scanLines at h
    rcases scanLine_cases recurse repo url line s with ⟨x, hx, e1, e2⟩ | ⟨u, st, e1, e2, _, hx⟩
    · rw [hx] at h
      exact (Grows.of_same e1 e2).chain (ih _ h)
    · rw [hx] at h
      cases hr : recurse u st with
      | none => rw [hr] at h; simp at h
      | some x =>
        rw [hr] at h
        exact ((Grows.of_same e1 e2).chain (hrec _ _ _ hr)).chain (ih _ h)

theorem recursor_grows (pages : Nat → GoString → PageReply) (repo : Repo) (fuel : Nat)
    (url : GoString) (depth : Nat) (s : PassState) (r : PassState × Bool)
    (h : recursor pages repo fuel url depth s = some r) : Grows s r.1 := by
  induction fuel generalizing url depth s r with
  | zero => simp [recursor] at h
  | succ fuel ih =>
    unfold recursor at h
    by_cases hlim : s.totalFetches + 1 > recursionLimit
    · rw [if_pos hlim] at h
      simp only [Option.some.injEq] at h
      subst h
      exact ⟨Nat.le_succ _, [], by simp, by
        dsimp only
        simp only [List.length_nil, Nat.zero_add]
        omega⟩
    · rw [if_neg hlim] at h
      have hstep : ∀ b : PassState, b.totalFetches = s.totalFetches + 1 →
          b.requests = s.requests ++ [url] → Grows s b := by
        intro b h1 h2
        refine ⟨by omega, [url], h2, ?_⟩
        rw [h1]
        simp only [List.length_singleton]
        omega
      cases hp : pages s.requests.length url with
      | requestError =>
        rw [hp] at h
        simp only [Option.some.injEq] at h
        subst h
        exact ⟨Nat.le_succ _, [], by simp, by
        dsimp only
        simp only [List.length_nil, Nat.zero_add]
        omega⟩
      | transportError =>
        rw [hp] at h
        simp only [Option.some.injEq] at h
        subst h
        exact hstep _ rfl rfl
      | response status lines scanErr =>
        rw [hp] at h
        dsimp only at h
        by_cases hst : status ≠ 200
        · rw [if_pos hst] at h
          simp only [Option.some.injEq] at h
          subst h
          exact hstep _ rfl rfl
        · rw [if_neg hst] at h
          cases hs3 : scanLines (fun u st => recursor pages repo fuel u (depth + 1) st) repo url
              lines { s with totalFetches := s.totalFetches + 1,
                             requests := s.requests ++ [url] } with
          | none => rw [hs3] at h; simp at h
          | some s3 =>
            rw [hs3] at h
            simp only [Option.some.injEq] at h
            subst h
            exact (hstep _ rfl rfl).chain
              (scanLines_grows _ repo url (fun u st r hr => ih u (depth + 1) st r hr) _ _ _ hs3)

theorem scanLines_total (recurse : GoString → PassState → Option (PassState × Bool))
    (repo : Repo) (url : GoString) (k : Nat)
    (hrec : ∀ u st r, recurse u st = some r → Grows st r.1)
    (htot : ∀ u st, k ≤ st.totalFetches → st.totalFetches < recursionLimit →
      (recurse u st).isSome = true)
    (lines : List GoString) (s : PassState) (hs : k ≤ s.totalFetches) :
    (scanLines recurse repo url lines s).isSome = true := by
  induction lines generalizing s with
  | nil => rfl
  | cons line rest ih =>
    unfold scanLines
    rcases scanLine_cases recurse repo url line s with ⟨x, hx, e1, e2⟩ | ⟨u, st, e1, e2, hl, hx⟩
    · rw [hx]
      exact ih x (by rw [e1]; exact hs)
    · rw [hx]
      have := htot u st (by rw [e1]; exact hs) (by rw [e1]; exact hl)
      cases hr : recurse u st with
      | none => rw [hr] at this; simp at this
      | some x =>
        dsimp only [Option.map]
        apply ih
        have := (hrec _ _ _ hr).1
        omega

theorem recursor_total (pages : Nat → GoString → PageReply) (repo : Repo) (fuel : Nat)
    (url : GoString) (depth : Nat) (s : PassState)
    (h1 : s.totalFetches < recursionLimit) (h2 : recursionLimit < fuel + s.totalFetches) :
    (recursor pages repo fuel url depth s).isSome = true := by
  induction fuel generalizing url depth s with
  | zero => omega
  | succ fuel ih =>
    unfold recursor
    by_cases hlim : s.totalFetches + 1 > recursionLimit
    · rw [if_pos hlim]; rfl
    · rw [if_neg hlim]
      cases hp : pages s.requests.length url with
      | requestError => rfl
      | transportError => rfl
      | response status lines scanErr =>
        dsimp only
        by_cases hst : status ≠ 200
        · rw [if_pos hst]; rfl
        · rw [if_neg hst]
          have := scanLines_total (fun u st => recursor pages repo fuel u (depth + 1) st) repo url
            (s.totalFetches + 1)
            (fun u st r hr => recursor_grows pages repo fuel u (depth + 1) st r hr)
            (fun u st hk hl => ih u (depth + 1) st hl (by omega))
            lines { s with totalFetches := s.totalFetches + 1, requests := s.requests ++ [url] }
            (Nat.le_refl _)
          cases hx : scanLines (fun u st => recursor pages repo fuel u (depth + 1) st) repo url
              lines { s with totalFetches := s.totalFetches + 1,
                             requests := s.requests ++ [url] } with
          | none => rw [hx] at this; simp at this
          | some s3 => rfl

theorem scanLines_mono (rec1 rec2 : GoString → PassState → Option (PassState × Bool))
    (repo : Repo) (url : GoString)
    (hrec : ∀ u st r, rec1 u st = some r → rec2 u st = some r)
    (lines : List GoString) (s r : PassState)
    (h : scanLines rec1 repo url lines s = some r) :
    scanLines rec2 repo url lines s = some r := by
  induction lines generalizing s with
  | nil => exact h
  | cons line rest ih =>
    unfold scanLines at h ⊢
    have key : ∀ x, scanLine rec1 repo url line s = some x →
        scanLine rec2 repo url line s = some x := by
      intro x hx
      unfold scanLine at hx ⊢
      cases hh : hrefOf line with
      | none => rw [hh] at hx; exact hx
      | some href =>
        rw [hh] at hx
        dsimp only at hx ⊢
        by_cases h1 : reSchemaMatch href = true
        · rw [if_pos h1] at hx ⊢; exact hx
        · rw [if_neg h1] at hx ⊢
          by_cases h2 : (strings.HasPrefix href "../".toList ||
              strings.HasPrefix href "/".toList || strings.HasPrefix href "?".toList) = true
          · rw [if_pos h2] at hx ⊢; exact hx
          · rw [if_neg h2] at hx ⊢
            by_cases h3 : strings.Contains href "&".toList = true
            · rw [if_pos h3] at hx ⊢; exact hx
            · rw [if_neg h3] at hx ⊢
              by_cases h4 : (!(matcher repo s.w href).2) = true
              · rw [if_pos h4] at hx ⊢; exact hx
              · rw [if_neg h4] at hx ⊢
                by_cases h6 : (strings.HasSuffix href "/".toList &&
                    decide (s.totalFetches < recursionLimit)) = true
                · rw [if_pos h6] at hx ⊢
                  cases hr : rec1 (url ++ href)
                    { s with discoveredLinksCount := s.discoveredLinksCount + 1,
                             w := (matcher repo s.w href).1 } with
                  | none => rw [hr] at hx; simp at hx
                  | some y =>
                    rw [hr] at hx
                    rw [hrec _ _ _ hr]
                    exact hx
                · rw [if_neg h6] at hx ⊢; exact hx
    cases hx : scanLine rec1 repo url line s with
    | none => rw [hx] at h; simp at h
    | some x =>
      rw [hx] at h
      rw [key x hx]
      exact ih x h

theorem recursor_mono (pages : Nat → GoString → PageReply) (repo : Repo) (fuel : Nat)
    (url : GoString) (depth : Nat) (s : PassState) (r : PassState × Bool)
    (h : recursor pages repo fuel url depth s = some r) :
    recursor pages repo (fuel + 1) url depth s = some r := by
  induction fuel generalizing url depth s r with
  | zero => simp [recursor] at h
  | succ fuel ih =>
    unfold recursor at h ⊢
    by_cases hc : s.totalFetches + 1 > recursionLimit
    · rw [if_pos hc] at h ⊢; exact h
    · rw [if_neg hc] at h ⊢
      cases hp : pages s.requests.length url with
      | requestError => rw [hp] at h; exact h
      | transportError => rw [hp] at h; exact h
      | response status lines scanErr =>
        rw [hp] at h
        dsimp only at h ⊢
        by_cases hd : status ≠ 200
        · rw [if_pos hd] at h ⊢; exact h
        · rw [if_neg hd] at h ⊢
          cases hx : scanLines (fun u st => recursor pages repo fuel u (depth + 1) st) repo url
              lines { s with totalFetches := s.totalFetches + 1,
                             requests := s.requests ++ [url] } with
          | none => rw [hx] at h; simp at h
          | some s3 =>
            rw [hx] at h
            rw [scanLines_mono _ (fun u st => recursor pages repo (fuel + 1) u (depth + 1) st)
              repo url (fun u st r hr => ih u (depth + 1) st r hr) _ _ _ hx]
            exact h

theorem recursor_fuel (pages : Nat → GoString → PageReply) (repo : Repo) (fuel k : Nat)
    (url : GoString) (depth : Nat) (s : PassState) (r : PassState × Bool)
    (h : recursor pages repo fuel url depth s = some r) :
    recursor pages repo (fuel + k) url depth s = some r := by
  induction k with
  | zero => exact h
  | succ k ih => exact recursor_mono pages repo (fuel + k) url depth s r ih

theorem recursor_result (pages : Nat → GoString → PageReply) (repo : Repo) (fuel : Nat)
    (url : GoString) (s : PassState) (h0 : s.totalFetches = 0) (hfuel : recursionLimit < fuel) :
    ∃ x, recursor pages repo fuel url 0 s = some x ∧
      recursor pages repo (recursionLimit + 1) url 0 s = some x ∧
      ∃ ext, x.1.requests = s.requests ++ ext ∧ ext.length ≤ recursionLimit := by
  have ht := recursor_total pages repo (recursionLimit + 1) url 0 s
    (by rw [h0]; decide) (by omega)
  obtain ⟨x, hx⟩ := Option.isSome_iff_exists.1 ht
  have hf := recursor_fuel pages repo (recursionLimit + 1) (fuel - (recursionLimit + 1)) url 0 s
    x hx
  have he : recursionLimit + 1 + (fuel - (recursionLimit + 1)) = fuel := by omega
  rw [he] at hf
  obtain ⟨_, ext, g1, g2⟩ := recursor_grows pages repo _ url 0 s x hx
  refine ⟨x, hf, hx, ext, g1, ?_⟩
  have : min x.1.totalFetches recursionLimit ≤ recursionLimit := Nat.min_le_right _ _
  omega

/-! ## The GC walk -/

theorem walkDir_cons_ok (repo : Repo) (v : Visit) (vs : List Visit) (s : GcState)
    (h : (walker repo v s).2 = GoResult.ok) :
    walkDir repo (v :: vs) s = walkDir repo vs (walker repo v s).1 := by
  rw [walkDir, h]

theorem walkDir_cons_stop (repo : Repo) (v : Visit) (vs : List Visit) (s : GcState)
    (h : (walker repo v s).2 ≠ GoResult.ok) :
    walkDir repo (v :: vs) s = walker repo v s := by
  rw [walkDir]
  cases hw : (walker repo v s).2 with
  | ok => exact absurd hw h
  | err => dsimp only; rw [← hw]
  | nilPanic => dsimp only; rw [← hw]

theorem walkDir_append (repo : Repo) (pre rest : List Visit) (s : GcState)
    (h : (walkDir repo pre s).2 = GoResult.ok) :
    walkDir repo (pre ++ rest) s = walkDir repo rest (walkDir repo pre s).1 := by
  induction pre generalizing s with
  | nil => rfl
  | cons v vs ih =>
    rw [List.cons_append]
    by_cases hw : (walker repo v s).2 = GoResult.ok
    · rw [walkDir_cons_ok repo v _ s hw] at h ⊢
      rw [walkDir_cons_ok repo v _ s hw]
      exact ih _ h
    · rw [walkDir_cons_stop repo v _ s hw] at h
      exact absurd h hw

theorem walker_info_fails (repo : Repo) (v : Visit) (d : DirEntry) (s : GcState)
    (hd : v.d = some d) (hfile : d.isDir = false) :
    (d.info = InfoResult.notExist → walker repo v s = (s, GoResult.ok)) ∧
    (d.info = InfoResult.error → walker repo v s = (s, GoResult.err)) := by
  unfold walker
  rw [hd]
  dsimp only
  rw [hfile]
  constructor
  · intro h; rw [h]; rfl
  · intro h; rw [h]; rfl

theorem wrapInt64_of_range (x : Int) (h1 : -(2 ^ 63) ≤ x) (h2 : x < 2 ^ 63) :
    wrapInt64 x = x := by
  unfold wrapInt64
  omega

theorem walker_result_indep (repo : Repo) (v : Visit) (s t : GcState) :
    (walker repo v s).2 = (walker repo v t).2 := by
  unfold walker
  cases v.d with
  | none => rfl
  | some d =>
    dsimp only
    cases d.isDir with
    | true => rfl
    | false =>
      simp only [Bool.false_eq_true, if_false]
      cases d.info with
      | notExist => rfl
      | error => rfl
      | ok fi =>
        dsimp only
        cases gcDelete repo v fi <;> cases v.removeFails <;> rfl

theorem visited_indep (repo : Repo) (vs : List Visit) (s t : GcState) :
    visited repo vs s = visited repo vs t := by
  induction vs generalizing s t with
  | nil => rfl
  | cons v vs ih =>
    rw [visited, visited, walker_result_indep repo v s t]
    cases (walker repo v t).2 with
    | ok => dsimp only; rw [ih]
    | err => rfl
    | nilPanic => rfl

theorem visited_cons_ok (repo : Repo) (v : Visit) (vs : List Visit) (s : GcState)
    (h : (walker repo v s).2 = GoResult.ok) :
    visited repo (v :: vs) s = v :: visited repo vs (walker repo v s).1 := by
  rw [visited, h]

theorem visited_cons_stop (repo : Repo) (v : Visit) (vs : List Visit) (s : GcState)
    (h : (walker repo v s).2 ≠ GoResult.ok) :
    visited repo (v :: vs) s = [v] := by
  rw [visited]
  cases hw : (walker repo v s).2 with
  | ok => exact absurd hw h
  | err => rfl
  | nilPanic => rfl

theorem Visit.size_of_file_none (v : Visit) (h : v.file = none) : v.size = 0 := by
  unfold Visit.size
  rw [h]

theorem Visit.unlinked_file (repo : Repo) (v : Visit) (h : v.unlinked repo = true) :
    v.file.isSome = true := by
  unfold Visit.unlinked at h
  cases hf : v.file with
  | none => rw [hf] at h; cases h
  | some fi => rfl

theorem walker_counts (repo : Repo) (v : Visit) (s : GcState)
    (hf : 0 ≤ s.fileCount) (hf2 : s.fileCount + 1 < 2 ^ 63)
    (hr : 0 ≤ s.removedCount) (hr2 : s.removedCount + 1 < 2 ^ 63)
    (hb : 0 ≤ s.bytesSum) (hrb : 0 ≤ s.removedBytesSum)
    (hsz : 0 ≤ v.size) (hsum : s.bytesSum + s.removedBytesSum + v.size < 2 ^ 63) :
    (walker repo v s).1.fileCount = s.fileCount + (if v.file.isSome then 1 else 0) ∧
    (walker repo v s).1.removedCount = s.removedCount + (if v.unlinked repo then 1 else 0) ∧
    (walker repo v s).1.bytesSum = s.bytesSum + (if v.unlinked repo then 0 else v.size) ∧
    (walker repo v s).1.removedBytesSum
      = s.removedBytesSum + (if v.unlinked repo then v.size else 0) ∧
    (walker repo v s).1.gc_error_count
      = s.gc_error_count + (if v.unlinkFails repo then 1 else 0) := by
  unfold Visit.size at hsz hsum ⊢
  unfold Visit.unlinked Visit.unlinkFails Visit.file at *
  unfold walker
  cases hd : v.d with
  | none => simp
  | some d =>
    rw [hd] at hsz hsum
    dsimp only at hsz hsum ⊢
    cases hdir : d.isDir with
    | true => simp
    | false =>
      rw [hdir] at hsz hsum
      simp only [Bool.false_eq_true, if_false] at hsz hsum ⊢
      cases hi : d.info with
      | notExist => simp
      | error => simp
      | ok fi =>
        rw [hi] at hsz hsum
        dsimp only at hsz hsum ⊢
        have e1 : wrapInt64 (s.fileCount + 1) = s.fileCount + 1 :=
          wrapInt64_of_range _ (by omega) hf2
        have e2 : wrapInt64 (s.removedCount + 1) = s.removedCount + 1 :=
          wrapInt64_of_range _ (by omega) hr2
        have e3 : wrapInt64 (s.bytesSum + fi.size) = s.bytesSum + fi.size :=
          wrapInt64_of_range _ (by omega) (by omega)
        have e4 : wrapInt64 (s.removedBytesSum + fi.size) = s.removedBytesSum + fi.size :=
          wrapInt64_of_range _ (by omega) (by omega)
        cases hg : gcDelete repo v fi <;> cases hrm : v.removeFails <;>
          simp [e1, e2, e3, e4]

theorem Visit.file_none_of_not_isSome (v : Visit) (h : ¬ v.file.isSome = true) : v.file = none := by
  cases hf : v.file with
  | none => rfl
  | some fi => rw [hf] at h; exact absurd rfl h

theorem countedFiles_cons (v : Visit) (m : List Visit) :
    countedFiles (v :: m) = if v.file.isSome = true then v :: countedFiles m else countedFiles m := by
  unfold countedFiles
  rw [List.filter_cons]

theorem retainedFiles_cons (repo : Repo) (v : Visit) (m : List Visit) :
    retainedFiles repo (v :: m)
      = if v.file.isSome = true ∧ v.unlinked repo = false then v :: retainedFiles repo m
        else retainedFiles repo m := by
  unfold retainedFiles
  rw [countedFiles_cons]
  by_cases h : v.file.isSome = true
  · rw [if_pos h, List.filter_cons]
    cases hu : v.unlinked repo with
    | false => simp [h]
    | true => simp [h]
  · rw [if_neg h, if_neg (fun c => h c.1)]

theorem countedFiles_length_cons (v : Visit) (m : List Visit) :
    ((countedFiles (v :: m)).length : Int)
      = (if v.file.isSome then 1 else 0) + ((countedFiles m).length : Int) := by
  rw [countedFiles_cons]
  by_cases h : v.file.isSome = true
  · rw [if_pos h, if_pos h, List.length_cons]; push_cast; omega
  · rw [if_neg h, if_neg h]; omega

theorem retainedFiles_length_cons (repo : Repo) (v : Visit) (m : List Visit) :
    ((retainedFiles repo (v :: m)).length : Int)
      = (if v.file.isSome then (if v.unlinked repo then 0 else 1) else 0)
        + ((retainedFiles repo m).length : Int) := by
  rw [retainedFiles_cons]
  by_cases h : v.file.isSome = true
  · by_cases hu : v.unlinked repo = true
    · rw [if_neg (fun c => by rw [hu] at c; cases c.2), if_pos h, if_pos hu]; omega
    · rw [if_pos ⟨h, by simpa using hu⟩, if_pos h, if_neg hu, List.length_cons]; push_cast; omega
  · rw [if_neg (fun c => h c.1), if_neg h]; omega

theorem totalSize_cons (v : Visit) (m : List Visit) :
    totalSize (v :: m) = v.size + totalSize m := by
  unfold totalSize
  rw [List.map_cons, List.sum_cons]

theorem totalSize_retainedFiles_cons (repo : Repo) (v : Visit) (m : List Visit) :
    totalSize (retainedFiles repo (v :: m))
      = (if v.unlinked repo then 0 else v.size) + totalSize (retainedFiles repo m) := by
  rw [retainedFiles_cons]
  by_cases h : v.file.isSome = true
  · by_cases hu : v.unlinked repo = true
    · rw [if_neg (fun c => by rw [hu] at c; cases c.2), if_pos hu]; omega
    · rw [if_pos ⟨h, by simpa using hu⟩, if_neg hu, totalSize_cons]
  · have hn := v.file_none_of_not_isSome h
    have hu : ¬ v.unlinked repo = true := by
      unfold Visit.unlinked; rw [hn]; exact Bool.false_ne_true
    rw [if_neg (fun c => h c.1), if_neg hu, v.size_of_file_none hn]
    omega

theorem totalSize_countedFiles (m : List Visit) : totalSize (countedFiles m) = totalSize m := by
  induction m with
  | nil => rfl
  | cons v m ih =>
    rw [totalSize_cons, ← ih, countedFiles_cons]
    by_cases h : v.file.isSome = true
    · rw [if_pos h, totalSize_cons]
    · rw [if_neg h, v.size_of_file_none (v.file_none_of_not_isSome h)]
      omega

theorem totalSize_nonneg (m : List Visit) (h : ∀ v ∈ m, 0 ≤ v.size) : 0 ≤ totalSize m := by
  induction m with
  | nil => exact le_refl _
  | cons v m ih =>
    rw [totalSize_cons]
    have := h v (List.mem_cons_self _ _)
    have := ih (fun u hu => h u (List.mem_cons_of_mem _ hu))
    omega

theorem unlinkFails_length_cons (repo : Repo) (v : Visit) (m : List Visit) :
    ((v :: m).filter (fun u => u.unlinkFails repo)).length
      = (if v.unlinkFails repo then 1 else 0) + (m.filter (fun u => u.unlinkFails repo)).length := by
  rw [List.filter_cons]
  by_cases h : v.unlinkFails repo = true
  · rw [if_pos h, if_pos h, List.length_cons]; omega
  · rw [if_neg h, if_neg h]; omega

/-- The accounting of one visit and of the visits `m` after it. -/
theorem walker_then (repo : Repo) (v : Visit) (m : List Visit) (s r : GcState)
    (hf : 0 ≤ s.fileCount) (hr : 0 ≤ s.removedCount) (hrf : s.removedCount ≤ s.fileCount)
    (hb : 0 ≤ s.bytesSum) (hrb : 0 ≤ s.removedBytesSum)
    (hlen : s.fileCount + (((v :: m).length : Nat) : Int) < 2 ^ 63)
    (hsz : ∀ u ∈ v :: m, 0 ≤ u.size)
    (hsum : s.bytesSum + s.removedBytesSum + totalSize (v :: m) < 2 ^ 63)
    (ih : 0 ≤ (walker repo v s).1.fileCount → 0 ≤ (walker repo v s).1.removedCount →
      (walker repo v s).1.removedCount ≤ (walker repo v s).1.fileCount →
      0 ≤ (walker repo v s).1.bytesSum → 0 ≤ (walker repo v s).1.removedBytesSum →
      (walker repo v s).1.fileCount + ((m.length : Nat) : Int) < 2 ^ 63 →
      (walker repo v s).1.bytesSum + (walker repo v s).1.removedBytesSum + totalSize m < 2 ^ 63 →
      r.fileCount = (walker repo v s).1.fileCount + ((countedFiles m).length : Int) ∧
      r.removedCount + ((retainedFiles repo m).length : Int)
        = (walker repo v s).1.removedCount + ((countedFiles m).length : Int) ∧
      r.bytesSum = (walker repo v s).1.bytesSum + totalSize (retainedFiles repo m) ∧
      r.removedBytesSum + totalSize (retainedFiles repo m)
        = (walker repo v s).1.removedBytesSum + totalSize m ∧
      r.gc_error_count = (walker repo v s).1.gc_error_count
        + (m.filter (fun u => u.unlinkFails repo)).length) :
    r.fileCount = s.fileCount + ((countedFiles (v :: m)).length : Int) ∧
    r.removedCount + ((retainedFiles repo (v :: m)).length : Int)
      = s.removedCount + ((countedFiles (v :: m)).length : Int) ∧
    r.bytesSum = s.bytesSum + totalSize (retainedFiles repo (v :: m)) ∧
    r.removedBytesSum + totalSize (retainedFiles repo (v :: m))
      = s.removedBytesSum + totalSize (v :: m) ∧
    r.gc_error_count = s.gc_error_count
      + ((v :: m).filter (fun u => u.unlinkFails repo)).length := by
  have hsv := hsz v (List.mem_cons_self _ _)
  have htl := totalSize_nonneg m (fun u hu => hsz u (List.mem_cons_of_mem _ hu))
  rw [totalSize_cons] at hsum
  rw [List.length_cons] at hlen
  push_cast at hlen
  obtain ⟨c1, c2, c3, c4, c5⟩ :=
    walker_counts repo v s hf (by omega) hr (by omega) hb hrb hsv (by omega)
  have hfu : v.unlinked repo = true → v.file.isSome = true := v.unlinked_file repo
  have hs0 : ¬ v.file.isSome = true → v.size = 0 := fun h =>
    v.size_of_file_none (v.file_none_of_not_isSome h)
  rw [countedFiles_length_cons, retainedFiles_length_cons, totalSize_retainedFiles_cons,
    totalSize_cons, unlinkFails_length_cons]
  by_cases h1 : v.file.isSome = true <;> by_cases h2 : v.unlinked repo = true <;>
    by_cases h3 : v.unlinkFails repo = true <;>
    simp only [h1, h2, h3, if_true, if_false, Bool.false_eq_true] at c1 c2 c3 c4 c5 ⊢ <;>
    first
    | (exact absurd (hfu h2) h1)
    | (have h0 := hs0 h1
       obtain ⟨d1, d2, d3, d4, d5⟩ := ih (by omega) (by omega) (by omega) (by omega) (by omega)
         (by omega) (by omega)
       refine ⟨?_, ?_, ?_, ?_, ?_⟩ <;> omega)
    | (obtain ⟨d1, d2, d3, d4, d5⟩ := ih (by omega) (by omega) (by omega) (by omega) (by omega)
         (by omega) (by omega)
       refine ⟨?_, ?_, ?_, ?_, ?_⟩ <;> omega)

theorem walkDir_counts (repo : Repo) (vs : List Visit) (s : GcState)
    (hf : 0 ≤ s.fileCount) (hr : 0 ≤ s.removedCount) (hrf : s.removedCount ≤ s.fileCount)
    (hb : 0 ≤ s.bytesSum) (hrb : 0 ≤ s.removedBytesSum)
    (hlen : s.fileCount + ((visited repo vs s).length : Int) < 2 ^ 63)
    (hsz : ∀ v ∈ visited repo vs s, 0 ≤ v.size)
    (hsum : s.bytesSum + s.removedBytesSum + totalSize (visited repo vs s) < 2 ^ 63) :
    (walkDir repo vs s).1.fileCount
      = s.fileCount + ((countedFiles (visited repo vs s)).length : Int) ∧
    (walkDir repo vs s).1.removedCount + ((retainedFiles repo (visited repo vs s)).length : Int)
      = s.removedCount + ((countedFiles (visited repo vs s)).length : Int) ∧
    (walkDir repo vs s).1.bytesSum
      = s.bytesSum + totalSize (retainedFiles repo (visited repo vs s)) ∧
    (walkDir repo vs s).1.removedBytesSum + totalSize (retainedFiles repo (visited repo vs s))
      = s.removedBytesSum + totalSize (visited repo vs s) ∧
    (walkDir repo vs s).1.gc_error_count
      = s.gc_error_count
        + ((visited repo vs s).filter (fun u => u.unlinkFails repo)).length := by
  induction vs generalizing s with
  | nil =>
    simp [walkDir, visited, countedFiles, retainedFiles, totalSize]
  | cons v vs ih =>
    by_cases hw : (walker repo v s).2 = GoResult.ok
    · rw [visited_cons_ok repo v vs s hw] at hlen hsz hsum ⊢
      rw [walkDir_cons_ok repo v vs s hw]
      exact walker_then repo v _ s _ hf hr hrf hb hrb hlen hsz hsum
        (fun a1 a2 a3 a4 a5 a6 a7 => ih _ a1 a2 a3 a4 a5 a6
          (fun u hu => hsz u (List.mem_cons_of_mem _ hu)) a7)
    · rw [visited_cons_stop repo v vs s hw] at hlen hsz hsum ⊢
      rw [walkDir_cons_stop repo v vs s hw]
      exact walker_then repo v [] s _ hf hr hrf hb hrb hlen hsz hsum
        (fun _ _ _ _ _ _ _ => by
          simp [countedFiles, retainedFiles, totalSize])

theorem gcUpdater_state (repo : Repo) (visits : List Visit) (s : GcState) (g : GcGauges)
    (hage : repo.gcMaxAge ≠ 0) :
    (gcUpdater repo visits s g).1
      = (walkDir repo visits { s with fileCount := 0, removedCount := 0, dirCount := 0,
                                      bytesSum := 0, removedBytesSum := 0 }).1 := by
  unfold gcUpdater
  rw [if_neg hage]
  dsimp only
  split <;> rfl

theorem gcUpdater_gauges (repo : Repo) (visits : List Visit) (s : GcState) (g : GcGauges)
    (hage : repo.gcMaxAge ≠ 0) (hp : (gcUpdater repo visits s g).2.2 = false) :
    (gcUpdater repo visits s g).2.1
      = { gc_final_size := (gcUpdater repo visits s g).1.bytesSum,
          gc_final_count := wrapInt64 ((gcUpdater repo visits s g).1.fileCount
            - (gcUpdater repo visits s g).1.removedCount) } := by
  unfold gcUpdater at hp ⊢
  rw [if_neg hage] at hp ⊢
  dsimp only at hp ⊢
  split
  · rename_i h
    rw [h] at hp
    cases hp
  · rfl

theorem walkDir_nilPanic (repo : Repo) (visits : List Visit) (s : GcState)
    (h : (walkDir repo visits s).2 = GoResult.nilPanic) : ∃ v ∈ visits, v.d = none := by
  induction visits generalizing s with
  | nil => cases h
  | cons v vs ih =>
    by_cases hw : (walker repo v s).2 = GoResult.ok
    · rw [walkDir_cons_ok repo v vs s hw] at h
      obtain ⟨u, hu, hd⟩ := ih _ h
      exact ⟨u, List.mem_cons_of_mem _ hu, hd⟩
    · rw [walkDir_cons_stop repo v vs s hw] at h
      refine ⟨v, List.mem_cons_self _ _, ?_⟩
      unfold walker at h
      cases hd : v.d with
      | none => rfl
      | some d =>
        rw [hd] at h
        dsimp only at h
        cases hdir : d.isDir with
        | true => rw [hdir] at h; cases h
        | false =>
          rw [hdir] at h
          simp only [Bool.false_eq_true, if_false] at h
          cases hi : d.info with
          | notExist => rw [hi] at h; cases h
          | error => rw [hi] at h; cases h
          | ok fi =>
            rw [hi] at h
            dsimp only at h
            cases hg : gcDelete repo v fi <;> cases hrm : v.removeFails <;>
              rw [hg, hrm] at h <;> cases h

theorem gcUpdater_no_panic (repo : Repo) (visits : List Visit) (s : GcState) (g : GcGauges)
    (h : ∀ v ∈ visits, v.d ≠ none) : (gcUpdater repo visits s g).2.2 = false := by
  unfold gcUpdater
  split
  · rfl
  · dsimp only
    split
    · rename_i hp
      obtain ⟨v, hv, hd⟩ := walkDir_nilPanic repo visits _ hp
      exact absurd hd (h v hv)
    · rfl

theorem walker_unlinkFails (repo : Repo) (v : Visit) (s : GcState)
    (h : v.unlinkFails repo = true) :
    (walker repo v s).2 = GoResult.ok ∧
      (walker repo v s).1.gc_error_count = s.gc_error_count + 1 := by
  unfold Visit.unlinkFails Visit.file at h
  unfold walker
  cases hd : v.d with
  | none => rw [hd] at h; cases h
  | some d =>
    rw [hd] at h
    dsimp only at h ⊢
    cases hdir : d.isDir with
    | true => rw [hdir] at h; cases h
    | false =>
      rw [hdir] at h
      simp only [Bool.false_eq_true, if_false] at h ⊢
      cases hi : d.info with
      | notExist => rw [hi] at h; cases h
      | error => rw [hi] at h; cases h
      | ok fi =>
        rw [hi] at h
        simp only [Bool.and_eq_true] at h
        dsimp only
        rw [if_pos h.1, if_pos h.2]
        exact ⟨rfl, rfl⟩

theorem unlinkFails_retained (repo : Repo) (m : List Visit) (v : Visit) (hv : v ∈ m)
    (h : v.unlinkFails repo = true) : v ∈ retainedFiles repo m := by
  unfold retainedFiles countedFiles
  rw [List.mem_filter, List.mem_filter]
  unfold Visit.unlinkFails at h
  unfold Visit.unlinked
  cases hf : v.file with
  | none => rw [hf] at h; cases h
  | some fi =>
    rw [hf] at h
    simp only [Bool.and_eq_true] at h
    refine ⟨⟨hv, rfl⟩, ?_⟩
    simp [h.2]

/-! ## The segments of an accepted filename -/

theorem splitSlash_ne_nil (f : GoString) : splitSlash f ≠ [] := by
  cases f with
  | nil => simp [splitSlash]
  | cons c cs =>
    unfold splitSlash
    split
    · simp
    · split <;> simp

theorem splitSlash_cons_slash (cs : GoString) :
    splitSlash ('/' :: cs) = [] :: splitSlash cs := by
  rw [splitSlash, if_pos rfl]

theorem splitSlash_cons_other (c : Char) (cs : GoString) (hc : c ≠ '/') :
    ∃ s0 rest, splitSlash cs = s0 :: rest ∧ splitSlash (c :: cs) = (c :: s0) :: rest := by
  cases hs : splitSlash cs with
  | nil => exact absurd hs (splitSlash_ne_nil cs)
  | cons s0 rest =>
    refine ⟨s0, rest, rfl, ?_⟩
    rw [splitSlash, if_neg hc, hs]

/-- The first segment of a path is the whole path or is followed by a slash. -/
theorem splitSlash_head (f s0 : GoString) (rest : List GoString)
    (h : splitSlash f = s0 :: rest) : (rest = [] ∧ f = s0) ∨ (s0 ++ ['/']) <+: f := by
  induction f generalizing s0 rest with
  | nil =>
    left
    simp only [splitSlash, List.cons.injEq] at h
    exact ⟨h.2.symm, h.1⟩
  | cons c cs ih =>
    by_cases hc : c = '/'
    · subst hc
      rw [splitSlash_cons_slash] at h
      right
      rw [← (List.cons.inj h).1]
      exact ⟨cs, rfl⟩
    · obtain ⟨t0, trest, h1, h2⟩ := splitSlash_cons_other c cs hc
      rw [h2] at h
      obtain ⟨e1, e2⟩ := List.cons.inj h
      rcases ih t0 trest h1 with ⟨r1, r2⟩ | ⟨u, hu⟩
      · left
        exact ⟨e2 ▸ r1, by rw [← e1, r2]⟩
      · right
        refine ⟨u, ?_⟩
        rw [← e1, ← hu]
        simp

/-- A later segment of a path follows a slash, and ends the path or is followed by a
slash. -/
theorem splitSlash_tail (f s0 : GoString) (rest : List GoString)
    (h : splitSlash f = s0 :: rest) (seg : GoString) (hs : seg ∈ rest) :
    ('/' :: seg) <:+ f ∨ ('/' :: seg ++ ['/']) <:+: f := by
  induction f generalizing s0 rest with
  | nil =>
    simp only [splitSlash, List.cons.injEq] at h
    rw [← h.2] at hs
    cases hs
  | cons c cs ih =>
    by_cases hc : c = '/'
    · subst hc
      rw [splitSlash_cons_slash] at h
      obtain ⟨_, e2⟩ := List.cons.inj h
      cases ht : splitSlash cs with
      | nil => exact absurd ht (splitSlash_ne_nil cs)
      | cons t0 trest =>
        rw [← e2, ht] at hs
        rcases List.mem_cons.1 hs with hseg | hseg
        · rcases splitSlash_head cs t0 trest ht with ⟨_, r2⟩ | ⟨u, hu⟩
          · left
            rw [hseg, r2]
          · right
            refine ⟨[], u, ?_⟩
            rw [hseg, ← hu]
            simp
        · rcases ih t0 trest ht hseg with hx | hx
          · left
            exact hx.trans (List.suffix_cons _ _)
          · right
            exact hx.trans (List.suffix_cons _ _).isInfix
    · obtain ⟨t0, trest, h1, h2⟩ := splitSlash_cons_other c cs hc
      rw [h2] at h
      obtain ⟨_, e2⟩ := List.cons.inj h
      rw [← e2] at hs
      rcases ih t0 trest h1 hs with hx | hx
      · left
        exact hx.trans (List.suffix_cons _ _)
      · right
        exact hx.trans (List.suffix_cons _ _).isInfix

/-- A segment of a path is the whole path, or starts it before a slash, or ends it
after a slash, or lies in it between two slashes. -/
theorem splitSlash_mem (f seg : GoString) (hs : seg ∈ splitSlash f) :
    f = seg ∨ (seg ++ ['/']) <+: f ∨ ('/' :: seg) <:+ f ∨ ('/' :: seg ++ ['/']) <:+: f := by
  cases h : splitSlash f with
  | nil => exact absurd h (splitSlash_ne_nil f)
  | cons s0 rest =>
    rw [h] at hs
    rcases List.mem_cons.1 hs with hseg | hseg
    · rcases splitSlash_head f s0 rest h with ⟨_, r2⟩ | hp
      · left; rw [hseg, r2]
      · right; left; rw [hseg]; exact hp
    · rcases splitSlash_tail f s0 rest h seg hseg with hx | hx
      · right; right; left; exact hx
      · right; right; right; exact hx

theorem resolveStep_suffix (S : List GoString) (seg : GoString) (h : seg ≠ "..".toList) :
    S <:+ resolveStep S seg := by
  unfold resolveStep
  by_cases h1 : seg = [] ∨ seg = ".".toList
  · rw [if_pos h1]
  · rw [if_neg h1, if_neg h]
    exact List.suffix_cons _ _

theorem foldl_resolveStep_suffix (l : List GoString) (S : List GoString)
    (h : ∀ seg ∈ l, seg ≠ "..".toList) : S <:+ l.foldl resolveStep S := by
  induction l generalizing S with
  | nil => exact List.suffix_refl _
  | cons a l ih =>
    rw [List.foldl_cons]
    exact (resolveStep_suffix S a (h a (List.mem_cons_self _ _))).trans
      (ih _ (fun seg hseg => h seg (List.mem_cons_of_mem _ hseg)))

/-- The stack of the lexical resolution after the path `cache/<repo>/final/<f>` has
been read up to `f`. -/
theorem resolve_final (reponame f : GoString) :
    resolve ("cache/".toList ++ reponame ++ "/final/".toList ++ f)
      = ((splitSlash f).foldl resolveStep
          ("final".toList ::
            (splitSlash ("cache/".toList ++ reponame)).foldl resolveStep [])).reverse := by
  have e : "cache/".toList ++ reponame ++ "/final/".toList ++ f
      = (("cache/".toList ++ reponame) ++ '/' :: "final".toList) ++ '/' :: f := by simp
  rw [e]
  unfold resolve
  rw [splitSlash_append, splitSlash_append, splitSlash_of_not_mem "final".toList (by decide),
    List.foldl_append, List.foldl_append]
  congr 2

theorem resolve_final_dir (reponame : GoString) :
    resolve ("cache/".toList ++ reponame ++ "/final".toList)
      = ("final".toList ::
          (splitSlash ("cache/".toList ++ reponame)).foldl resolveStep []).reverse := by
  have e : "cache/".toList ++ reponame ++ "/final".toList
      = ("cache/".toList ++ reponame) ++ '/' :: "final".toList := by simp
  rw [e]
  unfold resolve
  rw [splitSlash_append, splitSlash_of_not_mem "final".toList (by decide), List.foldl_append]
  congr 1

theorem isUnsafeFilename_of_pattern (f : GoString)
    (h : "../".toList <+: f ∨ "/".toList <+: f ∨ "/..".toList <:+ f ∨ "/".toList <:+ f ∨
      "//".toList <:+: f ∨ "/../".toList <:+: f ∨ "/./".toList <:+: f ∨ backslash ∈ f) :
    isUnsafeFilename f = true := by
  unfold isUnsafeFilename
  simp only [Bool.or_eq_true, hasPrefix_iff, hasSuffix_iff, contains_iff,
    singleton_infix_iff_mem, or_assoc]
  exact h

theorem accepted_no_dotdot (f : GoString) (h : isUnsafeFilename f = false)
    (hne : f ≠ "..".toList) : ∀ seg ∈ splitSlash f, seg ≠ "..".toList := by
  have hn : ¬ ("../".toList <+: f ∨ "/".toList <+: f ∨ "/..".toList <:+ f ∨ "/".toList <:+ f ∨
      "//".toList <:+: f ∨ "/../".toList <:+: f ∨ "/./".toList <:+: f ∨ backslash ∈ f) := by
    intro hp
    rw [isUnsafeFilename_of_pattern f hp] at h
    cases h
  intro seg hs he
  rw [he] at hs
  rcases splitSlash_mem f _ hs with h1 | h1 | h1 | h1
  · exact hne h1
  · exact hn (Or.inl h1)
  · exact hn (Or.inr (Or.inr (Or.inl h1)))
  · exact hn (Or.inr (Or.inr (Or.inr (Or.inr (Or.inr (Or.inl h1))))))

theorem accepted_no_empty (f : GoString) (h : isUnsafeFilename f = false)
    (hne : f ≠ []) : ∀ seg ∈ splitSlash f, seg ≠ [] := by
  have hn : ¬ ("../".toList <+: f ∨ "/".toList <+: f ∨ "/..".toList <:+ f ∨ "/".toList <:+ f ∨
      "//".toList <:+: f ∨ "/../".toList <:+: f ∨ "/./".toList <:+: f ∨ backslash ∈ f) := by
    intro hp
    rw [isUnsafeFilename_of_pattern f hp] at h
    cases h
  intro seg hs he
  rw [he] at hs
  rcases splitSlash_mem f _ hs with h1 | h1 | h1 | h1
  · exact hne h1
  · exact hn (Or.inr (Or.inl h1))
  · exact hn (Or.inr (Or.inr (Or.inr (Or.inl h1))))
  · exact hn (Or.inr (Or.inr (Or.inr (Or.inr (Or.inl h1)))))

theorem liesUnder_final (reponame f : GoString)
    (h : ∀ seg ∈ splitSlash f, seg ≠ "..".toList) :
    liesUnder ("cache/".toList ++ reponame ++ "/final/".toList)
      ("cache/".toList ++ reponame ++ "/final/".toList ++ f) = true := by
  unfold liesUnder
  rw [List.isPrefixOf_iff_prefix]
  have hb := resolve_final reponame []
  rw [List.append_nil] at hb
  rw [hb, resolve_final reponame f, List.reverse_prefix]
  exact foldl_resolveStep_suffix _ _ h

theorem resolve_final_dotdot (reponame : GoString) :
    resolve ("cache/".toList ++ reponame ++ "/final/".toList ++ "..".toList)
      = resolve ("cache/".toList ++ reponame) := by
  rw [resolve_final]
  rfl

theorem not_liesUnder_final_dotdot (reponame : GoString) :
    liesUnder ("cache/".toList ++ reponame ++ "/final/".toList)
      ("cache/".toList ++ reponame ++ "/final/".toList ++ "..".toList) = false := by
  rw [Bool.eq_false_iff]
  unfold liesUnder
  rw [Ne, List.isPrefixOf_iff_prefix]
  have hb := resolve_final reponame []
  rw [List.append_nil] at hb
  rw [hb, resolve_final_dotdot, resolve]
  intro hp
  have := hp.length_le
  have e : (splitSlash ([] : GoString)).foldl resolveStep
      ("final".toList :: (splitSlash ("cache/".toList ++ reponame)).foldl resolveStep [])
      = "final".toList :: (splitSlash ("cache/".toList ++ reponame)).foldl resolveStep [] := rfl
  rw [e] at this
  simp only [List.length_reverse, List.length_cons] at this
  omega

/-! ## The prefetch action creates no directory -/

theorem noNewDir_refl (a : FS) : NoNewDir a a := fun _ h => h

theorem noNewDir_trans {a b c : FS} (h1 : NoNewDir a b) (h2 : NoNewDir b c) : NoNewDir a c :=
  fun k h => h1 k (h2 k h)

theorem noNewDir_of_names {a b : FS} (h : b.names = a.names) : NoNewDir a b := by
  intro k hk
  rw [FS.node_congr h] at hk
  exact hk

theorem noNewDir_of_file {a b : FS} {key : Key} {i : Nat} (hkey : b.node key = some (Node.file i))
    (hrest : ∀ q, q ≠ key → b.node q = a.node q) : NoNewDir a b := by
  intro k hk
  by_cases h : k = key
  · rw [h, hkey] at hk
    cases hk
  · rw [hrest k h] at hk
    exact hk

theorem noNewDir_remove {fs fs1 : FS} {k : Key} (h : fs.remove k = some fs1) :
    NoNewDir fs fs1 := by
  unfold FS.remove at h
  split at h
  · simp only [Option.some.injEq] at h
    subst h
    intro q hq
    unfold FS.node at hq ⊢
    by_cases hq0 : q = []
    · rw [if_pos hq0]
    · rw [if_neg hq0] at hq ⊢
      dsimp only at hq
      by_cases h1 : q = k
      · rw [if_pos h1] at hq
        cases hq
      · rw [if_neg h1] at hq
        exact hq
  · cases h

theorem noNewDir_rename {fs fs1 : FS} {src dst : Key} (h : fs.rename src dst = some fs1) :
    NoNewDir fs fs1 := by
  unfold FS.rename at h
  split at h
  · split at h
    · cases h
    · split at h
      · simp only [Option.some.injEq] at h
        subst h
        exact noNewDir_refl _
      · simp only [Option.some.injEq] at h
        subst h
        intro q hq
        unfold FS.node at hq ⊢
        by_cases hq0 : q = []
        · rw [if_pos hq0]
        · rw [if_neg hq0] at hq ⊢
          dsimp only at hq
          by_cases h1 : q = dst
          · rw [if_pos h1] at hq
            cases hq
          · rw [if_neg h1] at hq
            by_cases h2 : q = src
            · rw [if_pos h2] at hq
              cases hq
            · rw [if_neg h2] at hq
              exact hq
  · cases h

theorem noNewDir_Cleanup (cf : CleanupFaults) (fs : FS) (t : TempFile) :
    NoNewDir fs (t.Cleanup cf fs).2.1 := by
  unfold TempFile.Cleanup
  split
  · exact noNewDir_refl _
  · split
    · exact noNewDir_refl _
    · dsimp only
      split
      · split
        · rename_i hr
          split at hr
          · cases hr
          · exact noNewDir_remove hr
        · exact noNewDir_refl _
      · exact noNewDir_refl _

theorem noNewDir_Finalize (ff : FinalizeFaults) (fs : FS) (t : TempFile) :
    NoNewDir fs (t.Finalize ff fs).2.1 := by
  unfold TempFile.Finalize
  split
  · split
    · exact noNewDir_refl _
    · dsimp only
      split
      · exact noNewDir_refl _
      · split
        · rename_i hr
          split at hr
          · cases hr
          · exact noNewDir_rename hr
        · exact noNewDir_refl _
  · split
    · exact noNewDir_refl _
    · split
      · rename_i hr
        split at hr
        · cases hr
        · obtain ⟨_, _, h3, _, _, h6, _⟩ := FS.link_some hr
          exact noNewDir_of_file h3 h6
      · exact noNewDir_refl _

theorem noNewDir_NewTempFile {te : TempEnv} {fs fs1 : FS} {dir filename finalPath : GoString}
    {t : TempFile} (h : NewTempFile te fs dir filename finalPath = some (t, fs1)) :
    NoNewDir fs fs1 := by
  obtain ⟨_, _, f, _, _, _, _, _, _, h9⟩ := NewTempFile_some h
  rcases h9 with ⟨_, hn⟩ | ⟨_, _, _, h4, h5, _⟩
  · exact noNewDir_of_names hn
  · exact noNewDir_of_file h4 h5

theorem ioCopy_temp_names (env : Env) (f : Option File) (reads : List ReadResult) (w : World)
    (n : Nat) : (ioCopy (tempWrite env f) reads w n).1.fs.names = w.fs.names := by
  cases f with
  | none => exact (tempPhase_ioCopy env none 0 (fun _ h => by cases h) reads w n).2.1
  | some file =>
    exact (tempPhase_ioCopy env (some file) file.ino (fun g h => by
      simp only [Option.some.injEq] at h
      rw [h]) reads w n).2.1

theorem noNewDir_processDownload (env : Env) (w : World) (cacheFilename : GoString)
    (reads : List ReadResult) (t : TempFile) :
    NoNewDir w.fs (processDownload env w cacheFilename reads t).1.fs := by
  have hn := ioCopy_temp_names env t.temp reads w 0
  unfold processDownload
  dsimp only
  split
  · exact noNewDir_trans (noNewDir_of_names hn) (noNewDir_Cleanup _ _ _)
  · split <;> exact noNewDir_trans (noNewDir_of_names hn) (noNewDir_Finalize _ _ _)

theorem noNewDir_processFetch (env : Env) (w : World) (reponame : GoString) (repo : Repo)
    (filename : GoString) : NoNewDir w.fs (processFetch env w reponame repo filename).1.fs := by
  unfold processFetch
  dsimp only
  split
  · exact noNewDir_refl _
  · split
    · exact noNewDir_refl _
    · split
      · exact noNewDir_refl _
      · rename_i cacheTemp fs1 hnt
        exact noNewDir_trans (noNewDir_NewTempFile hnt) (noNewDir_processDownload _ _ _ _ _)

theorem noNewDir_process (env : Env) (w : World) (reponame : GoString) (repo : Repo)
    (item : NexusItem) : NoNewDir w.fs (process env w reponame repo item).1.fs := by
  unfold process
  split
  · have := noNewDir_processFetch env (matcher repo w item.Path).1 reponame repo item.Path
    rw [(matcher_fs repo w item.Path).1] at this
    exact this
  · rw [(matcher_fs repo w item.Path).1]
    exact noNewDir_refl _

theorem tempWrite_complete (env : Env) (file : File) (hopen : file.closed = false) (w : World)
    (d : GoString) (herr : (env.tempWrite w.tempWrites).err = false)
    (hlen : d.length ≤ (env.tempWrite w.tempWrites).written) :
    (tempWrite env (some file) w d).2.2 = true ∧
      (tempWrite env (some file) w d).2.1 = d.length := by
  unfold tempWrite File.Write
  simp only [hopen, Bool.false_eq_true, if_false, herr, Bool.false_or]
  have : min (env.tempWrite w.tempWrites).written d.length = d.length := Nat.min_eq_right hlen
  rw [this]
  simp

/-- The copy of a body to the temp file succeeds and counts every byte when no read
and no write fails. -/
theorem ioCopy_temp_ok (env : Env) (file : File) (hopen : file.closed = false)
    (reads : List ReadResult) (hp : ProperReads reads)
    (hreads : ∀ r ∈ reads, r.err ≠ ReadErr.other)
    (hw : ∀ n, ∀ r ∈ reads, (env.tempWrite n).err = false ∧
      r.data.length ≤ (env.tempWrite n).written)
    (w : World) (n : Nat) :
    (ioCopy (tempWrite env (some file)) reads w n).2.2 = true ∧
      (ioCopy (tempWrite env (some file)) reads w n).2.1 = n + (bodyOf reads).length := by
  induction reads generalizing w n with
  | nil => simp [ioCopy, bodyOf]
  | cons r rs ih =>
    have hr := hreads r (List.mem_cons_self _ _)
    have ih2 := ih (properReads_tail hp)
      (fun x hx => hreads x (List.mem_cons_of_mem _ hx))
      (fun k x hx => hw k x (List.mem_cons_of_mem _ hx))
    rw [bodyOf_cons, List.length_append]
    unfold ioCopy
    dsimp only
    by_cases hd : r.data.isEmpty = true
    · have hd2 : r.data = [] := List.isEmpty_iff.1 hd
      have hrs : rs = [] := by
        by_contra hne
        exact (properReads_head hp hne).1 hd2
      subst hrs
      simp only [hd, if_true, Bool.not_true, Bool.false_eq_true, if_false]
      cases he : r.err with
      | none => simp [ioCopy, bodyOf, hd2]
      | eof => simp [bodyOf, hd2]
      | other => exact absurd he hr
    · obtain ⟨t1, t2⟩ := tempWrite_complete env file hopen w r.data
        (hw _ r (List.mem_cons_self _ _)).1 (hw _ r (List.mem_cons_self _ _)).2
      simp only [hd, if_false, Bool.false_eq_true, t1, t2, Bool.not_true]
      cases he : r.err with
      | none =>
        dsimp only
        obtain ⟨a1, a2⟩ := ih2 (tempWrite env (some file) w r.data).1 (n + r.data.length)
        exact ⟨a1, by rw [a2]; omega⟩
      | eof =>
        dsimp only
        have hrs : rs = [] := by
          by_contra hne
          have := (properReads_head hp hne).2
          rw [he] at this
          cases this
        subst hrs
        simp [bodyOf]
      | other => exact absurd he hr

/-- Where the parent of the final path is not a directory, `Finalize` returns an
error and leaves the file system as it is. -/
theorem Finalize_no_parent (ff : FinalizeFaults) (fs : FS) (t : TempFile) (f : File)
    (ht : t.temp = some f) (hp : fs.isDir (resolve t.finalPath).dropLast = false) :
    (t.Finalize ff fs).2.2 = GoResult.err ∧ (t.Finalize ff fs).2.1 = fs := by
  unfold TempFile.Finalize
  rw [ht]
  cases ho : t.o_tmpfile with
  | false =>
    simp only [Bool.not_false, if_true]
    cases hc : (File.Close ff.close f).2 with
    | true => simp
    | false =>
      simp only [Bool.false_eq_true, if_false]
      have hr : (if ff.rename = true ∨ fs.walkable (File.Close ff.close f).1.name = false ∨
            fs.walkable t.finalPath = false then none
          else fs.rename (resolve (File.Close ff.close f).1.name) (resolve t.finalPath))
          = none := by
        split
        · rfl
        · unfold FS.rename
          split
          · rw [if_pos (Or.inr (Or.inl hp))]
          · rfl
      rw [hr]
      exact ⟨rfl, rfl⟩
  | true =>
    simp only [Bool.not_true, Bool.false_eq_true, if_false]
    have hl : (if ff.link = true ∨ f.closed = true ∨ fs.walkable t.finalPath = false then none
        else fs.link f.ino (resolve t.finalPath)) = none := by
      split
      · rfl
      · unfold FS.link
        rw [if_neg]
        intro hc
        rw [hc.2.1] at hp
        cases hp
    rw [hl]
    exact ⟨rfl, rfl⟩

/-- The end of `process` when the parent of the final path is not a directory and
the copy succeeds. -/
theorem processDownload_no_parent (env : Env) (w : World) (cacheFilename : GoString)
    (reads : List ReadResult) (t : TempFile) (f : File)
    (ht : t.temp = some f) (hopen : f.closed = false) (hfp : t.finalPath = cacheFilename)
    (hparent : w.fs.isDir (resolve cacheFilename).dropLast = false)
    (hp : ProperReads reads) (hreads : ∀ r ∈ reads, r.err ≠ ReadErr.other)
    (hw : ∀ n, ∀ r ∈ reads, (env.tempWrite n).err = false ∧
      r.data.length ≤ (env.tempWrite n).written) :
    (processDownload env w cacheFilename reads t).2 = true ∧
    (processDownload env w cacheFilename reads t).1.fs.names = w.fs.names ∧
    (processDownload env w cacheFilename reads t).1.fs.inodes f.ino
      = w.fs.inodes f.ino ++ bodyOf reads ∧
    (processDownload env w cacheFilename reads t).1.m.prefetch_download_count
      = w.m.prefetch_download_count + 1 ∧
    (processDownload env w cacheFilename reads t).1.m.prefetch_download_bytes
      = w.m.prefetch_download_bytes + (bodyOf reads).length ∧
    ∃ pre, (∀ e ∈ pre, e ∈ w.trace ∨ ∃ d ok, e = Event.tempWrite d ok) ∧
      (processDownload env w cacheFilename reads t).1.trace
        = pre ++ [Event.finalize cacheFilename GoResult.err, Event.statfs] := by
  obtain ⟨c1, c2⟩ := ioCopy_temp_ok env f hopen reads hp hreads hw w 0
  have c3 := ioCopy_complete env f hopen reads hp w 0 c1
  have c4 := ioCopy_temp_names env (some f) reads w 0
  have c5 := ioCopy_miss_count (tempWrite env (some f)) (fun a d => tempWrite_m env (some f) a d)
    reads w 0
  have hpar : (ioCopy (tempWrite env (some f)) reads w 0).1.fs.isDir
      (resolve t.finalPath).dropLast = false := by
    unfold FS.isDir at hparent ⊢
    rw [FS.node_congr c4, hfp]
    exact hparent
  unfold processDownload
  rw [ht]
  dsimp only
  rw [if_neg (by rw [c1]; simp)]
  obtain ⟨f1, f2⟩ := Finalize_no_parent env.finalizeFaults
    ((ioCopy (tempWrite env (some f)) reads w 0).1.metric fun m =>
      { m with prefetch_download_bytes := m.prefetch_download_bytes +
          (ioCopy (tempWrite env (some f)) reads w 0).2.1 }).fs t f ht hpar
  rw [f1]
  dsimp only
  rw [f2]
  refine ⟨rfl, ?_, ?_, ?_, ?_, ?_⟩
  · exact c4
  · exact c3
  · simp [World.update_free_disk_space, World.log, World.metric, World.setFS, c5]
  · simp [World.update_free_disk_space, World.log, World.metric, World.setFS, c5, c2]
  · refine ⟨(ioCopy (tempWrite env (some f)) reads w 0).1.trace, ?_, ?_⟩
    · exact ioCopy_temp_trace env (some f) reads w 0
    · simp [World.update_free_disk_space, World.log, World.metric, World.setFS]

theorem resolve_temp_name (reponame T filename : GoString) (rnd : Nat)
    (hT : '/' ∉ T) (hf : '/' ∉ filename) :
    resolve (joinPath ("cache/".toList ++ reponame ++ "/temp/".toList)
        (T ++ "_".toList ++ filename ++ ".".toList) ++ Itoa rnd)
      = ((T ++ '_' :: (filename ++ '.' :: Itoa rnd)) :: "temp".toList ::
          (splitSlash ("cache/".toList ++ reponame)).foldl resolveStep []).reverse := by
  have hname : joinPath ("cache/".toList ++ reponame ++ "/temp/".toList)
      (T ++ "_".toList ++ filename ++ ".".toList) ++ Itoa rnd
      = (("cache/".toList ++ reponame) ++ '/' :: "temp".toList) ++
          '/' :: (T ++ '_' :: (filename ++ '.' :: Itoa rnd)) := by
    rw [(joinPath_temp ("cache/".toList ++ reponame) _).2]
    simp
  have hN : '/' ∉ T ++ '_' :: (filename ++ '.' :: Itoa rnd) := by
    have := Itoa_no_slash rnd
    simp only [List.mem_append, List.mem_cons, not_or]
    exact ⟨hT, by decide, hf, by decide, this⟩
  have hU : '_' ∈ T ++ '_' :: (filename ++ '.' :: Itoa rnd) := by simp
  rw [hname]
  unfold resolve
  rw [splitSlash_append, splitSlash_append, splitSlash_of_not_mem _ hN,
    splitSlash_of_not_mem "temp".toList (by decide)]
  simp only [List.foldl_append, List.foldl_cons, List.foldl_nil]
  generalize List.foldl resolveStep [] (splitSlash ("cache/".toList ++ reponame)) = A
  generalize T ++ '_' :: (filename ++ '.' :: Itoa rnd) = N at hU
  have h1 : resolveStep A "temp".toList = "temp".toList :: A := by
    unfold resolveStep
    rw [if_neg (by decide), if_neg (by decide)]
  have h2 : resolveStep ("temp".toList :: A) N = N :: "temp".toList :: A := by
    unfold resolveStep
    have n1 : ¬ (N = [] ∨ N = ".".toList) := by
      rintro (h | h) <;> rw [h] at hU <;> simp at hU
    have n2 : ¬ N = "..".toList := by
      intro h; rw [h] at hU; simp at hU
    rw [if_neg n1, if_neg n2]
  rw [h1, h2]

/-- The name of a named temp file does not resolve under the directory `final`. -/
theorem temp_key_not_under_final (reponame T filename : GoString) (rnd : Nat)
    (hT : '/' ∉ T) (hf : '/' ∉ filename) :
    ¬ resolve ("cache/".toList ++ reponame ++ "/final".toList) <+:
      resolve (joinPath ("cache/".toList ++ reponame ++ "/temp/".toList)
        (T ++ "_".toList ++ filename ++ ".".toList) ++ Itoa rnd) := by
  rw [resolve_temp_name reponame T filename rnd hT hf, resolve_final_dir,
    List.reverse_prefix]
  intro h
  rcases List.suffix_cons_iff.1 h with h1 | h1
  · have := congrArg List.length h1
    simp only [List.length_cons] at this
    omega
  · rcases List.suffix_cons_iff.1 h1 with h2 | h2
    · have := (List.cons.inj h2).1
      revert this
      decide
    · have := h2.length_le
      simp only [List.length_cons] at this
      omega

/-! ## C3 -/

/-- C3: for every string `f`, `isUnsafeFilename f` is true if and only if `f` starts
with `../`, or starts with `/`, or ends with `/..`, or ends with `/`, or contains
`//`, or contains `/../`, or contains `/./`, or contains a backslash. -/
theorem isUnsafeFilename_iff (f : GoString) :
    isUnsafeFilename f = true ↔
      ("../".toList <+: f ∨ "/".toList <+: f ∨ "/..".toList <:+ f ∨ "/".toList <:+ f ∨
        "//".toList <:+: f ∨ "/../".toList <:+: f ∨ "/./".toList <:+: f ∨ backslash ∈ f) := by
  unfold isUnsafeFilename
  simp only [Bool.or_eq_true, hasPrefix_iff, hasSuffix_iff, contains_iff,
    singleton_infix_iff_mem, or_assoc]

/-! ## C1 -/

/-- C1 as stated fails: a `POST` request whose filename `../etc/passwd` is unsafe is
answered 405, and a `GET` request for the repo `other`, which is not configured,
with the unsafe filename `../x` is answered 404. -/
theorem unsafe_filename_not_always_400 :
    strings.Cut (strings.TrimPrefix "/proxy/mynex/../etc/passwd".toList "/proxy/".toList)
        "/".toList = ("mynex".toList, "../etc/passwd".toList, true) ∧
      isUnsafeFilename "../etc/passwd".toList = true ∧
      (proxyHandler reposMynex (envOf replyHello TmpfileSupport.supported) (World.start fsMynex)
        { method := "POST".toList, path := "/proxy/mynex/../etc/passwd".toList }).resp.status
        = some 405 ∧
      strings.Cut (strings.TrimPrefix "/proxy/other/../x".toList "/proxy/".toList) "/".toList
        = ("other".toList, "../x".toList, true) ∧
      isUnsafeFilename "../x".toList = true ∧
      (proxyHandler reposMynex (envOf replyHello TmpfileSupport.supported) (World.start fsMynex)
        (getReq "/proxy/other/../x")).resp.status = some 404 := by
  decide

/-- C1, amended: for every request whose path after `/proxy/` splits at its first `/`
into a repo name and an unsafe filename, no cache file is opened, no upstream
request is made and the file system is left as it is; when the method is `GET`
and the repo is configured, the response status is 400. -/
theorem unsafe_filename_rejected (repos : List (GoString × Repo)) (env : Env) (fs : FS)
    (m : Metrics) (r : Request) (reponame filename : GoString)
    (hcut : strings.Cut (strings.TrimPrefix r.path "/proxy/".toList) "/".toList
      = (reponame, filename, true))
    (hbad : isUnsafeFilename filename = true) :
    (∀ e ∈ (proxyHandler repos env (World.init fs m) r).trace,
        e.isOsOpen = false ∧ e.isHttpGet = false) ∧
    (proxyHandler repos env (World.init fs m) r).hist = [fs] ∧
    (r.method = "GET".toList → (repos.lookup reponame).isSome = true →
      (proxyHandler repos env (World.init fs m) r).resp.status = some 400) := by
  unfold proxyHandler handlerBody
  simp only [hcut]
  by_cases hm : r.method = "GET".toList
  · simp only [ne_eq, hm, not_true_eq_false, if_false]
    cases hl : List.lookup reponame repos with
    | none =>
      simp [World.init, World.write_status, World.writeHeader_status, Response.empty,
        Event.isOsOpen, Event.isHttpGet]
    | some repo =>
      simp [hbad, World.init, World.write_status, World.writeHeader_status, Response.empty,
        Event.isOsOpen, Event.isHttpGet]
  · simp only [ne_eq, hm, not_false_eq_true, if_true]
    simp [World.init, World.writeHeader_status, Response.empty]

/-- C1, amended, at `GET /proxy/mynex/../etc/passwd` with `mynex` configured. -/
theorem unsafe_filename_rejected_witness :
    (∀ e ∈ (proxyHandler reposMynex (envOf replyHello TmpfileSupport.supported)
        (World.init fsMynex Metrics.zero) (getReq "/proxy/mynex/../etc/passwd")).trace,
        e.isOsOpen = false ∧ e.isHttpGet = false) ∧
    (proxyHandler reposMynex (envOf replyHello TmpfileSupport.supported)
        (World.init fsMynex Metrics.zero) (getReq "/proxy/mynex/../etc/passwd")).resp.status
      = some 400 :=
  have h := unsafe_filename_rejected reposMynex (envOf replyHello TmpfileSupport.supported)
    fsMynex Metrics.zero (getReq "/proxy/mynex/../etc/passwd") "mynex".toList
    "../etc/passwd".toList (by decide) (by decide)
  ⟨h.1, h.2.2 (by decide) (by decide)⟩

/-! ## C7 -/

/-- C7: the first failing check decides the answer of the handler.  A method other
than `GET` gives 405 with the header `Allow: GET`, whatever the path; otherwise a
path without `/` after `/proxy/` gives 404; otherwise a repo name (the text before
the first `/`) that is not configured gives 404; otherwise an unsafe filename
gives 400; in these cases no cache file is opened, no upstream request is made
and the file system is left as it is.  Only when no check fails does the handler
go on to the cache lookup: its first call is the open of the final path. -/
theorem validation_order (repos : List (GoString × Repo)) (env : Env) (fs : FS) (m : Metrics)
    (r : Request) :
    (r.method ≠ "GET".toList →
      (proxyHandler repos env (World.init fs m) r).resp.status = some 405 ∧
      (proxyHandler repos env (World.init fs m) r).resp.header
        = [("Allow".toList, "GET".toList)] ∧
      (proxyHandler repos env (World.init fs m) r).trace = [] ∧
      (proxyHandler repos env (World.init fs m) r).hist = [fs]) ∧
    (r.method = "GET".toList → '/' ∉ strings.TrimPrefix r.path "/proxy/".toList →
      (proxyHandler repos env (World.init fs m) r).resp.status = some 404 ∧
      (∀ e ∈ (proxyHandler repos env (World.init fs m) r).trace,
        e.isOsOpen = false ∧ e.isHttpGet = false) ∧
      (proxyHandler repos env (World.init fs m) r).hist = [fs]) ∧
    (r.method = "GET".toList → '/' ∈ strings.TrimPrefix r.path "/proxy/".toList →
      repos.lookup ((strings.TrimPrefix r.path "/proxy/".toList).takeWhile (fun c => c != '/'))
        = none →
      (proxyHandler repos env (World.init fs m) r).resp.status = some 404 ∧
      (∀ e ∈ (proxyHandler repos env (World.init fs m) r).trace,
        e.isOsOpen = false ∧ e.isHttpGet = false) ∧
      (proxyHandler repos env (World.init fs m) r).hist = [fs]) ∧
    (r.method = "GET".toList → '/' ∈ strings.TrimPrefix r.path "/proxy/".toList →
      (repos.lookup ((strings.TrimPrefix r.path "/proxy/".toList).takeWhile
        (fun c => c != '/'))).isSome = true →
      isUnsafeFilename (((strings.TrimPrefix r.path "/proxy/".toList).dropWhile
        (fun c => c != '/')).drop 1) = true →
      (proxyHandler repos env (World.init fs m) r).resp.status = some 400 ∧
      (∀ e ∈ (proxyHandler repos env (World.init fs m) r).trace,
        e.isOsOpen = false ∧ e.isHttpGet = false) ∧
      (proxyHandler repos env (World.init fs m) r).hist = [fs]) ∧
    (r.method = "GET".toList → '/' ∈ strings.TrimPrefix r.path "/proxy/".toList →
      (repos.lookup ((strings.TrimPrefix r.path "/proxy/".toList).takeWhile
        (fun c => c != '/'))).isSome = true →
      isUnsafeFilename (((strings.TrimPrefix r.path "/proxy/".toList).dropWhile
        (fun c => c != '/')).drop 1) = false →
      ∃ ok, (proxyHandler repos env (World.init fs m) r).trace.head? =
        some (Event.osOpen ("cache/".toList ++
          (strings.TrimPrefix r.path "/proxy/".toList).takeWhile (fun c => c != '/') ++
          "/final/".toList ++
          ((strings.TrimPrefix r.path "/proxy/".toList).dropWhile (fun c => c != '/')).drop 1)
          ok)) := by
  unfold proxyHandler handlerBody
  simp only [cut_slash]
  refine ⟨?_, ?_, ?_, ?_, ?_⟩
  · intro hm
    simp only [ne_eq, hm, not_false_eq_true, if_true]
    simp [World.init, World.writeHeader_status, Response.empty]
  · intro hm hs
    simp only [ne_eq, hm, not_true_eq_false, if_false, hs]
    simp [World.init, World.write_status, World.writeHeader_status, Response.empty,
      Event.isOsOpen, Event.isHttpGet]
  · intro hm hs hl
    simp only [ne_eq, hm, not_true_eq_false, if_false, hs, if_true, hl]
    simp [World.init, World.write_status, World.writeHeader_status, Response.empty,
      Event.isOsOpen, Event.isHttpGet]
  · intro hm hs hl hu
    simp only [ne_eq, hm, not_true_eq_false, if_false, hs, if_true]
    obtain ⟨repo, hr⟩ := Option.isSome_iff_exists.1 hl
    simp only [hr, hu]
    simp [World.init, World.write_status, World.writeHeader_status, Response.empty,
      Event.isOsOpen, Event.isHttpGet]
  · intro hm hs hl hu
    simp only [ne_eq, hm, not_true_eq_false, if_false, hs, if_true]
    obtain ⟨repo, hr⟩ := Option.isSome_iff_exists.1 hl
    simp only [hr, hu]
    obtain ⟨ext, h, _⟩ := lookup_trace env
      ((World.init fs m).metric fun m =>
        { m with requests_in_progress := m.requests_in_progress + 1 })
      ((strings.TrimPrefix r.path "/proxy/".toList).takeWhile (fun c => c != '/')) repo
      (((strings.TrimPrefix r.path "/proxy/".toList).dropWhile (fun c => c != '/')).drop 1)
    simp only [World.metric_trace, Bool.not_true, Bool.false_eq_true, if_false]
    rw [h]
    simp [World.init]

/-- C7 at `POST /proxy/mynex/x`: 405 with the header `Allow: GET`, and no call on the
environment. -/
theorem validation_order_witness :
    (proxyHandler reposMynex (envOf replyHello TmpfileSupport.supported)
        (World.init fsMynex Metrics.zero)
        { method := "POST".toList, path := "/proxy/mynex/x".toList }).resp.status = some 405 ∧
      (proxyHandler reposMynex (envOf replyHello TmpfileSupport.supported)
        (World.init fsMynex Metrics.zero)
        { method := "POST".toList, path := "/proxy/mynex/x".toList }).resp.header
        = [("Allow".toList, "GET".toList)] ∧
      (proxyHandler reposMynex (envOf replyHello TmpfileSupport.supported)
        (World.init fsMynex Metrics.zero)
        { method := "POST".toList, path := "/proxy/mynex/x".toList }).trace = [] ∧
      (proxyHandler reposMynex (envOf replyHello TmpfileSupport.supported)
        (World.init fsMynex Metrics.zero)
        { method := "POST".toList, path := "/proxy/mynex/x".toList }).hist = [fsMynex] :=
  (validation_order reposMynex (envOf replyHello TmpfileSupport.supported) fsMynex Metrics.zero
    { method := "POST".toList, path := "/proxy/mynex/x".toList }).1 (by decide)

/-! ## C8 -/

/-- C8 fails on the code at `GET /proxy/mynex/../etc/passwd` with `mynex` configured: the
status is 400 and the body is `400 Bad Request`, an empty line and `Prohobited byte
sequence in filename`, which does not contain `Prohibited byte sequence in
filename`.  The two other messages are in their bodies. -/
theorem prohibited_message_misspelt :
    (proxyHandler reposMynex (envOf replyHello TmpfileSupport.supported) (World.start fsMynex)
        (getReq "/proxy/mynex/../etc/passwd")).resp.status = some 400 ∧
      (proxyHandler reposMynex (envOf replyHello TmpfileSupport.supported) (World.start fsMynex)
        (getReq "/proxy/mynex/../etc/passwd")).resp.body
        = "400 Bad Request\n\nProhobited byte sequence in filename\n".toList ∧
      strings.Contains
        (proxyHandler reposMynex (envOf replyHello TmpfileSupport.supported)
          (World.start fsMynex) (getReq "/proxy/mynex/../etc/passwd")).resp.body
        "Prohibited byte sequence in filename".toList = false ∧
      strings.Contains
        (proxyHandler reposMynex (envOf replyHello TmpfileSupport.supported)
          (World.start fsMynex) (getReq "/proxy/other/x")).resp.body
        "Repo other not configured".toList = true ∧
      strings.Contains
        (proxyHandler reposMynex (envOf replyHello TmpfileSupport.supported)
          (World.start fsMynex) (getReq "/proxy/mynex")).resp.body
        "Need to provide repo name".toList = true := by
  decide

/-! ## C6 -/

/-- C6 as stated fails at `GET /proxy/mynex/x`.  With a transport error on the
upstream request the status is 500 and the body is `500 Internal Server Error`, an
empty line and `Proxy request x failed`; the text `Proxy request failed` is not in
it.  With an upstream reply of status 99 the call `w.WriteHeader(99)` panics: the
response has no status and the connection is dropped. -/
theorem proxy_request_failed_names_the_file :
    (proxyHandler reposMynex (envOf UpstreamReply.transportError TmpfileSupport.supported)
        (World.start fsMynex) (getReq "/proxy/mynex/x")).resp.status = some 500 ∧
      (proxyHandler reposMynex (envOf UpstreamReply.transportError TmpfileSupport.supported)
        (World.start fsMynex) (getReq "/proxy/mynex/x")).resp.body
        = "500 Internal Server Error\n\nProxy request x failed\n".toList ∧
      strings.Contains
        (proxyHandler reposMynex (envOf UpstreamReply.transportError TmpfileSupport.supported)
          (World.start fsMynex) (getReq "/proxy/mynex/x")).resp.body
        "Proxy request failed".toList = false ∧
      (proxyHandler reposMynex
        (envOf (UpstreamReply.response 99 [] []) TmpfileSupport.supported)
        (World.start fsMynex) (getReq "/proxy/mynex/x")).resp
        = { header := [], status := none, body := [], writes := 0, flushed := false,
            aborted := true } := by
  decide

/-- C6, amended: for every valid `GET` request whose final cache path fails to open,
`miss_count` increases by 1 and exactly one upstream `GET` is made, to
`upstream_base ++ filename`.  On a transport error the status is 500 and the body
handed to the client is `500 Internal Server Error`, an empty line and `Proxy
request <filename> failed`; on an upstream status `s` other than 200 the body is
empty, and the status is `s` when `s` is a status that `WriteHeader` writes as
the status of the response: 101, or from 200 to 999.  In both cases the upstream
error counter increases by 1, no temp file is created and the file system is
left as it is. -/
theorem miss_upstream_failure (repos : List (GoString × Repo)) (env : Env) (fs : FS)
    (m : Metrics) (r : Request) (reponame filename : GoString) (repo : Repo)
    (hm : r.method = "GET".toList)
    (hcut : strings.Cut (strings.TrimPrefix r.path "/proxy/".toList) "/".toList
      = (reponame, filename, true))
    (hl : repos.lookup reponame = some repo)
    (hsafe : isUnsafeFilename filename = false)
    (ho : osOpen env fs ("cache/".toList ++ reponame ++ "/final/".toList ++ filename) = none) :
    (proxyHandler repos env (World.init fs m) r).m.miss_count = m.miss_count + 1 ∧
    (proxyHandler repos env (World.init fs m) r).trace.filter Event.isHttpGet
      = [Event.httpGet (repo.upstreamURLBase ++ filename)] ∧
    (env.upstream (repo.upstreamURLBase ++ filename) = UpstreamReply.transportError →
      (proxyHandler repos env (World.init fs m) r).resp.status = some 500 ∧
      (proxyHandler repos env (World.init fs m) r).trace =
        [Event.osOpen ("cache/".toList ++ reponame ++ "/final/".toList ++ filename) false,
         Event.httpGet (repo.upstreamURLBase ++ filename),
         Event.clientWrite ("500 Internal Server Error\n\nProxy request ".toList ++ filename ++
            " failed\n".toList) (env.clientWrite 0).isNone] ∧
      (env.clientWrite 0 = none →
        (proxyHandler repos env (World.init fs m) r).resp.body =
          "500 Internal Server Error\n\nProxy request ".toList ++ filename ++
            " failed\n".toList) ∧
      (proxyHandler repos env (World.init fs m) r).m.upstream_error_count
        = m.upstream_error_count + 1 ∧
      (proxyHandler repos env (World.init fs m) r).hist = [fs]) ∧
    (∀ s cl reads, env.upstream (repo.upstreamURLBase ++ filename)
        = UpstreamReply.response s cl reads → s ≠ 200 →
      ((s = 101 ∨ 200 ≤ s) → s ≤ 999 →
        (proxyHandler repos env (World.init fs m) r).resp.status = some s ∧
        (proxyHandler repos env (World.init fs m) r).resp.aborted = false) ∧
      (proxyHandler repos env (World.init fs m) r).resp.body = [] ∧
      (proxyHandler repos env (World.init fs m) r).trace =
        [Event.osOpen ("cache/".toList ++ reponame ++ "/final/".toList ++ filename) false,
         Event.httpGet (repo.upstreamURLBase ++ filename)] ∧
      (proxyHandler repos env (World.init fs m) r).m.upstream_error_count
        = m.upstream_error_count + 1 ∧
      (proxyHandler repos env (World.init fs m) r).hist = [fs]) := by
  have hbody : handlerBody repos env ((World.init fs m).metric fun m =>
        { m with requests_in_progress := m.requests_in_progress + 1 }) r
      = handleMiss env (((World.init fs m).metric fun m =>
        { m with requests_in_progress := m.requests_in_progress + 1 }).log
          (Event.osOpen ("cache/".toList ++ reponame ++ "/final/".toList ++ filename) false))
        reponame repo filename ("cache/".toList ++ reponame ++ "/final/".toList ++ filename) := by
    unfold handlerBody lookup
    simp only [hcut, ne_eq, hm, not_true_eq_false, if_false, hl, hsafe, Bool.not_true,
      Bool.false_eq_true, World.metric_fs]
    have hfs : (World.init fs m).fs = fs := rfl
    rw [hfs, ho]
  unfold proxyHandler
  rw [hbody]
  refine ⟨?_, ?_, ?_, ?_⟩
  · unfold handleMiss
    simp only [World.metric_m]
    rw [missBody_miss_count]
    rfl
  · obtain ⟨ext, h, q⟩ := handleMiss_trace env
      (((World.init fs m).metric fun m =>
        { m with requests_in_progress := m.requests_in_progress + 1 }).log
          (Event.osOpen ("cache/".toList ++ reponame ++ "/final/".toList ++ filename) false))
      reponame repo filename ("cache/".toList ++ reponame ++ "/final/".toList ++ filename)
    rw [World.metric_trace, h]
    have : ext.filter Event.isHttpGet = [] := by
      rw [List.filter_eq_nil_iff]
      intro e he
      simp [(q e he).2]
    simp [World.init, List.filter_cons, Event.isHttpGet, this]
  · intro hu
    unfold handleMiss missBody
    rw [hu]
    simp [World.init, Response.empty, World.write_status, World.writeHeader_status,
      World.write_ok, World.write_body, World.incUpstreamError]
    intro hc
    rw [hc]
  · intro s cl reads hu hs
    unfold handleMiss missBody
    rw [hu]
    refine ⟨fun h1 h2 => ?_, ?_⟩
    · simp only [ne_eq, hs, not_false_eq_true, if_true, World.metric_resp]
      rw [World.writeHeader_status _ _ h1 h2, World.writeHeader_aborted _ _ (by omega) h2]
      exact ⟨rfl, rfl⟩
    · simp [hs, World.init, Response.empty, World.incUpstreamError]

/-- C6, amended, at `GET /proxy/mynex/x` with no cache file: with a transport error
the status is 500, and an upstream reply of status 404 is relayed as 404. -/
theorem miss_upstream_failure_witness :
    (proxyHandler reposMynex (envOf UpstreamReply.transportError TmpfileSupport.supported)
        (World.init fsMynex Metrics.zero) (getReq "/proxy/mynex/x")).m.miss_count = 0 + 1 ∧
      (proxyHandler reposMynex (envOf UpstreamReply.transportError TmpfileSupport.supported)
        (World.init fsMynex Metrics.zero) (getReq "/proxy/mynex/x")).trace.filter
          Event.isHttpGet = [Event.httpGet ("http://up/".toList ++ "x".toList)] ∧
      (proxyHandler reposMynex (envOf UpstreamReply.transportError TmpfileSupport.supported)
        (World.init fsMynex Metrics.zero) (getReq "/proxy/mynex/x")).resp.status = some 500 ∧
      (proxyHandler reposMynex (envOf reply404 TmpfileSupport.supported)
        (World.init fsMynex Metrics.zero) (getReq "/proxy/mynex/x")).resp.status = some 404 :=
  have h := miss_upstream_failure reposMynex
    (envOf UpstreamReply.transportError TmpfileSupport.supported) fsMynex Metrics.zero
    (getReq "/proxy/mynex/x") "mynex".toList "x".toList repoMynex (by decide) (by decide) rfl
    (by decide) (by decide)
  have g := miss_upstream_failure reposMynex (envOf reply404 TmpfileSupport.supported) fsMynex
    Metrics.zero (getReq "/proxy/mynex/x") "mynex".toList "x".toList repoMynex (by decide)
    (by decide) rfl (by decide) (by decide)
  ⟨h.1, h.2.1, (h.2.2.1 rfl).1,
    ((g.2.2.2 404 "9".toList [{ data := "not found".toList, err := ReadErr.none }] rfl
      (by decide)).1 (by decide) (by decide)).1⟩

/-! ## C4 -/

/-- C4 as stated fails.  At `GET /proxy/mynex/b.txt`, with `old` in the cache file and a
read of that file that fails after one byte, the open, the stat and the client
write succeed, yet the response is aborted after the byte `o` and `hit_count`
stays 0.  At `GET /proxy/mynex/` (empty filename) the final path
`cache/mynex/final/` is a directory: its open and its stat succeed and no client
write fails, yet the read fails: the response is 200 with the `Content-Length` of
the directory, it is aborted with an empty body and `hit_count` stays 0. -/
theorem hit_with_failing_read_aborts :
    (proxyHandler reposMynex envReadFault (World.start fsCached)
        (getReq "/proxy/mynex/b.txt")).trace
        = [Event.osOpen "cache/mynex/final/b.txt".toList true, Event.fileStat true,
           Event.fileRead false, Event.clientWrite "o".toList true] ∧
      (proxyHandler reposMynex envReadFault (World.start fsCached)
        (getReq "/proxy/mynex/b.txt")).resp
        = { header := [("Content-Length".toList, "3".toList)], status := some 200,
            body := "o".toList, writes := 1, flushed := false, aborted := true } ∧
      (proxyHandler reposMynex envReadFault (World.start fsCached)
        (getReq "/proxy/mynex/b.txt")).m.hit_count = 0 ∧
      isUnsafeFilename "".toList = false ∧
      (proxyHandler reposMynex (envOf replyHello TmpfileSupport.supported) (World.start fsMynex)
        (getReq "/proxy/mynex/")).trace
        = [Event.osOpen "cache/mynex/final/".toList true, Event.fileStat true,
           Event.fileRead false] ∧
      (proxyHandler reposMynex (envOf replyHello TmpfileSupport.supported) (World.start fsMynex)
        (getReq "/proxy/mynex/")).resp
        = { header := [("Content-Length".toList, "4096".toList)], status := some 200,
            body := [], writes := 0, flushed := false, aborted := true } ∧
      (proxyHandler reposMynex (envOf replyHello TmpfileSupport.supported) (World.start fsMynex)
        (getReq "/proxy/mynex/")).m.hit_count = 0 := by
  decide

/-- C4, amended: for every valid `GET` request whose final cache path is a regular
file that opens, and whose stat, reads and client write succeed, the response is
200 with `Content-Length` equal to the size of the file and a body equal to the
bytes of the file, no upstream request is made, `hit_count` increases by exactly 1
and `hit_bytes` by the number of bytes sent. -/
theorem cache_hit_serves_file (repos : List (GoString × Repo)) (env : Env) (fs : FS)
    (m : Metrics) (r : Request) (reponame filename : GoString) (repo : Repo)
    (content : GoString)
    (hm : r.method = "GET".toList)
    (hcut : strings.Cut (strings.TrimPrefix r.path "/proxy/".toList) "/".toList
      = (reponame, filename, true))
    (hl : repos.lookup reponame = some repo)
    (hsafe : isUnsafeFilename filename = false)
    (hfile : fs.content ("cache/".toList ++ reponame ++ "/final/".toList ++ filename)
      = some content)
    (hopen : env.openFault = false) (hstat : env.statFault = false)
    (hread : env.readFault = none) (hclient : env.clientWrite 0 = none) :
    (proxyHandler repos env (World.init fs m) r).resp.status = some 200 ∧
    (proxyHandler repos env (World.init fs m) r).resp.header
      = [("Content-Length".toList, Itoa content.length)] ∧
    (proxyHandler repos env (World.init fs m) r).resp.body = content ∧
    (proxyHandler repos env (World.init fs m) r).resp.aborted = false ∧
    (proxyHandler repos env (World.init fs m) r).trace.filter Event.isHttpGet = [] ∧
    (proxyHandler repos env (World.init fs m) r).m.hit_count = m.hit_count + 1 ∧
    (proxyHandler repos env (World.init fs m) r).m.hit_bytes = m.hit_bytes + content.length ∧
    (proxyHandler repos env (World.init fs m) r).hist = [fs] := by
  obtain ⟨i, hnode, hcont⟩ : ∃ i, fs.node (resolve ("cache/".toList ++ reponame ++
      "/final/".toList ++ filename)) = some (Node.file i) ∧ fs.inodes i = content := by
    unfold FS.content at hfile
    split at hfile
    · rename_i j hj
      exact ⟨j, hj, by simpa using hfile⟩
    · simp at hfile
  have hosopen : osOpen env fs ("cache/".toList ++ reponame ++ "/final/".toList ++ filename)
      = some (OpenedFile.regular i) := by
    unfold osOpen
    rw [hopen, hnode]
    rfl
  have hbody : handlerBody repos env ((World.init fs m).metric fun m =>
        { m with requests_in_progress := m.requests_in_progress + 1 }) r
      = handleHit env (((World.init fs m).metric fun m =>
        { m with requests_in_progress := m.requests_in_progress + 1 }).log
          (Event.osOpen ("cache/".toList ++ reponame ++ "/final/".toList ++ filename) true))
        (OpenedFile.regular i) := by
    unfold handlerBody lookup
    simp only [hcut, ne_eq, hm, not_true_eq_false, if_false, hl, hsafe, Bool.not_true,
      Bool.false_eq_true, World.metric_fs]
    have hfs : (World.init fs m).fs = fs := rfl
    rw [hfs, hosopen]
  unfold proxyHandler
  rw [hbody]
  unfold handleHit hitBody copyFileToClient statSize
  by_cases hce : content = []
  · simp [hstat, hread, hclient, hcont, hce, World.init, Response.empty,
      World.writeHeader_status, World.write_status, World.write_ok, World.write_body,
      World.write_count, Event.isHttpGet]
  · simp [hstat, hread, hclient, hcont, hce, World.init, Response.empty,
      World.writeHeader_status, World.write_status, World.write_ok, World.write_body,
      World.write_count, Event.isHttpGet]

/-- C4, amended, at `GET /proxy/mynex/b.txt` with `cache/mynex/final/b.txt` holding `old`. -/
theorem cache_hit_serves_file_witness :
    (proxyHandler reposMynex (envOf replyHello TmpfileSupport.supported)
        (World.init fsCached Metrics.zero) (getReq "/proxy/mynex/b.txt")).resp.status
        = some 200 ∧
      (proxyHandler reposMynex (envOf replyHello TmpfileSupport.supported)
        (World.init fsCached Metrics.zero) (getReq "/proxy/mynex/b.txt")).resp.body
        = "old".toList ∧
      (proxyHandler reposMynex (envOf replyHello TmpfileSupport.supported)
        (World.init fsCached Metrics.zero) (getReq "/proxy/mynex/b.txt")).m.hit_count
        = 0 + 1 :=
  have h := cache_hit_serves_file reposMynex (envOf replyHello TmpfileSupport.supported)
    fsCached Metrics.zero (getReq "/proxy/mynex/b.txt") "mynex".toList "b.txt".toList repoMynex
    "old".toList (by decide) (by decide) rfl (by decide) (by decide) rfl rfl rfl rfl
  ⟨h.1, h.2.2.1, h.2.2.2.2.2.1⟩

/-! ## The miss path when every read of the body delivers bytes -/

/-- For every cache miss in which the upstream answers 200 and every read of the
body delivers bytes without a read error, if no client write, temp-file operation,
directory creation or finalisation fails, then the client receives status 200
with the whole body, and after the handler returns the final path
`cache/<repo>/final/<filename>` is a regular file with exactly the body, in a
parent directory that exists. -/
theorem miss_caches_body (repos : List (GoString × Repo)) (env : Env) (fs : FS)
    (m : Metrics) (r : Request) (reponame filename : GoString) (repo : Repo)
    (cl : GoString) (reads : List ReadResult)
    (hm : r.method = "GET".toList)
    (hcut : strings.Cut (strings.TrimPrefix r.path "/proxy/".toList) "/".toList
      = (reponame, filename, true))
    (hl : repos.lookup reponame = some repo)
    (hsafe : isUnsafeFilename filename = false)
    (ho : osOpen env fs ("cache/".toList ++ reponame ++ "/final/".toList ++ filename) = none)
    (hu : env.upstream (repo.upstreamURLBase ++ filename) = UpstreamReply.response 200 cl reads)
    (hreads : ∀ x ∈ reads, x.data ≠ [] ∧ x.err ≠ ReadErr.other)
    (hok : ∀ e ∈ (proxyHandler repos env (World.init fs m) r).trace, e.failed = false) :
    (proxyHandler repos env (World.init fs m) r).resp.status = some 200 ∧
    (proxyHandler repos env (World.init fs m) r).resp.body = bodyOf reads ∧
    (proxyHandler repos env (World.init fs m) r).resp.aborted = false ∧
    (proxyHandler repos env (World.init fs m) r).fs.content
      ("cache/".toList ++ reponame ++ "/final/".toList ++ filename) = some (bodyOf reads) ∧
    (proxyHandler repos env (World.init fs m) r).fs.isDir
      (resolve ("cache/".toList ++ reponame ++ "/final/".toList ++ filename)).dropLast
      = true := by
  have hbody : handlerBody repos env ((World.init fs m).metric fun m =>
        { m with requests_in_progress := m.requests_in_progress + 1 }) r
      = handleMiss env (((World.init fs m).metric fun m =>
        { m with requests_in_progress := m.requests_in_progress + 1 }).log
          (Event.osOpen ("cache/".toList ++ reponame ++ "/final/".toList ++ filename) false))
        reponame repo filename ("cache/".toList ++ reponame ++ "/final/".toList ++ filename) := by
    unfold handlerBody lookup
    simp only [hcut, ne_eq, hm, not_true_eq_false, if_false, hl, hsafe, Bool.not_true,
      Bool.false_eq_true, World.metric_fs]
    have hfs : (World.init fs m).fs = fs := rfl
    rw [hfs, ho]
  unfold proxyHandler at hok ⊢
  rw [hbody] at hok ⊢
  unfold handleMiss missBody at hok ⊢
  rw [hu] at hok ⊢
  simp only [ne_eq, not_true_eq_false, if_false, World.metric_trace, World.metric_resp,
    World.metric_fs, World.log_fs] at hok ⊢
  have hfs : (World.init fs m).fs = fs := rfl
  rw [hfs] at hok ⊢
  cases hnt : NewTempFile env.temp fs ("cache/".toList ++ reponame ++ "/temp".toList) filename
      ("cache/".toList ++ reponame ++ "/final/".toList ++ filename) with
  | none =>
    exfalso
    rw [hnt] at hok
    dsimp only at hok
    refine absurd (hok (Event.newTempFile ("cache/".toList ++ reponame ++ "/temp".toList)
      filename ("cache/".toList ++ reponame ++ "/final/".toList ++ filename) false) ?_)
      (by simp [Event.failed])
    apply TraceExt.mem (traceExt_missStreamOnly env _ cl reads)
    simp
  | some p =>
    obtain ⟨t, fs1⟩ := p
    rw [hnt] at hok
    dsimp only at hok ⊢
    obtain ⟨n1, _, f, n3, n4, _, n6, _, _, n9⟩ := NewTempFile_some hnt
    have hsrc : t.o_tmpfile = false → fs1.node (resolve f.name) = some (Node.file f.ino) := by
      intro h
      rcases n9 with ⟨h1, _⟩ | ⟨_, _, _, h4, _⟩
      · rw [h] at h1; simp at h1
      · exact h4
    obtain ⟨c1, c2, c3, c4, c5⟩ := @missCached_ok env _ reponame filename cl reads t f n3 n4 hsrc n6 rfl hreads hok
    rw [n1] at c4 c5
    exact ⟨c1, by simpa [World.init, Response.empty] using c2,
      by simpa [World.init, Response.empty] using c3, c4, c5⟩

/-- The miss `GET /proxy/mynex/a/b.txt` with no cache file and the upstream body `hello`
read as `hel`, `lo`: the client receives 200 with `hello`, and
`cache/mynex/final/a/b.txt` holds `hello` in the new directory
`cache/mynex/final/a`. -/
theorem miss_caches_body_witness :
    (proxyHandler reposMynex (envOf replyHello TmpfileSupport.supported)
        (World.init fsMynex Metrics.zero) (getReq "/proxy/mynex/a/b.txt")).resp.status
        = some 200 ∧
      (proxyHandler reposMynex (envOf replyHello TmpfileSupport.supported)
        (World.init fsMynex Metrics.zero) (getReq "/proxy/mynex/a/b.txt")).resp.body
        = "hello".toList ∧
      (proxyHandler reposMynex (envOf replyHello TmpfileSupport.supported)
        (World.init fsMynex Metrics.zero) (getReq "/proxy/mynex/a/b.txt")).fs.content
        "cache/mynex/final/a/b.txt".toList = some "hello".toList ∧
      (proxyHandler reposMynex (envOf replyHello TmpfileSupport.supported)
        (World.init fsMynex Metrics.zero) (getReq "/proxy/mynex/a/b.txt")).fs.isDir
        ["cache".toList, "mynex".toList, "final".toList, "a".toList] = true :=
  have h := miss_caches_body reposMynex (envOf replyHello TmpfileSupport.supported) fsMynex
    Metrics.zero (getReq "/proxy/mynex/a/b.txt") "mynex".toList "a/b.txt".toList repoMynex
    "5".toList
    [{ data := "hel".toList, err := ReadErr.none }, { data := "lo".toList, err := ReadErr.none }]
    (by decide) (by decide) rfl (by decide) (by decide) rfl (by decide) (by decide)
  ⟨h.1, h.2.1, h.2.2.2.1, h.2.2.2.2⟩

/-! ## C2 -/

/-- C2 fails on the code in the prefetch action: for the repo `mynex`, whose name the
flag parser accepts, and a listing item with the path `../../../etc/passwd`,
`process` hands `cache/mynex/final/../../../etc/passwd` to `os.Stat` and to the
temp file as its final path; that path resolves to `etc/passwd`, which does not
lie under `cache/mynex/`, and the download is linked there. -/
theorem process_leaves_the_cache :
    splitFlag "mynex=http://up/".toList = some ("mynex".toList, "http://up/".toList) ∧
      isUnsafeFilename itemEscape.Path = true ∧
      resolve "cache/mynex/final/../../../etc/passwd".toList
        = ["etc".toList, "passwd".toList] ∧
      liesUnder "cache/mynex/".toList "cache/mynex/final/../../../etc/passwd".toList = false ∧
      (process (envOf replyHello TmpfileSupport.supported) (World.start fsEtc) "mynex".toList
        repoMynex itemEscape).1.trace
        = [Event.osStat "cache/mynex/final/../../../etc/passwd".toList true,
           Event.httpGet "http://up/../../../etc/passwd".toList,
           Event.newTempFile "cache/mynex/temp/".toList "../../../etc/passwd".toList
             "cache/mynex/final/../../../etc/passwd".toList true,
           Event.tempWrite "hel".toList true, Event.tempWrite "lo".toList true,
           Event.finalize "cache/mynex/final/../../../etc/passwd".toList GoResult.ok,
           Event.statfs] ∧
      fsEtc.content "etc/passwd".toList = none ∧
      (process (envOf replyHello TmpfileSupport.supported) (World.start fsEtc) "mynex".toList
        repoMynex itemEscape).1.fs.content "etc/passwd".toList = some "hello".toList := by
  decide

/-! ## C10 -/

/-- C10 as stated fails for the named-temp strategy: with `old` at
`cache/mynex/final/b.txt`, a named temp file created for that final path and
holding `new` is finalised without error, and the final path then holds `new`. -/
theorem named_finalize_replaces_final :
    (NewTempFile (envOf replyHello TmpfileSupport.eisdir).temp fsCached
        "cache/mynex/temp".toList "b.txt".toList "cache/mynex/final/b.txt".toList).map
        (fun p => p.1) = some handleNamed ∧
      fsNamed.content "cache/mynex/final/b.txt".toList = some "old".toList ∧
      fsNamed.content "cache/mynex/temp/20260102030405_b.txt.123456".toList
        = some "new".toList ∧
      (handleNamed.Finalize { close := false, link := false, rename := false } fsNamed).2.2
        = GoResult.ok ∧
      (handleNamed.Finalize { close := false, link := false, rename := false }
        fsNamed).2.1.content "cache/mynex/final/b.txt".toList = some "new".toList := by
  decide

/-- C10, amended: when a file with content `A` exists at the final path, `Finalize` of
an unnamed-inode handle fails and leaves `A` there; `Finalize` of a named-temp
handle leaves `A` there when it fails, and when it succeeds the final path holds
`B`, the complete content of the temp file. -/
theorem finalize_on_existing_final (ff : FinalizeFaults) (fs : FS) (t : TempFile)
    (A : GoString) (hA : fs.content t.finalPath = some A) :
    (t.o_tmpfile = true →
      (t.Finalize ff fs).2.1.content t.finalPath = some A ∧
      (t.Finalize ff fs).2.2 ≠ GoResult.ok) ∧
    (t.o_tmpfile = false →
      ((t.Finalize ff fs).2.2 ≠ GoResult.ok →
        (t.Finalize ff fs).2.1.content t.finalPath = some A) ∧
      (∀ f B, t.temp = some f → fs.content f.name = some B →
        (t.Finalize ff fs).2.2 = GoResult.ok →
        (t.Finalize ff fs).2.1.content t.finalPath = some B)) := by
  obtain ⟨i, hnode, _⟩ : ∃ i, fs.node (resolve t.finalPath) = some (Node.file i) ∧
      fs.inodes i = A := by
    unfold FS.content at hA
    split at hA
    · rename_i j hj
      exact ⟨j, hj, by simpa using hA⟩
    · simp at hA
  constructor
  · intro ho
    unfold TempFile.Finalize
    simp only [ho, Bool.not_true, Bool.false_eq_true, if_false]
    cases ht : t.temp with
    | none => exact ⟨hA, by simp⟩
    | some f =>
      have hlink : (if ff.link = true ∨ f.closed = true ∨ fs.walkable t.finalPath = false then none
          else fs.link f.ino (resolve t.finalPath)) = none := by
        split
        · rfl
        · unfold FS.link
          rw [hnode]
          simp
      simp only [hlink]
      exact ⟨hA, by simp⟩
  · intro ho
    constructor
    · intro hne
      unfold TempFile.Finalize at hne ⊢
      simp only [ho, Bool.not_false, if_true] at hne ⊢
      cases ht : t.temp with
      | none => exact hA
      | some f =>
        rw [ht] at hne
        dsimp only at hne ⊢
        by_cases hc : (File.Close ff.close f).2 = true
        · simp only [hc, if_true]
          exact hA
        · simp only [hc, Bool.false_eq_true, if_false] at hne ⊢
          cases hr : (if ff.rename = true ∨ fs.walkable (File.Close ff.close f).1.name = false ∨
            fs.walkable t.finalPath = false then none
              else fs.rename (resolve (File.Close ff.close f).1.name) (resolve t.finalPath)) with
          | none => exact hA
          | some fs1 => rw [hr] at hne; simp at hne
    · intro f B ht hB hok
      obtain ⟨j, hj, hjB⟩ : ∃ j, fs.node (resolve f.name) = some (Node.file j) ∧
          fs.inodes j = B := by
        unfold FS.content at hB
        split at hB
        · rename_i j hj
          exact ⟨j, hj, by simpa using hB⟩
        · simp at hB
      unfold TempFile.Finalize at hok ⊢
      simp only [ho, Bool.not_false, if_true, ht] at hok ⊢
      have hname : (File.Close ff.close f).1.name = f.name := by
        unfold File.Close
        split <;> rfl
      by_cases hc : (File.Close ff.close f).2 = true
      · simp [hc] at hok
      · simp only [hc, Bool.false_eq_true, if_false, hname] at hok ⊢
        cases hr : (if ff.rename = true ∨ fs.walkable f.name = false ∨
            fs.walkable t.finalPath = false then none
            else fs.rename (resolve f.name) (resolve t.finalPath)) with
        | none => rw [hr] at hok; simp at hok
        | some fs1 =>
          have hr' : fs.rename (resolve f.name) (resolve t.finalPath) = some fs1 := by
            split at hr
            · simp at hr
            · exact hr
          obtain ⟨k, h1, h2, h3, _⟩ := FS.rename_some hr'
          rw [hj] at h1
          simp only [Option.some.injEq, Node.file.injEq] at h1
          subst h1
          simp only [FS.content, h2, h3, hjB]

/-- C10, amended, at the unnamed-inode handle on `cache/mynex/final/b.txt`, which
holds `old`: `Finalize` leaves `old` there. -/
theorem finalize_on_existing_final_witness :
    (handleUnnamed.Finalize { close := false, link := false, rename := false }
        fsCached).2.1.content "cache/mynex/final/b.txt".toList = some "old".toList ∧
      (handleUnnamed.Finalize { close := false, link := false, rename := false }
        fsCached).2.2 ≠ GoResult.ok :=
  (finalize_on_existing_final { close := false, link := false, rename := false } fsCached
    handleUnnamed "old".toList (by decide)).1 (by decide)

/-! ## The final path when every read but the last delivers bytes -/

/-- Over the explicit file-system states of a run, when every read of the upstream
body but the last delivers bytes without error: in every state reached during
the miss path of the handler, and in every state reached during the prefetch
action, a reader sees at the final path either what it saw before the download
or the complete upstream body; and whenever the download aborts (the response is
aborted after an upstream read error or a client write error, a write to the temp
file fails or is short, the copy of the prefetch fails and `Cleanup` runs) the
final path is in every state as it was before the download. -/
theorem final_path_all_or_nothing (env : Env) (w : World) (reponame : GoString) (repo : Repo)
    (hwf : w.fs.WellFormed) :
    (∀ filename : GoString,
      (∀ st cl reads, env.upstream (repo.upstreamURLBase ++ filename)
        = UpstreamReply.response st cl reads → ProperReads reads) →
      (∀ s ∈ (handleMiss env w reponame repo filename
          ("cache/".toList ++ reponame ++ "/final/".toList ++ filename)).hist,
        s ∈ w.hist ∨
        s.content ("cache/".toList ++ reponame ++ "/final/".toList ++ filename)
          = w.fs.content ("cache/".toList ++ reponame ++ "/final/".toList ++ filename) ∨
        ∃ st cl reads, env.upstream (repo.upstreamURLBase ++ filename)
            = UpstreamReply.response st cl reads ∧
          s.content ("cache/".toList ++ reponame ++ "/final/".toList ++ filename)
            = some (bodyOf reads)) ∧
      (((handleMiss env w reponame repo filename
            ("cache/".toList ++ reponame ++ "/final/".toList ++ filename)).resp.aborted
            ≠ w.resp.aborted ∨
          ∃ d, Event.tempWrite d false ∈ (handleMiss env w reponame repo filename
              ("cache/".toList ++ reponame ++ "/final/".toList ++ filename)).trace ∧
            Event.tempWrite d false ∉ w.trace) →
        ∀ s ∈ (handleMiss env w reponame repo filename
            ("cache/".toList ++ reponame ++ "/final/".toList ++ filename)).hist,
          s ∈ w.hist ∨
          s.content ("cache/".toList ++ reponame ++ "/final/".toList ++ filename)
            = w.fs.content ("cache/".toList ++ reponame ++ "/final/".toList ++ filename))) ∧
    (∀ item : NexusItem,
      (∀ st cl reads, env.upstream (repo.upstreamURLBase ++ item.Path)
        = UpstreamReply.response st cl reads → ProperReads reads) →
      (∀ s ∈ (process env w reponame repo item).1.hist,
        s ∈ w.hist ∨
        s.content ("cache/".toList ++ reponame ++ "/final/".toList ++ item.Path)
          = w.fs.content ("cache/".toList ++ reponame ++ "/final/".toList ++ item.Path) ∨
        ∃ st cl reads, env.upstream (repo.upstreamURLBase ++ item.Path)
            = UpstreamReply.response st cl reads ∧
          s.content ("cache/".toList ++ reponame ++ "/final/".toList ++ item.Path)
            = some (bodyOf reads)) ∧
      ((∃ ok, Event.cleanup ok ∈ (process env w reponame repo item).1.trace ∧
          Event.cleanup ok ∉ w.trace) →
        ∀ s ∈ (process env w reponame repo item).1.hist,
          s ∈ w.hist ∨
          s.content ("cache/".toList ++ reponame ++ "/final/".toList ++ item.Path)
            = w.fs.content ("cache/".toList ++ reponame ++ "/final/".toList ++ item.Path))) := by
  constructor
  · intro filename hp
    obtain ⟨h1, h2⟩ := handleMiss_inv env w reponame repo filename hwf hp
    refine ⟨fun s hs => h1.hist_mem hs, ?_⟩
    intro habort s hs
    rcases h2 with h | ⟨g1, g2⟩
    · exact h.hist_mem hs
    · exfalso
      rcases habort with h | ⟨d, hd1, hd2⟩
      · exact h g1
      · exact hd2 (g2 d hd1)
  · intro item hp
    obtain ⟨h1, h2⟩ := process_inv env w reponame repo item hwf hp
    refine ⟨fun s hs => h1.hist_mem hs, ?_⟩
    intro habort s hs
    rcases h2 with h | g
    · exact h.hist_mem hs
    · exfalso
      obtain ⟨ok, hd1, hd2⟩ := habort
      exact hd2 (g ok hd1)

/-- The miss of `a/b.txt` in the repo `mynex` with the upstream body `hello` read as
`hel`, `lo`: the file system is well formed, and in every state of the run the
final path is absent or holds the whole body. -/
theorem final_path_all_or_nothing_witness :
    (World.start fsMynex).fs.WellFormed ∧
      ∀ s ∈ (handleMiss (envOf replyHello TmpfileSupport.supported) (World.start fsMynex)
          "mynex".toList repoMynex "a/b.txt".toList
          ("cache/".toList ++ "mynex".toList ++ "/final/".toList ++ "a/b.txt".toList)).hist,
        s ∈ (World.start fsMynex).hist ∨
        s.content ("cache/".toList ++ "mynex".toList ++ "/final/".toList ++ "a/b.txt".toList)
          = (World.start fsMynex).fs.content
              ("cache/".toList ++ "mynex".toList ++ "/final/".toList ++ "a/b.txt".toList) ∨
        ∃ st cl reads, (envOf replyHello TmpfileSupport.supported).upstream
            (repoMynex.upstreamURLBase ++ "a/b.txt".toList)
            = UpstreamReply.response st cl reads ∧
          s.content ("cache/".toList ++ "mynex".toList ++ "/final/".toList ++ "a/b.txt".toList)
            = some (bodyOf reads) :=
  ⟨fsMynex_wellFormed,
    ((final_path_all_or_nothing (envOf replyHello TmpfileSupport.supported)
      (World.start fsMynex) "mynex".toList repoMynex fsMynex_wellFormed).1 "a/b.txt".toList
      (replyHello_proper _)).1⟩

/-! ## C11 -/

/-- C11 fails on the code in the prefetch action.  For the item `a.jar` of the repo
`mynex`, with no file at the final path and an upstream that answers 404 with the
body `not found`, `process` writes the body to a temp file and finalises it: it
returns no error and `cache/mynex/final/a.jar` holds `not found`, which a request
for `a.jar` then serves as a hit with status 200.  The request path relays the
404 and creates no file. -/
theorem process_caches_error_reply :
    (process (envOf reply404 TmpfileSupport.supported) (World.start fsMynex) "mynex".toList
        repoMynex itemJar).1.trace
        = [Event.osStat "cache/mynex/final/a.jar".toList true,
           Event.httpGet "http://up/a.jar".toList,
           Event.newTempFile "cache/mynex/temp/".toList "a.jar".toList
             "cache/mynex/final/a.jar".toList true,
           Event.tempWrite "not found".toList true,
           Event.finalize "cache/mynex/final/a.jar".toList GoResult.ok,
           Event.statfs] ∧
      (process (envOf reply404 TmpfileSupport.supported) (World.start fsMynex) "mynex".toList
        repoMynex itemJar).2 = false ∧
      fsMynex.content "cache/mynex/final/a.jar".toList = none ∧
      (process (envOf reply404 TmpfileSupport.supported) (World.start fsMynex) "mynex".toList
        repoMynex itemJar).1.fs.content "cache/mynex/final/a.jar".toList
        = some "not found".toList ∧
      (proxyHandler reposMynex (envOf reply404 TmpfileSupport.supported)
        (World.start (process (envOf reply404 TmpfileSupport.supported) (World.start fsMynex)
          "mynex".toList repoMynex itemJar).1.fs) (getReq "/proxy/mynex/a.jar")).resp.status
        = some 200 ∧
      (proxyHandler reposMynex (envOf reply404 TmpfileSupport.supported)
        (World.start (process (envOf reply404 TmpfileSupport.supported) (World.start fsMynex)
          "mynex".toList repoMynex itemJar).1.fs) (getReq "/proxy/mynex/a.jar")).resp.body
        = "not found".toList ∧
      (proxyHandler reposMynex (envOf reply404 TmpfileSupport.supported) (World.start fsMynex)
        (getReq "/proxy/mynex/a.jar")).resp.status = some 404 ∧
      (proxyHandler reposMynex (envOf reply404 TmpfileSupport.supported) (World.start fsMynex)
        (getReq "/proxy/mynex/a.jar")).fs.content "cache/mynex/final/a.jar".toList = none := by
  decide

/-! ## C15 -/

/-- C15: for every repo and filename, `matcher` returns true if and only if the
include list is empty or some include pattern matches the filename, and no
exclude pattern matches it.  When it returns true it changes nothing; when it
returns false it adds exactly one to `prefetch_ignore_count` and changes nothing
else. -/
theorem matcher_iff (repo : Repo) (w : World) (filename : GoString) :
    ((matcher repo w filename).2 = true ↔
      (repo.prefetchIncludeRegexps = [] ∨
        ∃ p ∈ repo.prefetchIncludeRegexps, p filename = true) ∧
      ¬ ∃ q ∈ repo.prefetchExcludeRegexps, q filename = true) ∧
    ((matcher repo w filename).2 = true → (matcher repo w filename).1 = w) ∧
    ((matcher repo w filename).2 = false →
      (matcher repo w filename).1
        = w.metric fun m => { m with prefetch_ignore_count := m.prefetch_ignore_count + 1 }) := by
  unfold matcher
  by_cases h1 : (!repo.prefetchIncludeRegexps.isEmpty &&
      !repo.prefetchIncludeRegexps.any (fun re => re filename)) = true
  · rw [if_pos h1]
    simp only [Bool.and_eq_true, Bool.not_eq_true', List.isEmpty_eq_false, List.any_eq_false] at h1
    refine ⟨?_, ?_, ?_⟩
    · constructor
      · intro h; simp at h
      · rintro ⟨h | ⟨p, hp, hpf⟩, _⟩
        · exact absurd h (by simpa using h1.1)
        · exact absurd hpf (h1.2 p hp)
    · intro h; simp at h
    · intro _; rfl
  · rw [if_neg h1]
    by_cases h2 : repo.prefetchExcludeRegexps.any (fun re => re filename) = true
    · rw [if_pos h2]
      refine ⟨?_, ?_, ?_⟩
      · constructor
        · intro h; simp at h
        · rintro ⟨_, hq⟩
          exact absurd (by simpa using h2) hq
      · intro h; simp at h
      · intro _; rfl
    · rw [if_neg h2]
      refine ⟨?_, ?_, ?_⟩
      · constructor
        · intro _
          constructor
          · by_cases he : repo.prefetchIncludeRegexps = []
            · exact Or.inl he
            · right
              simp only [Bool.and_eq_true, Bool.not_eq_true', List.isEmpty_eq_false, not_and,
                Bool.not_eq_false, List.any_eq_true] at h1
              have := h1 (by simpa using he)
              exact this
          · simpa using h2
        · intro _; rfl
      · intro _; rfl
      · intro h; simp at h

/-! ## C12 -/

/-- C12: for every temp-file handle of either strategy, `Cleanup` after a `Finalize`
that returned no error returns no error and leaves the handle and the file
system as they are (no close, no unlink, the file at the final path stays); a
second `Cleanup` after any `Cleanup` returns no error and leaves the handle and
the file system as they are; and in every sequence of `Finalize` and `Cleanup`
calls on one handle at most one call puts a file at the final path. -/
theorem cleanup_after_finalize_is_noop :
    (∀ (ff : FinalizeFaults) (cf : CleanupFaults) (fs : FS) (t : TempFile),
      (t.Finalize ff fs).2.2 = GoResult.ok →
      (t.Finalize ff fs).1.Cleanup cf (t.Finalize ff fs).2.1
        = ((t.Finalize ff fs).1, (t.Finalize ff fs).2.1, false)) ∧
    (∀ (cf1 cf2 : CleanupFaults) (fs : FS) (t : TempFile),
      (t.Cleanup cf1 fs).1.Cleanup cf2 (t.Cleanup cf1 fs).2.1
        = ((t.Cleanup cf1 fs).1, (t.Cleanup cf1 fs).2.1, false)) ∧
    (∀ (cs : List HandleCall) (fs : FS) (t : TempFile),
      creations t.finalPath cs t fs ≤ 1) :=
  ⟨fun _ cf _ _ h => Cleanup_of_temp_none cf _ _ (Finalize_ok_temp h),
   fun cf1 cf2 fs t => Cleanup_idem cf1 cf2 fs t,
   fun cs fs t => creations_le_one t.finalPath cs t fs⟩

/-- C12 at the two handles on `cache/mynex/final/b.txt`: the unnamed-inode handle is
finalised on `fsMynex` and the named-temp handle on `fsNamed`, both without
error; `Cleanup` then changes nothing, and two `Finalize` calls and a `Cleanup`
create the final path once. -/
theorem cleanup_after_finalize_is_noop_witness :
    (handleUnnamed.Finalize { close := false, link := false, rename := false } fsMynex).2.2
        = GoResult.ok ∧
      (handleUnnamed.Finalize { close := false, link := false, rename := false } fsMynex).1.Cleanup
          { close := false, remove := false }
          (handleUnnamed.Finalize { close := false, link := false, rename := false } fsMynex).2.1
        = ((handleUnnamed.Finalize { close := false, link := false, rename := false } fsMynex).1,
           (handleUnnamed.Finalize { close := false, link := false, rename := false } fsMynex).2.1,
           false) ∧
      (handleNamed.Finalize { close := false, link := false, rename := false } fsNamed).2.2
        = GoResult.ok ∧
      (handleNamed.Finalize { close := false, link := false, rename := false } fsNamed).1.Cleanup
          { close := false, remove := false }
          (handleNamed.Finalize { close := false, link := false, rename := false } fsNamed).2.1
        = ((handleNamed.Finalize { close := false, link := false, rename := false } fsNamed).1,
           (handleNamed.Finalize { close := false, link := false, rename := false } fsNamed).2.1,
           false) ∧
      creations handleNamed.finalPath
        [HandleCall.finalize { close := false, link := false, rename := false },
         HandleCall.finalize { close := false, link := false, rename := false },
         HandleCall.cleanup { close := false, remove := false }] handleNamed fsNamed = 1 :=
  ⟨by decide,
   cleanup_after_finalize_is_noop.1 _ _ _ _ (by decide),
   by decide,
   cleanup_after_finalize_is_noop.1 _ _ _ _ (by decide),
   by decide⟩

/-! ## C13 -/

/-- C13 fails on the code for the unnamed-inode strategy: `Finalize` clears `t.temp`
whatever its outcome, and then calls `t.temp.Name()` first thing, so for every
unnamed-inode handle a second `Finalize` after a first one that returned
dereferences the nil file.  For a named-temp handle the second `Finalize` returns
an error and leaves the file system as it is.  At the handle `handleUnnamed` on
`fsMynex` the first call returns no error and the second one panics. -/
theorem second_finalize_dereferences_nil :
    (∀ (ff1 ff2 : FinalizeFaults) (fs : FS) (t : TempFile), t.o_tmpfile = true →
      (t.Finalize ff1 fs).2.2 ≠ GoResult.nilPanic →
      ((t.Finalize ff1 fs).1.Finalize ff2 (t.Finalize ff1 fs).2.1).2.2 = GoResult.nilPanic) ∧
    (∀ (ff1 ff2 : FinalizeFaults) (fs : FS) (t : TempFile), t.o_tmpfile = false →
      ((t.Finalize ff1 fs).1.Finalize ff2 (t.Finalize ff1 fs).2.1).2.2 = GoResult.err ∧
      ((t.Finalize ff1 fs).1.Finalize ff2 (t.Finalize ff1 fs).2.1).2.1
        = (t.Finalize ff1 fs).2.1) ∧
    (handleUnnamed.Finalize { close := false, link := false, rename := false } fsMynex).2.2
      = GoResult.ok ∧
    ((handleUnnamed.Finalize { close := false, link := false, rename := false } fsMynex).1.Finalize
        { close := false, link := false, rename := false }
        (handleUnnamed.Finalize { close := false, link := false, rename := false } fsMynex).2.1).2.2
      = GoResult.nilPanic := by
  refine ⟨?_, fun ff1 ff2 fs t ht => Finalize_named_again ff1 ff2 fs t ht, by decide, by decide⟩
  intro ff1 ff2 fs t ht h1
  have hnone : (t.Finalize ff1 fs).1.temp = none := by
    unfold TempFile.Finalize at h1 ⊢
    simp only [ht, Bool.not_true, Bool.false_eq_true, if_false] at h1 ⊢
    cases hu : t.temp with
    | none => rw [hu] at h1; simp at h1
    | some f =>
      dsimp only
      split <;> rfl
  obtain ⟨_, _, g3⟩ := Finalize_of_temp_none ff2 (t.Finalize ff1 fs).2.1 _ hnone
  rw [g3, (Finalize_finalPath ff1 fs t).2, ht]
  rfl

/-! ## C14 -/

/-- C14 fails on the code in the prefetch action: `process` does not call `Cleanup`
when `Finalize` returns an error.  For the item `a.jar` of the repo `mynex`, with
named temp files and an upstream that answers `hello`: when `os.Rename` fails,
and also when the directory `cache/mynex/final` is missing, `process` returns
the error of `Finalize` without a `Cleanup`, and the temp file
`cache/mynex/temp/20260102030405_a.jar.123456` stays there with `hello`.  On the
request path the deferred `Cleanup` removes the temp file in the same
situation (its `Close` of the file that `Finalize` has closed reports an error, its
`os.Remove` succeeds). -/
theorem process_leaves_temp_file :
    (process envRenameFault (World.start fsMynex) "mynex".toList repoMynex itemJar).1.trace
        = [Event.osStat "cache/mynex/final/a.jar".toList true,
           Event.httpGet "http://up/a.jar".toList,
           Event.newTempFile "cache/mynex/temp/".toList "a.jar".toList
             "cache/mynex/final/a.jar".toList true,
           Event.tempWrite "hel".toList true, Event.tempWrite "lo".toList true,
           Event.finalize "cache/mynex/final/a.jar".toList GoResult.err,
           Event.statfs] ∧
      (process envRenameFault (World.start fsMynex) "mynex".toList repoMynex itemJar).2 = true ∧
      (process envRenameFault (World.start fsMynex) "mynex".toList repoMynex
        itemJar).1.fs.content "cache/mynex/temp/20260102030405_a.jar.123456".toList
        = some "hello".toList ∧
      (process envRenameFault (World.start fsMynex) "mynex".toList repoMynex
        itemJar).1.fs.content "cache/mynex/final/a.jar".toList = none ∧
      (process (envOf replyHello TmpfileSupport.eisdir) (World.start fsNoFinal) "mynex".toList
        repoMynex itemJar).1.trace
        = [Event.osStat "cache/mynex/final/a.jar".toList true,
           Event.httpGet "http://up/a.jar".toList,
           Event.newTempFile "cache/mynex/temp/".toList "a.jar".toList
             "cache/mynex/final/a.jar".toList true,
           Event.tempWrite "hel".toList true, Event.tempWrite "lo".toList true,
           Event.finalize "cache/mynex/final/a.jar".toList GoResult.err,
           Event.statfs] ∧
      (process (envOf replyHello TmpfileSupport.eisdir) (World.start fsNoFinal) "mynex".toList
        repoMynex itemJar).1.fs.content "cache/mynex/temp/20260102030405_a.jar.123456".toList
        = some "hello".toList ∧
      (proxyHandler reposMynex envRenameFault (World.start fsMynex)
        (getReq "/proxy/mynex/a.jar")).trace
        = [Event.osOpen "cache/mynex/final/a.jar".toList false,
           Event.httpGet "http://up/a.jar".toList,
           Event.newTempFile "cache/mynex/temp".toList "a.jar".toList
             "cache/mynex/final/a.jar".toList true,
           Event.clientWrite "hel".toList true, Event.tempWrite "hel".toList true,
           Event.clientWrite "lo".toList true, Event.tempWrite "lo".toList true,
           Event.finalize "cache/mynex/final/a.jar".toList GoResult.err,
           Event.cleanup false, Event.statfs] ∧
      (proxyHandler reposMynex envRenameFault (World.start fsMynex)
        (getReq "/proxy/mynex/a.jar")).fs.content
          "cache/mynex/temp/20260102030405_a.jar.123456".toList = none := by
  decide

/-! ## C17 -/

/-- C17: for every repo and item path `P`, if `process` of `P` issues an upstream `GET`
and returns no error, then a `process` of `P` that follows on the resulting
state, in whatever environment, finds the final path at its `os.Stat`, performs
no upstream `GET` (its only call is the `os.Stat`), adds one to
`prefetch_skip_count`, leaves the file system as it is and returns no error. -/
theorem prefetch_again_skips (env env2 : Env) (w : World) (reponame : GoString) (repo : Repo)
    (item : NexusItem)
    (hret : (process env w reponame repo item).2 = false)
    (hget : (process env w reponame repo item).1.trace.filter Event.isHttpGet
      ≠ w.trace.filter Event.isHttpGet) :
    (process env2 (process env w reponame repo item).1 reponame repo item).1.trace
      = (process env w reponame repo item).1.trace ++
        [Event.osStat ("cache/".toList ++ reponame ++ "/final/".toList ++ item.Path) false] ∧
    (process env2 (process env w reponame repo item).1 reponame repo item).1.m.prefetch_skip_count
      = (process env w reponame repo item).1.m.prefetch_skip_count + 1 ∧
    (process env2 (process env w reponame repo item).1 reponame repo item).1.fs
      = (process env w reponame repo item).1.fs ∧
    (process env2 (process env w reponame repo item).1 reponame repo item).2 = false := by
  obtain ⟨hm, ⟨i, hi⟩, hwk⟩ := process_downloaded hret hget
  generalize process env w reponame repo item = r at hi hwk ⊢
  have hm2 : (matcher repo r.1 item.Path).2 = true := by rw [matcher_snd repo w]; exact hm
  unfold process
  rw [if_pos hm2, matcher_true hm2, processFetch_present env2 r.1 reponame repo item.Path hi hwk]
  exact ⟨rfl, rfl, rfl, rfl⟩

/-- C17 at the item `a.jar` of the repo `mynex` with the upstream body `hello`: the first
`process` downloads it, the second one only looks at the final path. -/
theorem prefetch_again_skips_witness :
    (process (envOf replyHello TmpfileSupport.supported) (World.start fsMynex) "mynex".toList
        repoMynex itemJar).2 = false ∧
      (process (envOf replyHello TmpfileSupport.supported)
        (process (envOf replyHello TmpfileSupport.supported) (World.start fsMynex) "mynex".toList
          repoMynex itemJar).1 "mynex".toList repoMynex itemJar).1.trace
        = (process (envOf replyHello TmpfileSupport.supported) (World.start fsMynex)
            "mynex".toList repoMynex itemJar).1.trace ++
          [Event.osStat ("cache/".toList ++ "mynex".toList ++ "/final/".toList ++ itemJar.Path)
            false] ∧
      (process (envOf replyHello TmpfileSupport.supported)
        (process (envOf replyHello TmpfileSupport.supported) (World.start fsMynex) "mynex".toList
          repoMynex itemJar).1 "mynex".toList repoMynex itemJar).1.m.prefetch_skip_count
        = (process (envOf replyHello TmpfileSupport.supported) (World.start fsMynex)
            "mynex".toList repoMynex itemJar).1.m.prefetch_skip_count + 1 :=
  have h := prefetch_again_skips (envOf replyHello TmpfileSupport.supported)
    (envOf replyHello TmpfileSupport.supported) (World.start fsMynex) "mynex".toList repoMynex
    itemJar (by decide) (by decide)
  ⟨by decide, h.1, h.2.1⟩

/-! ## C18 -/

/-- C18: for every regular file the GC walker visits whose information and
`syscall.Stat_t` are available, the walker hands the path to `os.Remove` if and
only if each of the three ages `time.Since(mtime)`, `time.Since(atime)` and
`time.Since(ctime)` is strictly greater than `gcMaxAge`; when `gcMaxAge` is below
the largest duration this is each of the differences clock - `mtime`, clock -
`atime`, clock - `ctime` being strictly greater than `gcMaxAge`; and for every
entry handed to `os.Remove`, at every time `now` not before the three clock
readings, `now - max(mtime, atime, ctime) > gcMaxAge`. -/
theorem gc_unlinks_iff_all_old (repo : Repo) (v : Visit) (d : DirEntry) (fi : FileInfo)
    (st : Stat_t) (s : GcState)
    (hd : v.d = some d) (hfile : d.isDir = false) (hinfo : d.info = InfoResult.ok fi)
    (hs : fi.sys = some st) (hrange : minDuration ≤ repo.gcMaxAge) :
    ((walker repo v s).1.removeCalls = s.removeCalls ++ [v.path] ↔
      timeSince v.nowMtime fi.modTime > repo.gcMaxAge ∧
      timeSince v.nowAtime (timeUnix st.Atim.Sec st.Atim.Nsec) > repo.gcMaxAge ∧
      timeSince v.nowCtime (timeUnix st.Ctim.Sec st.Ctim.Nsec) > repo.gcMaxAge) ∧
    ((walker repo v s).1.removeCalls ≠ s.removeCalls ++ [v.path] →
      (walker repo v s).1.removeCalls = s.removeCalls) ∧
    (repo.gcMaxAge < maxDuration →
      ((walker repo v s).1.removeCalls = s.removeCalls ++ [v.path] ↔
        v.nowMtime - fi.modTime > repo.gcMaxAge ∧
        v.nowAtime - timeUnix st.Atim.Sec st.Atim.Nsec > repo.gcMaxAge ∧
        v.nowCtime - timeUnix st.Ctim.Sec st.Ctim.Nsec > repo.gcMaxAge)) ∧
    (∀ now : Int, v.nowMtime ≤ now → v.nowAtime ≤ now → v.nowCtime ≤ now →
      (walker repo v s).1.removeCalls = s.removeCalls ++ [v.path] →
      now - max (max fi.modTime (timeUnix st.Atim.Sec st.Atim.Nsec))
          (timeUnix st.Ctim.Sec st.Ctim.Nsec) > repo.gcMaxAge) := by
  have hw := walker_file repo v d fi s hd hfile hinfo
  have hdel := gcDelete_iff repo v fi st hs
  have key : (walker repo v s).1.removeCalls = s.removeCalls ++ [v.path] ↔
      gcDelete repo v fi = true := by
    rw [hw]
    by_cases hg : gcDelete repo v fi = true
    · simp [hg]
    · simp [hg]
  refine ⟨key.trans hdel, ?_, ?_, ?_⟩
  · intro hne
    rw [hw] at hne ⊢
    by_cases hg : gcDelete repo v fi = true
    · simp [hg] at hne
    · simp [hg]
  · intro hlt
    rw [key, hdel]
    unfold timeSince
    rw [timeSub_gt_iff _ _ _ hrange hlt, timeSub_gt_iff _ _ _ hrange hlt,
      timeSub_gt_iff _ _ _ hrange hlt]
  · intro now h1 h2 h3 hrem
    obtain ⟨a1, a2, a3⟩ := hdel.1 (key.1 hrem)
    unfold timeSince at a1 a2 a3
    have b1 := timeSub_gt _ _ _ hrange a1
    have b2 := timeSub_gt _ _ _ hrange a2
    have b3 := timeSub_gt _ _ _ hrange a3
    have hmax : max (max fi.modTime (timeUnix st.Atim.Sec st.Atim.Nsec))
        (timeUnix st.Ctim.Sec st.Ctim.Nsec) = fi.modTime ∨
        max (max fi.modTime (timeUnix st.Atim.Sec st.Atim.Nsec))
        (timeUnix st.Ctim.Sec st.Ctim.Nsec) = timeUnix st.Atim.Sec st.Atim.Nsec ∨
        max (max fi.modTime (timeUnix st.Atim.Sec st.Atim.Nsec))
        (timeUnix st.Ctim.Sec st.Ctim.Nsec) = timeUnix st.Ctim.Sec st.Ctim.Nsec := by
      rcases max_choice (max fi.modTime (timeUnix st.Atim.Sec st.Atim.Nsec))
        (timeUnix st.Ctim.Sec st.Ctim.Nsec) with h | h
      · rcases max_choice fi.modTime (timeUnix st.Atim.Sec st.Atim.Nsec) with g | g
        · left; rw [h, g]
        · right; left; rw [h, g]
      · right; right; exact h
    rcases hmax with h | h | h <;> rw [h] <;> omega

/-- C18 with `gc_max_age` of one hour: a file whose three times are two hours old is
handed to `os.Remove`, a file whose `atime` is 30 minutes old is not; the pass
over both removes the first one and publishes the retained count 1. -/
theorem gc_unlinks_iff_all_old_witness :
    (walker repoGc (visitFile "cache/mynex/final/old" (2 * hour) (2 * hour) (2 * hour))
        GcState.zero).1.removeCalls = [] ++ ["cache/mynex/final/old".toList] ∧
      (walker repoGc (visitFile "cache/mynex/final/used" (2 * hour) (hour / 2) (2 * hour))
        GcState.zero).1.removeCalls = [] ∧
      gcUpdater repoGc
        [visitDir "cache/mynex", visitDir "cache/mynex/final",
         visitFile "cache/mynex/final/old" (2 * hour) (2 * hour) (2 * hour),
         visitFile "cache/mynex/final/used" (2 * hour) (hour / 2) (2 * hour),
         visitDir "cache/mynex/temp"]
        GcState.zero { gc_final_size := 0, gc_final_count := 0 }
        = ({ fileCount := 2, dirCount := 3, removedCount := 1, bytesSum := 5,
             removedBytesSum := 5, gc_error_count := 0,
             removeCalls := ["cache/mynex/final/old".toList] },
           { gc_final_size := 5, gc_final_count := 1 }, false) :=
  ⟨(gc_unlinks_iff_all_old repoGc
      (visitFile "cache/mynex/final/old" (2 * hour) (2 * hour) (2 * hour)) _ _ _ GcState.zero
      rfl rfl rfl rfl (by decide)).1.mpr ⟨by decide, by decide, by decide⟩,
   by decide, by decide⟩

/-! ## The client when the cache side fails -/

/-- For every cache miss in which the upstream answers 200.  When every client
write succeeds and the reads of the body deliver bytes without a read error (only
the last one may report the end of the stream), the client receives status 200
and exactly the body, and the response is not aborted, whatever fails on the
cache side: the creation of the temp file, a write to it, the creation of the
final directory, the finalisation, the cleanup.  And in every such run, after the
first failed or short write to the temp file no further write to the temp file
and no `Finalize` follows. -/
theorem client_served_when_cache_fails (repos : List (GoString × Repo)) (env : Env) (fs : FS)
    (m : Metrics) (r : Request) (reponame filename : GoString) (repo : Repo)
    (cl : GoString) (reads : List ReadResult)
    (hm : r.method = "GET".toList)
    (hcut : strings.Cut (strings.TrimPrefix r.path "/proxy/".toList) "/".toList
      = (reponame, filename, true))
    (hl : repos.lookup reponame = some repo)
    (hsafe : isUnsafeFilename filename = false)
    (ho : osOpen env fs ("cache/".toList ++ reponame ++ "/final/".toList ++ filename) = none)
    (hu : env.upstream (repo.upstreamURLBase ++ filename)
      = UpstreamReply.response 200 cl reads) :
    ((∀ n, env.clientWrite n = none) → ProperReads reads →
      (∀ x ∈ reads, x.data ≠ [] ∧ x.err ≠ ReadErr.other) →
      (proxyHandler repos env (World.init fs m) r).resp.status = some 200 ∧
      (proxyHandler repos env (World.init fs m) r).resp.body = bodyOf reads ∧
      (proxyHandler repos env (World.init fs m) r).resp.aborted = false) ∧
    (∀ pre d post,
      (proxyHandler repos env (World.init fs m) r).trace = pre ++ Event.tempWrite d false :: post →
      ∀ e ∈ post, e.isCacheOp = false) := by
  have hbody : handlerBody repos env ((World.init fs m).metric fun m =>
        { m with requests_in_progress := m.requests_in_progress + 1 }) r
      = handleMiss env (((World.init fs m).metric fun m =>
        { m with requests_in_progress := m.requests_in_progress + 1 }).log
          (Event.osOpen ("cache/".toList ++ reponame ++ "/final/".toList ++ filename) false))
        reponame repo filename ("cache/".toList ++ reponame ++ "/final/".toList ++ filename) := by
    unfold handlerBody lookup
    simp only [hcut, ne_eq, hm, not_true_eq_false, if_false, hl, hsafe, Bool.not_true,
      Bool.false_eq_true, World.metric_fs]
    have hfs : (World.init fs m).fs = fs := rfl
    rw [hfs, ho]
  unfold proxyHandler
  rw [hbody]
  unfold handleMiss missBody
  rw [hu]
  simp only [ne_eq, not_true_eq_false, if_false, World.metric_trace, World.metric_resp,
    World.metric_fs, World.log_fs]
  have hfs : (World.init fs m).fs = fs := rfl
  rw [hfs]
  cases hnt : NewTempFile env.temp fs ("cache/".toList ++ reponame ++ "/temp".toList) filename
      ("cache/".toList ++ reponame ++ "/final/".toList ++ filename) with
  | none =>
    dsimp only
    constructor
    · intro hcw hp hreads
      obtain ⟨c1, c2, c3⟩ := missStreamOnly_client env
        ((((((World.init fs m).metric fun m =>
          { m with requests_in_progress := m.requests_in_progress + 1 }).log
          (Event.osOpen ("cache/".toList ++ reponame ++ "/final/".toList ++ filename)
            false)).metric fun m =>
          { m with miss_requests_in_progress := m.miss_requests_in_progress + 1,
                   miss_count := m.miss_count + 1 }).log
          (Event.httpGet (repo.upstreamURLBase ++ filename))).log
          (Event.newTempFile ("cache/".toList ++ reponame ++ "/temp".toList) filename
            ("cache/".toList ++ reponame ++ "/final/".toList ++ filename) false)).incError
        cl reads rfl hcw hp (fun x hx => (hreads x hx).2)
      exact ⟨c1, by simpa [World.init, Response.empty] using c2,
        by simpa [World.init, Response.empty] using c3⟩
    · obtain ⟨ext, e1, e2⟩ := missStreamOnly_events env
        ((((((World.init fs m).metric fun m =>
          { m with requests_in_progress := m.requests_in_progress + 1 }).log
          (Event.osOpen ("cache/".toList ++ reponame ++ "/final/".toList ++ filename)
            false)).metric fun m =>
          { m with miss_requests_in_progress := m.miss_requests_in_progress + 1,
                   miss_count := m.miss_count + 1 }).log
          (Event.httpGet (repo.upstreamURLBase ++ filename))).log
          (Event.newTempFile ("cache/".toList ++ reponame ++ "/temp".toList) filename
            ("cache/".toList ++ reponame ++ "/final/".toList ++ filename) false)).incError
        cl reads
      rw [e1]
      apply quiet_spec
      apply quiet_of_clean
      intro e he
      rcases List.mem_append.1 he with h | h
      · simp [World.init] at h
        rcases h with h | h | h <;> subst h <;> rfl
      · exact e2 e h
  | some p =>
    obtain ⟨t, fs1⟩ := p
    dsimp only
    obtain ⟨_, _, f, n3, _⟩ := NewTempFile_some hnt
    constructor
    · intro hcw _ hreads
      obtain ⟨c1, c2, c3⟩ := missCached_client env
        (((((((World.init fs m).metric fun m =>
          { m with requests_in_progress := m.requests_in_progress + 1 }).log
          (Event.osOpen ("cache/".toList ++ reponame ++ "/final/".toList ++ filename)
            false)).metric fun m =>
          { m with miss_requests_in_progress := m.miss_requests_in_progress + 1,
                   miss_count := m.miss_count + 1 }).log
          (Event.httpGet (repo.upstreamURLBase ++ filename))).setFS fs1).log
          (Event.newTempFile ("cache/".toList ++ reponame ++ "/temp".toList) filename
            ("cache/".toList ++ reponame ++ "/final/".toList ++ filename) true))
        reponame filename cl reads t f n3 rfl hcw hreads
      exact ⟨c1, by simpa [World.init, Response.empty] using c2,
        by simpa [World.init, Response.empty] using c3⟩
    · obtain ⟨ext, e1, e2⟩ := missCached_quiet env
        (((((((World.init fs m).metric fun m =>
          { m with requests_in_progress := m.requests_in_progress + 1 }).log
          (Event.osOpen ("cache/".toList ++ reponame ++ "/final/".toList ++ filename)
            false)).metric fun m =>
          { m with miss_requests_in_progress := m.miss_requests_in_progress + 1,
                   miss_count := m.miss_count + 1 }).log
          (Event.httpGet (repo.upstreamURLBase ++ filename))).setFS fs1).log
          (Event.newTempFile ("cache/".toList ++ reponame ++ "/temp".toList) filename
            ("cache/".toList ++ reponame ++ "/final/".toList ++ filename) true))
        reponame filename cl reads t
      rw [e1]
      apply quiet_spec
      rw [quiet_append_of_clean _ _ ?_]
      · exact e2
      · intro e he
        simp [World.init] at he
        rcases he with h | h | h <;> subst h <;> rfl

/-- The miss `GET /proxy/mynex/a/b.txt` with the upstream body `hello` read as `hel`, `lo`,
when the write of `hel` to the temp file is short by one byte: the client
receives 200 and `hello`; the second chunk is not written to the temp file and
there is no `Finalize`. -/
theorem client_served_when_cache_fails_witness :
    (proxyHandler reposMynex envShortWrite (World.init fsMynex Metrics.zero)
        (getReq "/proxy/mynex/a/b.txt")).resp.status = some 200 ∧
      (proxyHandler reposMynex envShortWrite (World.init fsMynex Metrics.zero)
        (getReq "/proxy/mynex/a/b.txt")).resp.body = "hello".toList ∧
      (proxyHandler reposMynex envShortWrite (World.init fsMynex Metrics.zero)
        (getReq "/proxy/mynex/a/b.txt")).resp.aborted = false ∧
      (proxyHandler reposMynex envShortWrite (World.init fsMynex Metrics.zero)
        (getReq "/proxy/mynex/a/b.txt")).trace
        = [Event.osOpen "cache/mynex/final/a/b.txt".toList false,
           Event.httpGet "http://up/a/b.txt".toList,
           Event.newTempFile "cache/mynex/temp".toList "a/b.txt".toList
             "cache/mynex/final/a/b.txt".toList true,
           Event.clientWrite "hel".toList true, Event.tempWrite "hel".toList false,
           Event.clientWrite "lo".toList true, Event.cleanup true, Event.statfs] :=
  have h := (client_served_when_cache_fails reposMynex envShortWrite fsMynex Metrics.zero
    (getReq "/proxy/mynex/a/b.txt") "mynex".toList "a/b.txt".toList repoMynex "5".toList
    [{ data := "hel".toList, err := ReadErr.none }, { data := "lo".toList, err := ReadErr.none }]
    (by decide) (by decide) rfl (by decide) (by decide) rfl).1 (fun _ => rfl)
    (by unfold ProperReads; decide) (by decide)
  ⟨h.1, h.2.1, h.2.2, by decide⟩

/-! ## C16 -/

/-- C16 as stated fails for an item below a regular file.  With the include pattern
`\.jar$` and the exclude pattern `^old_`, on a cache that holds the regular file
`cache/mynex/final/b.txt`, the listing of the one item `b.txt/c.jar`: the item
passes the filter and nothing is at its final path, but `os.Stat` fails there
with `ENOTDIR`, which is not `os.ErrNotExist`, so the pass makes no upstream `GET`
and adds one to the skip counter, where the claim has one `GET` and no skip. -/
theorem nexus_pass_skips_below_a_file :
    passesFilter repoPrefetch "b.txt/c.jar".toList = true ∧
    fsCached.present "cache/mynex/final/b.txt/c.jar".toList = false ∧
    fsCached.walkErr "cache/mynex/final/b.txt/c.jar".toList = some WalkErr.enotdir ∧
    specPass (envOf replyHello TmpfileSupport.supported) "mynex".toList repoPrefetch
        pageBelowFile.Items (PassState.start fsCached).w.update_free_disk_space
      = ([Event.httpGet "http://up/b.txt/c.jar".toList], 0, 0) ∧
    (updater { env := envOf replyHello TmpfileSupport.supported,
               listReplies := [ListReply.response 200 (some pageBelowFile)],
               pages := fun _ _ => PageReply.transportError } 0 "mynex".toList repoPrefetch
        (PassState.start fsCached)).map
        (fun r => (r.w.trace.filter Event.isHttpGet, r.w.m.prefetch_ignore_count,
          r.w.m.prefetch_skip_count))
      = some ([], 0, 1) := by
  decide

/-- C16, amended: for every pass of the nexus branch over a listing whose pages are
answered with status 200 and decode, each page but the last carrying a
continuation token.  The listing requests are the base URL and then, in order,
the base URL with the token of each page but the last.  The upstream `GET`s of
the pass are exactly, in listing order, those for the items that pass the
include and exclude filter and for whose final path `os.Stat` reports, when the
item is reached, that it does not exist; the ignore counter grows by the number
of items that do not pass the filter, the skip counter by the number of passing
items for whose final path `os.Stat` succeeds or fails with another error when
the item is reached; every item is accounted for whatever the outcome of the
downloads before it. -/
theorem nexus_pass_fetches_missing (pe : PassEnv) (fuel : Nat) (reponame : GoString)
    (repo : Repo) (pages : List NexusAssetsResponse) (last : NexusAssetsResponse)
    (more : List ListReply) (s : PassState)
    (hnexus : repo.prefetchType = "nexus".toList) (hbase : repo.prefetchBase ≠ [])
    (hlist : pe.listReplies
      = (pages ++ [last]).map (fun p => ListReply.response 200 (some p)) ++ more)
    (htok : ∀ p ∈ pages, p.ContinuationToken ≠ []) (hlast : last.ContinuationToken = []) :
    ∃ r, updater pe fuel reponame repo s = some r ∧
      r.requests = s.requests ++ repo.prefetchBase ::
        pages.map (fun p => repo.prefetchBase ++ "&continuationToken=".toList ++
          p.ContinuationToken) ∧
      r.prefetch_list_error_count = s.prefetch_list_error_count ∧
      r.w.trace.filter Event.isHttpGet
        = s.w.trace.filter Event.isHttpGet ++
          (statPass pe.env reponame repo ((pages ++ [last]).map (fun p => p.Items)).flatten
            s.w.update_free_disk_space).1 ∧
      r.w.m.prefetch_ignore_count
        = s.w.m.prefetch_ignore_count +
          (((pages ++ [last]).map (fun p => p.Items)).flatten.filter
            (fun it => !passesFilter repo it.Path)).length ∧
      r.w.m.prefetch_skip_count
        = s.w.m.prefetch_skip_count +
          (statPass pe.env reponame repo ((pages ++ [last]).map (fun p => p.Items)).flatten
            s.w.update_free_disk_space).2.2 := by
  obtain ⟨n1, n2, _, n4, n5, n6, n7⟩ := nexusLoop_spec pe.env reponame repo
    repo.prefetchBase pages last more htok hlast []
    { s with w := s.w.update_free_disk_space, totalFetches := 0, discoveredLinksCount := 0,
             skippedFiles := 0, skippedDirs := 0 }
  have hb : ¬ repo.prefetchBase.length = 0 := fun h => hbase (List.length_eq_zero.1 h)
  have ht : ¬ repo.prefetchType.length = 0 := by rw [hnexus]; decide
  have hg : ¬ repo.prefetchType = "generic".toList := by rw [hnexus]; decide
  unfold updater
  rw [if_neg hb, if_neg ht]
  dsimp only
  rw [if_neg hg, if_pos hnexus, hlist, if_pos n1]
  refine ⟨_, rfl, ?_, ?_, ?_, ?_, ?_⟩
  · dsimp only
    rw [n2]
    have hu : urlWithContinuation repo.prefetchBase [] = repo.prefetchBase := rfl
    have hm : pages.map (fun p => urlWithContinuation repo.prefetchBase p.ContinuationToken)
        = pages.map (fun p => repo.prefetchBase ++ "&continuationToken=".toList ++
          p.ContinuationToken) := by
      apply List.map_congr_left
      intro p hp
      unfold urlWithContinuation
      rw [if_pos (List.length_pos.2 (htok p hp))]
    rw [hu, hm]
  · exact n4
  · dsimp only
    rw [World.probe_trace, List.filter_append, n5]
    simp [World.update_free_disk_space, List.filter_append, Event.isHttpGet]
  · dsimp only
    rw [World.probe_m, n6, statPass_ignores]
    rfl
  · dsimp only
    rw [World.probe_m, n7]
    rfl

/-- C16, amended, at the listing `a.jar`, `b.jar`, `old_c.jar`, `d.txt` with the include pattern
`\.jar$` and the exclude pattern `^old_`, when the download of `a.jar` fails: the
`GET`s of the pass are those for `a.jar` and `b.jar`, the ignore counter is 2,
one download error is counted and `b.jar` is in the cache. -/
theorem nexus_pass_fetches_missing_witness :
    (∃ r, updater { env := envFailFirst, listReplies := listingFour,
                     pages := fun _ _ => PageReply.transportError } 0 "mynex".toList repoPrefetch
            (PassState.start fsMynex) = some r ∧
        r.w.trace.filter Event.isHttpGet
          = (PassState.start fsMynex).w.trace.filter Event.isHttpGet ++
            (statPass envFailFirst "mynex".toList repoPrefetch
              ((([] : List NexusAssetsResponse) ++ [pageFour]).map (fun p => p.Items)).flatten
              (PassState.start fsMynex).w.update_free_disk_space).1 ∧
        r.w.m.prefetch_ignore_count
          = (PassState.start fsMynex).w.m.prefetch_ignore_count +
            (((([] : List NexusAssetsResponse) ++ [pageFour]).map
                (fun p => p.Items)).flatten.filter
              (fun it => !passesFilter repoPrefetch it.Path)).length) ∧
      (statPass envFailFirst "mynex".toList repoPrefetch
          [itemOf "a.jar", itemOf "b.jar", itemOf "old_c.jar", itemOf "d.txt"]
          (PassState.start fsMynex).w.update_free_disk_space)
        = ([Event.httpGet "http://up/a.jar".toList, Event.httpGet "http://up/b.jar".toList],
           2, 0) ∧
      (updater { env := envFailFirst, listReplies := listingFour,
                 pages := fun _ _ => PageReply.transportError } 0 "mynex".toList repoPrefetch
          (PassState.start fsMynex)).map
          (fun r => (r.w.trace.filter Event.isHttpGet, r.w.m.prefetch_ignore_count,
            r.prefetch_download_error_count,
            r.w.fs.content "cache/mynex/final/b.jar".toList))
        = some ([Event.httpGet "http://up/a.jar".toList, Event.httpGet "http://up/b.jar".toList],
            2, 1, some "hello".toList) :=
  ⟨(nexus_pass_fetches_missing
      { env := envFailFirst, listReplies := listingFour,
        pages := fun _ _ => PageReply.transportError } 0 "mynex".toList repoPrefetch []
      pageFour [] (PassState.start fsMynex) rfl (by decide) rfl
      (by simp) rfl).imp fun _ h => ⟨h.1, h.2.2.2.1, h.2.2.2.2.1⟩,
   by decide, by decide⟩

/-! ## C19 -/

/-- C19: in every pass of the generic branch, whatever the listing requests are
answered (errors, pages that link to themselves or to each other), `updater`
returns once the recursion has fuel above `recursionLimit`, with the same result
for every such fuel; it makes at most 10000 listing requests; and it runs to its
last statement, the probe of the free disk space: no failure of a fetch ends the
pass. -/
theorem generic_pass_bounded (pe : PassEnv) (fuel : Nat) (reponame : GoString) (repo : Repo)
    (s : PassState) (hgen : repo.prefetchType = "generic".toList)
    (hfuel : recursionLimit < fuel) :
    ∃ r, updater pe fuel reponame repo s = some r ∧
      (∀ fuel2, recursionLimit < fuel2 → updater pe fuel2 reponame repo s = some r) ∧
      (∃ ext, r.requests = s.requests ++ ext ∧ ext.length ≤ 10000) ∧
      (repo.prefetchBase ≠ [] → r.w.trace.getLast? = some Event.statfs) := by
  unfold updater
  by_cases hb : repo.prefetchBase.length = 0
  · simp only [if_pos hb]
    refine ⟨s, rfl, fun _ _ => rfl, ⟨[], by simp, by simp⟩, ?_⟩
    intro hne
    exact absurd (List.length_eq_zero.1 hb) hne
  · have ht : ¬ repo.prefetchType.length = 0 := by rw [hgen]; decide
    simp only [if_neg hb, if_neg ht, if_pos hgen]
    obtain ⟨x, h1, h2, ext, h3, h4⟩ := recursor_result pe.pages repo fuel repo.prefetchBase
      { s with w := s.w.update_free_disk_space, totalFetches := 0,
               discoveredLinksCount := 0, skippedFiles := 0, skippedDirs := 0 } rfl hfuel
    rw [h1]
    refine ⟨_, rfl, ?_, ⟨ext, h3, h4⟩, ?_⟩
    · intro fuel2 hf2
      obtain ⟨y, g1, g2, _⟩ := recursor_result pe.pages repo fuel2 repo.prefetchBase
        { s with w := s.w.update_free_disk_space, totalFetches := 0,
                 discoveredLinksCount := 0, skippedFiles := 0, skippedDirs := 0 } rfl hf2
      rw [g1]
      rw [h2] at g2
      simp only [Option.some.injEq] at g2
      rw [g2]
    · intro _
      simp [World.update_free_disk_space, World.log]

/-- C19 at the pages `pagesExample`, where `http://up/` links to `sub/`, `bad/` and
`f.jar`: the pass fetches `http://up/`, `http://up/sub/` and `http://up/bad/`; the
fetch of `bad/` fails, one error is counted, and the link `f.jar` after it is
still matched. -/
theorem generic_pass_bounded_witness :
    recursionLimit < 10001 ∧
      (∃ r, updater { env := envOf replyHello TmpfileSupport.supported, listReplies := [],
                       pages := pagesExample } 10001 "mynex".toList repoGeneric
              (PassState.start fsMynex) = some r ∧
          ∃ ext, r.requests = (PassState.start fsMynex).requests ++ ext ∧ ext.length ≤ 10000) ∧
      (updater { env := envOf replyHello TmpfileSupport.supported, listReplies := [],
                 pages := pagesExample } 10001 "mynex".toList repoGeneric
          (PassState.start fsMynex)).map
          (fun r => (r.requests, r.totalFetches, r.discoveredLinksCount,
            r.prefetch_list_error_count, r.w.trace))
        = some (["http://up/".toList, "http://up/sub/".toList, "http://up/bad/".toList], 3, 4, 1,
            [Event.statfs, Event.statfs]) :=
  ⟨by decide,
   (generic_pass_bounded
      { env := envOf replyHello TmpfileSupport.supported, listReplies := [],
        pages := pagesExample } 10001 "mynex".toList repoGeneric (PassState.start fsMynex) rfl
      (by decide)).imp fun _ h => ⟨h.1, h.2.2.1⟩,
   by decide⟩

/-! ## C22 -/

/-- C22 as stated fails: a regular file whose `d.Info()` fails is not counted, and
when the error is not `os.ErrNotExist` the walk ends there.  In the walk over a
file whose lookup fails and a file two hours old (`gc_max_age` one hour) the file
count stays 0 and the old file is never handed to `os.Remove`; the pass publishes
the retained count 0.  In the walk over a vanished file and the old file the
file count is 1, not 2. -/
theorem gc_info_failure_not_counted :
    walkDir repoGc
        [visitInfoError "cache/mynex/final/x",
         visitFile "cache/mynex/final/old" (2 * hour) (2 * hour) (2 * hour)] GcState.zero
      = (GcState.zero, GoResult.err) ∧
    (gcUpdater repoGc
        [visitInfoError "cache/mynex/final/x",
         visitFile "cache/mynex/final/old" (2 * hour) (2 * hour) (2 * hour)] GcState.zero
        { gc_final_size := 7, gc_final_count := 7 }).2.1
      = { gc_final_size := 0, gc_final_count := 0 } ∧
    (walkDir repoGc
        [visitVanished "cache/mynex/final/x",
         visitFile "cache/mynex/final/old" (2 * hour) (2 * hour) (2 * hour)] GcState.zero).1
      = { fileCount := 1, dirCount := 0, removedCount := 1, bytesSum := 0,
          removedBytesSum := 5, gc_error_count := 0,
          removeCalls := ["cache/mynex/final/old".toList] } := by
  decide

/-- C22, amended: for every regular-file entry the GC walk meets whose `d.Info()`
fails, the walker leaves the counters as they are (the entry is not counted) and
hands nothing to `os.Remove`; when the error is `os.ErrNotExist` the walk
continues with the remaining entries, and with any other error the walker
returns it and the walk ends at that entry. -/
theorem gc_info_failure (repo : Repo) (pre rest : List Visit) (v : Visit) (d : DirEntry)
    (s : GcState) (hpre : (walkDir repo pre s).2 = GoResult.ok)
    (hd : v.d = some d) (hfile : d.isDir = false)
    (hinfo : d.info = InfoResult.notExist ∨ d.info = InfoResult.error) :
    (walker repo v (walkDir repo pre s).1).1 = (walkDir repo pre s).1 ∧
    (d.info = InfoResult.notExist →
      walkDir repo (pre ++ v :: rest) s = walkDir repo rest (walkDir repo pre s).1) ∧
    (d.info = InfoResult.error →
      walkDir repo (pre ++ v :: rest) s = ((walkDir repo pre s).1, GoResult.err)) := by
  have hw := walker_info_fails repo v d (walkDir repo pre s).1 hd hfile
  refine ⟨?_, ?_, ?_⟩
  · rcases hinfo with h | h
    · rw [hw.1 h]
    · rw [hw.2 h]
  · intro h
    rw [walkDir_append repo pre _ s hpre, walkDir, hw.1 h]
  · intro h
    rw [walkDir_append repo pre _ s hpre, walkDir, hw.2 h]

/-- C22, amended, on a walk: after a directory, a file whose lookup fails with
`os.ErrNotExist` is passed over and the old file after it is removed; a file
whose lookup fails otherwise ends the walk. -/
theorem gc_info_failure_witness :
    (walkDir repoGc [visitDir "cache/mynex"] GcState.zero).2 = GoResult.ok ∧
    (walker repoGc (visitVanished "cache/mynex/x")
        (walkDir repoGc [visitDir "cache/mynex"] GcState.zero).1).1
      = (walkDir repoGc [visitDir "cache/mynex"] GcState.zero).1 ∧
    walkDir repoGc ([visitDir "cache/mynex"] ++ visitVanished "cache/mynex/x" ::
        [visitFile "cache/mynex/final/old" (2 * hour) (2 * hour) (2 * hour)]) GcState.zero
      = walkDir repoGc [visitFile "cache/mynex/final/old" (2 * hour) (2 * hour) (2 * hour)]
          (walkDir repoGc [visitDir "cache/mynex"] GcState.zero).1 :=
  ⟨by decide,
   (gc_info_failure repoGc [visitDir "cache/mynex"]
      [visitFile "cache/mynex/final/old" (2 * hour) (2 * hour) (2 * hour)]
      (visitVanished "cache/mynex/x") _ GcState.zero (by decide) rfl rfl (Or.inl rfl)).1,
   (gc_info_failure repoGc [visitDir "cache/mynex"]
      [visitFile "cache/mynex/final/old" (2 * hour) (2 * hour) (2 * hour)]
      (visitVanished "cache/mynex/x") _ GcState.zero (by decide) rfl rfl (Or.inl rfl)).2.1 rfl⟩

/-! ## C23 -/

/-- C23: for every GC pass over a repo with `gc_max_age` not zero, over the calls
the walk makes, when the sizes of the counted files are not negative and their
sum and the number of calls are below `2^63` (no counter overflows).  The
retained count `fileCount - removedCount` is the number of counted files that
were not successfully unlinked and the retained size `bytesSum` is the sum of
their sizes, a file whose unlink failed being among them; a pass that does not
panic publishes these two values, and a pass in which `WalkDir` hands an entry to
every call does not panic; the GC error counter grows by the number of failed
unlinks, one for each, and the walk goes on after a failed unlink; `bytesSum`
plus the removed bytes is the sum of the sizes of all counted files. -/
theorem gc_pass_publishes_retained (repo : Repo) (visits : List Visit) (s : GcState)
    (g : GcGauges) (hage : repo.gcMaxAge ≠ 0)
    (hlen : ((visited repo visits s).length : Int) < 2 ^ 63)
    (hsz : ∀ v ∈ visited repo visits s, 0 ≤ v.size)
    (hsum : totalSize (visited repo visits s) < 2 ^ 63) :
    ((gcUpdater repo visits s g).1.fileCount - (gcUpdater repo visits s g).1.removedCount
        = ((retainedFiles repo (visited repo visits s)).length : Int) ∧
      (gcUpdater repo visits s g).1.bytesSum
        = totalSize (retainedFiles repo (visited repo visits s)) ∧
      ∀ v ∈ visited repo visits s, v.unlinkFails repo = true →
        v ∈ retainedFiles repo (visited repo visits s)) ∧
    ((gcUpdater repo visits s g).2.2 = false →
      (gcUpdater repo visits s g).2.1
        = { gc_final_size := totalSize (retainedFiles repo (visited repo visits s)),
            gc_final_count := ((retainedFiles repo (visited repo visits s)).length : Int) }) ∧
    ((∀ v ∈ visits, v.d ≠ none) → (gcUpdater repo visits s g).2.2 = false) ∧
    (gcUpdater repo visits s g).1.gc_error_count
      = s.gc_error_count
        + ((visited repo visits s).filter (fun v => v.unlinkFails repo)).length ∧
    (∀ (v : Visit) (s2 : GcState) (rest : List Visit), v.unlinkFails repo = true →
      (walker repo v s2).1.gc_error_count = s2.gc_error_count + 1 ∧
      walkDir repo (v :: rest) s2 = walkDir repo rest (walker repo v s2).1) ∧
    (gcUpdater repo visits s g).1.bytesSum + (gcUpdater repo visits s g).1.removedBytesSum
      = totalSize (countedFiles (visited repo visits s)) := by
  have hind := visited_indep repo visits s
    { s with fileCount := 0, removedCount := 0, dirCount := 0, bytesSum := 0,
             removedBytesSum := 0 }
  have hst := gcUpdater_state repo visits s g hage
  rw [hind] at hlen hsz hsum
  obtain ⟨c1, c2, c3, c4, c5⟩ := walkDir_counts repo visits
    { s with fileCount := 0, removedCount := 0, dirCount := 0, bytesSum := 0,
             removedBytesSum := 0 }
    (le_refl _) (le_refl _) (le_refl _) (le_refl _) (le_refl _)
    (by simpa using hlen) hsz (by simpa using hsum)
  rw [← hst, ← hind] at c1 c2 c3 c4 c5
  rw [← hind] at hlen hsz hsum
  dsimp only at c1 c2 c3 c4 c5
  have hcl : ((countedFiles (visited repo visits s)).length : Int)
      ≤ ((visited repo visits s).length : Int) := by
    have := List.length_filter_le (fun v : Visit => v.file.isSome) (visited repo visits s)
    unfold countedFiles
    omega
  have hcount : (gcUpdater repo visits s g).1.fileCount
      - (gcUpdater repo visits s g).1.removedCount
      = ((retainedFiles repo (visited repo visits s)).length : Int) := by omega
  have hrl : ((retainedFiles repo (visited repo visits s)).length : Int)
      ≤ ((countedFiles (visited repo visits s)).length : Int) := by
    have := List.length_filter_le (fun v : Visit => !v.unlinked repo)
      (countedFiles (visited repo visits s))
    unfold retainedFiles
    omega
  refine ⟨⟨hcount, by omega, fun v hv h => unlinkFails_retained repo _ v hv h⟩, ?_,
    gcUpdater_no_panic repo visits s g, c5, ?_, ?_⟩
  · intro hp
    rw [gcUpdater_gauges repo visits s g hage hp, hcount,
      wrapInt64_of_range _ (by omega) (by omega)]
    congr 1
    omega
  · intro v s2 rest h
    exact ⟨(walker_unlinkFails repo v s2 h).2,
      walkDir_cons_ok repo v rest s2 (walker_unlinkFails repo v s2 h).1⟩
  · rw [totalSize_countedFiles]
    omega

/-- C23 on a pass with `gc_max_age` of one hour over a directory, a file two hours
old that is unlinked, a file used 30 minutes ago that is kept and a file two
hours old whose unlink fails, each of 5 bytes: the pass publishes the retained
size 10 and the retained count 2, and the GC error counter is 1. -/
theorem gc_pass_publishes_retained_witness :
    (gcUpdater repoGc
        [visitDir "cache/mynex/final",
         visitFile "cache/mynex/final/old" (2 * hour) (2 * hour) (2 * hour),
         visitFile "cache/mynex/final/used" (2 * hour) (hour / 2) (2 * hour),
         visitStuck "cache/mynex/final/stuck" (2 * hour) (2 * hour) (2 * hour)]
        GcState.zero { gc_final_size := 0, gc_final_count := 0 }).2.1
      = { gc_final_size := 10, gc_final_count := 2 } ∧
    (gcUpdater repoGc
        [visitDir "cache/mynex/final",
         visitFile "cache/mynex/final/old" (2 * hour) (2 * hour) (2 * hour),
         visitFile "cache/mynex/final/used" (2 * hour) (hour / 2) (2 * hour),
         visitStuck "cache/mynex/final/stuck" (2 * hour) (2 * hour) (2 * hour)]
        GcState.zero { gc_final_size := 0, gc_final_count := 0 }).1.gc_error_count = 1 :=
  ⟨((gc_pass_publishes_retained repoGc
        [visitDir "cache/mynex/final",
         visitFile "cache/mynex/final/old" (2 * hour) (2 * hour) (2 * hour),
         visitFile "cache/mynex/final/used" (2 * hour) (hour / 2) (2 * hour),
         visitStuck "cache/mynex/final/stuck" (2 * hour) (2 * hour) (2 * hour)]
        GcState.zero { gc_final_size := 0, gc_final_count := 0 }
        (by decide) (by decide) (by decide) (by decide)).2.1 (by decide)).trans (by decide),
   ((gc_pass_publishes_retained repoGc
        [visitDir "cache/mynex/final",
         visitFile "cache/mynex/final/old" (2 * hour) (2 * hour) (2 * hour),
         visitFile "cache/mynex/final/used" (2 * hour) (hour / 2) (2 * hour),
         visitStuck "cache/mynex/final/stuck" (2 * hour) (2 * hour) (2 * hour)]
        GcState.zero { gc_final_size := 0, gc_final_count := 0 }
        (by decide) (by decide) (by decide) (by decide)).2.2.2.1).trans (by decide)⟩

/-! ## C21 -/

/-- C21 fails on the code: the tee loop of `handleMiss` leaves at `n == 0`, whatever
the error of the read, so a read of no byte with a nil error ends the loop as
end-of-stream does, and whatever the reads after it hold.  For
`GET /proxy/mynex/b.txt` with an upstream body `hello` read as `hel`, then no
byte and no error, then `lo` with `io.EOF`: the handler writes `hel` to the client
and to the temp file and finalises before any read has reported `io.EOF`; the
final path holds `hel`, not the body, and a second request serves `hel` as a hit.
The sibling paths through `io.Copy` go on after the empty read: the prefetch
action caches `hello` on the same reads. -/
theorem finalize_before_end_of_stream :
    (∀ (env : Env) (f : Option File) (rest : List ReadResult) (s : TeeState),
      teeLoop env f ({ data := [], err := ReadErr.none } :: rest) s = (s, true)) ∧
    (proxyHandler reposMynex (envOf replyStalled TmpfileSupport.supported) (World.start fsMynex)
        (getReq "/proxy/mynex/b.txt")).trace
      = [Event.osOpen "cache/mynex/final/b.txt".toList false,
         Event.httpGet "http://up/b.txt".toList,
         Event.newTempFile "cache/mynex/temp".toList "b.txt".toList
           "cache/mynex/final/b.txt".toList true,
         Event.clientWrite "hel".toList true, Event.tempWrite "hel".toList true,
         Event.finalize "cache/mynex/final/b.txt".toList GoResult.ok,
         Event.cleanup true, Event.statfs] ∧
    (proxyHandler reposMynex (envOf replyStalled TmpfileSupport.supported) (World.start fsMynex)
        (getReq "/proxy/mynex/b.txt")).resp.aborted = false ∧
    (proxyHandler reposMynex (envOf replyStalled TmpfileSupport.supported) (World.start fsMynex)
        (getReq "/proxy/mynex/b.txt")).fs.content "cache/mynex/final/b.txt".toList
      = some "hel".toList ∧
    (proxyHandler reposMynex (envOf replyStalled TmpfileSupport.supported)
        (World.start (proxyHandler reposMynex (envOf replyStalled TmpfileSupport.supported)
          (World.start fsMynex) (getReq "/proxy/mynex/b.txt")).fs)
        (getReq "/proxy/mynex/b.txt")).resp
      = { header := [("Content-Length".toList, "3".toList)], status := some 200,
          body := "hel".toList, writes := 1, flushed := true, aborted := false } ∧
    (process (envOf replyStalled TmpfileSupport.supported) (World.start fsMynex) "mynex".toList
        repoMynex (itemOf "b.txt")).1.fs.content "cache/mynex/final/b.txt".toList
      = some "hello".toList := by
  refine ⟨fun env f rest s => ?_, by decide, by decide, by decide, by decide, by decide⟩
  rw [teeLoop]
  simp

/-! ## C24 -/

/-- C24: for every filename `f` that `isUnsafeFilename` accepts and every repo name.
If `f` is not `..`, no segment of `f` between slashes is `..`, no segment is
empty when `f` is not empty, and the lexical resolution of
`cache/<repo>/final/<f>` lies under that of `cache/<repo>/final/`.  The
resolution leaves `final/` exactly when `f` is `..`, which is accepted and
resolves to `cache/<repo>`.  The empty filename and `.` are accepted and
resolve to the directory `cache/<repo>/final`. -/
theorem accepted_filename_stays_under_final (reponame f : GoString)
    (h : isUnsafeFilename f = false) :
    (f ≠ "..".toList →
      (∀ seg ∈ splitSlash f, seg ≠ "..".toList) ∧
      (f ≠ [] → ∀ seg ∈ splitSlash f, seg ≠ []) ∧
      liesUnder ("cache/".toList ++ reponame ++ "/final/".toList)
        ("cache/".toList ++ reponame ++ "/final/".toList ++ f) = true) ∧
    (liesUnder ("cache/".toList ++ reponame ++ "/final/".toList)
        ("cache/".toList ++ reponame ++ "/final/".toList ++ f) = false ↔ f = "..".toList) ∧
    isUnsafeFilename "..".toList = false ∧
    resolve ("cache/".toList ++ reponame ++ "/final/".toList ++ "..".toList)
      = resolve ("cache/".toList ++ reponame) ∧
    isUnsafeFilename [] = false ∧ isUnsafeFilename ".".toList = false ∧
    resolve ("cache/".toList ++ reponame ++ "/final/".toList ++ [])
      = resolve ("cache/".toList ++ reponame ++ "/final".toList) ∧
    resolve ("cache/".toList ++ reponame ++ "/final/".toList ++ ".".toList)
      = resolve ("cache/".toList ++ reponame ++ "/final".toList) := by
  refine ⟨fun hne => ⟨accepted_no_dotdot f h hne, accepted_no_empty f h,
      liesUnder_final reponame f (accepted_no_dotdot f h hne)⟩, ?_, by decide,
    resolve_final_dotdot reponame, by decide, by decide, ?_, ?_⟩
  · constructor
    · intro hl
      by_contra hne
      rw [liesUnder_final reponame f (accepted_no_dotdot f h hne)] at hl
      cases hl
    · intro he
      rw [he]
      exact not_liesUnder_final_dotdot reponame
  · rw [resolve_final, resolve_final_dir]
    rfl
  · rw [resolve_final, resolve_final_dir]
    rfl

/-- C24 at the filenames `a/b.txt` and `./a/.` of the repo `mynex`: they are accepted
and resolve under `cache/mynex/final/`. -/
theorem accepted_filename_stays_under_final_witness :
    isUnsafeFilename "a/b.txt".toList = false ∧
    resolve "cache/mynex/final/a/b.txt".toList
      = ["cache".toList, "mynex".toList, "final".toList, "a".toList, "b.txt".toList] ∧
    liesUnder ("cache/".toList ++ "mynex".toList ++ "/final/".toList)
      ("cache/".toList ++ "mynex".toList ++ "/final/".toList ++ "a/b.txt".toList) = true ∧
    isUnsafeFilename "./a/.".toList = false ∧
    liesUnder ("cache/".toList ++ "mynex".toList ++ "/final/".toList)
      ("cache/".toList ++ "mynex".toList ++ "/final/".toList ++ "./a/.".toList) = true :=
  ⟨by decide, by decide,
   ((accepted_filename_stays_under_final "mynex".toList "a/b.txt".toList (by decide)).1
      (by decide)).2.2,
   by decide,
   ((accepted_filename_stays_under_final "mynex".toList "./a/.".toList (by decide)).1
      (by decide)).2.2⟩

/-! ## C25 -/

/-- C25 as stated fails with named temp files: `os.CreateTemp` rejects a pattern that
holds a path separator, so for the item `a/b.jar` of the repo `mynex`, which
passes the filter and whose parent directory `cache/mynex/final/a` does not
exist, `process` returns the error of `NewTempFile` right after the upstream
request.  Nothing is downloaded, `Finalize` is not called and
`prefetch_download_count` stays 0.  With an unnamed-inode temp file the same
holds when the upstream request fails in transport, and when a write to the
temp file is short `process` ends in `Cleanup`, again without `Finalize` and with
the counter at 0. -/
theorem process_named_temp_fails_before_download :
    (matcher repoMynex (World.start fsMynex) "a/b.jar".toList).2 = true ∧
    fsMynex.node ["cache".toList, "mynex".toList, "final".toList, "a".toList] = none ∧
    (process (envOf replyHello TmpfileSupport.eisdir) (World.start fsMynex) "mynex".toList
        repoMynex (itemOf "a/b.jar")).1.trace
      = [Event.osStat "cache/mynex/final/a/b.jar".toList true,
         Event.httpGet "http://up/a/b.jar".toList,
         Event.newTempFile "cache/mynex/temp/".toList "a/b.jar".toList
           "cache/mynex/final/a/b.jar".toList false] ∧
    (process (envOf replyHello TmpfileSupport.eisdir) (World.start fsMynex) "mynex".toList
        repoMynex (itemOf "a/b.jar")).2 = true ∧
    (process (envOf replyHello TmpfileSupport.eisdir) (World.start fsMynex) "mynex".toList
        repoMynex (itemOf "a/b.jar")).1.m.prefetch_download_count = 0 ∧
    (process (envOf replyHello TmpfileSupport.eisdir) (World.start fsMynex) "mynex".toList
        repoMynex (itemOf "a/b.jar")).1.m.prefetch_download_bytes = 0 ∧
    (process (envOf UpstreamReply.transportError TmpfileSupport.supported)
        (World.start fsMynex) "mynex".toList repoMynex (itemOf "a/b.jar")).1.trace
      = [Event.osStat "cache/mynex/final/a/b.jar".toList true,
         Event.httpGet "http://up/a/b.jar".toList] ∧
    (process (envOf UpstreamReply.transportError TmpfileSupport.supported)
        (World.start fsMynex) "mynex".toList repoMynex
        (itemOf "a/b.jar")).1.m.prefetch_download_count = 0 ∧
    (process envShortWrite (World.start fsMynex) "mynex".toList repoMynex
        (itemOf "a/b.jar")).1.trace
      = [Event.osStat "cache/mynex/final/a/b.jar".toList true,
         Event.httpGet "http://up/a/b.jar".toList,
         Event.newTempFile "cache/mynex/temp/".toList "a/b.jar".toList
           "cache/mynex/final/a/b.jar".toList true,
         Event.tempWrite "hel".toList false, Event.cleanup true] ∧
    (process envShortWrite (World.start fsMynex) "mynex".toList repoMynex
        (itemOf "a/b.jar")).1.m.prefetch_download_count = 0 := by
  decide

/-- C25, amended: the prefetch action `process` never creates a directory: every
directory of the file system after the call was one before it.  For every
item path that passes the filter, whose final path `os.Stat` reports as not
existing, with no entry at the final path and none at its parent directory,
when the upstream answers, the temp file is created
and no read of the body and no write to the temp file fails: `process` downloads
the whole body to the temp file, `Finalize` fails, `process` returns that error
after the disk probe, the final path stays absent and no entry under
`cache/<repo>/final` changes, and `prefetch_download_count` grows by one. -/
theorem process_without_parent_directory (env : Env) (w : World) (reponame : GoString)
    (repo : Repo) (item : NexusItem) :
    NoNewDir w.fs (process env w reponame repo item).1.fs ∧
    ∀ (st : Nat) (cl : GoString) (reads : List ReadResult) (t : TempFile) (fs1 : FS),
      (matcher repo w item.Path).2 = true →
      statNotExist env w.fs ("cache/".toList ++ reponame ++ "/final/".toList ++ item.Path)
        = true →
      w.fs.node (resolve ("cache/".toList ++ reponame ++ "/final/".toList ++ item.Path))
        = none →
      w.fs.node (resolve ("cache/".toList ++ reponame ++ "/final/".toList ++ item.Path)).dropLast
        = none →
      env.upstream (repo.upstreamURLBase ++ item.Path) = UpstreamReply.response st cl reads →
      NewTempFile env.temp w.fs ("cache/".toList ++ reponame ++ "/temp/".toList) item.Path
        ("cache/".toList ++ reponame ++ "/final/".toList ++ item.Path) = some (t, fs1) →
      ProperReads reads → (∀ r ∈ reads, r.err ≠ ReadErr.other) →
      (∀ n, ∀ r ∈ reads, (env.tempWrite n).err = false ∧
        r.data.length ≤ (env.tempWrite n).written) →
      (process env w reponame repo item).1.fs.inodes w.fs.next = bodyOf reads ∧
      (process env w reponame repo item).1.m.prefetch_download_bytes
        = w.m.prefetch_download_bytes + (bodyOf reads).length ∧
      (∃ pre, (process env w reponame repo item).1.trace
        = pre ++ [Event.finalize
            ("cache/".toList ++ reponame ++ "/final/".toList ++ item.Path) GoResult.err,
          Event.statfs]) ∧
      (process env w reponame repo item).2 = true ∧
      (process env w reponame repo item).1.fs.node
        (resolve ("cache/".toList ++ reponame ++ "/final/".toList ++ item.Path)) = none ∧
      (∀ q, resolve ("cache/".toList ++ reponame ++ "/final".toList) <+: q →
        (process env w reponame repo item).1.fs.node q = w.fs.node q) ∧
      (process env w reponame repo item).1.m.prefetch_download_count
        = w.m.prefetch_download_count + 1 := by
  refine ⟨noNewDir_process env w reponame repo item, ?_⟩
  intro st cl reads t fs1 hm hstat habsent hparent hu hnt hp hreads hw
  obtain ⟨n1, _, f, n3, n4, n5, n6, _, _, n9⟩ := NewTempFile_some hnt
  -- the file system after the creation of the temp file
  have hframe : ∀ q, (t.o_tmpfile = false → q ≠ resolve f.name) → fs1.node q = w.fs.node q := by
    intro q hq
    rcases n9 with ⟨_, hn⟩ | ⟨ho, _, _, _, h5, _⟩
    · exact FS.node_congr hn q
    · exact h5 q (hq ho)
  have hpar1 : fs1.isDir
      (resolve ("cache/".toList ++ reponame ++ "/final/".toList ++ item.Path)).dropLast
      = false := by
    unfold FS.isDir
    rcases n9 with ⟨_, hn⟩ | ⟨_, _, _, h4, h5, _⟩
    · rw [FS.node_congr hn, hparent]
      rfl
    · by_cases hk : (resolve ("cache/".toList ++ reponame ++ "/final/".toList ++
          item.Path)).dropLast = resolve f.name
      · rw [hk, h4]
        rfl
      · rw [h5 _ hk, hparent]
        rfl
  have hfinal1 : fs1.node
      (resolve ("cache/".toList ++ reponame ++ "/final/".toList ++ item.Path)) = none := by
    rw [hframe _ (fun ho => ?_), habsent]
    rcases n9 with ⟨h1, _⟩ | ⟨_, _, _, _, _, h6, h7, h8⟩
    · rw [ho] at h1
      cases h1
    · rw [h8]
      exact (temp_key_ne_final_key reponame item.Path env.temp.timePrefix env.temp.random _
        (Or.inr rfl) h6 h7).symm
  have hunder : ∀ q, resolve ("cache/".toList ++ reponame ++ "/final".toList) <+: q →
      fs1.node q = w.fs.node q := by
    intro q hq
    refine hframe q (fun ho hqe => ?_)
    rcases n9 with ⟨h1, _⟩ | ⟨_, _, _, _, _, h6, h7, h8⟩
    · rw [ho] at h1
      cases h1
    · rw [hqe, h8] at hq
      exact temp_key_not_under_final reponame env.temp.timePrefix item.Path env.temp.random
        h6 h7 hq
  obtain ⟨d1, d2, d3, d4, d5, pre, _, d7⟩ := processDownload_no_parent env
    ((((w.log (Event.osStat ("cache/".toList ++ reponame ++ "/final/".toList ++ item.Path)
        true)).log (Event.httpGet (repo.upstreamURLBase ++ item.Path))).setFS fs1).log
      (Event.newTempFile ("cache/".toList ++ reponame ++ "/temp/".toList) item.Path
        ("cache/".toList ++ reponame ++ "/final/".toList ++ item.Path) true))
    ("cache/".toList ++ reponame ++ "/final/".toList ++ item.Path) reads t f n3 n4 n1 hpar1
    hp hreads hw
  have hproc : process env w reponame repo item
      = processDownload env
        ((((w.log (Event.osStat ("cache/".toList ++ reponame ++ "/final/".toList ++ item.Path)
            true)).log (Event.httpGet (repo.upstreamURLBase ++ item.Path))).setFS fs1).log
          (Event.newTempFile ("cache/".toList ++ reponame ++ "/temp/".toList) item.Path
            ("cache/".toList ++ reponame ++ "/final/".toList ++ item.Path) true))
        ("cache/".toList ++ reponame ++ "/final/".toList ++ item.Path) reads t := by
    unfold process
    rw [if_pos hm, matcher_true hm]
    unfold processFetch
    dsimp only
    rw [hstat]
    simp only [Bool.not_true, Bool.false_eq_true, if_false]
    rw [hu]
    dsimp only
    have hfs : ((w.log (Event.osStat ("cache/".toList ++ reponame ++ "/final/".toList ++
        item.Path) true)).log (Event.httpGet (repo.upstreamURLBase ++ item.Path))).fs
        = w.fs := rfl
    rw [hfs, hnt]
  rw [hproc]
  have hnames : ∀ q, (processDownload env
        ((((w.log (Event.osStat ("cache/".toList ++ reponame ++ "/final/".toList ++ item.Path)
            true)).log (Event.httpGet (repo.upstreamURLBase ++ item.Path))).setFS fs1).log
          (Event.newTempFile ("cache/".toList ++ reponame ++ "/temp/".toList) item.Path
            ("cache/".toList ++ reponame ++ "/final/".toList ++ item.Path) true))
        ("cache/".toList ++ reponame ++ "/final/".toList ++ item.Path) reads t).1.fs.node q
      = fs1.node q := fun q => FS.node_congr d2 q
  refine ⟨?_, ?_, ⟨pre, d7⟩, d1, ?_, ?_, ?_⟩
  · rw [← n5, d3]
    have : ((((w.log (Event.osStat ("cache/".toList ++ reponame ++ "/final/".toList ++
        item.Path) true)).log (Event.httpGet (repo.upstreamURLBase ++ item.Path))).setFS
        fs1).log (Event.newTempFile ("cache/".toList ++ reponame ++ "/temp/".toList) item.Path
        ("cache/".toList ++ reponame ++ "/final/".toList ++ item.Path) true)).fs = fs1 := rfl
    rw [this, n6, List.nil_append]
  · rw [d5]
    rfl
  · rw [hnames, hfinal1]
  · intro q hq
    rw [hnames, hunder q hq]
  · rw [d4]
    rfl

/-- C25, amended, with an unnamed-inode temp file at the item `a/b.jar` of the repo
`mynex`, whose parent directory `cache/mynex/final/a` does not exist, the
upstream answering `hello`: the temp inode holds `hello`, `Finalize` fails,
`process` returns the error, the final path is absent, `cache/mynex/final/a` is
still missing and `prefetch_download_count` is 1. -/
theorem process_without_parent_directory_witness :
    (process (envOf replyHello TmpfileSupport.supported) (World.start fsMynex) "mynex".toList
        repoMynex (itemOf "a/b.jar")).1.fs.inodes 0 = "hello".toList ∧
    (process (envOf replyHello TmpfileSupport.supported) (World.start fsMynex) "mynex".toList
        repoMynex (itemOf "a/b.jar")).1.trace
      = [Event.osStat "cache/mynex/final/a/b.jar".toList true,
         Event.httpGet "http://up/a/b.jar".toList,
         Event.newTempFile "cache/mynex/temp/".toList "a/b.jar".toList
           "cache/mynex/final/a/b.jar".toList true,
         Event.tempWrite "hel".toList true, Event.tempWrite "lo".toList true,
         Event.finalize "cache/mynex/final/a/b.jar".toList GoResult.err, Event.statfs] ∧
    (process (envOf replyHello TmpfileSupport.supported) (World.start fsMynex) "mynex".toList
        repoMynex (itemOf "a/b.jar")).2 = true ∧
    (process (envOf replyHello TmpfileSupport.supported) (World.start fsMynex) "mynex".toList
        repoMynex (itemOf "a/b.jar")).1.fs.node
        ["cache".toList, "mynex".toList, "final".toList, "a".toList, "b.jar".toList] = none ∧
    (process (envOf replyHello TmpfileSupport.supported) (World.start fsMynex) "mynex".toList
        repoMynex (itemOf "a/b.jar")).1.fs.node
        ["cache".toList, "mynex".toList, "final".toList, "a".toList] = none ∧
    (process (envOf replyHello TmpfileSupport.supported) (World.start fsMynex) "mynex".toList
        repoMynex (itemOf "a/b.jar")).1.m.prefetch_download_count = 1 :=
  have h := (process_without_parent_directory (envOf replyHello TmpfileSupport.supported)
    (World.start fsMynex) "mynex".toList repoMynex (itemOf "a/b.jar")).2 200 "5".toList
    [{ data := "hel".toList, err := ReadErr.none }, { data := "lo".toList, err := ReadErr.none }]
    { fd := 7, temp := some { name := "/proc/self/fd/7".toList, ino := 0, closed := false },
      finalPath := "cache/mynex/final/a/b.jar".toList, o_tmpfile := true }
    (fsMynex.allocInode).2
    (by decide) (by decide) (by decide) (by decide) rfl rfl (by unfold ProperReads; decide)
    (by decide)
    (fun _ r hr => ⟨rfl, by
      have hl : ∀ x ∈ [({ data := "hel".toList, err := ReadErr.none } : ReadResult),
          { data := "lo".toList, err := ReadErr.none }], x.data.length ≤ BUFFERSIZE := by
        decide
      exact hl r hr⟩)
  ⟨h.1, by decide, h.2.2.2.1, h.2.2.2.2.1,
    (h.2.2.2.2.2.1 ["cache".toList, "mynex".toList, "final".toList, "a".toList]
      (by decide)).trans (by decide),
    h.2.2.2.2.2.2⟩

/-! ## C5 -/

/-- C5 fails on the code: the tee loop of `handleMiss` leaves at a read of no byte,
whatever the error of that read, and finalises what it has.  For
`GET /proxy/mynex/a/b.txt` with no cache file and the upstream body `hello`
delivered as `hel`, then no byte and no error, then `lo` with `io.EOF`: no client
write, temp-file operation, directory creation or finalisation fails, the client
receives status 200 with the body `hel`, and after the handler returns
`cache/mynex/final/a/b.txt` holds `hel`, in the directory `cache/mynex/final/a`
that the handler created.  The sibling path through `io.Copy`, taken when the
temp file cannot be created, goes on after the empty read: the client receives
`hello` on the same reads. -/
theorem miss_caches_prefix_after_empty_read :
    (envOf replyStalled TmpfileSupport.supported).upstream "http://up/a/b.txt".toList
      = UpstreamReply.response 200 "5".toList
          [{ data := "hel".toList, err := ReadErr.none }, { data := [], err := ReadErr.none },
           { data := "lo".toList, err := ReadErr.eof }] ∧
    bodyOf [{ data := "hel".toList, err := ReadErr.none }, { data := [], err := ReadErr.none },
            { data := "lo".toList, err := ReadErr.eof }] = "hello".toList ∧
    (proxyHandler reposMynex (envOf replyStalled TmpfileSupport.supported) (World.start fsMynex)
        (getReq "/proxy/mynex/a/b.txt")).trace
      = [Event.osOpen "cache/mynex/final/a/b.txt".toList false,
         Event.httpGet "http://up/a/b.txt".toList,
         Event.newTempFile "cache/mynex/temp".toList "a/b.txt".toList
           "cache/mynex/final/a/b.txt".toList true,
         Event.clientWrite "hel".toList true, Event.tempWrite "hel".toList true,
         Event.mkdirAll "cache/mynex/final/a".toList true,
         Event.finalize "cache/mynex/final/a/b.txt".toList GoResult.ok,
         Event.cleanup true, Event.statfs] ∧
    (∀ e ∈ (proxyHandler reposMynex (envOf replyStalled TmpfileSupport.supported)
        (World.start fsMynex) (getReq "/proxy/mynex/a/b.txt")).trace, e.failed = false) ∧
    (proxyHandler reposMynex (envOf replyStalled TmpfileSupport.supported) (World.start fsMynex)
        (getReq "/proxy/mynex/a/b.txt")).resp
      = { header := [("Content-Length".toList, "5".toList)], status := some 200,
          body := "hel".toList, writes := 1, flushed := false, aborted := false } ∧
    (proxyHandler reposMynex (envOf replyStalled TmpfileSupport.supported) (World.start fsMynex)
        (getReq "/proxy/mynex/a/b.txt")).fs.content "cache/mynex/final/a/b.txt".toList
      = some "hel".toList ∧
    (proxyHandler reposMynex (envOf replyStalled TmpfileSupport.supported) (World.start fsMynex)
        (getReq "/proxy/mynex/a/b.txt")).fs.isDir
        ["cache".toList, "mynex".toList, "final".toList, "a".toList] = true ∧
    (proxyHandler reposMynex (envOf replyStalled TmpfileSupport.otherError)
        (World.start fsMynex) (getReq "/proxy/mynex/a/b.txt")).resp.body = "hello".toList := by
  refine ⟨rfl, by decide, by decide, by decide, by decide, by decide, by decide, by decide⟩

/-! ## C9 -/

/-- C9 fails on the code in the miss path of the handler: the tee loop of `handleMiss`
leaves at a read of no byte, whatever the error of that read, and finalises what
it has.  For `GET /proxy/mynex/b.txt` with named temp files, no cache file and the
upstream body `hello` delivered as `hel`, then no byte and no error, then `lo`
with `io.EOF`: nothing aborts (the response is not aborted, no event of the run
fails), and the file-system states of the run show at the final path nothing
and then `hel`, data of the download that is not the complete body.  The
prefetch action on the same reads copies with `io.Copy`: its states show nothing
and then `hello`. -/
theorem final_path_holds_prefix_after_empty_read :
    (envOf replyStalled TmpfileSupport.eisdir).upstream "http://up/b.txt".toList
      = UpstreamReply.response 200 "5".toList
          [{ data := "hel".toList, err := ReadErr.none }, { data := [], err := ReadErr.none },
           { data := "lo".toList, err := ReadErr.eof }] ∧
    bodyOf [{ data := "hel".toList, err := ReadErr.none }, { data := [], err := ReadErr.none },
            { data := "lo".toList, err := ReadErr.eof }] = "hello".toList ∧
    (proxyHandler reposMynex (envOf replyStalled TmpfileSupport.eisdir) (World.start fsMynex)
        (getReq "/proxy/mynex/b.txt")).hist.map
        (fun s => s.content "cache/mynex/final/b.txt".toList)
      = [none, none, none, some "hel".toList, some "hel".toList] ∧
    (proxyHandler reposMynex (envOf replyStalled TmpfileSupport.eisdir) (World.start fsMynex)
        (getReq "/proxy/mynex/b.txt")).resp.aborted = false ∧
    (∀ e ∈ (proxyHandler reposMynex (envOf replyStalled TmpfileSupport.eisdir)
        (World.start fsMynex) (getReq "/proxy/mynex/b.txt")).trace, e.failed = false) ∧
    (process (envOf replyStalled TmpfileSupport.eisdir) (World.start fsMynex) "mynex".toList
        repoMynex (itemOf "b.txt")).1.hist.map
        (fun s => s.content "cache/mynex/final/b.txt".toList)
      = [none, none, none, none, some "hello".toList] := by
  refine ⟨rfl, by decide, by decide, by decide, by decide, by decide⟩

/-! ## C20 -/

/-- C20 fails on the code: the tee loop of `handleMiss` leaves at a read of no byte,
whatever the error of that read.  For `GET /proxy/mynex/b.txt` with no cache file,
the upstream body `hello` delivered as `hel`, then no byte and no error, then `lo`
with `io.EOF`, and a first write to the temp file that fails: every client
write succeeds, the cache file is abandoned, and the client receives status 200
with the body `hel`, not the whole body.  When the temp file cannot be created,
the stream-only path copies with `io.Copy` and the client receives `hello` on the
same reads. -/
theorem client_gets_prefix_after_empty_read :
    envStalledWriteFault.upstream "http://up/b.txt".toList
      = UpstreamReply.response 200 "5".toList
          [{ data := "hel".toList, err := ReadErr.none }, { data := [], err := ReadErr.none },
           { data := "lo".toList, err := ReadErr.eof }] ∧
    bodyOf [{ data := "hel".toList, err := ReadErr.none }, { data := [], err := ReadErr.none },
            { data := "lo".toList, err := ReadErr.eof }] = "hello".toList ∧
    (∀ n, envStalledWriteFault.clientWrite n = none) ∧
    (proxyHandler reposMynex envStalledWriteFault (World.start fsMynex)
        (getReq "/proxy/mynex/b.txt")).trace
      = [Event.osOpen "cache/mynex/final/b.txt".toList false,
         Event.httpGet "http://up/b.txt".toList,
         Event.newTempFile "cache/mynex/temp".toList "b.txt".toList
           "cache/mynex/final/b.txt".toList true,
         Event.clientWrite "hel".toList true, Event.tempWrite "hel".toList false,
         Event.cleanup true, Event.statfs] ∧
    (proxyHandler reposMynex envStalledWriteFault (World.start fsMynex)
        (getReq "/proxy/mynex/b.txt")).resp
      = { header := [("Content-Length".toList, "5".toList)], status := some 200,
          body := "hel".toList, writes := 1, flushed := false, aborted := false } ∧
    (proxyHandler reposMynex (envOf replyStalled TmpfileSupport.otherError)
        (World.start fsMynex) (getReq "/proxy/mynex/b.txt")).resp.body = "hello".toList := by
  refine ⟨rfl, by decide, fun _ => rfl, by decide, by decide, by decide⟩

end NexusProxy
